import Mathlib

/-! # Smart pointers: control block, shared handle, weak handle

A shallow embedding of `sw_fwd.h`, `shared.h` and `weak.h`, followed by one of
`compressed_pair.h` and `unique.h` (the exclusive handle, which shares no state with the others).

* Control blocks live in a heap `State.blocks`; an address is an index into it, a freed block
  is `none`, and addresses are never reused, so that an access to a freed block is visible.
* Every handle object (named variables, temporaries, and the `outer_shared_pointer_` member of an
  object deriving from `EnableSharedFromThis`) occupies a slot of `State.shared` or `State.weak`;
  a destroyed handle is `none`. A constructor appends a slot, so the handle it builds is at the
  index equal to the length of the slot list before the call. Temporaries of a full expression
  occupy a slot too and are destroyed at its end.
* `std::size_t` arithmetic is arithmetic modulo `SIZE_MOD`.
* Operations return `Except Fault`: a fault is undefined behaviour of the C++ program (or a program
  naming a handle that does not exist). The exception `BadWeakPtr` is not a fault: it is recorded
  in the log and the handle under construction never comes to life.
* An exclusive handle occupies a slot of `UState.handles`; the calls of deleters are logged in
  `UState.calls`. A deleter value is a number, and a moved-from deleter keeps its value.
* A null pointer carries no static type here: linking the self reference through a null pointer
  of a type deriving from `EnableSharedFromThisBase` is outside the model.
-/

namespace SmartPointers

/-- Modulus of `std::size_t` arithmetic (64 bit). -/
def SIZE_MOD : Nat := 18446744073709551616

/-- A non-null object pointer. `esft o` points to the `o`-th object whose type derives from
`EnableSharedFromThisBase` (what `std::is_base_of_v` tests); `plain a` is any other address. -/
inductive Pointer where
  | plain (addr : Nat)
  | esft (obj : Nat)
  deriving DecidableEq, Repr

/-- The struct `AnyPtr<T>` behind a `BaseAnyPtr*`: the wrapped `T* ptr` (possibly null). -/
structure AnyPtr where
  ptr : Option Pointer
  deriving DecidableEq, Repr

/-- The struct `ControllBlock`. -/
structure ControllBlock where
  strong : Nat
  weak : Nat
  ptr : Option AnyPtr
  created_from_make_shared : Bool
  deriving DecidableEq, Repr

/-- `ControllBlock(std::size_t st, std::size_t we)`. -/
def ControllBlock.ofCounts (st we : Nat) : ControllBlock :=
  { strong := st, weak := we, ptr := none, created_from_make_shared := false }

/-- `ControllBlock(X* ptr)`: strong 1, weak 0, a new `AnyPtr<X>(ptr)`. -/
def ControllBlock.ofPointer (p : Option Pointer) : ControllBlock :=
  { strong := 1, weak := 0, ptr := some { ptr := p }, created_from_make_shared := false }

/-- `ControllBlock(BaseAnyPtr* pointer)`: counts keep their default 0, the flag is set. -/
def ControllBlock.ofAnyPtr (x : AnyPtr) : ControllBlock :=
  { strong := 0, weak := 0, ptr := some x, created_from_make_shared := true }

/-- The class `SharedPtr<T>`: `ptr_` and `controll_` (`none` is `nullptr`). -/
structure SharedPtr where
  ptr_ : Option Pointer
  controll_ : Option Nat
  deriving DecidableEq, Repr

/-- The class `WeakPtr<T>`: `ptr_` and `controll_` (`none` is `nullptr`). -/
structure WeakPtr where
  ptr_ : Option Pointer
  controll_ : Option Nat
  deriving DecidableEq, Repr

/-- Observable effects on memory and control flow. -/
inductive Event where
  /-- `ptr->Delete()` on the destroyer of the block: `delete` of the wrapped pointer. -/
  | Delete (block : Nat) (p : Option Pointer)
  /-- `delete ptr`: the destroyer wrapper itself is freed. -/
  | FreeAnyPtr (block : Nat)
  /-- `ptr->Destruct()`: the payload destructor runs in place. -/
  | Destruct (block : Nat) (p : Pointer)
  /-- `ptr->~BaseAnyPtr()`: the wrapper is destructed in place. -/
  | DestroyAnyPtr (block : Nat)
  /-- `delete controll_`. -/
  | FreeBlock (block : Nat)
  /-- `delete[] reinterpret_cast<char*>(controll_)`. -/
  | FreeBuffer (block : Nat)
  /-- `throw BadWeakPtr()`. -/
  | ThrowBadWeakPtr
  deriving DecidableEq, Repr

/-- Undefined behaviour, by kind. -/
inductive Fault where
  /-- A member access through a null `controll_` or a null object pointer. -/
  | nullDeref
  /-- An access to a control block that has been freed. -/
  | useAfterFree
  /-- The program names a handle that does not exist or has been destroyed. -/
  | badSlot
  /-- The program names an object that does not exist. -/
  | badObject
  deriving DecidableEq, Repr

/-- Program state. `objs[o]` is the slot in `weak` of the member `outer_shared_pointer_` of the
`o`-th object deriving from `EnableSharedFromThis`. -/
structure State where
  blocks : List (Option ControllBlock)
  objs : List Nat
  shared : List (Option SharedPtr)
  weak : List (Option WeakPtr)
  log : List Event
  deriving DecidableEq, Repr

/-- The state of a program that has not run yet. -/
def State.empty : State :=
  { blocks := [], objs := [], shared := [], weak := [], log := [] }

/-- Read the control block at address `a`. -/
def State.block (s : State) (a : Nat) : Except Fault ControllBlock :=
  match s.blocks[a]? with
  | some (some b) => .ok b
  | _ => .error .useAfterFree

/-- Write the control block at address `a`. -/
def State.setBlock (s : State) (a : Nat) (b : ControllBlock) : State :=
  { s with blocks := s.blocks.set a (some b) }

/-- The expression `new ControllBlock(...)`: the block is placed at the next fresh address. -/
def State.newBlock (s : State) (b : ControllBlock) : State :=
  { s with blocks := s.blocks ++ [some b] }

/-- Record an event. -/
def State.emit (s : State) (e : Event) : State :=
  { s with log := s.log ++ [e] }

/-- Release the storage of the block at `a`, by the deallocation `e`. -/
def State.free (s : State) (a : Nat) (e : Event) : State :=
  { s with blocks := s.blocks.set a none, log := s.log ++ [e] }

/-- The live shared handle in slot `i`. -/
def State.getShared (s : State) (i : Nat) : Except Fault SharedPtr :=
  match s.shared[i]? with
  | some (some h) => .ok h
  | _ => .error .badSlot

/-- The live weak handle in slot `i`. -/
def State.getWeak (s : State) (i : Nat) : Except Fault WeakPtr :=
  match s.weak[i]? with
  | some (some h) => .ok h
  | _ => .error .badSlot

/-- Overwrite the shared slot `i`. -/
def State.setShared (s : State) (i : Nat) (h : Option SharedPtr) : State :=
  { s with shared := s.shared.set i h }

/-- Overwrite the weak slot `i`. -/
def State.setWeak (s : State) (i : Nat) (h : Option WeakPtr) : State :=
  { s with weak := s.weak.set i h }

/-- A new shared handle object comes to life in a fresh slot. -/
def State.pushShared (s : State) (h : SharedPtr) : State :=
  { s with shared := s.shared ++ [some h] }

/-- A new weak handle object comes to life in a fresh slot. -/
def State.pushWeak (s : State) (h : WeakPtr) : State :=
  { s with weak := s.weak ++ [some h] }

/-- The dereference `controll_->`: a null block pointer is a fault. -/
def deref (c : Option Nat) : Except Fault Nat :=
  match c with
  | some a => .ok a
  | none => .error .nullDeref

/-! ## Control block methods -/

/-- The method `ControllBlock::IncreaseStrong` on the block at `a`. -/
def ControllBlock.IncreaseStrong (s : State) (a : Nat) : Except Fault State :=
  match s.block a with
  | .error e => .error e
  | .ok b => .ok (s.setBlock a { b with strong := (b.strong + 1) % SIZE_MOD })

/-- The method `ControllBlock::IncreaseWeak` on the block at `a`. -/
def ControllBlock.IncreaseWeak (s : State) (a : Nat) : Except Fault State :=
  match s.block a with
  | .error e => .error e
  | .ok b => .ok (s.setBlock a { b with weak := (b.weak + 1) % SIZE_MOD })

/-- The method `ControllBlock::DecreaseWeak` on the block at `a`: `--weak`, then
`strong == 0 && weak == 0`. -/
def ControllBlock.DecreaseWeak (s : State) (a : Nat) : Except Fault (State × Bool) :=
  match s.block a with
  | .error e => .error e
  | .ok b =>
    let b1 : ControllBlock := { b with weak := (b.weak + (SIZE_MOD - 1)) % SIZE_MOD }
    .ok (s.setBlock a b1, b1.strong == 0 && b1.weak == 0)

/-- The deallocation a handle performs on the block at `a` in `UnlinkWithControllBlock`, after a
decrement returned true: it reads `created_from_make_shared` to choose. -/
def releaseBlock (s : State) (a : Nat) : Except Fault State :=
  match s.block a with
  | .error e => .error e
  | .ok b => .ok (s.free a (if b.created_from_make_shared then .FreeBuffer a else .FreeBlock a))

/-! ## Weak handle: unlink and destructor (needed by payload teardown) -/

/-- The private method `WeakPtr::UnlinkWithControllBlock` for a handle value `w`. -/
def WeakPtr.UnlinkWithControllBlock (s : State) (w : WeakPtr) : Except Fault State :=
  match w.controll_ with
  | none => .ok s
  | some a =>
    match ControllBlock.DecreaseWeak s a with
    | .error e => .error e
    | .ok (s1, r) => if r then releaseBlock s1 a else .ok s1

/-- The destructor `~WeakPtr` of the handle in slot `i`. -/
def WeakPtr.dtor (s : State) (i : Nat) : Except Fault State :=
  match s.getWeak i with
  | .error e => .error e
  | .ok w =>
    match WeakPtr.UnlinkWithControllBlock s w with
    | .error e => .error e
    | .ok s1 => .ok (s1.setWeak i none)

/-- The destructor of the payload behind `p`: an object deriving from `EnableSharedFromThis`
destroys its member `outer_shared_pointer_`; other payloads touch no handle. -/
def destroyPayload (s : State) (p : Option Pointer) : Except Fault State :=
  match p with
  | some (.esft o) =>
    match s.objs[o]? with
    | none => .error .badObject
    | some k => WeakPtr.dtor s k
  | _ => .ok s

/-- The method `AnyPtr<T>::Delete`: `delete ptr` (on a null `ptr` nothing is destroyed). -/
def AnyPtr.Delete (s : State) (a : Nat) (x : AnyPtr) : Except Fault State :=
  destroyPayload (s.emit (.Delete a x.ptr)) x.ptr

/-- The method `AnyPtr<T>::Destruct`: `ptr->~T()`. -/
def AnyPtr.Destruct (s : State) (a : Nat) (x : AnyPtr) : Except Fault State :=
  match x.ptr with
  | none => .error .nullDeref
  | some p => destroyPayload (s.emit (.Destruct a p)) (some p)

/-- The teardown branch of `DecreaseStrong`, taken when `strong == 1`. -/
def ControllBlock.teardown (s : State) (a : Nat) (b : ControllBlock) : Except Fault State :=
  match b.ptr with
  | none => .ok s
  | some x =>
    if b.created_from_make_shared then
      match AnyPtr.Destruct s a x with
      | .error e => .error e
      | .ok t => .ok (t.emit (.DestroyAnyPtr a))
    else
      match AnyPtr.Delete s a x with
      | .error e => .error e
      | .ok t => .ok (t.emit (.FreeAnyPtr a))

/-- The method `ControllBlock::DecreaseStrong` on the block at `a`. The payload destructor runs
before `--strong`, and the fields are read again after it. -/
def ControllBlock.DecreaseStrong (s : State) (a : Nat) : Except Fault (State × Bool) :=
  match s.block a with
  | .error e => .error e
  | .ok b =>
    match (if b.strong = 1 then ControllBlock.teardown s a b else .ok s) with
    | .error e => .error e
    | .ok s1 =>
      match s1.block a with
      | .error e => .error e
      | .ok b1 =>
        let b2 : ControllBlock := { b1 with strong := (b1.strong + (SIZE_MOD - 1)) % SIZE_MOD }
        .ok (s1.setBlock a b2, b2.strong == 0 && b2.weak == 0)

/-! ## Weak handle -/

/-- The constructor `WeakPtr()`: null object pointer, a new block `ControllBlock(0, 1)`. -/
def WeakPtr.ctorDefault (s : State) : State :=
  (s.newBlock (ControllBlock.ofCounts 0 1)).pushWeak { ptr_ := none, controll_ := some s.blocks.length }

/-- The constructor `WeakPtr(const WeakPtr& other)`, `other` in slot `src`. -/
def WeakPtr.ctorCopy (s : State) (src : Nat) : Except Fault State := do
  let o ← s.getWeak src
  let a ← deref o.controll_
  let s1 ← ControllBlock.IncreaseWeak s a
  pure (s1.pushWeak { ptr_ := o.ptr_, controll_ := o.controll_ })

/-- The constructor `WeakPtr(WeakPtr&& other)`: `other` is left with two null pointers. -/
def WeakPtr.ctorMove (s : State) (src : Nat) : Except Fault State := do
  let o ← s.getWeak src
  pure ((s.pushWeak { ptr_ := o.ptr_, controll_ := o.controll_ }).setWeak src
    (some { ptr_ := none, controll_ := none }))

/-- The constructor `WeakPtr(const SharedPtr<X>& other)`, `other` in shared slot `src`. -/
def WeakPtr.ctorShared (s : State) (src : Nat) : Except Fault State := do
  let o ← s.getShared src
  let a ← deref o.controll_
  let s1 ← ControllBlock.IncreaseWeak s a
  pure (s1.pushWeak { ptr_ := o.ptr_, controll_ := o.controll_ })

/-- The copy assignment `WeakPtr::operator=(const WeakPtr& other)`. -/
def WeakPtr.assignCopy (s : State) (dst src : Nat) : Except Fault State := do
  let d ← s.getWeak dst
  let o ← s.getWeak src
  if d.ptr_ = o.ptr_ then pure s
  else
    let s1 ← WeakPtr.UnlinkWithControllBlock s d
    let a ← deref o.controll_
    let s2 ← ControllBlock.IncreaseWeak s1 a
    pure (s2.setWeak dst (some { ptr_ := o.ptr_, controll_ := o.controll_ }))

/-- The move assignment `WeakPtr::operator=(WeakPtr&& other)`. -/
def WeakPtr.assignMove (s : State) (dst src : Nat) : Except Fault State := do
  let d ← s.getWeak dst
  let o ← s.getWeak src
  if d.ptr_ = o.ptr_ then pure s
  else
    let s1 ← WeakPtr.UnlinkWithControllBlock s d
    pure ((s1.setWeak dst (some { ptr_ := o.ptr_, controll_ := o.controll_ })).setWeak src
      (some { ptr_ := none, controll_ := none }))

/-- The method `WeakPtr::Reset`. -/
def WeakPtr.Reset (s : State) (i : Nat) : Except Fault State := do
  let w ← s.getWeak i
  let s1 ← WeakPtr.UnlinkWithControllBlock s w
  pure ((s1.newBlock (ControllBlock.ofCounts 0 1)).setWeak i
    (some { ptr_ := none, controll_ := some s1.blocks.length }))

/-- The method `WeakPtr::Swap`. -/
def WeakPtr.Swap (s : State) (i j : Nat) : Except Fault State := do
  let x ← s.getWeak i
  let y ← s.getWeak j
  pure ((s.setWeak i (some y)).setWeak j (some x))

/-- The method `WeakPtr::UseCount`: 0 without a block, else the block's `strong`. -/
def WeakPtr.UseCount (s : State) (w : WeakPtr) : Except Fault Nat :=
  match w.controll_ with
  | none => .ok 0
  | some a =>
    match s.block a with
    | .error e => .error e
    | .ok b => .ok b.strong

/-- The method `WeakPtr::Expired`: `UseCount() == 0`. -/
def WeakPtr.Expired (s : State) (w : WeakPtr) : Except Fault Bool :=
  match WeakPtr.UseCount s w with
  | .error e => .error e
  | .ok n => .ok (n == 0)

/-! ## Shared handle -/

/-- The method `SharedPtr::Get`. -/
def SharedPtr.Get (h : SharedPtr) : Option Pointer := h.ptr_

/-- The method `SharedPtr::UseCount`: `(ptr_) ? controll_->strong : 0`. -/
def SharedPtr.UseCount (s : State) (h : SharedPtr) : Except Fault Nat :=
  match h.ptr_ with
  | none => .ok 0
  | some _ =>
    match deref h.controll_ with
    | .error e => .error e
    | .ok a =>
      match s.block a with
      | .error e => .error e
      | .ok b => .ok b.strong

/-- The private method `SharedPtr::UnlinkWithControllBlock` for a handle value `h`. -/
def SharedPtr.UnlinkWithControllBlock (s : State) (h : SharedPtr) : Except Fault State :=
  match h.controll_ with
  | none => .ok s
  | some a =>
    match ControllBlock.DecreaseStrong s a with
    | .error e => .error e
    | .ok (s1, r) => if r then releaseBlock s1 a else .ok s1

/-- The destructor `~SharedPtr` of the handle in slot `i`. -/
def SharedPtr.dtor (s : State) (i : Nat) : Except Fault State :=
  match s.getShared i with
  | .error e => .error e
  | .ok h =>
    match SharedPtr.UnlinkWithControllBlock s h with
    | .error e => .error e
    | .ok s1 => .ok (s1.setShared i none)

/-- The private method `SharedPtr::SetLinkToOuterSharedPtr` called on the handle in shared slot
`i` for the object `o`: `base->outer_shared_pointer_ = *this`, that is a temporary
`WeakPtr(*this)`, move assigned to the member, then destroyed. -/
def SharedPtr.SetLinkToOuterSharedPtr (s : State) (i o : Nat) : Except Fault State :=
  match s.objs[o]? with
  | none => .error .badObject
  | some k => do
    let s1 ← WeakPtr.ctorShared s i
    let s2 ← WeakPtr.assignMove s1 k s.weak.length
    WeakPtr.dtor s2 s.weak.length

/-- The guarded call `if constexpr (std::is_base_of_v<EnableSharedFromThisBase, X>)`. -/
def SharedPtr.linkIfEnabled (s : State) (i : Nat) (p : Option Pointer) : Except Fault State :=
  match p with
  | some (.esft o) => SharedPtr.SetLinkToOuterSharedPtr s i o
  | _ => .ok s

/-- The constructors `SharedPtr()` and `SharedPtr(std::nullptr_t)`: null object pointer, a new
block `ControllBlock(1, 0)`. -/
def SharedPtr.ctorDefault (s : State) : State :=
  (s.newBlock (ControllBlock.ofCounts 1 0)).pushShared
    { ptr_ := none, controll_ := some s.blocks.length }

/-- The adopting constructor `SharedPtr(X* ptr)`. -/
def SharedPtr.ctorAdopt (s : State) (p : Option Pointer) : Except Fault State :=
  SharedPtr.linkIfEnabled
    ((s.newBlock (ControllBlock.ofPointer p)).pushShared
      { ptr_ := p, controll_ := some s.blocks.length })
    s.shared.length p

/-- The aliasing constructor `SharedPtr(const SharedPtr<X>& other, Y* ptr)`. -/
def SharedPtr.ctorAlias (s : State) (src : Nat) (p : Option Pointer) : Except Fault State := do
  let o ← s.getShared src
  let a ← deref o.controll_
  let s1 ← ControllBlock.IncreaseStrong s a
  pure (s1.pushShared { ptr_ := p, controll_ := o.controll_ })

/-- The copy constructor `SharedPtr(const SharedPtr& other)`. -/
def SharedPtr.ctorCopy (s : State) (src : Nat) : Except Fault State := do
  let o ← s.getShared src
  let a ← deref o.controll_
  let s1 ← ControllBlock.IncreaseStrong s a
  pure (s1.pushShared { ptr_ := o.ptr_, controll_ := o.controll_ })

/-- The move constructor `SharedPtr(SharedPtr&& other)`: `other` gets a null object pointer and
a new block `ControllBlock(1, 0)`. -/
def SharedPtr.ctorMove (s : State) (src : Nat) : Except Fault State := do
  let o ← s.getShared src
  pure (((s.pushShared { ptr_ := o.ptr_, controll_ := o.controll_ }).newBlock
    (ControllBlock.ofCounts 1 0)).setShared src
      (some { ptr_ := none, controll_ := some s.blocks.length }))

/-- The private constructor `SharedPtr(X* pointer, ControllBlock* block)`. -/
def SharedPtr.ctorPrivate (s : State) (p : Option Pointer) (c : Option Nat) :
    Except Fault State := do
  let a ← deref c
  let s1 ← ControllBlock.IncreaseStrong s a
  SharedPtr.linkIfEnabled (s1.pushShared { ptr_ := p, controll_ := c }) s.shared.length p

/-- The copy assignment `SharedPtr::operator=(const SharedPtr& other)`. -/
def SharedPtr.assignCopy (s : State) (dst src : Nat) : Except Fault State := do
  let d ← s.getShared dst
  let o ← s.getShared src
  if d.Get = o.Get then pure s
  else
    let s1 ← SharedPtr.UnlinkWithControllBlock s d
    let a ← deref o.controll_
    let s2 ← ControllBlock.IncreaseStrong s1 a
    pure (s2.setShared dst (some { ptr_ := o.ptr_, controll_ := o.controll_ }))

/-- The move assignment `SharedPtr::operator=(SharedPtr&& other)`: `other` is left with two
null pointers. -/
def SharedPtr.assignMove (s : State) (dst src : Nat) : Except Fault State := do
  let d ← s.getShared dst
  let o ← s.getShared src
  if d.Get = o.Get then pure s
  else
    let s1 ← SharedPtr.UnlinkWithControllBlock s d
    pure ((s1.setShared dst (some { ptr_ := o.ptr_, controll_ := o.controll_ })).setShared src
      (some { ptr_ := none, controll_ := none }))

/-- The method `SharedPtr::Reset()`: `controll_->DecreaseStrong()` without a null test, and
`delete controll_` whatever the flag of the block. -/
def SharedPtr.Reset (s : State) (i : Nat) : Except Fault State := do
  let h ← s.getShared i
  let a ← deref h.controll_
  let r ← ControllBlock.DecreaseStrong s a
  let s2 := if r.2 then r.1.free a (.FreeBlock a) else r.1
  pure ((s2.newBlock (ControllBlock.ofCounts 1 0)).setShared i
    (some { ptr_ := none, controll_ := some s2.blocks.length }))

/-- The method `SharedPtr::Reset(X* ptr)`; it does not link the self reference. -/
def SharedPtr.ResetPtr (s : State) (i : Nat) (p : Option Pointer) : Except Fault State := do
  let h ← s.getShared i
  let s1 ← SharedPtr.UnlinkWithControllBlock s h
  pure ((s1.newBlock (ControllBlock.ofPointer p)).setShared i
    (some { ptr_ := p, controll_ := some s1.blocks.length }))

/-- The method `SharedPtr::Swap`. -/
def SharedPtr.Swap (s : State) (i j : Nat) : Except Fault State := do
  let x ← s.getShared i
  let y ← s.getShared j
  pure ((s.setShared i (some y)).setShared j (some x))

/-- The method `WeakPtr::Lock` of the handle in weak slot `w`; the result is a new shared
handle. -/
def WeakPtr.Lock (s : State) (w : Nat) : Except Fault State := do
  let x ← s.getWeak w
  let e ← WeakPtr.Expired s x
  if e then pure (SharedPtr.ctorDefault s) else SharedPtr.ctorPrivate s x.ptr_ x.controll_

/-- The promoting constructor `SharedPtr(const WeakPtr<T>& other)`. On the non-throwing path
the new handle starts from its default member initialisers (two null pointers) and is move
assigned the temporary `other.Lock()`, which is destroyed afterwards. -/
def SharedPtr.ctorWeak (s : State) (w : Nat) : Except Fault State := do
  let x ← s.getWeak w
  let e ← WeakPtr.Expired s x
  if e then pure (s.emit .ThrowBadWeakPtr)
  else
    let s1 := s.pushShared { ptr_ := none, controll_ := none }
    let s2 ← WeakPtr.Lock s1 w
    let s3 ← SharedPtr.assignMove s2 s.shared.length (s.shared.length + 1)
    SharedPtr.dtor s3 (s.shared.length + 1)

/-! ## MakeShared and EnableSharedFromThis -/

/-- The constructor of an object deriving from `EnableSharedFromThis`: its member
`outer_shared_pointer_` is default constructed. The object is number `s.objs.length`. -/
def EnableSharedFromThis.ctor (s : State) : State :=
  { WeakPtr.ctorDefault s with objs := s.objs ++ [s.weak.length] }

/-- The tail of `MakeShared` once the payload `p` is constructed in the buffer: the block is
built by `ControllBlock(BaseAnyPtr*)` and handed to the private constructor. -/
def MakeShared.finish (s : State) (p : Pointer) : Except Fault State :=
  SharedPtr.ctorPrivate (s.newBlock (ControllBlock.ofAnyPtr { ptr := some p }))
    (some p) (some s.blocks.length)

/-- The function `MakeShared<T>` for a `T` not deriving from `EnableSharedFromThisBase`; `addr`
is where the payload lands. -/
def MakeShared (s : State) (addr : Nat) : Except Fault State :=
  MakeShared.finish s (.plain addr)

/-- The function `MakeShared<T>` for a `T` deriving from `EnableSharedFromThis`. -/
def MakeShared.enabled (s : State) : Except Fault State :=
  MakeShared.finish (EnableSharedFromThis.ctor s) (.esft s.objs.length)

/-- The method `EnableSharedFromThis::SharedFromThis` of object `o`. -/
def EnableSharedFromThis.SharedFromThis (s : State) (o : Nat) : Except Fault State :=
  match s.objs[o]? with
  | none => .error .badObject
  | some k => SharedPtr.ctorWeak s k

/-- The method `EnableSharedFromThis::WeakFromThis` of object `o`. -/
def EnableSharedFromThis.WeakFromThis (s : State) (o : Nat) : Except Fault State :=
  match s.objs[o]? with
  | none => .error .badObject
  | some k => WeakPtr.ctorCopy s k

/-! ## Programs -/

/-- One public operation of the library, on handles named by their slots. -/
inductive Op where
  | sharedDefault
  | sharedAdopt (p : Option Pointer)
  | sharedCopy (src : Nat)
  | sharedMove (src : Nat)
  | sharedAlias (src : Nat) (p : Option Pointer)
  | sharedFromWeak (w : Nat)
  | sharedAssign (dst src : Nat)
  | sharedMoveAssign (dst src : Nat)
  | sharedDestroy (i : Nat)
  | sharedReset (i : Nat)
  | sharedResetPtr (i : Nat) (p : Option Pointer)
  | sharedSwap (i j : Nat)
  | weakDefault
  | weakCopy (src : Nat)
  | weakMove (src : Nat)
  | weakFromShared (src : Nat)
  | weakAssign (dst src : Nat)
  | weakMoveAssign (dst src : Nat)
  | weakDestroy (i : Nat)
  | weakReset (i : Nat)
  | weakSwap (i j : Nat)
  | weakLock (w : Nat)
  | makeShared (addr : Nat)
  | makeSharedEnabled
  | newEnabled
  | sharedFromThis (o : Nat)
  | weakFromThis (o : Nat)
  deriving DecidableEq, Repr

/-- Run one operation. -/
def step (s : State) : Op → Except Fault State
  | .sharedDefault => .ok (SharedPtr.ctorDefault s)
  | .sharedAdopt p => SharedPtr.ctorAdopt s p
  | .sharedCopy src => SharedPtr.ctorCopy s src
  | .sharedMove src => SharedPtr.ctorMove s src
  | .sharedAlias src p => SharedPtr.ctorAlias s src p
  | .sharedFromWeak w => SharedPtr.ctorWeak s w
  | .sharedAssign dst src => SharedPtr.assignCopy s dst src
  | .sharedMoveAssign dst src => SharedPtr.assignMove s dst src
  | .sharedDestroy i => SharedPtr.dtor s i
  | .sharedReset i => SharedPtr.Reset s i
  | .sharedResetPtr i p => SharedPtr.ResetPtr s i p
  | .sharedSwap i j => SharedPtr.Swap s i j
  | .weakDefault => .ok (WeakPtr.ctorDefault s)
  | .weakCopy src => WeakPtr.ctorCopy s src
  | .weakMove src => WeakPtr.ctorMove s src
  | .weakFromShared src => WeakPtr.ctorShared s src
  | .weakAssign dst src => WeakPtr.assignCopy s dst src
  | .weakMoveAssign dst src => WeakPtr.assignMove s dst src
  | .weakDestroy i => WeakPtr.dtor s i
  | .weakReset i => WeakPtr.Reset s i
  | .weakSwap i j => WeakPtr.Swap s i j
  | .weakLock w => WeakPtr.Lock s w
  | .makeShared addr => MakeShared s addr
  | .makeSharedEnabled => MakeShared.enabled s
  | .newEnabled => .ok (EnableSharedFromThis.ctor s)
  | .sharedFromThis o => EnableSharedFromThis.SharedFromThis s o
  | .weakFromThis o => EnableSharedFromThis.WeakFromThis s o

/-- Run a program from state `s`. -/
def run (s : State) : List Op → Except Fault State
  | [] => .ok s
  | op :: rest =>
    match step s op with
    | .error e => .error e
    | .ok s1 => run s1 rest

/-! ## Reference counting: what the counters are meant to count -/

/-- The `strong` field of the block at `a`, 0 when there is no live block at `a`. -/
def strongAt (B : List (Option ControllBlock)) (a : Nat) : Nat :=
  match B[a]? with
  | some (some b) => b.strong
  | _ => 0

/-- The `weak` field of the block at `a`, 0 when there is no live block at `a`. -/
def weakAt (B : List (Option ControllBlock)) (a : Nat) : Nat :=
  match B[a]? with
  | some (some b) => b.weak
  | _ => 0

/-- The block pointer of a slot, if the handle in it is live and its `controll_` is not null. -/
def SharedPtr.target (h : Option SharedPtr) : Option Nat := h.bind SharedPtr.controll_

/-- The block pointer of a slot, if the handle in it is live and its `controll_` is not null. -/
def WeakPtr.target (h : Option WeakPtr) : Option Nat := h.bind WeakPtr.controll_

/-- 1 if the block pointer `c` is `a`, else 0. -/
def unit (c : Option Nat) (a : Nat) : Nat := if c = some a then 1 else 0

/-- Number of live shared handles whose block pointer is `a`. -/
def sharedRefs (S : List (Option SharedPtr)) (a : Nat) : Nat :=
  S.countP (fun h => decide (SharedPtr.target h = some a))

/-- Number of live weak handles whose block pointer is `a`. -/
def weakRefs (W : List (Option WeakPtr)) (a : Nat) : Nat :=
  W.countP (fun h => decide (WeakPtr.target h = some a))

/-- Every address is referenced by as many live shared handles as the `strong` of its live
block says, and by as many live weak handles as its `weak` says; an address without a live
block (freed, or not allocated yet) is referenced by no live handle. -/
def Tally (B : List (Option ControllBlock)) (S : List (Option SharedPtr))
    (W : List (Option WeakPtr)) : Prop :=
  ∀ a, strongAt B a = sharedRefs S a ∧ weakAt B a = weakRefs W a

/-- No live block has both counters at zero. -/
def Alive (B : List (Option ControllBlock)) : Prop :=
  ∀ (a : Nat) (b : ControllBlock), B[a]? = some (some b) → 0 < b.strong + b.weak

/-- The counters tell the number of live handles, and a block whose counters are both zero
has been freed. -/
def Counted (B : List (Option ControllBlock)) (S : List (Option SharedPtr))
    (W : List (Option WeakPtr)) : Prop :=
  Tally B S W ∧ Alive B

/-- The counting invariant of a state. -/
def State.Counted (s : State) : Prop := SmartPointers.Counted s.blocks s.shared s.weak

/-- Fewer handle objects were ever created than `std::size_t` has values. -/
def State.Bounded (s : State) : Prop :=
  s.shared.length < SIZE_MOD ∧ s.weak.length < SIZE_MOD

/-- The step from `s` to `t` creates handle slots only, and keeps the counting invariant as long
as the counters cannot wrap. -/
def Pres (s t : State) : Prop :=
  s.shared.length ≤ t.shared.length ∧ s.weak.length ≤ t.weak.length ∧
    (s.Counted → t.Bounded → t.Counted)

/-! ## Traces -/

/-- The events by which a control block tears its payload down. -/
def Event.isDestroyerCall : Event → Bool
  | .Delete _ _ => true
  | .FreeAnyPtr _ => true
  | .Destruct _ _ => true
  | .DestroyAnyPtr _ => true
  | _ => false

/-- The events that release the storage of a control block. -/
def Event.isFree : Event → Bool
  | .FreeBlock _ => true
  | .FreeBuffer _ => true
  | _ => false

/-- The events that release the storage of the control block at `a`. -/
def Event.isFreeOf (a : Nat) : Event → Bool
  | .FreeBlock c => c == a
  | .FreeBuffer c => c == a
  | _ => false

/-- How often the storage of the control block at `a` was released. -/
def freesOf (log : List Event) (a : Nat) : Nat := log.countP (Event.isFreeOf a)

/-- The destroyer calls the claim expects of `DecreaseStrong` on a block `b` at `a`: none unless
`strong` is 1 and the destroyer is not null; then `Destruct` in place for a block of
`MakeShared`, and `Delete` followed by freeing the wrapper otherwise. -/
def ControllBlock.teardownTrace (a : Nat) (b : ControllBlock) : List Event :=
  if b.strong = 1 then
    match b.ptr with
    | none => []
    | some x =>
      if b.created_from_make_shared then
        match x.ptr with
        | some p => [.Destruct a p, .DestroyAnyPtr a]
        | none => []
      else [.Delete a x.ptr, .FreeAnyPtr a]
  else []

/-- A step on the weak side: it leaves the shared handles and the objects alone, keeps every
block with a non-zero `strong` alive with the same `strong`, destroyer and flag, and logs
nothing but releases of block storage. -/
def WeakSide (s t : State) : Prop :=
  t.shared = s.shared ∧ t.objs = s.objs ∧
  (∀ (a : Nat) (b : ControllBlock), s.blocks[a]? = some (some b) → b.strong ≠ 0 →
    ∃ b' : ControllBlock, t.blocks[a]? = some (some b') ∧ b'.strong = b.strong ∧
      b'.ptr = b.ptr ∧ b'.created_from_make_shared = b.created_from_make_shared) ∧
  (∃ mid : List Event, t.log = s.log ++ mid ∧ ∀ e ∈ mid, e.isFree = true)

/-! ## Example states -/

/-- The state after `SharedPtr<T> s(new T); WeakPtr<T> w(s);`, the object at address 7. -/
def exampleOwnedAndObserved : State :=
  { blocks := [some { strong := 1, weak := 1, ptr := some { ptr := some (.plain 7) },
                      created_from_make_shared := false }],
    objs := [],
    shared := [some { ptr_ := some (.plain 7), controll_ := some 0 }],
    weak := [some { ptr_ := some (.plain 7), controll_ := some 0 }],
    log := [] }

/-- The state after `SharedPtr<T> a(new T); SharedPtr<T> b(new T);`, the objects at addresses
7 and 8. -/
def exampleTwoOwners : State :=
  { blocks := [some (ControllBlock.ofPointer (some (.plain 7))),
               some (ControllBlock.ofPointer (some (.plain 8)))],
    objs := [],
    shared := [some { ptr_ := some (.plain 7), controll_ := some 0 },
               some { ptr_ := some (.plain 8), controll_ := some 1 }],
    weak := [],
    log := [] }

/-! ## One adopted object and the handles that own it -/

/-- The state `s` of a program that adopted the payload `p` into the block at `a0` (state `s0`
right after the adoption) and since then only copied and destroyed shared handles: every live
shared handle is on `a0`; and either one is live, the block is intact, no destroyer call was
logged and the weak handles and objects are those of `s0`, or none is live and the log holds the
one `Delete` of the payload followed by the release of its wrapper. -/
def OwnedBy (s0 s : State) (a0 : Nat) (p : Option Pointer) : Prop :=
  s.Counted ∧
  (∀ (i : Nat) (h : SharedPtr), s.shared[i]? = some (some h) → h.controll_ = some a0) ∧
  (((∃ (i : Nat) (h : SharedPtr), s.shared[i]? = some (some h)) ∧
      (∃ b : ControllBlock, s.blocks[a0]? = some (some b) ∧ b.ptr = some { ptr := p } ∧
        b.created_from_make_shared = false) ∧
      s.log.filter Event.isDestroyerCall = [] ∧ s.weak = s0.weak ∧ s.objs = s0.objs) ∨
    ((∀ (i : Nat) (h : SharedPtr), s.shared[i]? ≠ some (some h)) ∧
      s.log.filter Event.isDestroyerCall = [.Delete a0 p, .FreeAnyPtr a0]))

/-- The operations of the claim about one adopted object: copy construction from a shared
handle and destruction of a shared handle. -/
def Op.isCopyOrDestroy : Op → Bool
  | .sharedCopy _ => true
  | .sharedDestroy _ => true
  | _ => false

/-! ## Freed blocks -/

/-- The result is not an access to a freed control block. -/
def Safe {α : Type} (r : Except Fault α) : Prop := r ≠ .error .useAfterFree

/-- Room for `n` more handle objects of either kind before `std::size_t` could wrap. -/
def State.Room (s : State) (n : Nat) : Prop :=
  s.shared.length + n < SIZE_MOD ∧ s.weak.length + n < SIZE_MOD

/-- The log holds exactly one release for every freed block, and none for any other address. -/
def State.Logged (s : State) : Prop :=
  ∀ a : Nat, freesOf s.log a = if s.blocks[a]? = some none then 1 else 0

/-- The step from `s` to `t` releases block storage only of live blocks, once, and logs it. -/
def LogStep (s t : State) : Prop := s.Logged → t.Logged

/-- The state after `SharedPtr<T> s(new T); WeakPtr<T> w(s);` and the destruction of `s` and
of `w`, the object at address 7: the block is gone, its release logged. -/
def exampleReleased : State :=
  { blocks := [none],
    objs := [],
    shared := [none],
    weak := [none],
    log := [.Delete 0 (some (.plain 7)), .FreeAnyPtr 0, .FreeBlock 0] }

/-! ## The teardown of one block -/

/-- The events by which the block at `a` tears its payload down. -/
def Event.isDestroyerOf (a : Nat) : Event → Bool
  | .Delete c _ => c == a
  | .FreeAnyPtr c => c == a
  | .Destruct c _ => c == a
  | .DestroyAnyPtr c => c == a
  | _ => false

/-- The destroyer calls logged for the payload of the block at `a`. -/
def tornOf (log : List Event) (a : Nat) : List Event := log.filter (Event.isDestroyerOf a)

/-- The destruction of a shared handle other than the one in slot `k`. -/
def Op.isDestroyOther (k : Nat) : Op → Bool
  | .sharedDestroy j => j != k
  | _ => false

/-- The handle in slot `k` is `x`, on the block at `a`; that block is live with the destroyer
and flag of `b`; and the payload of the block has seen no destroyer call beyond those logged in
`log0`. -/
def HeldBy (log0 : List Event) (s : State) (k a : Nat) (x : SharedPtr) (b : ControllBlock) :
    Prop :=
  s.Counted ∧ s.shared[k]? = some (some x) ∧ x.controll_ = some a ∧
  (∃ bu : ControllBlock, s.blocks[a]? = some (some bu) ∧ bu.ptr = b.ptr ∧
    bu.created_from_make_shared = b.created_from_make_shared) ∧
  tornOf s.log a = tornOf log0 a

/-- The state after `SharedPtr<T> s(new T);`, the object at address 7. -/
def exampleAdopted : State :=
  { blocks := [some (ControllBlock.ofPointer (some (.plain 7)))],
    objs := [],
    shared := [some { ptr_ := some (.plain 7), controll_ := some 0 }],
    weak := [],
    log := [] }

/-- The state after `SharedPtr<T> s(new T); SharedPtr<U> al(s, q);` and the destruction of `s`,
the object at address 7 and `q` the address 9: the alias is the last handle on the block. -/
def exampleAliasLast : State :=
  { blocks := [some (ControllBlock.ofPointer (some (.plain 7)))],
    objs := [],
    shared := [none, some { ptr_ := some (.plain 9), controll_ := some 0 }],
    weak := [],
    log := [] }

/-- The state `exampleAliasLast` after the destruction of the alias. -/
def exampleAliasGone : State :=
  { blocks := [none],
    objs := [],
    shared := [none, none],
    weak := [],
    log := [.Delete 0 (some (.plain 7)), .FreeAnyPtr 0, .FreeBlock 0] }

/-! ## One object of `MakeShared` and the handles on its block -/

/-- The state `s` of a program that built the payload `p` by `MakeShared` into the block at `a0`
(the log being `log0` right after) and since then only copied and destroyed handles: every live
handle, shared or weak, is on `a0`; and either a shared handle is live, the block is intact and
nothing was logged, or only weak handles are live, the block is still allocated and the payload
was destructed in place, or no handle is left and the buffer was released after that. -/
def MadeBy (log0 : List Event) (s : State) (a0 : Nat) (p : Pointer) : Prop :=
  s.Counted ∧
  (∀ (i : Nat) (h : SharedPtr), s.shared[i]? = some (some h) → h.controll_ = some a0) ∧
  (∀ (i : Nat) (w : WeakPtr), s.weak[i]? = some (some w) → w.controll_ = some a0) ∧
  ((sharedRefs s.shared a0 ≠ 0 ∧
      (∃ b : ControllBlock, s.blocks[a0]? = some (some b) ∧ b.ptr = some { ptr := some p } ∧
        b.created_from_make_shared = true) ∧
      s.log = log0) ∨
    (sharedRefs s.shared a0 = 0 ∧ weakRefs s.weak a0 ≠ 0 ∧
      (∃ b : ControllBlock, s.blocks[a0]? = some (some b) ∧
        b.created_from_make_shared = true) ∧
      s.log = log0 ++ [.Destruct a0 p, .DestroyAnyPtr a0]) ∨
    (sharedRefs s.shared a0 = 0 ∧ weakRefs s.weak a0 = 0 ∧ s.blocks[a0]? = some none ∧
      s.log = log0 ++ [.Destruct a0 p, .DestroyAnyPtr a0, .FreeBuffer a0]))

/-- The operations of the claim about `MakeShared`: copies of handles (shared from shared, weak
from shared, weak from weak) and destructions of handles. -/
def Op.isHandleCopyOrDestroy : Op → Bool
  | .sharedCopy _ => true
  | .sharedDestroy _ => true
  | .weakFromShared _ => true
  | .weakCopy _ => true
  | .weakDestroy _ => true
  | _ => false

/-- The state after `auto s = MakeShared<T>();`, the payload at address 7. -/
def exampleMade : State :=
  { blocks := [some { ControllBlock.ofAnyPtr { ptr := some (.plain 7) } with strong := 1 }],
    objs := [],
    shared := [some { ptr_ := some (.plain 7), controll_ := some 0 }],
    weak := [],
    log := [] }

/-- The state after `auto s = MakeShared<T>(); WeakPtr<T> w(s);` and the destruction of `s` and
then of `w`: the payload was destructed in place, and the buffer released after that. -/
def exampleMadeReleased : State :=
  { blocks := [none],
    objs := [],
    shared := [none],
    weak := [none],
    log := [.Destruct 0 (.plain 7), .DestroyAnyPtr 0, .FreeBuffer 0] }

/-- The state after `T* p = new T; SharedPtr<T> s(p);` for a `T` deriving from
`EnableSharedFromThis`: the default block of the member `outer_shared_pointer_` (address 0) was
released when the member (weak slot 0) was linked to the block of `s` (address 1); weak slot 1 is
the temporary of the link. -/
def exampleSelfOwned : State :=
  { blocks := [none, some { ControllBlock.ofPointer (some (.esft 0)) with weak := 1 }],
    objs := [0],
    shared := [some { ptr_ := some (.esft 0), controll_ := some 1 }],
    weak := [some { ptr_ := some (.esft 0), controll_ := some 1 }, none],
    log := [.FreeBlock 0] }

/-! ## The exclusive handle (`compressed_pair.h`, `unique.h`) -/

/-- The class `CompressedPair<F, S>`: its two elements. Whether an element is stored as a member
`value_` or as an empty base changes nothing of its value. -/
structure CompressedPair (F S : Type) where
  first : F
  second : S
  deriving DecidableEq, Repr

/-- The method `CompressedPair::GetFirst`. -/
def CompressedPair.GetFirst {F S : Type} (p : CompressedPair F S) : F := p.first

/-- The method `CompressedPair::GetSecond`. -/
def CompressedPair.GetSecond {F S : Type} (p : CompressedPair F S) : S := p.second

/-- The classes `UniquePtr<T, Deleter>` and `UniquePtr<T[], Deleter>`: the one member
`CompressedPair<T*, Deleter> gut_`. A raw pointer is an address (`none` is `nullptr`); a deleter
value is identified by a number. -/
structure UniquePtr where
  gut_ : CompressedPair (Option Nat) Nat
  deriving DecidableEq, Repr

/-- The value of a default constructed deleter, `Deleter()`. -/
def defaultDeleter : Nat := 0

/-- One call `gut_.GetSecond()(ptr)` of a deleter on a pointer. -/
structure DeleterCall where
  deleter : Nat
  ptr : Option Nat
  deriving DecidableEq, Repr

/-- State of a program over exclusive handles: every handle object occupies a slot (`none` once
destroyed), and the calls of deleters are logged in order. -/
structure UState where
  handles : List (Option UniquePtr)
  calls : List DeleterCall
  deriving DecidableEq, Repr

/-- The state of a program that has not run yet. -/
def UState.empty : UState := { handles := [], calls := [] }

/-- The live handle in slot `i`. -/
def UState.get (s : UState) (i : Nat) : Except Fault UniquePtr :=
  match s.handles[i]? with
  | some (some u) => .ok u
  | _ => .error .badSlot

/-- Overwrite slot `i`. -/
def UState.set (s : UState) (i : Nat) (u : Option UniquePtr) : UState :=
  { s with handles := s.handles.set i u }

/-- The call `deleter(ptr)`. -/
def UState.call (s : UState) (deleter : Nat) (ptr : Option Nat) : UState :=
  { s with calls := s.calls ++ [{ deleter := deleter, ptr := ptr }] }

/-- The constructor `explicit UniquePtr(X* ptr = nullptr)`: `gut_(ptr, Deleter())`. -/
def UniquePtr.ctor (s : UState) (p : Option Nat) : UState :=
  { s with handles := s.handles ++ [some { gut_ := { first := p, second := defaultDeleter } }] }

/-- The constructor `UniquePtr(PointerType ptr, DeleterType&& deleter)`. -/
def UniquePtr.ctorDeleter (s : UState) (p : Option Nat) (d : Nat) : UState :=
  { s with handles := s.handles ++ [some { gut_ := { first := p, second := d } }] }

/-- The constructor `UniquePtr(UniquePtr<X, DeleterType>&& other)`: pointer and deleter are
taken from `other` (slot `src`), whose pointer is set to null. The moved-from deleter keeps its
value. -/
def UniquePtr.ctorMove (s : UState) (src : Nat) : Except Fault UState := do
  let o ← s.get src
  let s1 : UState :=
    { s with handles := s.handles ++
        [some { gut_ := { first := o.gut_.GetFirst, second := o.gut_.GetSecond } }] }
  pure (s1.set src (some { gut_ := { first := none, second := o.gut_.GetSecond } }))

/-- The move assignment `UniquePtr::operator=(UniquePtr&& other)`. -/
def UniquePtr.assignMove (s : UState) (dst src : Nat) : Except Fault UState := do
  let d ← s.get dst
  let o ← s.get src
  if dst = src then pure s
  else
    let s1 := s.call d.gut_.GetSecond d.gut_.GetFirst
    let s2 := s1.set dst (some { gut_ := { first := o.gut_.GetFirst, second := o.gut_.GetSecond } })
    pure (s2.set src (some { gut_ := { first := none, second := o.gut_.GetSecond } }))

/-- The assignment `UniquePtr::operator=(std::nullptr_t)`. -/
def UniquePtr.assignNull (s : UState) (i : Nat) : Except Fault UState := do
  let u ← s.get i
  let s1 := s.call u.gut_.GetSecond u.gut_.GetFirst
  pure (s1.set i (some { gut_ := { first := none, second := u.gut_.GetSecond } }))

/-- The destructor `~UniquePtr`: the deleter is called on whatever pointer is held. -/
def UniquePtr.dtor (s : UState) (i : Nat) : Except Fault UState := do
  let u ← s.get i
  let s1 := s.call u.gut_.GetSecond u.gut_.GetFirst
  pure (s1.set i none)

/-- The method `UniquePtr::Release`: the state after, and the pointer returned. -/
def UniquePtr.Release (s : UState) (i : Nat) : Except Fault (UState × Option Nat) := do
  let u ← s.get i
  let return_val := u.gut_.GetFirst
  pure (s.set i (some { gut_ := { first := none, second := u.gut_.GetSecond } }), return_val)

/-- The method `UniquePtr::Reset(T* ptr = nullptr)`. -/
def UniquePtr.Reset (s : UState) (i : Nat) (ptr : Option Nat) : Except Fault UState := do
  let u ← s.get i
  if ptr = u.gut_.GetFirst then pure s
  else
    let s1 := s.set i (some { gut_ := { first := ptr, second := u.gut_.GetSecond } })
    pure (s1.call u.gut_.GetSecond u.gut_.GetFirst)

/-- The method `UniquePtr::Swap`: `std::swap(other.gut_.GetFirst(), gut_.GetFirst())`, that is
`tmp = other.first; other.first = first; first = tmp`, `other` in slot `j`. -/
def UniquePtr.Swap (s : UState) (i j : Nat) : Except Fault UState := do
  let o ← s.get j
  let tmp := o.gut_.GetFirst
  let t ← s.get i
  let s1 := s.set j (some { gut_ := { first := t.gut_.GetFirst, second := o.gut_.GetSecond } })
  let t1 ← s1.get i
  pure (s1.set i (some { gut_ := { first := tmp, second := t1.gut_.GetSecond } }))

/-- The method `UniquePtr::Get`. -/
def UniquePtr.Get (u : UniquePtr) : Option Nat := u.gut_.GetFirst

/-- The method `UniquePtr::GetDeleter`. -/
def UniquePtr.GetDeleter (u : UniquePtr) : Nat := u.gut_.GetSecond

/-! ### The specialization `UniquePtr<T[], Deleter>` -/

/-- The constructor `explicit UniquePtr(X* ptr = nullptr)` of the array specialization. -/
def UniquePtrArray.ctor (s : UState) (p : Option Nat) : UState :=
  { s with handles := s.handles ++ [some { gut_ := { first := p, second := defaultDeleter } }] }

/-- The constructor `UniquePtr(PointerType ptr, DeleterType&& deleter)` of the array
specialization. -/
def UniquePtrArray.ctorDeleter (s : UState) (p : Option Nat) (d : Nat) : UState :=
  { s with handles := s.handles ++ [some { gut_ := { first := p, second := d } }] }

/-- The move constructor of the array specialization. -/
def UniquePtrArray.ctorMove (s : UState) (src : Nat) : Except Fault UState := do
  let o ← s.get src
  let s1 : UState :=
    { s with handles := s.handles ++
        [some { gut_ := { first := o.gut_.GetFirst, second := o.gut_.GetSecond } }] }
  pure (s1.set src (some { gut_ := { first := none, second := o.gut_.GetSecond } }))

/-- The move assignment of the array specialization. -/
def UniquePtrArray.assignMove (s : UState) (dst src : Nat) : Except Fault UState := do
  let d ← s.get dst
  let o ← s.get src
  if dst = src then pure s
  else
    let s1 := s.call d.gut_.GetSecond d.gut_.GetFirst
    let s2 := s1.set dst (some { gut_ := { first := o.gut_.GetFirst, second := o.gut_.GetSecond } })
    pure (s2.set src (some { gut_ := { first := none, second := o.gut_.GetSecond } }))

/-- The assignment `operator=(std::nullptr_t)` of the array specialization. -/
def UniquePtrArray.assignNull (s : UState) (i : Nat) : Except Fault UState := do
  let u ← s.get i
  let s1 := s.call u.gut_.GetSecond u.gut_.GetFirst
  pure (s1.set i (some { gut_ := { first := none, second := u.gut_.GetSecond } }))

/-- The destructor of the array specialization. -/
def UniquePtrArray.dtor (s : UState) (i : Nat) : Except Fault UState := do
  let u ← s.get i
  let s1 := s.call u.gut_.GetSecond u.gut_.GetFirst
  pure (s1.set i none)

/-- The method `Release` of the array specialization. -/
def UniquePtrArray.Release (s : UState) (i : Nat) : Except Fault (UState × Option Nat) := do
  let u ← s.get i
  let return_val := u.gut_.GetFirst
  pure (s.set i (some { gut_ := { first := none, second := u.gut_.GetSecond } }), return_val)

/-- The method `Reset(T* ptr = nullptr)` of the array specialization. -/
def UniquePtrArray.Reset (s : UState) (i : Nat) (ptr : Option Nat) : Except Fault UState := do
  let u ← s.get i
  if ptr = u.gut_.GetFirst then pure s
  else
    let s1 := s.set i (some { gut_ := { first := ptr, second := u.gut_.GetSecond } })
    pure (s1.call u.gut_.GetSecond u.gut_.GetFirst)

/-- The method `Swap` of the array specialization. -/
def UniquePtrArray.Swap (s : UState) (i j : Nat) : Except Fault UState := do
  let o ← s.get j
  let tmp := o.gut_.GetFirst
  let t ← s.get i
  let s1 := s.set j (some { gut_ := { first := t.gut_.GetFirst, second := o.gut_.GetSecond } })
  let t1 ← s1.get i
  pure (s1.set i (some { gut_ := { first := tmp, second := t1.gut_.GetSecond } }))

/-! ### Programs over exclusive handles -/

/-- The operations on exclusive handles; `array` tells the specialization `UniquePtr<T[]>`
from the primary template. A handle is named by its slot. -/
inductive UOp where
  | ctor (array : Bool) (p : Option Nat)
  | ctorDeleter (array : Bool) (p : Option Nat) (d : Nat)
  | move (array : Bool) (src : Nat)
  | moveAssign (array : Bool) (dst src : Nat)
  | nullAssign (array : Bool) (i : Nat)
  | release (array : Bool) (i : Nat)
  | reset (array : Bool) (i : Nat) (p : Option Nat)
  | swap (array : Bool) (i j : Nat)
  | destroy (array : Bool) (i : Nat)
  deriving DecidableEq, Repr

/-- Run one operation; the pointer `Release` returns goes to the caller. -/
def ustep (s : UState) : UOp → Except Fault UState
  | .ctor false p => .ok (UniquePtr.ctor s p)
  | .ctor true p => .ok (UniquePtrArray.ctor s p)
  | .ctorDeleter false p d => .ok (UniquePtr.ctorDeleter s p d)
  | .ctorDeleter true p d => .ok (UniquePtrArray.ctorDeleter s p d)
  | .move false src => UniquePtr.ctorMove s src
  | .move true src => UniquePtrArray.ctorMove s src
  | .moveAssign false dst src => UniquePtr.assignMove s dst src
  | .moveAssign true dst src => UniquePtrArray.assignMove s dst src
  | .nullAssign false i => UniquePtr.assignNull s i
  | .nullAssign true i => UniquePtrArray.assignNull s i
  | .release false i => (UniquePtr.Release s i).map Prod.fst
  | .release true i => (UniquePtrArray.Release s i).map Prod.fst
  | .reset false i p => UniquePtr.Reset s i p
  | .reset true i p => UniquePtrArray.Reset s i p
  | .swap false i j => UniquePtr.Swap s i j
  | .swap true i j => UniquePtrArray.Swap s i j
  | .destroy false i => UniquePtr.dtor s i
  | .destroy true i => UniquePtrArray.dtor s i

/-- Run a program from state `s`. -/
def urun (s : UState) : List UOp → Except Fault UState
  | [] => .ok s
  | op :: rest =>
    match ustep s op with
    | .error e => .error e
    | .ok s1 => urun s1 rest

/-- The non-null pointer an operation hands to the library, if any: the argument of a
constructor or of `Reset`. -/
def UOp.handed : UOp → Option Nat
  | .ctor _ p => p
  | .ctorDeleter _ p _ => p
  | .reset _ _ p => p
  | _ => none

/-- The operations at which a deleter may be called: destruction, `Reset`, and the two
assignments. -/
def UOp.mayCall : UOp → Bool
  | .moveAssign _ _ _ => true
  | .nullAssign _ _ => true
  | .reset _ _ _ => true
  | .destroy _ _ => true
  | _ => false

/-- The slot holds a live handle whose pointer is the address `a`. -/
def UniquePtr.holds (a : Nat) : Option UniquePtr → Bool
  | some u => u.gut_.first == some a
  | none => false

/-- How many live handles hold the address `a`. -/
def holders (H : List (Option UniquePtr)) (a : Nat) : Nat := H.countP (UniquePtr.holds a)

/-- How many deleter calls were made on the address `a`. -/
def callsOn (C : List DeleterCall) (a : Nat) : Nat := C.countP (fun c => c.ptr == some a)

/-- Two exclusive handles: slot 0 holds the address 7 with deleter 1, slot 1 holds the address 8
with deleter 2. -/
def exampleUnique : UState :=
  { handles := [some { gut_ := { first := some 7, second := 1 } },
                some { gut_ := { first := some 8, second := 2 } }],
    calls := [] }

/-- The state after `UniquePtr<T> a(p7); UniquePtr<T, D> b(p8, d2); a = std::move(b);` and the
destruction of `a` and of `b`: the default deleter was called on 7 at the assignment, deleter 2
on 8 when `a` went, and deleter 2 on null when `b` went. -/
def exampleUniqueDone : UState :=
  { handles := [none, none],
    calls := [{ deleter := defaultDeleter, ptr := some 7 }, { deleter := 2, ptr := some 8 },
              { deleter := 2, ptr := none }] }

/-! ## Lists of blocks and of handles -/

theorem strongAt_set_some (B : List (Option ControllBlock)) (a a' : Nat) (b : ControllBlock)
    (h : a < B.length) :
    strongAt (B.set a (some b)) a' = if a' = a then b.strong else strongAt B a' := by
  unfold strongAt
  rw [List.getElem?_set]
  by_cases e : a = a'
  · subst e; simp [h]
  · have e' : ¬ a' = a := fun x => e x.symm
    simp [e, e']

theorem weakAt_set_some (B : List (Option ControllBlock)) (a a' : Nat) (b : ControllBlock)
    (h : a < B.length) :
    weakAt (B.set a (some b)) a' = if a' = a then b.weak else weakAt B a' := by
  unfold weakAt
  rw [List.getElem?_set]
  by_cases e : a = a'
  · subst e; simp [h]
  · have e' : ¬ a' = a := fun x => e x.symm
    simp [e, e']

theorem strongAt_set_none (B : List (Option ControllBlock)) (a a' : Nat) :
    strongAt (B.set a none) a' = if a' = a then 0 else strongAt B a' := by
  unfold strongAt
  rw [List.getElem?_set]
  by_cases e : a = a'
  · subst e; by_cases h : a < B.length <;> simp [h]
  · have e' : ¬ a' = a := fun x => e x.symm
    simp [e, e']

theorem weakAt_set_none (B : List (Option ControllBlock)) (a a' : Nat) :
    weakAt (B.set a none) a' = if a' = a then 0 else weakAt B a' := by
  unfold weakAt
  rw [List.getElem?_set]
  by_cases e : a = a'
  · subst e; by_cases h : a < B.length <;> simp [h]
  · have e' : ¬ a' = a := fun x => e x.symm
    simp [e, e']

theorem strongAt_append (B : List (Option ControllBlock)) (a' : Nat) (b : ControllBlock) :
    strongAt (B ++ [some b]) a' = if a' = B.length then b.strong else strongAt B a' := by
  unfold strongAt
  rw [List.getElem?_append]
  by_cases e : a' = B.length
  · subst e; simp
  · by_cases l : a' < B.length
    · simp [l, e]
    · have : B.length ≤ a' := by omega
      have h1 : B[a']? = none := List.getElem?_eq_none this
      have h2 : a' - B.length ≠ 0 := by omega
      obtain ⟨n, hn⟩ : ∃ n, a' - B.length = n + 1 := ⟨a' - B.length - 1, by omega⟩
      simp [l, e, h1, hn]

theorem weakAt_append (B : List (Option ControllBlock)) (a' : Nat) (b : ControllBlock) :
    weakAt (B ++ [some b]) a' = if a' = B.length then b.weak else weakAt B a' := by
  unfold weakAt
  rw [List.getElem?_append]
  by_cases e : a' = B.length
  · subst e; simp
  · by_cases l : a' < B.length
    · simp [l, e]
    · have : B.length ≤ a' := by omega
      have h1 : B[a']? = none := List.getElem?_eq_none this
      obtain ⟨n, hn⟩ : ∃ n, a' - B.length = n + 1 := ⟨a' - B.length - 1, by omega⟩
      simp [l, e, h1, hn]

theorem strongAt_fresh (B : List (Option ControllBlock)) (a : Nat) (h : B.length ≤ a) :
    strongAt B a = 0 := by
  unfold strongAt; rw [List.getElem?_eq_none h]

theorem weakAt_fresh (B : List (Option ControllBlock)) (a : Nat) (h : B.length ≤ a) :
    weakAt B a = 0 := by
  unfold weakAt; rw [List.getElem?_eq_none h]

/-- Counting over a list with one slot overwritten. -/
theorem countP_set_add {α : Type} (p : α → Bool) (l : List α) (i : Nat) (x y : α)
    (h : l[i]? = some y) :
    (l.set i x).countP p + (if p y then 1 else 0) = l.countP p + (if p x then 1 else 0) := by
  induction l generalizing i with
  | nil => simp at h
  | cons z l ih =>
    cases i with
    | zero =>
      simp at h; subst h
      simp [List.countP_cons]; omega
    | succ i =>
      simp at h
      have := ih i h
      simp [List.countP_cons]; omega

/-- An element that is not counted leaves room for one more. -/
theorem countP_add_one_le {α : Type} (p : α → Bool) (l : List α) (x : α) (hm : x ∈ l)
    (hp : p x = false) : l.countP p + 1 ≤ l.length := by
  induction l with
  | nil => cases hm
  | cons z l ih =>
    rcases List.mem_cons.1 hm with e | m
    · subst e
      have := List.countP_le_length p (l := l)
      simp [List.countP_cons, hp]; omega
    · have := ih m
      by_cases hz : p z = true <;> simp [List.countP_cons, hz] <;> omega

theorem sharedRefs_push (S : List (Option SharedPtr)) (h : SharedPtr) (a : Nat) :
    sharedRefs (S ++ [some h]) a = sharedRefs S a + unit h.controll_ a := by
  simp [sharedRefs, unit, SharedPtr.target, List.countP_cons]

theorem weakRefs_push (W : List (Option WeakPtr)) (h : WeakPtr) (a : Nat) :
    weakRefs (W ++ [some h]) a = weakRefs W a + unit h.controll_ a := by
  simp [weakRefs, unit, WeakPtr.target, List.countP_cons]

theorem sharedRefs_set (S : List (Option SharedPtr)) (i : Nat) (x y : Option SharedPtr) (a : Nat)
    (h : S[i]? = some y) :
    sharedRefs (S.set i x) a + unit (SharedPtr.target y) a
      = sharedRefs S a + unit (SharedPtr.target x) a := by
  have := countP_set_add (fun h => decide (SharedPtr.target h = some a)) S i x y h
  simpa [sharedRefs, unit] using this

theorem weakRefs_set (W : List (Option WeakPtr)) (i : Nat) (x y : Option WeakPtr) (a : Nat)
    (h : W[i]? = some y) :
    weakRefs (W.set i x) a + unit (WeakPtr.target y) a
      = weakRefs W a + unit (WeakPtr.target x) a := by
  have := countP_set_add (fun h => decide (WeakPtr.target h = some a)) W i x y h
  simpa [weakRefs, unit] using this

theorem sharedRefs_le (S : List (Option SharedPtr)) (a : Nat) : sharedRefs S a ≤ S.length :=
  List.countP_le_length _

theorem weakRefs_le (W : List (Option WeakPtr)) (a : Nat) : weakRefs W a ≤ W.length :=
  List.countP_le_length _

/-- A slot that will be overwritten does not count: one more handle fits. -/
theorem sharedRefs_set_lt (S : List (Option SharedPtr)) (i : Nat) (x y : Option SharedPtr)
    (a : Nat) (h : S[i]? = some y) (hx : SharedPtr.target x = none) :
    sharedRefs (S.set i x) a + 1 ≤ S.length := by
  have hi : i < S.length := by
    rcases Nat.lt_or_ge i S.length with l | l
    · exact l
    · rw [List.getElem?_eq_none l] at h; cases h
  have hm : x ∈ S.set i x := List.mem_iff_getElem?.2 ⟨i, by simp [List.getElem?_set, hi]⟩
  have := countP_add_one_le (fun h => decide (SharedPtr.target h = some a)) (S.set i x) x hm
    (by simp [hx])
  simpa [sharedRefs] using this

theorem weakRefs_set_lt (W : List (Option WeakPtr)) (i : Nat) (x y : Option WeakPtr)
    (a : Nat) (h : W[i]? = some y) (hx : WeakPtr.target x = none) :
    weakRefs (W.set i x) a + 1 ≤ W.length := by
  have hi : i < W.length := by
    rcases Nat.lt_or_ge i W.length with l | l
    · exact l
    · rw [List.getElem?_eq_none l] at h; cases h
  have hm : x ∈ W.set i x := List.mem_iff_getElem?.2 ⟨i, by simp [List.getElem?_set, hi]⟩
  have := countP_add_one_le (fun h => decide (WeakPtr.target h = some a)) (W.set i x) x hm
    (by simp [hx])
  simpa [weakRefs] using this

/-- A live handle on `a` is counted. -/
theorem sharedRefs_pos (S : List (Option SharedPtr)) (i : Nat) (h : SharedPtr) (a : Nat)
    (hi : S[i]? = some (some h)) (hc : h.controll_ = some a) : 1 ≤ sharedRefs S a := by
  have hm : some h ∈ S := List.mem_iff_getElem?.2 ⟨i, hi⟩
  exact List.one_le_countP_iff.2 ⟨some h, hm, by simp [SharedPtr.target, hc]⟩

theorem weakRefs_pos (W : List (Option WeakPtr)) (i : Nat) (h : WeakPtr) (a : Nat)
    (hi : W[i]? = some (some h)) (hc : h.controll_ = some a) : 1 ≤ weakRefs W a := by
  have hm : some h ∈ W := List.mem_iff_getElem?.2 ⟨i, hi⟩
  exact List.one_le_countP_iff.2 ⟨some h, hm, by simp [WeakPtr.target, hc]⟩

/-! ## The counting invariant under updates of the lists -/

@[simp] theorem unit_none (a : Nat) : unit none a = 0 := by simp [unit]

@[simp] theorem unit_self (a : Nat) : unit (some a) a = 1 := by simp [unit]

theorem unit_ne {c a : Nat} (h : c ≠ a) : unit (some c) a = 0 := by simp [unit, h]

@[simp] theorem SharedPtr.shared_target_some (h : SharedPtr) :
    SharedPtr.target (some h) = h.controll_ := rfl

@[simp] theorem WeakPtr.weak_target_some (h : WeakPtr) :
    WeakPtr.target (some h) = h.controll_ := rfl

@[simp] theorem SharedPtr.shared_target_none : SharedPtr.target none = none := rfl

@[simp] theorem WeakPtr.weak_target_none : WeakPtr.target none = none := rfl

theorem Tally.alloc_shared_push_tally {B S W} (hC : Tally B S W) (b : ControllBlock)
    (p : Option Pointer) (hs : b.strong = 1) (hw : b.weak = 0) :
    Tally (B ++ [some b]) (S ++ [some { ptr_ := p, controll_ := some B.length }]) W := by
  intro a
  have h0 := hC B.length
  have ha := hC a
  rw [strongAt_fresh B _ (Nat.le_refl _), weakAt_fresh B _ (Nat.le_refl _)] at h0
  rw [strongAt_append, weakAt_append, sharedRefs_push]
  by_cases e : a = B.length
  · subst e; simp [unit, hs, hw]; omega
  · have e' : ¬ B.length = a := fun x => e x.symm
    simp [unit, e, e']; omega

theorem Tally.alloc_weak_push_tally {B S W} (hC : Tally B S W) (b : ControllBlock)
    (p : Option Pointer) (hs : b.strong = 0) (hw : b.weak = 1) :
    Tally (B ++ [some b]) S (W ++ [some { ptr_ := p, controll_ := some B.length }]) := by
  intro a
  have h0 := hC B.length
  have ha := hC a
  rw [strongAt_fresh B _ (Nat.le_refl _), weakAt_fresh B _ (Nat.le_refl _)] at h0
  rw [strongAt_append, weakAt_append, weakRefs_push]
  by_cases e : a = B.length
  · subst e; simp [unit, hs, hw]; omega
  · have e' : ¬ B.length = a := fun x => e x.symm
    simp [unit, e, e']; omega

theorem Tally.alloc_shared_set_tally {B S W} (hC : Tally B S W) (b : ControllBlock)
    (p : Option Pointer) (hs : b.strong = 1) (hw : b.weak = 0) (i : Nat) (y : Option SharedPtr)
    (hi : S[i]? = some y) (hy : SharedPtr.target y = none) :
    Tally (B ++ [some b]) (S.set i (some { ptr_ := p, controll_ := some B.length })) W := by
  intro a
  have h0 := hC B.length
  have ha := hC a
  rw [strongAt_fresh B _ (Nat.le_refl _), weakAt_fresh B _ (Nat.le_refl _)] at h0
  have hr := sharedRefs_set S i (some { ptr_ := p, controll_ := some B.length }) y a hi
  rw [strongAt_append, weakAt_append]
  by_cases e : a = B.length
  · subst e; simp [hs, hw, hy] at hr ⊢; omega
  · have e' : ¬ B.length = a := fun x => e x.symm
    simp [e, unit_ne e', hy] at hr ⊢; omega

theorem Tally.alloc_weak_set_tally {B S W} (hC : Tally B S W) (b : ControllBlock)
    (p : Option Pointer) (hs : b.strong = 0) (hw : b.weak = 1) (i : Nat) (y : Option WeakPtr)
    (hi : W[i]? = some y) (hy : WeakPtr.target y = none) :
    Tally (B ++ [some b]) S (W.set i (some { ptr_ := p, controll_ := some B.length })) := by
  intro a
  have h0 := hC B.length
  have ha := hC a
  rw [strongAt_fresh B _ (Nat.le_refl _), weakAt_fresh B _ (Nat.le_refl _)] at h0
  have hr := weakRefs_set W i (some { ptr_ := p, controll_ := some B.length }) y a hi
  rw [strongAt_append, weakAt_append]
  by_cases e : a = B.length
  · subst e; simp [hs, hw, hy] at hr ⊢; omega
  · have e' : ¬ B.length = a := fun x => e x.symm
    simp [e, unit_ne e', hy] at hr ⊢; omega

theorem lt_of_getElem?_some {α : Type} {l : List α} {i : Nat} {x : α} (h : l[i]? = some x) :
    i < l.length := by
  rcases Nat.lt_or_ge i l.length with c | c
  · exact c
  · rw [List.getElem?_eq_none c] at h; cases h

theorem strongAt_of_get {B : List (Option ControllBlock)} {a : Nat} {b : ControllBlock}
    (h : B[a]? = some (some b)) : strongAt B a = b.strong := by
  simp [strongAt, h]

theorem weakAt_of_get {B : List (Option ControllBlock)} {a : Nat} {b : ControllBlock}
    (h : B[a]? = some (some b)) : weakAt B a = b.weak := by
  simp [weakAt, h]

theorem Tally.attach_shared_push_tally {B S W} (hC : Tally B S W) (a : Nat) (b : ControllBlock)
    (p : Option Pointer) (hb : B[a]? = some (some b)) (hS : S.length + 1 < SIZE_MOD) :
    Tally (B.set a (some { b with strong := (b.strong + 1) % SIZE_MOD }))
      (S ++ [some { ptr_ := p, controll_ := some a }]) W := by
  intro a'
  have hl := lt_of_getElem?_some hb
  have ha := hC a
  have ha' := hC a'
  have hle := sharedRefs_le S a
  rw [strongAt_of_get hb, weakAt_of_get hb] at ha
  rw [strongAt_set_some _ _ _ _ hl, weakAt_set_some _ _ _ _ hl, sharedRefs_push]
  unfold SIZE_MOD at *
  by_cases e : a' = a
  · subst e; simp [unit]; omega
  · have e' : ¬ a = a' := fun x => e x.symm
    simp [unit, e, e']; omega

theorem Tally.attach_weak_push_tally {B S W} (hC : Tally B S W) (a : Nat) (b : ControllBlock)
    (p : Option Pointer) (hb : B[a]? = some (some b)) (hW : W.length + 1 < SIZE_MOD) :
    Tally (B.set a (some { b with weak := (b.weak + 1) % SIZE_MOD })) S
      (W ++ [some { ptr_ := p, controll_ := some a }]) := by
  intro a'
  have hl := lt_of_getElem?_some hb
  have ha := hC a
  have ha' := hC a'
  have hle := weakRefs_le W a
  rw [strongAt_of_get hb, weakAt_of_get hb] at ha
  rw [strongAt_set_some _ _ _ _ hl, weakAt_set_some _ _ _ _ hl, weakRefs_push]
  unfold SIZE_MOD at *
  by_cases e : a' = a
  · subst e; simp [unit]; omega
  · have e' : ¬ a = a' := fun x => e x.symm
    simp [unit, e, e']; omega

theorem Tally.attach_shared_set_tally {B S W} (hC : Tally B S W) (a : Nat) (b : ControllBlock)
    (p : Option Pointer) (hb : B[a]? = some (some b)) (hS : S.length < SIZE_MOD)
    (i : Nat) (y : Option SharedPtr) (hi : S[i]? = some y) (hy : SharedPtr.target y = none) :
    Tally (B.set a (some { b with strong := (b.strong + 1) % SIZE_MOD }))
      (S.set i (some { ptr_ := p, controll_ := some a })) W := by
  intro a'
  have hl := lt_of_getElem?_some hb
  have ha := hC a
  have ha' := hC a'
  have hr := sharedRefs_set S i (some { ptr_ := p, controll_ := some a }) y a' hi
  have hr2 := sharedRefs_set S i y y a hi
  have hlt := sharedRefs_set_lt S i y y a hi hy
  rw [strongAt_of_get hb, weakAt_of_get hb] at ha
  rw [strongAt_set_some _ _ _ _ hl, weakAt_set_some _ _ _ _ hl]
  unfold SIZE_MOD at *
  by_cases e : a' = a
  · subst e; simp [hy] at hr hr2 hlt ⊢; omega
  · have e' : ¬ a = a' := fun x => e x.symm
    simp [e, unit_ne e', hy] at hr ⊢; omega

theorem Tally.attach_weak_set_tally {B S W} (hC : Tally B S W) (a : Nat) (b : ControllBlock)
    (p : Option Pointer) (hb : B[a]? = some (some b)) (hW : W.length < SIZE_MOD)
    (i : Nat) (y : Option WeakPtr) (hi : W[i]? = some y) (hy : WeakPtr.target y = none) :
    Tally (B.set a (some { b with weak := (b.weak + 1) % SIZE_MOD })) S
      (W.set i (some { ptr_ := p, controll_ := some a })) := by
  intro a'
  have hl := lt_of_getElem?_some hb
  have ha := hC a
  have ha' := hC a'
  have hr := weakRefs_set W i (some { ptr_ := p, controll_ := some a }) y a' hi
  have hr2 := weakRefs_set W i y y a hi
  have hlt := weakRefs_set_lt W i y y a hi hy
  rw [strongAt_of_get hb, weakAt_of_get hb] at ha
  rw [strongAt_set_some _ _ _ _ hl, weakAt_set_some _ _ _ _ hl]
  unfold SIZE_MOD at *
  by_cases e : a' = a
  · subst e; simp [hy] at hr hr2 hlt ⊢; omega
  · have e' : ¬ a = a' := fun x => e x.symm
    simp [e, unit_ne e', hy] at hr ⊢; omega

theorem Tally.detach_shared_tally {B S W} (hC : Tally B S W) (a : Nat) (b : ControllBlock)
    (hb : B[a]? = some (some b)) (hS : S.length < SIZE_MOD)
    (i : Nat) (h : SharedPtr) (hi : S[i]? = some (some h)) (hc : h.controll_ = some a)
    (x : Option SharedPtr) (hx : SharedPtr.target x = none) :
    (b.strong + (SIZE_MOD - 1)) % SIZE_MOD + 1 = b.strong ∧
    Tally (B.set a (some { b with strong := (b.strong + (SIZE_MOD - 1)) % SIZE_MOD }))
      (S.set i x) W := by
  have hl := lt_of_getElem?_some hb
  have ha := hC a
  have hle := sharedRefs_le S a
  have hpos := sharedRefs_pos S i h a hi hc
  rw [strongAt_of_get hb, weakAt_of_get hb] at ha
  unfold SIZE_MOD at *
  refine ⟨by omega, ?_⟩
  intro a'
  have ha' := hC a'
  have hr := sharedRefs_set S i x (some h) a' hi
  rw [strongAt_set_some _ _ _ _ hl, weakAt_set_some _ _ _ _ hl]
  by_cases e : a' = a
  · subst e; simp [hx, hc] at hr ⊢; omega
  · have e' : ¬ a = a' := fun x => e x.symm
    simp [e, unit_ne e', hx, hc] at hr ⊢; omega

theorem Tally.detach_weak_tally {B S W} (hC : Tally B S W) (a : Nat) (b : ControllBlock)
    (hb : B[a]? = some (some b)) (hW : W.length < SIZE_MOD)
    (i : Nat) (h : WeakPtr) (hi : W[i]? = some (some h)) (hc : h.controll_ = some a)
    (x : Option WeakPtr) (hx : WeakPtr.target x = none) :
    (b.weak + (SIZE_MOD - 1)) % SIZE_MOD + 1 = b.weak ∧
    Tally (B.set a (some { b with weak := (b.weak + (SIZE_MOD - 1)) % SIZE_MOD })) S
      (W.set i x) := by
  have hl := lt_of_getElem?_some hb
  have ha := hC a
  have hle := weakRefs_le W a
  have hpos := weakRefs_pos W i h a hi hc
  rw [strongAt_of_get hb, weakAt_of_get hb] at ha
  unfold SIZE_MOD at *
  refine ⟨by omega, ?_⟩
  intro a'
  have ha' := hC a'
  have hr := weakRefs_set W i x (some h) a' hi
  rw [strongAt_set_some _ _ _ _ hl, weakAt_set_some _ _ _ _ hl]
  by_cases e : a' = a
  · subst e; simp [hx, hc] at hr ⊢; omega
  · have e' : ¬ a = a' := fun x => e x.symm
    simp [e, unit_ne e', hx, hc] at hr ⊢; omega

/-- A block whose two counters are zero can be freed. -/
theorem Tally.free_tally {B S W} (hC : Tally B S W) (a : Nat)
    (hs : strongAt B a = 0) (hw : weakAt B a = 0) : Tally (B.set a none) S W := by
  intro a'
  have ha := hC a
  have ha' := hC a'
  rw [strongAt_set_none, weakAt_set_none]
  by_cases e : a' = a
  · subst e; simp; omega
  · simp [e]; omega

/-- Overwriting a slot by a handle with the same block pointer changes no count. -/
theorem Tally.set_shared_same_tally {B S W} (hC : Tally B S W) (i : Nat) (x y : Option SharedPtr)
    (hi : S[i]? = some y) (hxy : SharedPtr.target x = SharedPtr.target y) :
    Tally B (S.set i x) W := by
  intro a
  have ha := hC a
  have hr := sharedRefs_set S i x y a hi
  rw [hxy] at hr
  omega

theorem Tally.set_weak_same_tally {B S W} (hC : Tally B S W) (i : Nat) (x y : Option WeakPtr)
    (hi : W[i]? = some y) (hxy : WeakPtr.target x = WeakPtr.target y) :
    Tally B S (W.set i x) := by
  intro a
  have ha := hC a
  have hr := weakRefs_set W i x y a hi
  rw [hxy] at hr
  omega

/-- A new handle without a block changes no count. -/
theorem Tally.push_shared_null_tally {B S W} (hC : Tally B S W) (p : Option Pointer) :
    Tally B (S ++ [some { ptr_ := p, controll_ := none }]) W := by
  intro a
  have ha := hC a
  rw [sharedRefs_push]; simp; omega

/-- Moving a block pointer from slot `j` to a slot `i` that holds none changes no count. -/
theorem Tally.move_shared_tally {B S W} (hC : Tally B S W) (i j : Nat) (y : Option SharedPtr)
    (o : SharedPtr) (hi : S[i]? = some y) (hy : SharedPtr.target y = none)
    (hj : S[j]? = some (some o)) (hij : i ≠ j) (p q : Option Pointer) :
    Tally B ((S.set i (some { ptr_ := p, controll_ := o.controll_ })).set j
      (some { ptr_ := q, controll_ := none })) W := by
  intro a
  have ha := hC a
  have h1 := sharedRefs_set S i (some { ptr_ := p, controll_ := o.controll_ }) y a hi
  have hj' : (S.set i (some { ptr_ := p, controll_ := o.controll_ }))[j]? = some (some o) := by
    rw [List.getElem?_set_ne hij]; exact hj
  have h2 := sharedRefs_set _ j
    (some ({ ptr_ := q, controll_ := none } : SharedPtr)) (some o) a hj'
  simp [hy] at h1 h2
  omega

theorem Tally.move_weak_tally {B S W} (hC : Tally B S W) (i j : Nat) (y : Option WeakPtr)
    (o : WeakPtr) (hi : W[i]? = some y) (hy : WeakPtr.target y = none)
    (hj : W[j]? = some (some o)) (hij : i ≠ j) (p q : Option Pointer) :
    Tally B S ((W.set i (some { ptr_ := p, controll_ := o.controll_ })).set j
      (some { ptr_ := q, controll_ := none })) := by
  intro a
  have ha := hC a
  have h1 := weakRefs_set W i (some { ptr_ := p, controll_ := o.controll_ }) y a hi
  have hj' : (W.set i (some { ptr_ := p, controll_ := o.controll_ }))[j]? = some (some o) := by
    rw [List.getElem?_set_ne hij]; exact hj
  have h2 := weakRefs_set _ j
    (some ({ ptr_ := q, controll_ := none } : WeakPtr)) (some o) a hj'
  simp [hy] at h1 h2
  omega

/-- Exchanging two slots changes no count. -/
theorem Tally.swap_shared_tally {B S W} (hC : Tally B S W) (i j : Nat) (x y : SharedPtr)
    (hi : S[i]? = some (some x)) (hj : S[j]? = some (some y)) :
    Tally B ((S.set i (some y)).set j (some x)) W := by
  intro a
  have ha := hC a
  have h1 := sharedRefs_set S i (some y) (some x) a hi
  have hj' : (S.set i (some y))[j]? = some (some y) := by
    rw [List.getElem?_set]
    by_cases e : i = j
    · simp [e, lt_of_getElem?_some hj]
    · simp [e, hj]
  have h2 := sharedRefs_set _ j (some x) (some y) a hj'
  omega

theorem Tally.swap_weak_tally {B S W} (hC : Tally B S W) (i j : Nat) (x y : WeakPtr)
    (hi : W[i]? = some (some x)) (hj : W[j]? = some (some y)) :
    Tally B S ((W.set i (some y)).set j (some x)) := by
  intro a
  have ha := hC a
  have h1 := weakRefs_set W i (some y) (some x) a hi
  have hj' : (W.set i (some y))[j]? = some (some y) := by
    rw [List.getElem?_set]
    by_cases e : i = j
    · simp [e, lt_of_getElem?_some hj]
    · simp [e, hj]
  have h2 := weakRefs_set _ j (some x) (some y) a hj'
  omega

/-- The move constructor of a weak handle: the new slot takes the block pointer of `j`. -/
theorem Tally.ctor_move_weak_tally {B S} {W : List (Option WeakPtr)} (hC : Tally B S W) (j : Nat) (o : WeakPtr)
    (hj : W[j]? = some (some o)) (p q : Option Pointer) :
    Tally B S ((W ++ [some ({ ptr_ := p, controll_ := o.controll_ } : WeakPtr)]).set j
      (some { ptr_ := q, controll_ := none })) := by
  intro a
  have ha := hC a
  have hj' : (W ++ [some ({ ptr_ := p, controll_ := o.controll_ } : WeakPtr)])[j]?
      = some (some o) := by
    rw [List.getElem?_append_left (lt_of_getElem?_some hj)]; exact hj
  have h2 := weakRefs_set _ j (some ({ ptr_ := q, controll_ := none } : WeakPtr)) (some o) a hj'
  rw [weakRefs_push] at h2
  simp at h2
  omega

/-- The move constructor of a shared handle: the new slot takes the block pointer of `j`, and
`j` gets a new block of its own. -/
theorem Tally.ctor_move_shared_tally {B} {S : List (Option SharedPtr)} {W} (hC : Tally B S W) (j : Nat) (o : SharedPtr)
    (hj : S[j]? = some (some o)) (p q : Option Pointer) (b : ControllBlock)
    (hs : b.strong = 1) (hw : b.weak = 0) :
    Tally (B ++ [some b]) ((S ++ [some ({ ptr_ := p, controll_ := o.controll_ } : SharedPtr)]).set
      j (some { ptr_ := q, controll_ := some B.length })) W := by
  intro a
  have ha := hC a
  have h0 := hC B.length
  rw [strongAt_fresh B _ (Nat.le_refl _), weakAt_fresh B _ (Nat.le_refl _)] at h0
  have hj' : (S ++ [some ({ ptr_ := p, controll_ := o.controll_ } : SharedPtr)])[j]?
      = some (some o) := by
    rw [List.getElem?_append_left (lt_of_getElem?_some hj)]; exact hj
  have h2 := sharedRefs_set _ j
    (some ({ ptr_ := q, controll_ := some B.length } : SharedPtr)) (some o) a hj'
  rw [sharedRefs_push] at h2
  rw [strongAt_append, weakAt_append]
  by_cases e : a = B.length
  · subst e; simp [hs, hw] at h2 ⊢; omega
  · have e' : ¬ B.length = a := fun x => e x.symm
    simp [e, unit_ne e'] at h2 ⊢; omega


/-! ## Live blocks have a positive counter -/

theorem Alive.append {B : List (Option ControllBlock)} (hA : Alive B) (b : ControllBlock)
    (hb : 0 < b.strong + b.weak) : Alive (B ++ [some b]) := by
  intro a c hc
  rw [List.getElem?_append] at hc
  by_cases l : a < B.length
  · rw [if_pos l] at hc; exact hA a c hc
  · rw [if_neg l] at hc
    by_cases e : a - B.length = 0
    · rw [e] at hc; simp at hc; subst hc; exact hb
    · obtain ⟨n, hn⟩ : ∃ n, a - B.length = n + 1 := ⟨a - B.length - 1, by omega⟩
      rw [hn] at hc; simp at hc

theorem Alive.set_some {B : List (Option ControllBlock)} (hA : Alive B) (a : Nat)
    (b : ControllBlock) (hb : 0 < b.strong + b.weak) : Alive (B.set a (some b)) := by
  intro a' c hc
  rw [List.getElem?_set] at hc
  by_cases e : a = a'
  · rw [if_pos e] at hc
    by_cases l : a < B.length
    · rw [if_pos l] at hc; simp at hc; subst hc; exact hb
    · rw [if_neg l] at hc; cases hc
  · rw [if_neg e] at hc; exact hA a' c hc

theorem Alive.set_none {B : List (Option ControllBlock)} (hA : Alive B) (a : Nat) :
    Alive (B.set a none) := by
  intro a' c hc
  rw [List.getElem?_set] at hc
  by_cases e : a = a'
  · rw [if_pos e] at hc
    by_cases l : a < B.length
    · rw [if_pos l] at hc; simp at hc
    · rw [if_neg l] at hc; cases hc
  · rw [if_neg e] at hc; exact hA a' c hc

/-! ## The invariant under updates of the lists -/

theorem Counted.alloc_shared_push {B S W} (hC : Counted B S W) (b : ControllBlock)
    (p : Option Pointer) (hs : b.strong = 1) (hw : b.weak = 0) :
    Counted (B ++ [some b]) (S ++ [some { ptr_ := p, controll_ := some B.length }]) W :=
  ⟨Tally.alloc_shared_push_tally hC.1 b p hs hw, hC.2.append b (by omega)⟩

theorem Counted.alloc_weak_push {B S W} (hC : Counted B S W) (b : ControllBlock)
    (p : Option Pointer) (hs : b.strong = 0) (hw : b.weak = 1) :
    Counted (B ++ [some b]) S (W ++ [some { ptr_ := p, controll_ := some B.length }]) :=
  ⟨Tally.alloc_weak_push_tally hC.1 b p hs hw, hC.2.append b (by omega)⟩

theorem Counted.alloc_shared_set {B S W} (hC : Counted B S W) (b : ControllBlock)
    (p : Option Pointer) (hs : b.strong = 1) (hw : b.weak = 0) (i : Nat) (y : Option SharedPtr)
    (hi : S[i]? = some y) (hy : SharedPtr.target y = none) :
    Counted (B ++ [some b]) (S.set i (some { ptr_ := p, controll_ := some B.length })) W :=
  ⟨Tally.alloc_shared_set_tally hC.1 b p hs hw i y hi hy, hC.2.append b (by omega)⟩

theorem Counted.alloc_weak_set {B S W} (hC : Counted B S W) (b : ControllBlock)
    (p : Option Pointer) (hs : b.strong = 0) (hw : b.weak = 1) (i : Nat) (y : Option WeakPtr)
    (hi : W[i]? = some y) (hy : WeakPtr.target y = none) :
    Counted (B ++ [some b]) S (W.set i (some { ptr_ := p, controll_ := some B.length })) :=
  ⟨Tally.alloc_weak_set_tally hC.1 b p hs hw i y hi hy, hC.2.append b (by omega)⟩

theorem Counted.attach_shared_push {B S W} (hC : Counted B S W) (a : Nat) (b : ControllBlock)
    (p : Option Pointer) (hb : B[a]? = some (some b)) (hS : S.length + 1 < SIZE_MOD) :
    Counted (B.set a (some { b with strong := (b.strong + 1) % SIZE_MOD }))
      (S ++ [some { ptr_ := p, controll_ := some a }]) W := by
  refine ⟨Tally.attach_shared_push_tally hC.1 a b p hb hS, hC.2.set_some a _ ?_⟩
  have ha := hC.1 a
  have hle := sharedRefs_le S a
  rw [strongAt_of_get hb] at ha
  unfold SIZE_MOD at *
  simp only
  omega

theorem Counted.attach_weak_push {B S W} (hC : Counted B S W) (a : Nat) (b : ControllBlock)
    (p : Option Pointer) (hb : B[a]? = some (some b)) (hW : W.length + 1 < SIZE_MOD) :
    Counted (B.set a (some { b with weak := (b.weak + 1) % SIZE_MOD })) S
      (W ++ [some { ptr_ := p, controll_ := some a }]) := by
  refine ⟨Tally.attach_weak_push_tally hC.1 a b p hb hW, hC.2.set_some a _ ?_⟩
  have ha := hC.1 a
  have hle := weakRefs_le W a
  rw [weakAt_of_get hb] at ha
  unfold SIZE_MOD at *
  simp only
  omega

theorem Counted.attach_shared_set {B S W} (hC : Counted B S W) (a : Nat) (b : ControllBlock)
    (p : Option Pointer) (hb : B[a]? = some (some b)) (hS : S.length < SIZE_MOD)
    (i : Nat) (y : Option SharedPtr) (hi : S[i]? = some y) (hy : SharedPtr.target y = none) :
    Counted (B.set a (some { b with strong := (b.strong + 1) % SIZE_MOD }))
      (S.set i (some { ptr_ := p, controll_ := some a })) W := by
  refine ⟨Tally.attach_shared_set_tally hC.1 a b p hb hS i y hi hy, hC.2.set_some a _ ?_⟩
  have ha := hC.1 a
  have hr2 := sharedRefs_set S i y y a hi
  have hlt := sharedRefs_set_lt S i y y a hi hy
  rw [strongAt_of_get hb] at ha
  unfold SIZE_MOD at *
  simp only
  omega

theorem Counted.attach_weak_set {B S W} (hC : Counted B S W) (a : Nat) (b : ControllBlock)
    (p : Option Pointer) (hb : B[a]? = some (some b)) (hW : W.length < SIZE_MOD)
    (i : Nat) (y : Option WeakPtr) (hi : W[i]? = some y) (hy : WeakPtr.target y = none) :
    Counted (B.set a (some { b with weak := (b.weak + 1) % SIZE_MOD })) S
      (W.set i (some { ptr_ := p, controll_ := some a })) := by
  refine ⟨Tally.attach_weak_set_tally hC.1 a b p hb hW i y hi hy, hC.2.set_some a _ ?_⟩
  have ha := hC.1 a
  have hr2 := weakRefs_set W i y y a hi
  have hlt := weakRefs_set_lt W i y y a hi hy
  rw [weakAt_of_get hb] at ha
  unfold SIZE_MOD at *
  simp only
  omega

/-- A shared handle lets go of its block: the counter goes down by one, and the invariant
holds again with the block freed if both counters are zero, kept otherwise. -/
theorem Counted.detach_shared {B S W} (hC : Counted B S W) (a : Nat) (b : ControllBlock)
    (hb : B[a]? = some (some b)) (hS : S.length < SIZE_MOD)
    (i : Nat) (h : SharedPtr) (hi : S[i]? = some (some h)) (hc : h.controll_ = some a)
    (x : Option SharedPtr) (hx : SharedPtr.target x = none) :
    (b.strong + (SIZE_MOD - 1)) % SIZE_MOD + 1 = b.strong ∧
    (((b.strong + (SIZE_MOD - 1)) % SIZE_MOD = 0 ∧ b.weak = 0) →
      Counted ((B.set a (some { b with strong := (b.strong + (SIZE_MOD - 1)) % SIZE_MOD })).set
        a none) (S.set i x) W) ∧
    (¬ ((b.strong + (SIZE_MOD - 1)) % SIZE_MOD = 0 ∧ b.weak = 0) →
      Counted (B.set a (some { b with strong := (b.strong + (SIZE_MOD - 1)) % SIZE_MOD }))
        (S.set i x) W) := by
  obtain ⟨h1, h2⟩ := Tally.detach_shared_tally hC.1 a b hb hS i h hi hc x hx
  have hl := lt_of_getElem?_some hb
  refine ⟨h1, fun hz => ⟨?_, ?_⟩, fun hz => ⟨h2, hC.2.set_some a _ ?_⟩⟩
  · apply Tally.free_tally h2
    · rw [strongAt_set_some _ _ _ _ hl]; simp [hz.1]
    · rw [weakAt_set_some _ _ _ _ hl]; simp [hz.2]
  · rw [List.set_set]; exact hC.2.set_none a
  · show 0 < (b.strong + (SIZE_MOD - 1)) % SIZE_MOD + b.weak
    generalize (b.strong + (SIZE_MOD - 1)) % SIZE_MOD = n at hz ⊢
    omega

theorem Counted.detach_weak {B S W} (hC : Counted B S W) (a : Nat) (b : ControllBlock)
    (hb : B[a]? = some (some b)) (hW : W.length < SIZE_MOD)
    (i : Nat) (h : WeakPtr) (hi : W[i]? = some (some h)) (hc : h.controll_ = some a)
    (x : Option WeakPtr) (hx : WeakPtr.target x = none) :
    (b.weak + (SIZE_MOD - 1)) % SIZE_MOD + 1 = b.weak ∧
    ((b.strong = 0 ∧ (b.weak + (SIZE_MOD - 1)) % SIZE_MOD = 0) →
      Counted ((B.set a (some { b with weak := (b.weak + (SIZE_MOD - 1)) % SIZE_MOD })).set
        a none) S (W.set i x)) ∧
    (¬ (b.strong = 0 ∧ (b.weak + (SIZE_MOD - 1)) % SIZE_MOD = 0) →
      Counted (B.set a (some { b with weak := (b.weak + (SIZE_MOD - 1)) % SIZE_MOD })) S
        (W.set i x)) := by
  obtain ⟨h1, h2⟩ := Tally.detach_weak_tally hC.1 a b hb hW i h hi hc x hx
  have hl := lt_of_getElem?_some hb
  refine ⟨h1, fun hz => ⟨?_, ?_⟩, fun hz => ⟨h2, hC.2.set_some a _ ?_⟩⟩
  · apply Tally.free_tally h2
    · rw [strongAt_set_some _ _ _ _ hl]; simp [hz.1]
    · rw [weakAt_set_some _ _ _ _ hl]; simp [hz.2]
  · rw [List.set_set]; exact hC.2.set_none a
  · show 0 < b.strong + (b.weak + (SIZE_MOD - 1)) % SIZE_MOD
    generalize (b.weak + (SIZE_MOD - 1)) % SIZE_MOD = n at hz ⊢
    omega

theorem Counted.set_shared_same {B S W} (hC : Counted B S W) (i : Nat) (x y : Option SharedPtr)
    (hi : S[i]? = some y) (hxy : SharedPtr.target x = SharedPtr.target y) :
    Counted B (S.set i x) W :=
  ⟨Tally.set_shared_same_tally hC.1 i x y hi hxy, hC.2⟩

theorem Counted.set_weak_same {B S W} (hC : Counted B S W) (i : Nat) (x y : Option WeakPtr)
    (hi : W[i]? = some y) (hxy : WeakPtr.target x = WeakPtr.target y) :
    Counted B S (W.set i x) :=
  ⟨Tally.set_weak_same_tally hC.1 i x y hi hxy, hC.2⟩

theorem Counted.push_shared_null {B S W} (hC : Counted B S W) (p : Option Pointer) :
    Counted B (S ++ [some { ptr_ := p, controll_ := none }]) W :=
  ⟨Tally.push_shared_null_tally hC.1 p, hC.2⟩

theorem Counted.move_shared {B S W} (hC : Counted B S W) (i j : Nat) (y : Option SharedPtr)
    (o : SharedPtr) (hi : S[i]? = some y) (hy : SharedPtr.target y = none)
    (hj : S[j]? = some (some o)) (hij : i ≠ j) (p q : Option Pointer) :
    Counted B ((S.set i (some { ptr_ := p, controll_ := o.controll_ })).set j
      (some { ptr_ := q, controll_ := none })) W :=
  ⟨Tally.move_shared_tally hC.1 i j y o hi hy hj hij p q, hC.2⟩

theorem Counted.move_weak {B S W} (hC : Counted B S W) (i j : Nat) (y : Option WeakPtr)
    (o : WeakPtr) (hi : W[i]? = some y) (hy : WeakPtr.target y = none)
    (hj : W[j]? = some (some o)) (hij : i ≠ j) (p q : Option Pointer) :
    Counted B S ((W.set i (some { ptr_ := p, controll_ := o.controll_ })).set j
      (some { ptr_ := q, controll_ := none })) :=
  ⟨Tally.move_weak_tally hC.1 i j y o hi hy hj hij p q, hC.2⟩

theorem Counted.swap_shared {B S W} (hC : Counted B S W) (i j : Nat) (x y : SharedPtr)
    (hi : S[i]? = some (some x)) (hj : S[j]? = some (some y)) :
    Counted B ((S.set i (some y)).set j (some x)) W :=
  ⟨Tally.swap_shared_tally hC.1 i j x y hi hj, hC.2⟩

theorem Counted.swap_weak {B S W} (hC : Counted B S W) (i j : Nat) (x y : WeakPtr)
    (hi : W[i]? = some (some x)) (hj : W[j]? = some (some y)) :
    Counted B S ((W.set i (some y)).set j (some x)) :=
  ⟨Tally.swap_weak_tally hC.1 i j x y hi hj, hC.2⟩

theorem Counted.ctor_move_weak {B S} {W : List (Option WeakPtr)} (hC : Counted B S W) (j : Nat)
    (o : WeakPtr) (hj : W[j]? = some (some o)) (p q : Option Pointer) :
    Counted B S ((W ++ [some ({ ptr_ := p, controll_ := o.controll_ } : WeakPtr)]).set j
      (some { ptr_ := q, controll_ := none })) :=
  ⟨Tally.ctor_move_weak_tally hC.1 j o hj p q, hC.2⟩

theorem Counted.ctor_move_shared {B} {S : List (Option SharedPtr)} {W} (hC : Counted B S W)
    (j : Nat) (o : SharedPtr) (hj : S[j]? = some (some o)) (p q : Option Pointer)
    (b : ControllBlock) (hs : b.strong = 1) (hw : b.weak = 0) :
    Counted (B ++ [some b]) ((S ++ [some ({ ptr_ := p, controll_ := o.controll_ } : SharedPtr)]).set
      j (some { ptr_ := q, controll_ := some B.length })) W :=
  ⟨Tally.ctor_move_shared_tally hC.1 j o hj p q b hs hw, hC.2.append b (by omega)⟩

/-- The block of `MakeShared`: built with both counters 0, then `IncreaseStrong` for the handle
the private constructor builds. -/
theorem Counted.make_shared_push {B S W} (hC : Counted B S W) (b : ControllBlock)
    (p : Option Pointer) (hs : b.strong = 0) (hw : b.weak = 0) :
    Counted ((B ++ [some b]).set B.length (some { b with strong := (b.strong + 1) % SIZE_MOD }))
      (S ++ [some { ptr_ := p, controll_ := some B.length }]) W := by
  have hset : (B ++ [some b]).set B.length
      (some { b with strong := (b.strong + 1) % SIZE_MOD })
      = B ++ [some { b with strong := (b.strong + 1) % SIZE_MOD }] := by
    simp [List.set_append]
  rw [hset]
  have h1 : (b.strong + 1) % SIZE_MOD = 1 := by rw [hs]; decide
  exact Counted.alloc_shared_push hC _ p h1 hw

/-! ## Reading the state -/

theorem bind_ok {α β : Type} (x : Except Fault α) (f : α → Except Fault β) (y : β) :
    (x >>= f) = .ok y ↔ ∃ v, x = .ok v ∧ f v = .ok y := by
  cases x <;> simp [bind, Except.bind]

theorem State.block_ok {s : State} {a : Nat} {b : ControllBlock} :
    s.block a = .ok b ↔ s.blocks[a]? = some (some b) := by
  unfold State.block
  split
  · rename_i b' h; simp [h]
  · rename_i h
    constructor
    · intro c; cases c
    · intro c; exact absurd c (h b)

theorem State.getShared_ok {s : State} {i : Nat} {h : SharedPtr} :
    s.getShared i = .ok h ↔ s.shared[i]? = some (some h) := by
  unfold State.getShared
  split
  · rename_i b' e; simp [e]
  · rename_i e
    constructor
    · intro c; cases c
    · intro c; exact absurd c (e h)

theorem State.getWeak_ok {s : State} {i : Nat} {h : WeakPtr} :
    s.getWeak i = .ok h ↔ s.weak[i]? = some (some h) := by
  unfold State.getWeak
  split
  · rename_i b' e; simp [e]
  · rename_i e
    constructor
    · intro c; cases c
    · intro c; exact absurd c (e h)

theorem deref_ok {c : Option Nat} {a : Nat} : deref c = .ok a ↔ c = some a := by
  cases c <;> simp [deref]

/-! ## Steps that keep the invariant -/

theorem Pres.refl (s : State) : Pres s s := ⟨Nat.le_refl _, Nat.le_refl _, fun h _ => h⟩

theorem Pres.trans {s t u : State} (h1 : Pres s t) (h2 : Pres t u) : Pres s u := by
  refine ⟨Nat.le_trans h1.1 h2.1, Nat.le_trans h1.2.1 h2.2.1, fun hC hB => ?_⟩
  have hBt : t.Bounded :=
    ⟨Nat.lt_of_le_of_lt h2.1 hB.1, Nat.lt_of_le_of_lt h2.2.1 hB.2⟩
  exact h2.2.2 (h1.2.2 hC hBt) hB

/-- A step that touches neither blocks nor handles. -/
theorem Pres.of_eq {s t : State} (hb : t.blocks = s.blocks) (hs : t.shared = s.shared)
    (hw : t.weak = s.weak) : Pres s t := by
  refine ⟨by rw [hs], by rw [hw], fun hC _ => ?_⟩
  unfold State.Counted at *
  rw [hb, hs, hw]; exact hC

theorem State.Bounded.of_le {s t : State} (hB : t.Bounded) (h1 : s.shared.length ≤ t.shared.length)
    (h2 : s.weak.length ≤ t.weak.length) : s.Bounded :=
  ⟨Nat.lt_of_le_of_lt h1 hB.1, Nat.lt_of_le_of_lt h2 hB.2⟩

/-! ## The control block methods, characterised -/

theorem ControllBlock.IncreaseStrong_ok {s t : State} {a : Nat}
    (h : ControllBlock.IncreaseStrong s a = .ok t) :
    ∃ b, s.blocks[a]? = some (some b) ∧
      t = s.setBlock a { b with strong := (b.strong + 1) % SIZE_MOD } := by
  unfold ControllBlock.IncreaseStrong at h
  split at h
  · cases h
  · rename_i b hb
    cases h
    exact ⟨b, State.block_ok.1 hb, rfl⟩

theorem ControllBlock.IncreaseWeak_ok {s t : State} {a : Nat}
    (h : ControllBlock.IncreaseWeak s a = .ok t) :
    ∃ b, s.blocks[a]? = some (some b) ∧
      t = s.setBlock a { b with weak := (b.weak + 1) % SIZE_MOD } := by
  unfold ControllBlock.IncreaseWeak at h
  split at h
  · cases h
  · rename_i b hb
    cases h
    exact ⟨b, State.block_ok.1 hb, rfl⟩

theorem ControllBlock.DecreaseWeak_ok {s t : State} {a : Nat} {r : Bool}
    (h : ControllBlock.DecreaseWeak s a = .ok (t, r)) :
    ∃ b, s.blocks[a]? = some (some b) ∧
      t = s.setBlock a { b with weak := (b.weak + (SIZE_MOD - 1)) % SIZE_MOD } ∧
      r = (b.strong == 0 && (b.weak + (SIZE_MOD - 1)) % SIZE_MOD == 0) := by
  unfold ControllBlock.DecreaseWeak at h
  split at h
  · cases h
  · rename_i b hb
    simp only [Except.ok.injEq, Prod.mk.injEq] at h
    exact ⟨b, State.block_ok.1 hb, h.1.symm, h.2.symm⟩

theorem releaseBlock_ok {s t : State} {a : Nat} (h : releaseBlock s a = .ok t) :
    ∃ b, s.blocks[a]? = some (some b) ∧ t.blocks = s.blocks.set a none ∧
      t.shared = s.shared ∧ t.weak = s.weak ∧ t.objs = s.objs ∧
      t.log = s.log ++ [if b.created_from_make_shared then .FreeBuffer a else .FreeBlock a] := by
  unfold releaseBlock at h
  split at h
  · cases h
  · rename_i b hb
    cases h
    exact ⟨b, State.block_ok.1 hb, rfl, rfl, rfl, rfl, rfl⟩

/-- The part of the state `WeakPtr::UnlinkWithControllBlock` never touches. -/
theorem WeakPtr.weak_unlink_frame {s t : State} {w : WeakPtr}
    (hu : WeakPtr.UnlinkWithControllBlock s w = .ok t) :
    t.shared = s.shared ∧ t.weak = s.weak ∧ t.objs = s.objs ∧
      t.blocks.length = s.blocks.length := by
  unfold WeakPtr.UnlinkWithControllBlock at hu
  split at hu
  · cases hu; exact ⟨rfl, rfl, rfl, rfl⟩
  · rename_i a hc
    split at hu
    · cases hu
    · rename_i s1 r hd
      obtain ⟨b, hb, hs1, hr⟩ := ControllBlock.DecreaseWeak_ok hd
      subst hs1
      by_cases hr' : r = true
      · rw [if_pos hr'] at hu
        obtain ⟨b2, hb2, e1, e2, e3, e4, _⟩ := releaseBlock_ok hu
        simp only [State.setBlock] at e1 e2 e3 e4
        exact ⟨e2, e3, e4, by simp [e1]⟩
      · rw [if_neg hr'] at hu
        cases hu
        exact ⟨rfl, rfl, rfl, by simp [State.setBlock]⟩

/-- What `WeakPtr::UnlinkWithControllBlock` does to the counts, for the handle in slot `i`: the
invariant holds again once the slot no longer points to the block. -/
theorem WeakPtr.weak_unlink_counted {s t : State} {i : Nat} {w : WeakPtr}
    (hC : s.Counted) (hB : s.Bounded) (hi : s.weak[i]? = some (some w))
    (hu : WeakPtr.UnlinkWithControllBlock s w = .ok t)
    (x : Option WeakPtr) (hx : WeakPtr.target x = none) :
    Counted t.blocks s.shared (s.weak.set i x) := by
  unfold WeakPtr.UnlinkWithControllBlock at hu
  split at hu
  · rename_i hc
    cases hu
    exact Counted.set_weak_same hC i x (some w) hi (by simp [hx, hc])
  · rename_i a hc
    split at hu
    · cases hu
    · rename_i s1 r hd
      obtain ⟨b, hb, hs1, hr⟩ := ControllBlock.DecreaseWeak_ok hd
      obtain ⟨hdec, hC1, hC2⟩ := Counted.detach_weak hC a b hb hB.2 i w hi hc x hx
      subst hs1
      by_cases hr' : r = true
      · rw [if_pos hr'] at hu
        obtain ⟨b2, hb2, e1, e2, e3, e4, _⟩ := releaseBlock_ok hu
        simp only [State.setBlock] at e1 e2 e3 e4 hb2
        rw [e1]
        rw [hr'] at hr
        simp only [Bool.true_eq, Bool.and_eq_true, beq_iff_eq] at hr
        exact hC1 hr
      · rw [if_neg hr'] at hu
        cases hu
        apply hC2
        intro hz
        apply hr'
        rw [hr]
        simp [hz.1, hz.2]

theorem WeakPtr.weak_dtor_ok {s t : State} {i : Nat} (h : WeakPtr.dtor s i = .ok t) :
    ∃ w s1, s.weak[i]? = some (some w) ∧ WeakPtr.UnlinkWithControllBlock s w = .ok s1 ∧
      t = s1.setWeak i none := by
  unfold WeakPtr.dtor at h
  split at h
  · cases h
  · rename_i w hw
    split at h
    · cases h
    · rename_i s1 hu
      cases h
      exact ⟨w, s1, State.getWeak_ok.1 hw, hu, rfl⟩

theorem WeakPtr.weak_dtor_frame {s t : State} {i : Nat} (h : WeakPtr.dtor s i = .ok t) :
    t.shared = s.shared ∧ t.weak.length = s.weak.length ∧ t.objs = s.objs ∧
      t.blocks.length = s.blocks.length := by
  obtain ⟨w, s1, hi, hu, e⟩ := WeakPtr.weak_dtor_ok h
  obtain ⟨e1, e2, e3, e4⟩ := WeakPtr.weak_unlink_frame hu
  subst e
  exact ⟨e1, by simp [State.setWeak, e2], e3, e4⟩

theorem WeakPtr.weak_dtor_pres {s t : State} {i : Nat} (h : WeakPtr.dtor s i = .ok t) :
    Pres s t := by
  obtain ⟨f1, f2, _, _⟩ := WeakPtr.weak_dtor_frame h
  refine ⟨by rw [f1], by rw [f2], fun hC hB => ?_⟩
  have hBs : s.Bounded := ⟨by rw [← f1]; exact hB.1, by rw [← f2]; exact hB.2⟩
  obtain ⟨w, s1, hi, hu, e⟩ := WeakPtr.weak_dtor_ok h
  obtain ⟨e1, e2, e3, e4⟩ := WeakPtr.weak_unlink_frame hu
  have hC1 := WeakPtr.weak_unlink_counted hC hBs hi hu none rfl
  subst e
  unfold State.Counted
  simp only [State.setWeak, e1, e2]
  exact hC1

/-! ## Payload teardown and `DecreaseStrong` -/

theorem destroyPayload_pres {s t : State} {p : Option Pointer}
    (h : destroyPayload s p = .ok t) :
    Pres s t ∧ t.shared = s.shared ∧ t.weak.length = s.weak.length ∧ t.objs = s.objs ∧
      t.blocks.length = s.blocks.length := by
  unfold destroyPayload at h
  split at h
  · split at h
    · cases h
    · obtain ⟨f1, f2, f3, f4⟩ := WeakPtr.weak_dtor_frame h
      exact ⟨WeakPtr.weak_dtor_pres h, f1, f2, f3, f4⟩
  · cases h
    exact ⟨Pres.refl _, rfl, rfl, rfl, rfl⟩

theorem ControllBlock.teardown_pres {s t : State} {a : Nat} {b : ControllBlock}
    (h : ControllBlock.teardown s a b = .ok t) :
    Pres s t ∧ t.shared = s.shared ∧ t.weak.length = s.weak.length ∧ t.objs = s.objs ∧
      t.blocks.length = s.blocks.length := by
  unfold ControllBlock.teardown at h
  split at h
  · cases h; exact ⟨Pres.refl _, rfl, rfl, rfl, rfl⟩
  · rename_i x hx
    split at h
    · split at h
      · cases h
      · rename_i u hu
        cases h
        unfold AnyPtr.Destruct at hu
        split at hu
        · cases hu
        · obtain ⟨hp, f1, f2, f3, f4⟩ := destroyPayload_pres hu
          have e0 : Pres s (s.emit (.Destruct a ‹Pointer›)) := Pres.of_eq rfl rfl rfl
          have e1 : Pres u (u.emit (.DestroyAnyPtr a)) := Pres.of_eq rfl rfl rfl
          exact ⟨(e0.trans hp).trans e1, f1, f2, f3, f4⟩
    · split at h
      · cases h
      · rename_i u hu
        cases h
        unfold AnyPtr.Delete at hu
        obtain ⟨hp, f1, f2, f3, f4⟩ := destroyPayload_pres hu
        have e0 : Pres s (s.emit (.Delete a x.ptr)) := Pres.of_eq rfl rfl rfl
        have e1 : Pres u (u.emit (.FreeAnyPtr a)) := Pres.of_eq rfl rfl rfl
        exact ⟨(e0.trans hp).trans e1, f1, f2, f3, f4⟩

theorem ControllBlock.DecreaseStrong_ok {s t : State} {a : Nat} {r : Bool}
    (h : ControllBlock.DecreaseStrong s a = .ok (t, r)) :
    ∃ s1 b1, Pres s s1 ∧ s1.shared = s.shared ∧ s1.weak.length = s.weak.length ∧
      s1.objs = s.objs ∧ s1.blocks.length = s.blocks.length ∧
      s1.blocks[a]? = some (some b1) ∧
      t = s1.setBlock a { b1 with strong := (b1.strong + (SIZE_MOD - 1)) % SIZE_MOD } ∧
      r = ((b1.strong + (SIZE_MOD - 1)) % SIZE_MOD == 0 && b1.weak == 0) := by
  unfold ControllBlock.DecreaseStrong at h
  split at h
  · cases h
  · rename_i b hb
    split at h
    · cases h
    · rename_i s1 ht
      split at h
      · cases h
      · rename_i b1 hb1
        simp only [Except.ok.injEq, Prod.mk.injEq] at h
        have hp : Pres s s1 ∧ s1.shared = s.shared ∧ s1.weak.length = s.weak.length ∧
            s1.objs = s.objs ∧ s1.blocks.length = s.blocks.length := by
          by_cases c : b.strong = 1
          · rw [if_pos c] at ht; exact ControllBlock.teardown_pres ht
          · rw [if_neg c] at ht; cases ht; exact ⟨Pres.refl _, rfl, rfl, rfl, rfl⟩
        exact ⟨s1, b1, hp.1, hp.2.1, hp.2.2.1, hp.2.2.2.1, hp.2.2.2.2, State.block_ok.1 hb1,
          h.1.symm, h.2.symm⟩

/-! ## Shared handle: unlink and destructor -/

/-- The part of the state `SharedPtr::UnlinkWithControllBlock` never touches. -/
theorem SharedPtr.shared_unlink_frame {s t : State} {h : SharedPtr}
    (hu : SharedPtr.UnlinkWithControllBlock s h = .ok t) :
    t.shared = s.shared ∧ t.weak.length = s.weak.length ∧ t.objs = s.objs ∧
      t.blocks.length = s.blocks.length := by
  unfold SharedPtr.UnlinkWithControllBlock at hu
  split at hu
  · cases hu; exact ⟨rfl, rfl, rfl, rfl⟩
  · rename_i a hc
    split at hu
    · cases hu
    · rename_i s2 r hd
      obtain ⟨s1, b1, _, f1, f2, f3, f4, hb1, hs2, hr⟩ := ControllBlock.DecreaseStrong_ok hd
      subst hs2
      by_cases hr' : r = true
      · rw [if_pos hr'] at hu
        obtain ⟨b2, hb2, e1, e2, e3, e4, _⟩ := releaseBlock_ok hu
        simp only [State.setBlock] at e1 e2 e3 e4
        exact ⟨by rw [e2, f1], by rw [e3, f2], by rw [e4, f3], by simp [e1, f4]⟩
      · rw [if_neg hr'] at hu
        cases hu
        exact ⟨f1, f2, f3, by simp [State.setBlock, f4]⟩

/-- What `SharedPtr::UnlinkWithControllBlock` does to the counts, for the handle in slot `i`:
the invariant holds again once the slot no longer points to the block. -/
theorem SharedPtr.shared_unlink_counted {s t : State} {i : Nat} {h : SharedPtr}
    (hC : s.Counted) (hB : s.Bounded) (hi : s.shared[i]? = some (some h))
    (hu : SharedPtr.UnlinkWithControllBlock s h = .ok t)
    (x : Option SharedPtr) (hx : SharedPtr.target x = none) :
    Counted t.blocks (s.shared.set i x) t.weak := by
  unfold SharedPtr.UnlinkWithControllBlock at hu
  split at hu
  · rename_i hc
    cases hu
    exact Counted.set_shared_same hC i x (some h) hi (by simp [hx, hc])
  · rename_i a hc
    split at hu
    · cases hu
    · rename_i s2 r hd
      obtain ⟨s1, b1, hp, f1, f2, f3, f4, hb1, hs2, hr⟩ := ControllBlock.DecreaseStrong_ok hd
      have hB1 : s1.Bounded := ⟨by rw [f1]; exact hB.1, by rw [f2]; exact hB.2⟩
      have hC1 : s1.Counted := hp.2.2 hC hB1
      unfold State.Counted at hC1
      rw [f1] at hC1
      obtain ⟨hdec, hC2, hC3⟩ := Counted.detach_shared hC1 a b1 hb1 hB.1 i h hi hc x hx
      subst hs2
      by_cases hr' : r = true
      · rw [if_pos hr'] at hu
        obtain ⟨b2, hb2, e1, e2, e3, e4, _⟩ := releaseBlock_ok hu
        simp only [State.setBlock] at e1 e2 e3 e4 hb2
        rw [e1, e3]
        rw [hr'] at hr
        simp only [Bool.true_eq, Bool.and_eq_true, beq_iff_eq] at hr
        exact hC2 hr
      · rw [if_neg hr'] at hu
        cases hu
        apply hC3
        intro hz
        apply hr'
        rw [hr]
        simp [hz.1, hz.2]

theorem SharedPtr.shared_dtor_ok {s t : State} {i : Nat} (h : SharedPtr.dtor s i = .ok t) :
    ∃ x s1, s.shared[i]? = some (some x) ∧ SharedPtr.UnlinkWithControllBlock s x = .ok s1 ∧
      t = s1.setShared i none := by
  unfold SharedPtr.dtor at h
  split at h
  · cases h
  · rename_i w hw
    split at h
    · cases h
    · rename_i s1 hu
      cases h
      exact ⟨w, s1, State.getShared_ok.1 hw, hu, rfl⟩

theorem SharedPtr.shared_dtor_pres {s t : State} {i : Nat} (h : SharedPtr.dtor s i = .ok t) :
    Pres s t := by
  obtain ⟨x, s1, hi, hu, e⟩ := SharedPtr.shared_dtor_ok h
  obtain ⟨e1, e2, e3, e4⟩ := SharedPtr.shared_unlink_frame hu
  subst e
  refine ⟨by simp [State.setShared, e1], by simp [State.setShared, e2], fun hC hB => ?_⟩
  have hBs : s.Bounded := by
    simp only [State.Bounded, State.setShared, List.length_set, e1, e2] at hB
    exact hB
  have hC1 := SharedPtr.shared_unlink_counted hC hBs hi hu none rfl
  unfold State.Counted
  simp only [State.setShared, e1]
  exact hC1

/-! ## Weak handle operations keep the invariant -/

theorem WeakPtr.weak_ctorDefault_pres (s : State) : Pres s (WeakPtr.ctorDefault s) := by
  refine ⟨Nat.le_refl _, by simp [WeakPtr.ctorDefault, State.pushWeak, State.newBlock],
    fun hC _ => ?_⟩
  exact Counted.alloc_weak_push hC _ none rfl rfl

theorem WeakPtr.weak_ctorCopy_pres {s t : State} {src : Nat} (h : WeakPtr.ctorCopy s src = .ok t) :
    Pres s t := by
  simp only [WeakPtr.ctorCopy, bind_ok, pure, Except.pure, Except.ok.injEq] at h
  obtain ⟨o, ho, a, ha, s1, hs1, rfl⟩ := h
  obtain ⟨b, hb, rfl⟩ := ControllBlock.IncreaseWeak_ok hs1
  rw [deref_ok] at ha
  refine ⟨Nat.le_refl _, by simp [State.pushWeak, State.setBlock], fun hC hB => ?_⟩
  have hW : s.weak.length + 1 < SIZE_MOD := by
    have := hB.2; simpa [State.pushWeak, State.setBlock] using this
  have := Counted.attach_weak_push hC a b o.ptr_ hb hW
  rw [ha]
  exact this

theorem WeakPtr.ctorShared_pres {s t : State} {src : Nat}
    (h : WeakPtr.ctorShared s src = .ok t) : Pres s t := by
  simp only [WeakPtr.ctorShared, bind_ok, pure, Except.pure, Except.ok.injEq] at h
  obtain ⟨o, ho, a, ha, s1, hs1, rfl⟩ := h
  obtain ⟨b, hb, rfl⟩ := ControllBlock.IncreaseWeak_ok hs1
  rw [deref_ok] at ha
  refine ⟨Nat.le_refl _, by simp [State.pushWeak, State.setBlock], fun hC hB => ?_⟩
  have hW : s.weak.length + 1 < SIZE_MOD := by
    have := hB.2; simpa [State.pushWeak, State.setBlock] using this
  have := Counted.attach_weak_push hC a b o.ptr_ hb hW
  rw [ha]
  exact this

theorem WeakPtr.weak_ctorMove_pres {s t : State} {src : Nat} (h : WeakPtr.ctorMove s src = .ok t) :
    Pres s t := by
  simp only [WeakPtr.ctorMove, bind_ok, pure, Except.pure, Except.ok.injEq] at h
  obtain ⟨o, ho, rfl⟩ := h
  rw [State.getWeak_ok] at ho
  refine ⟨Nat.le_refl _, by simp [State.pushWeak, State.setWeak], fun hC _ => ?_⟩
  exact Counted.ctor_move_weak hC src o ho o.ptr_ none

theorem WeakPtr.weak_assignCopy_pres {s t : State} {dst src : Nat}
    (h : WeakPtr.assignCopy s dst src = .ok t) : Pres s t := by
  simp only [WeakPtr.assignCopy, bind_ok] at h
  obtain ⟨d, hd, o, ho, h⟩ := h
  rw [State.getWeak_ok] at hd ho
  split at h
  · cases h; exact Pres.refl _
  · simp only [bind_ok, pure, Except.pure, Except.ok.injEq] at h
    obtain ⟨s1, hu, a, ha, s2, hs2, rfl⟩ := h
    obtain ⟨b, hb, rfl⟩ := ControllBlock.IncreaseWeak_ok hs2
    obtain ⟨e1, e2, e3, e4⟩ := WeakPtr.weak_unlink_frame hu
    rw [deref_ok] at ha
    refine ⟨by simp [State.setWeak, State.setBlock, e1],
      by simp [State.setWeak, State.setBlock, e2], fun hC hB => ?_⟩
    have hBs : s.Bounded := by
      simpa [State.Bounded, State.setWeak, State.setBlock, e1, e2] using hB
    have hC1 := WeakPtr.weak_unlink_counted hC hBs hd hu (some { ptr_ := none, controll_ := none }) rfl
    have hi : (s.weak.set dst (some ({ ptr_ := none, controll_ := none } : WeakPtr)))[dst]?
        = some (some { ptr_ := none, controll_ := none }) := by
      simp [List.getElem?_set, lt_of_getElem?_some hd]
    have := Counted.attach_weak_set hC1 a b o.ptr_ hb (by simpa using hBs.2) dst _ hi rfl
    rw [List.set_set] at this
    unfold State.Counted
    simp only [State.setWeak, State.setBlock, e1, e2, ha]
    exact this

theorem WeakPtr.weak_assignMove_pres {s t : State} {dst src : Nat}
    (h : WeakPtr.assignMove s dst src = .ok t) : Pres s t := by
  simp only [WeakPtr.assignMove, bind_ok] at h
  obtain ⟨d, hd, o, ho, h⟩ := h
  rw [State.getWeak_ok] at hd ho
  split at h
  · cases h; exact Pres.refl _
  · rename_i hne
    simp only [bind_ok, pure, Except.pure, Except.ok.injEq] at h
    obtain ⟨s1, hu, rfl⟩ := h
    obtain ⟨e1, e2, e3, e4⟩ := WeakPtr.weak_unlink_frame hu
    have hds : dst ≠ src := by
      intro e; subst e; rw [hd] at ho; cases ho; exact hne rfl
    refine ⟨by simp [State.setWeak, e1], by simp [State.setWeak, e2], fun hC hB => ?_⟩
    have hBs : s.Bounded := by
      simpa [State.Bounded, State.setWeak, e1, e2] using hB
    have hC1 := WeakPtr.weak_unlink_counted hC hBs hd hu (some { ptr_ := none, controll_ := none }) rfl
    have hi : (s.weak.set dst (some ({ ptr_ := none, controll_ := none } : WeakPtr)))[dst]?
        = some (some { ptr_ := none, controll_ := none }) := by
      simp [List.getElem?_set, lt_of_getElem?_some hd]
    have hj : (s.weak.set dst (some ({ ptr_ := none, controll_ := none } : WeakPtr)))[src]?
        = some (some o) := by
      rw [List.getElem?_set_ne hds]; exact ho
    have := Counted.move_weak hC1 dst src _ o hi rfl hj hds o.ptr_ none
    rw [List.set_set] at this
    unfold State.Counted
    simp only [State.setWeak, e1, e2]
    exact this

theorem WeakPtr.weak_Reset_pres {s t : State} {i : Nat} (h : WeakPtr.Reset s i = .ok t) :
    Pres s t := by
  simp only [WeakPtr.Reset, bind_ok, pure, Except.pure, Except.ok.injEq] at h
  obtain ⟨w, hw, s1, hu, rfl⟩ := h
  rw [State.getWeak_ok] at hw
  obtain ⟨e1, e2, e3, e4⟩ := WeakPtr.weak_unlink_frame hu
  refine ⟨by simp [State.setWeak, State.newBlock, e1],
    by simp [State.setWeak, State.newBlock, e2], fun hC hB => ?_⟩
  have hBs : s.Bounded := by
    simpa [State.Bounded, State.setWeak, State.newBlock, e1, e2] using hB
  have hC1 := WeakPtr.weak_unlink_counted hC hBs hw hu (some { ptr_ := none, controll_ := none }) rfl
  have hi : (s.weak.set i (some ({ ptr_ := none, controll_ := none } : WeakPtr)))[i]?
      = some (some { ptr_ := none, controll_ := none }) := by
    simp [List.getElem?_set, lt_of_getElem?_some hw]
  have := Counted.alloc_weak_set hC1 (ControllBlock.ofCounts 0 1) none rfl rfl i _ hi rfl
  rw [List.set_set] at this
  unfold State.Counted
  simp only [State.setWeak, State.newBlock, e1, e2]
  exact this

theorem WeakPtr.weak_Swap_pres {s t : State} {i j : Nat} (h : WeakPtr.Swap s i j = .ok t) :
    Pres s t := by
  simp only [WeakPtr.Swap, bind_ok, pure, Except.pure, Except.ok.injEq] at h
  obtain ⟨x, hx, y, hy, rfl⟩ := h
  rw [State.getWeak_ok] at hx hy
  refine ⟨Nat.le_refl _, by simp [State.setWeak], fun hC _ => ?_⟩
  exact Counted.swap_weak hC i j x y hx hy

/-! ## Shared handle operations keep the invariant -/

theorem SharedPtr.shared_ctorDefault_pres (s : State) : Pres s (SharedPtr.ctorDefault s) := by
  refine ⟨by simp [SharedPtr.ctorDefault, State.pushShared, State.newBlock], Nat.le_refl _,
    fun hC _ => ?_⟩
  exact Counted.alloc_shared_push hC _ none rfl rfl

theorem SharedPtr.SetLinkToOuterSharedPtr_pres {s t : State} {i o : Nat}
    (h : SharedPtr.SetLinkToOuterSharedPtr s i o = .ok t) : Pres s t := by
  unfold SharedPtr.SetLinkToOuterSharedPtr at h
  split at h
  · cases h
  · simp only [bind_ok] at h
    obtain ⟨s1, h1, s2, h2, h3⟩ := h
    exact ((WeakPtr.ctorShared_pres h1).trans (WeakPtr.weak_assignMove_pres h2)).trans
      (WeakPtr.weak_dtor_pres h3)

theorem SharedPtr.linkIfEnabled_pres {s t : State} {i : Nat} {p : Option Pointer}
    (h : SharedPtr.linkIfEnabled s i p = .ok t) : Pres s t := by
  unfold SharedPtr.linkIfEnabled at h
  split at h
  · exact SharedPtr.SetLinkToOuterSharedPtr_pres h
  · cases h; exact Pres.refl _

theorem SharedPtr.ctorAdopt_pres {s t : State} {p : Option Pointer}
    (h : SharedPtr.ctorAdopt s p = .ok t) : Pres s t := by
  unfold SharedPtr.ctorAdopt at h
  refine Pres.trans ?_ (SharedPtr.linkIfEnabled_pres h)
  refine ⟨by simp [State.pushShared, State.newBlock], Nat.le_refl _, fun hC _ => ?_⟩
  exact Counted.alloc_shared_push hC _ p rfl rfl

theorem SharedPtr.ctorAlias_pres {s t : State} {src : Nat} {p : Option Pointer}
    (h : SharedPtr.ctorAlias s src p = .ok t) : Pres s t := by
  simp only [SharedPtr.ctorAlias, bind_ok, pure, Except.pure, Except.ok.injEq] at h
  obtain ⟨o, ho, a, ha, s1, hs1, rfl⟩ := h
  obtain ⟨b, hb, rfl⟩ := ControllBlock.IncreaseStrong_ok hs1
  rw [deref_ok] at ha
  refine ⟨by simp [State.pushShared, State.setBlock], Nat.le_refl _, fun hC hB => ?_⟩
  have hS : s.shared.length + 1 < SIZE_MOD := by
    have := hB.1; simpa [State.pushShared, State.setBlock] using this
  have := Counted.attach_shared_push hC a b p hb hS
  rw [ha]
  exact this

theorem SharedPtr.shared_ctorCopy_pres {s t : State} {src : Nat}
    (h : SharedPtr.ctorCopy s src = .ok t) : Pres s t := by
  simp only [SharedPtr.ctorCopy, bind_ok, pure, Except.pure, Except.ok.injEq] at h
  obtain ⟨o, ho, a, ha, s1, hs1, rfl⟩ := h
  obtain ⟨b, hb, rfl⟩ := ControllBlock.IncreaseStrong_ok hs1
  rw [deref_ok] at ha
  refine ⟨by simp [State.pushShared, State.setBlock], Nat.le_refl _, fun hC hB => ?_⟩
  have hS : s.shared.length + 1 < SIZE_MOD := by
    have := hB.1; simpa [State.pushShared, State.setBlock] using this
  have := Counted.attach_shared_push hC a b o.ptr_ hb hS
  rw [ha]
  exact this

theorem SharedPtr.shared_ctorMove_pres {s t : State} {src : Nat}
    (h : SharedPtr.ctorMove s src = .ok t) : Pres s t := by
  simp only [SharedPtr.ctorMove, bind_ok, pure, Except.pure, Except.ok.injEq] at h
  obtain ⟨o, ho, rfl⟩ := h
  rw [State.getShared_ok] at ho
  refine ⟨by simp [State.pushShared, State.setShared, State.newBlock], Nat.le_refl _,
    fun hC _ => ?_⟩
  exact Counted.ctor_move_shared hC src o ho o.ptr_ none (ControllBlock.ofCounts 1 0) rfl rfl

theorem SharedPtr.ctorPrivate_pres {s t : State} {p : Option Pointer} {c : Option Nat}
    (h : SharedPtr.ctorPrivate s p c = .ok t) : Pres s t := by
  simp only [SharedPtr.ctorPrivate, bind_ok] at h
  obtain ⟨a, ha, s1, hs1, h⟩ := h
  obtain ⟨b, hb, rfl⟩ := ControllBlock.IncreaseStrong_ok hs1
  rw [deref_ok] at ha
  refine Pres.trans ?_ (SharedPtr.linkIfEnabled_pres h)
  refine ⟨by simp [State.pushShared, State.setBlock], Nat.le_refl _, fun hC hB => ?_⟩
  have hS : s.shared.length + 1 < SIZE_MOD := by
    have := hB.1; simpa [State.pushShared, State.setBlock] using this
  have := Counted.attach_shared_push hC a b p hb hS
  rw [ha]
  exact this

theorem SharedPtr.shared_assignCopy_pres {s t : State} {dst src : Nat}
    (h : SharedPtr.assignCopy s dst src = .ok t) : Pres s t := by
  simp only [SharedPtr.assignCopy, bind_ok] at h
  obtain ⟨d, hd, o, ho, h⟩ := h
  rw [State.getShared_ok] at hd ho
  split at h
  · cases h; exact Pres.refl _
  · simp only [bind_ok, pure, Except.pure, Except.ok.injEq] at h
    obtain ⟨s1, hu, a, ha, s2, hs2, rfl⟩ := h
    obtain ⟨b, hb, rfl⟩ := ControllBlock.IncreaseStrong_ok hs2
    obtain ⟨e1, e2, e3, e4⟩ := SharedPtr.shared_unlink_frame hu
    rw [deref_ok] at ha
    refine ⟨by simp [State.setShared, State.setBlock, e1],
      by simp [State.setShared, State.setBlock, e2], fun hC hB => ?_⟩
    have hBs : s.Bounded := by
      simpa [State.Bounded, State.setShared, State.setBlock, e1, e2] using hB
    have hC1 := SharedPtr.shared_unlink_counted hC hBs hd hu
      (some { ptr_ := none, controll_ := none }) rfl
    have hi : (s.shared.set dst (some ({ ptr_ := none, controll_ := none } : SharedPtr)))[dst]?
        = some (some { ptr_ := none, controll_ := none }) := by
      simp [List.getElem?_set, lt_of_getElem?_some hd]
    have := Counted.attach_shared_set hC1 a b o.ptr_ hb (by simpa using hBs.1) dst _ hi rfl
    rw [List.set_set] at this
    unfold State.Counted
    simp only [State.setShared, State.setBlock, e1, ha]
    exact this

theorem SharedPtr.shared_assignMove_pres {s t : State} {dst src : Nat}
    (h : SharedPtr.assignMove s dst src = .ok t) : Pres s t := by
  simp only [SharedPtr.assignMove, bind_ok] at h
  obtain ⟨d, hd, o, ho, h⟩ := h
  rw [State.getShared_ok] at hd ho
  split at h
  · cases h; exact Pres.refl _
  · rename_i hne
    simp only [bind_ok, pure, Except.pure, Except.ok.injEq] at h
    obtain ⟨s1, hu, rfl⟩ := h
    obtain ⟨e1, e2, e3, e4⟩ := SharedPtr.shared_unlink_frame hu
    have hds : dst ≠ src := by
      intro e; subst e; rw [hd] at ho; cases ho; exact hne rfl
    refine ⟨by simp [State.setShared, e1], by simp [State.setShared, e2], fun hC hB => ?_⟩
    have hBs : s.Bounded := by
      simpa [State.Bounded, State.setShared, e1, e2] using hB
    have hC1 := SharedPtr.shared_unlink_counted hC hBs hd hu
      (some { ptr_ := none, controll_ := none }) rfl
    have hi : (s.shared.set dst (some ({ ptr_ := none, controll_ := none } : SharedPtr)))[dst]?
        = some (some { ptr_ := none, controll_ := none }) := by
      simp [List.getElem?_set, lt_of_getElem?_some hd]
    have hj : (s.shared.set dst (some ({ ptr_ := none, controll_ := none } : SharedPtr)))[src]?
        = some (some o) := by
      rw [List.getElem?_set_ne hds]; exact ho
    have := Counted.move_shared hC1 dst src _ o hi rfl hj hds o.ptr_ none
    rw [List.set_set] at this
    unfold State.Counted
    simp only [State.setShared, e1]
    exact this

theorem SharedPtr.ResetPtr_pres {s t : State} {i : Nat} {p : Option Pointer}
    (h : SharedPtr.ResetPtr s i p = .ok t) : Pres s t := by
  simp only [SharedPtr.ResetPtr, bind_ok, pure, Except.pure, Except.ok.injEq] at h
  obtain ⟨w, hw, s1, hu, rfl⟩ := h
  rw [State.getShared_ok] at hw
  obtain ⟨e1, e2, e3, e4⟩ := SharedPtr.shared_unlink_frame hu
  refine ⟨by simp [State.setShared, State.newBlock, e1],
    by simp [State.setShared, State.newBlock, e2], fun hC hB => ?_⟩
  have hBs : s.Bounded := by
    simpa [State.Bounded, State.setShared, State.newBlock, e1, e2] using hB
  have hC1 := SharedPtr.shared_unlink_counted hC hBs hw hu
    (some { ptr_ := none, controll_ := none }) rfl
  have hi : (s.shared.set i (some ({ ptr_ := none, controll_ := none } : SharedPtr)))[i]?
      = some (some { ptr_ := none, controll_ := none }) := by
    simp [List.getElem?_set, lt_of_getElem?_some hw]
  have := Counted.alloc_shared_set hC1 (ControllBlock.ofPointer p) p rfl rfl i _ hi rfl
  rw [List.set_set] at this
  unfold State.Counted
  simp only [State.setShared, State.newBlock, e1]
  exact this

theorem SharedPtr.shared_Swap_pres {s t : State} {i j : Nat} (h : SharedPtr.Swap s i j = .ok t) :
    Pres s t := by
  simp only [SharedPtr.Swap, bind_ok, pure, Except.pure, Except.ok.injEq] at h
  obtain ⟨x, hx, y, hy, rfl⟩ := h
  rw [State.getShared_ok] at hx hy
  refine ⟨by simp [State.setShared], Nat.le_refl _, fun hC _ => ?_⟩
  exact Counted.swap_shared hC i j x y hx hy

theorem SharedPtr.shared_Reset_pres {s t : State} {i : Nat} (h : SharedPtr.Reset s i = .ok t) :
    Pres s t := by
  simp only [SharedPtr.Reset, bind_ok, pure, Except.pure, Except.ok.injEq] at h
  obtain ⟨x, hx, a, ha, ⟨s2, r⟩, hd, rfl⟩ := h
  rw [State.getShared_ok] at hx
  rw [deref_ok] at ha
  obtain ⟨s1, b1, hp, f1, f2, f3, f4, hb1, hs2, hr⟩ := ControllBlock.DecreaseStrong_ok hd
  have hl := lt_of_getElem?_some hb1
  subst hs2
  have hsh : ∀ u : State, (if r = true then u.free a (.FreeBlock a) else u).shared = u.shared := by
    intro u; split <;> rfl
  have hwk : ∀ u : State, (if r = true then u.free a (.FreeBlock a) else u).weak = u.weak := by
    intro u; split <;> rfl
  refine ⟨by simp [State.setShared, State.newBlock, State.setBlock, hsh, f1],
    by simp [State.setShared, State.newBlock, State.setBlock, hwk, f2], fun hC hB => ?_⟩
  have hBs : s.Bounded := by
    simpa [State.Bounded, State.setShared, State.newBlock, State.setBlock, hsh, hwk, f1, f2]
      using hB
  have hB1 : s1.Bounded := ⟨by rw [f1]; exact hBs.1, by rw [f2]; exact hBs.2⟩
  have hC1 : s1.Counted := hp.2.2 hC hB1
  unfold State.Counted at hC1
  rw [f1] at hC1
  obtain ⟨hdec, hC2, hC4⟩ := Counted.detach_shared hC1 a b1 hb1 hBs.1 i x hx ha
    (some { ptr_ := none, controll_ := none }) rfl
  have hi : (s.shared.set i (some ({ ptr_ := none, controll_ := none } : SharedPtr)))[i]?
      = some (some { ptr_ := none, controll_ := none }) := by
    simp [List.getElem?_set, lt_of_getElem?_some hx]
  unfold State.Counted
  by_cases hr' : r = true
  · simp only [hr', if_true, State.setShared, State.newBlock, State.free, State.setBlock, f1]
    rw [hr'] at hr
    simp only [Bool.true_eq, Bool.and_eq_true, beq_iff_eq] at hr
    have hC3 := hC2 hr
    have := Counted.alloc_shared_set hC3 (ControllBlock.ofCounts 1 0) none rfl rfl i _ hi rfl
    simpa [List.set_set] using this
  · simp only [hr', State.setShared, State.newBlock, State.setBlock, f1]
    have hC3 := hC4 (by
      intro hz
      apply hr'
      rw [hr]
      simp [hz.1, hz.2])
    have := Counted.alloc_shared_set hC3 (ControllBlock.ofCounts 1 0) none rfl rfl i _ hi rfl
    simpa [List.set_set] using this

theorem WeakPtr.Lock_pres {s t : State} {w : Nat} (h : WeakPtr.Lock s w = .ok t) :
    Pres s t := by
  simp only [WeakPtr.Lock, bind_ok] at h
  obtain ⟨x, hx, e, he, h⟩ := h
  split at h
  · simp only [pure, Except.pure, Except.ok.injEq] at h
    subst h; exact SharedPtr.shared_ctorDefault_pres s
  · exact SharedPtr.ctorPrivate_pres h

theorem SharedPtr.ctorWeak_pres {s t : State} {w : Nat} (h : SharedPtr.ctorWeak s w = .ok t) :
    Pres s t := by
  simp only [SharedPtr.ctorWeak, bind_ok] at h
  obtain ⟨x, hx, e, he, h⟩ := h
  split at h
  · simp only [pure, Except.pure, Except.ok.injEq] at h
    subst h; exact Pres.of_eq rfl rfl rfl
  · simp only [bind_ok] at h
    obtain ⟨s2, h2, s3, h3, h4⟩ := h
    have h1 : Pres s (s.pushShared { ptr_ := none, controll_ := none }) :=
      ⟨by simp [State.pushShared], Nat.le_refl _, fun hC _ => Counted.push_shared_null hC none⟩
    exact ((h1.trans (WeakPtr.Lock_pres h2)).trans (SharedPtr.shared_assignMove_pres h3)).trans
      (SharedPtr.shared_dtor_pres h4)

theorem EnableSharedFromThis.ctor_pres (s : State) : Pres s (EnableSharedFromThis.ctor s) :=
  (WeakPtr.weak_ctorDefault_pres s).trans (Pres.of_eq rfl rfl rfl)

theorem MakeShared.finish_pres {s t : State} {p : Pointer}
    (h : MakeShared.finish s p = .ok t) : Pres s t := by
  simp only [MakeShared.finish, SharedPtr.ctorPrivate, bind_ok] at h
  obtain ⟨a, ha, s1, hs1, h⟩ := h
  obtain ⟨b, hb, rfl⟩ := ControllBlock.IncreaseStrong_ok hs1
  rw [deref_ok] at ha
  simp only [Option.some.injEq] at ha
  subst ha
  simp only [State.newBlock, List.getElem?_concat_length, Option.some.injEq] at hb
  subst hb
  refine Pres.trans ?_ (SharedPtr.linkIfEnabled_pres h)
  refine ⟨by simp [State.pushShared, State.setBlock, State.newBlock], Nat.le_refl _,
    fun hC _ => ?_⟩
  exact Counted.make_shared_push hC _ (some p) rfl rfl

theorem MakeShared_pres {s t : State} {addr : Nat} (h : MakeShared s addr = .ok t) :
    Pres s t := MakeShared.finish_pres h

theorem MakeShared.enabled_pres {s t : State} (h : MakeShared.enabled s = .ok t) :
    Pres s t :=
  (EnableSharedFromThis.ctor_pres s).trans (MakeShared.finish_pres h)

theorem EnableSharedFromThis.SharedFromThis_pres {s t : State} {o : Nat}
    (h : EnableSharedFromThis.SharedFromThis s o = .ok t) : Pres s t := by
  unfold EnableSharedFromThis.SharedFromThis at h
  split at h
  · cases h
  · exact SharedPtr.ctorWeak_pres h

theorem EnableSharedFromThis.WeakFromThis_pres {s t : State} {o : Nat}
    (h : EnableSharedFromThis.WeakFromThis s o = .ok t) : Pres s t := by
  unfold EnableSharedFromThis.WeakFromThis at h
  split at h
  · cases h
  · exact WeakPtr.weak_ctorCopy_pres h

/-- Every public operation keeps the counting invariant. -/
theorem step_pres {s t : State} {op : Op} (h : step s op = .ok t) : Pres s t := by
  cases op <;> simp only [step] at h
  case sharedDefault => cases h; exact SharedPtr.shared_ctorDefault_pres s
  case sharedAdopt p => exact SharedPtr.ctorAdopt_pres h
  case sharedCopy src => exact SharedPtr.shared_ctorCopy_pres h
  case sharedMove src => exact SharedPtr.shared_ctorMove_pres h
  case sharedAlias src p => exact SharedPtr.ctorAlias_pres h
  case sharedFromWeak w => exact SharedPtr.ctorWeak_pres h
  case sharedAssign dst src => exact SharedPtr.shared_assignCopy_pres h
  case sharedMoveAssign dst src => exact SharedPtr.shared_assignMove_pres h
  case sharedDestroy i => exact SharedPtr.shared_dtor_pres h
  case sharedReset i => exact SharedPtr.shared_Reset_pres h
  case sharedResetPtr i p => exact SharedPtr.ResetPtr_pres h
  case sharedSwap i j => exact SharedPtr.shared_Swap_pres h
  case weakDefault => cases h; exact WeakPtr.weak_ctorDefault_pres s
  case weakCopy src => exact WeakPtr.weak_ctorCopy_pres h
  case weakMove src => exact WeakPtr.weak_ctorMove_pres h
  case weakFromShared src => exact WeakPtr.ctorShared_pres h
  case weakAssign dst src => exact WeakPtr.weak_assignCopy_pres h
  case weakMoveAssign dst src => exact WeakPtr.weak_assignMove_pres h
  case weakDestroy i => exact WeakPtr.weak_dtor_pres h
  case weakReset i => exact WeakPtr.weak_Reset_pres h
  case weakSwap i j => exact WeakPtr.weak_Swap_pres h
  case weakLock w => exact WeakPtr.Lock_pres h
  case makeShared addr => exact MakeShared_pres h
  case makeSharedEnabled => exact MakeShared.enabled_pres h
  case newEnabled => cases h; exact EnableSharedFromThis.ctor_pres s
  case sharedFromThis o => exact EnableSharedFromThis.SharedFromThis_pres h
  case weakFromThis o => exact EnableSharedFromThis.WeakFromThis_pres h

theorem run_pres {s t : State} {prog : List Op} (h : run s prog = .ok t) : Pres s t := by
  induction prog generalizing s with
  | nil => simp only [run, Except.ok.injEq] at h; subst h; exact Pres.refl _
  | cons op rest ih =>
    simp only [run] at h
    split at h
    · cases h
    · rename_i s1 h1
      exact (step_pres h1).trans (ih h)

theorem State.empty_counted : State.empty.Counted := by
  refine ⟨fun a => ?_, fun a b hb => ?_⟩
  · simp [State.empty, strongAt, weakAt, sharedRefs, weakRefs]
  · simp [State.empty] at hb

/-! ## Claims -/

/-- C2: in every state reached by public operations of `SharedPtr`, `WeakPtr`, `MakeShared` and
`EnableSharedFromThis` (as long as fewer handle objects were created than `std::size_t` has
values), the `strong` field of each live control block is the number of live shared handles whose
block pointer is that block, and its `weak` field is the number of live weak handles whose block
pointer is that block. -/
theorem C2_counters_count_live_handles (prog : List Op) (s : State) (a : Nat)
    (b : ControllBlock) (hrun : run State.empty prog = .ok s) (hB : s.Bounded)
    (hb : s.block a = .ok b) :
    b.strong = sharedRefs s.shared a ∧ b.weak = weakRefs s.weak a := by
  have hC : s.Counted := (run_pres hrun).2.2 State.empty_counted hB
  have h := hC.1 a
  rw [State.block_ok] at hb
  rw [strongAt_of_get hb, weakAt_of_get hb] at h
  exact h

/-- C2 at a concrete program: an object is adopted, the handle copied, a weak handle taken. -/
theorem C2_counters_count_live_handles_witness :
    run State.empty [.sharedAdopt (some (.plain 7)), .sharedCopy 0, .weakFromShared 0]
      = .ok { blocks := [some { strong := 2, weak := 1, ptr := some { ptr := some (.plain 7) },
                                created_from_make_shared := false }],
              objs := [],
              shared := [some { ptr_ := some (.plain 7), controll_ := some 0 },
                         some { ptr_ := some (.plain 7), controll_ := some 0 }],
              weak := [some { ptr_ := some (.plain 7), controll_ := some 0 }],
              log := [] } ∧
    (2 : Nat) = sharedRefs [some { ptr_ := some (.plain 7), controll_ := some 0 },
                            some { ptr_ := some (.plain 7), controll_ := some 0 }] 0 ∧
    (1 : Nat) = weakRefs [some { ptr_ := some (.plain 7), controll_ := some 0 }] 0 :=
  ⟨rfl, C2_counters_count_live_handles
    [.sharedAdopt (some (.plain 7)), .sharedCopy 0, .weakFromShared 0]
    { blocks := [some { strong := 2, weak := 1, ptr := some { ptr := some (.plain 7) },
                        created_from_make_shared := false }],
      objs := [],
      shared := [some { ptr_ := some (.plain 7), controll_ := some 0 },
                 some { ptr_ := some (.plain 7), controll_ := some 0 }],
      weak := [some { ptr_ := some (.plain 7), controll_ := some 0 }],
      log := [] } 0
    { strong := 2, weak := 1, ptr := some { ptr := some (.plain 7) },
      created_from_make_shared := false } rfl ⟨by decide, by decide⟩ rfl⟩

/-! ## Steps on the weak side -/

theorem WeakSide.weakside_refl (s : State) : WeakSide s s :=
  ⟨rfl, rfl, fun _ b hb _ => ⟨b, hb, rfl, rfl, rfl⟩, [], by simp, by simp⟩

theorem WeakSide.weakside_trans {s t u : State} (h1 : WeakSide s t) (h2 : WeakSide t u) :
    WeakSide s u := by
  obtain ⟨a1, b1, c1, m1, d1, e1⟩ := h1
  obtain ⟨a2, b2, c2, m2, d2, e2⟩ := h2
  refine ⟨by rw [a2, a1], by rw [b2, b1], fun a b hb hz => ?_, m1 ++ m2, by rw [d2, d1]; simp,
    fun e he => ?_⟩
  · obtain ⟨b', hb', x1, x2, x3⟩ := c1 a b hb hz
    obtain ⟨b'', hb'', y1, y2, y3⟩ := c2 a b' hb' (by rw [x1]; exact hz)
    exact ⟨b'', hb'', by rw [y1, x1], by rw [y2, x2], by rw [y3, x3]⟩
  · rcases List.mem_append.1 he with h | h
    · exact e1 e h
    · exact e2 e h

/-- A step that only rewrites the weak handles. -/
theorem WeakSide.weakside_of_eq {s t : State} (hb : t.blocks = s.blocks) (hs : t.shared = s.shared)
    (ho : t.objs = s.objs) (hl : t.log = s.log) : WeakSide s t :=
  ⟨hs, ho, fun _ b h _ => ⟨b, by rw [hb]; exact h, rfl, rfl, rfl⟩, [], by simp [hl], by simp⟩

theorem WeakSide.setBlock_weak (s : State) (a : Nat) (b : ControllBlock) (n : Nat)
    (hb : s.blocks[a]? = some (some b)) : WeakSide s (s.setBlock a { b with weak := n }) := by
  refine ⟨rfl, rfl, fun a' b' hb' _ => ?_, [], by simp [State.setBlock], by simp⟩
  simp only [State.setBlock, List.getElem?_set]
  by_cases e : a = a'
  · subst e
    rw [hb] at hb'
    simp only [Option.some.injEq] at hb'
    subst hb'
    simp [lt_of_getElem?_some hb]
  · simp [e, hb']

theorem WeakSide.newBlock (s : State) (b : ControllBlock) : WeakSide s (s.newBlock b) := by
  refine ⟨rfl, rfl, fun a' b' hb' _ => ⟨b', ?_, rfl, rfl, rfl⟩, [], by simp [State.newBlock],
    by simp⟩
  simp only [State.newBlock]
  rw [List.getElem?_append_left (lt_of_getElem?_some hb')]
  exact hb'

theorem WeakSide.free (s : State) (a : Nat) (b : ControllBlock) (e : Event)
    (hb : s.blocks[a]? = some (some b)) (hz : b.strong = 0) (he : e.isFree = true) :
    WeakSide s (s.free a e) := by
  refine ⟨rfl, rfl, fun a' b' hb' hz' => ?_, [e], rfl, by simpa using he⟩
  simp only [State.free, List.getElem?_set]
  by_cases c : a = a'
  · subst c
    rw [hb] at hb'
    simp only [Option.some.injEq] at hb'
    subst hb'
    exact absurd hz hz'
  · simp [c, hb']

theorem WeakPtr.weak_unlink_side {s t : State} {w : WeakPtr}
    (hu : WeakPtr.UnlinkWithControllBlock s w = .ok t) : WeakSide s t ∧ t.weak = s.weak := by
  unfold WeakPtr.UnlinkWithControllBlock at hu
  split at hu
  · cases hu; exact ⟨WeakSide.weakside_refl _, rfl⟩
  · rename_i a hc
    split at hu
    · cases hu
    · rename_i s1 r hd
      obtain ⟨b, hb, hs1, hr⟩ := ControllBlock.DecreaseWeak_ok hd
      have h1 := WeakSide.setBlock_weak s a b ((b.weak + (SIZE_MOD - 1)) % SIZE_MOD) hb
      subst hs1
      by_cases hr' : r = true
      · rw [if_pos hr'] at hu
        unfold releaseBlock at hu
        split at hu
        · cases hu
        · rename_i b2 hb2
          cases hu
          rw [State.block_ok] at hb2
          have hb2' := hb2
          simp only [State.setBlock, List.getElem?_set, lt_of_getElem?_some hb, if_true,
            Option.some.injEq] at hb2'
          rw [hr'] at hr
          simp only [Bool.true_eq, Bool.and_eq_true, beq_iff_eq] at hr
          refine ⟨h1.weakside_trans (WeakSide.free _ a b2 _ hb2 (by rw [← hb2']; exact hr.1) ?_), rfl⟩
          split <;> rfl
      · rw [if_neg hr'] at hu
        cases hu
        exact ⟨h1, rfl⟩

theorem WeakPtr.weak_dtor_side {s t : State} {i : Nat} (h : WeakPtr.dtor s i = .ok t) :
    WeakSide s t := by
  obtain ⟨w, s1, hi, hu, e⟩ := WeakPtr.weak_dtor_ok h
  subst e
  exact (WeakPtr.weak_unlink_side hu).1.weakside_trans (WeakSide.weakside_of_eq rfl rfl rfl rfl)

theorem WeakPtr.ctorShared_side {s t : State} {src : Nat}
    (h : WeakPtr.ctorShared s src = .ok t) : WeakSide s t := by
  simp only [WeakPtr.ctorShared, bind_ok, pure, Except.pure, Except.ok.injEq] at h
  obtain ⟨o, ho, a, ha, s1, hs1, rfl⟩ := h
  obtain ⟨b, hb, rfl⟩ := ControllBlock.IncreaseWeak_ok hs1
  exact (WeakSide.setBlock_weak s a b _ hb).weakside_trans (WeakSide.weakside_of_eq rfl rfl rfl rfl)

theorem WeakPtr.assignMove_side {s t : State} {dst src : Nat}
    (h : WeakPtr.assignMove s dst src = .ok t) : WeakSide s t := by
  simp only [WeakPtr.assignMove, bind_ok] at h
  obtain ⟨d, hd, o, ho, h⟩ := h
  split at h
  · cases h; exact WeakSide.weakside_refl _
  · simp only [bind_ok, pure, Except.pure, Except.ok.injEq] at h
    obtain ⟨s1, hu, rfl⟩ := h
    exact (WeakPtr.weak_unlink_side hu).1.weakside_trans (WeakSide.weakside_of_eq rfl rfl rfl rfl)

theorem SharedPtr.SetLinkToOuterSharedPtr_side {s t : State} {i o : Nat}
    (h : SharedPtr.SetLinkToOuterSharedPtr s i o = .ok t) : WeakSide s t := by
  unfold SharedPtr.SetLinkToOuterSharedPtr at h
  split at h
  · cases h
  · simp only [bind_ok] at h
    obtain ⟨s1, h1, s2, h2, h3⟩ := h
    exact ((WeakPtr.ctorShared_side h1).weakside_trans (WeakPtr.assignMove_side h2)).weakside_trans
      (WeakPtr.weak_dtor_side h3)

theorem SharedPtr.linkIfEnabled_side {s t : State} {i : Nat} {p : Option Pointer}
    (h : SharedPtr.linkIfEnabled s i p = .ok t) : WeakSide s t := by
  unfold SharedPtr.linkIfEnabled at h
  split at h
  · exact SharedPtr.SetLinkToOuterSharedPtr_side h
  · cases h; exact WeakSide.weakside_refl _

theorem destroyPayload_side {s t : State} {p : Option Pointer}
    (h : destroyPayload s p = .ok t) : WeakSide s t := by
  unfold destroyPayload at h
  split at h
  · split at h
    · cases h
    · exact WeakPtr.weak_dtor_side h
  · cases h; exact WeakSide.weakside_refl _

/-- A pointer that is not to an object deriving from `EnableSharedFromThis`: its destructor
touches no handle. -/
theorem destroyPayload_plain (s : State) (p : Option Pointer)
    (hp : ∀ o, p ≠ some (.esft o)) : destroyPayload s p = .ok s := by
  unfold destroyPayload
  split
  · rename_i o; exact absurd rfl (hp o)
  · rfl

/-! ## What `DecreaseStrong` does -/

theorem filter_destroyer_of_free (mid : List Event) (h : ∀ e ∈ mid, e.isFree = true) :
    mid.filter Event.isDestroyerCall = [] := by
  rw [List.filter_eq_nil_iff]
  intro e he
  have := h e he
  cases e <;> simp [Event.isFree, Event.isDestroyerCall] at this ⊢

/-- The teardown branch: blocks with a non-zero `strong` survive it unchanged in `strong`,
destroyer and flag, and the destroyer calls it logs are those of a block with `strong` 1. -/
theorem ControllBlock.teardown_trace {s t : State} {a : Nat} {b : ControllBlock}
    (h : ControllBlock.teardown s a b = .ok t) :
    t.shared = s.shared ∧
    (∀ (a' : Nat) (b' : ControllBlock), s.blocks[a']? = some (some b') → b'.strong ≠ 0 →
      ∃ c : ControllBlock, t.blocks[a']? = some (some c) ∧ c.strong = b'.strong ∧
        c.ptr = b'.ptr ∧ c.created_from_make_shared = b'.created_from_make_shared) ∧
    ∃ mid : List Event, t.log = s.log ++ mid ∧
      mid.filter Event.isDestroyerCall = ControllBlock.teardownTrace a { b with strong := 1 } := by
  unfold ControllBlock.teardown at h
  split at h
  · rename_i hp
    cases h
    refine ⟨rfl, fun a' b' hb' _ => ⟨b', hb', rfl, rfl, rfl⟩, [], by simp, ?_⟩
    simp [ControllBlock.teardownTrace, hp]
  · rename_i x hx
    split at h
    · rename_i hf
      split at h
      · cases h
      · rename_i u hu
        cases h
        unfold AnyPtr.Destruct at hu
        split at hu
        · cases hu
        · rename_i p hp
          obtain ⟨e1, _, e3, mid, e4, e5⟩ := destroyPayload_side hu
          refine ⟨e1, e3, [.Destruct a p] ++ mid ++ [.DestroyAnyPtr a], ?_, ?_⟩
          · simp [State.emit, e4]
          · simp [ControllBlock.teardownTrace, hx, hf, hp, List.filter_append,
              filter_destroyer_of_free mid e5, Event.isDestroyerCall]
    · rename_i hf
      split at h
      · cases h
      · rename_i u hu
        cases h
        unfold AnyPtr.Delete at hu
        obtain ⟨e1, _, e3, mid, e4, e5⟩ := destroyPayload_side hu
        refine ⟨e1, e3, [.Delete a x.ptr] ++ mid ++ [.FreeAnyPtr a], ?_, ?_⟩
        · simp [State.emit, e4]
        · simp [ControllBlock.teardownTrace, hx, hf, List.filter_append,
            filter_destroyer_of_free mid e5, Event.isDestroyerCall]

/-- The method `DecreaseStrong`, on a live block `b` at `a`. -/
theorem ControllBlock.DecreaseStrong_trace {s t : State} {a : Nat} {r : Bool}
    {b : ControllBlock} (hb : s.blocks[a]? = some (some b))
    (h : ControllBlock.DecreaseStrong s a = .ok (t, r)) :
    ∃ (w : Nat) (mid : List Event),
      t.blocks[a]? = some (some { b with strong := (b.strong + (SIZE_MOD - 1)) % SIZE_MOD,
                                         weak := w }) ∧
      r = ((b.strong + (SIZE_MOD - 1)) % SIZE_MOD == 0 && w == 0) ∧
      t.log = s.log ++ mid ∧
      mid.filter Event.isDestroyerCall = ControllBlock.teardownTrace a b ∧
      t.shared = s.shared := by
  unfold ControllBlock.DecreaseStrong at h
  split at h
  · cases h
  · rename_i b0 hb0
    rw [State.block_ok, hb] at hb0
    simp only [Option.some.injEq] at hb0
    subst hb0
    split at h
    · cases h
    · rename_i s1 ht
      split at h
      · cases h
      · rename_i b1 hb1
        rw [State.block_ok] at hb1
        simp only [Except.ok.injEq, Prod.mk.injEq] at h
        obtain ⟨rfl, rfl⟩ := h
        have hl1 := lt_of_getElem?_some hb1
        by_cases c : b.strong = 1
        · rw [if_pos c] at ht
          obtain ⟨e1, e2, mid, e3, e4⟩ := ControllBlock.teardown_trace ht
          obtain ⟨c1, hc1, x1, x2, x3⟩ := e2 a b hb (by omega)
          rw [hb1] at hc1
          simp only [Option.some.injEq] at hc1
          subst hc1
          refine ⟨b1.weak, mid, ?_, ?_, e3, ?_, e1⟩
          · simp only [State.setBlock, List.getElem?_set, hl1, if_true]
            rw [x1, ← x2, ← x3]
          · rw [x1]
          · rw [e4]
            have : ({ b with strong := 1 } : ControllBlock) = b := by
              cases b; simp only [ControllBlock.mk.injEq] at c ⊢; simp [c]
            rw [this]
        · rw [if_neg c] at ht
          cases ht
          rw [hb] at hb1
          simp only [Option.some.injEq] at hb1
          subst hb1
          refine ⟨b.weak, [], ?_, rfl, by simp [State.setBlock], ?_, rfl⟩
          · simp only [State.setBlock, List.getElem?_set, hl1, if_true]
          · simp [ControllBlock.teardownTrace, c]

/-- The method `DecreaseStrong` returns, unless the payload is an object deriving from
`EnableSharedFromThis` (whose destructor runs a weak handle destructor) or `Destruct` is
called through a null pointer. -/
theorem ControllBlock.DecreaseStrong_total {s : State} {a : Nat} {b : ControllBlock}
    (hb : s.blocks[a]? = some (some b))
    (hp : ∀ x, b.ptr = some x → (∀ o, x.ptr ≠ some (.esft o)) ∧
      (b.created_from_make_shared = true → x.ptr ≠ none)) :
    ∃ t r, ControllBlock.DecreaseStrong s a = .ok (t, r) := by
  have hb' := State.block_ok.2 hb
  have ht : ∃ s1, (if b.strong = 1 then ControllBlock.teardown s a b else .ok s) = .ok s1 ∧
      s1.blocks = s.blocks := by
    by_cases c : b.strong = 1
    · rw [if_pos c]
      unfold ControllBlock.teardown
      cases hx : b.ptr with
      | none => exact ⟨s, rfl, rfl⟩
      | some x =>
        obtain ⟨h1, h2⟩ := hp x hx
        by_cases f : b.created_from_make_shared = true
        · simp only [f, if_true]
          unfold AnyPtr.Destruct
          cases hq : x.ptr with
          | none => exact absurd hq (h2 f)
          | some p =>
            simp only
            rw [destroyPayload_plain _ _ (by rw [← hq]; exact h1)]
            exact ⟨_, rfl, rfl⟩
        · simp only [f]
          unfold AnyPtr.Delete
          rw [destroyPayload_plain _ _ h1]
          exact ⟨_, rfl, rfl⟩
    · rw [if_neg c]; exact ⟨s, rfl, rfl⟩
  obtain ⟨s1, h1, h2⟩ := ht
  have hb1 : s1.block a = .ok b := by rw [State.block_ok, h2]; exact hb
  unfold ControllBlock.DecreaseStrong
  rw [hb']
  simp only
  rw [h1]
  simp only
  rw [hb1]
  exact ⟨_, _, rfl⟩

theorem ControllBlock.DecreaseStrong_nonnull {s t : State} {a : Nat} {r : Bool}
    {b : ControllBlock} {x : AnyPtr} (hb : s.blocks[a]? = some (some b))
    (h : ControllBlock.DecreaseStrong s a = .ok (t, r)) (h1 : b.strong = 1)
    (hx : b.ptr = some x) (hf : b.created_from_make_shared = true) : x.ptr ≠ none := by
  intro hn
  unfold ControllBlock.DecreaseStrong at h
  rw [State.block_ok.2 hb] at h
  simp only [h1, if_true] at h
  unfold ControllBlock.teardown at h
  simp only [hx, hf, if_true] at h
  unfold AnyPtr.Destruct at h
  simp only [hn] at h
  cases h

/-- C4: on a live block `b` at `a`, `DecreaseStrong` decrements `strong` by one (in `size_t`
arithmetic); the destroyer calls it logs are exactly `teardownTrace`, so there are some iff
`strong` was 1 and the destroyer is not null, `Destruct` in place when the block comes from
`MakeShared`, `Delete` then freeing the wrapper otherwise; it returns true iff afterwards
`strong == 0` and `weak == 0`; and it does return when the payload destructor runs no handle
code. `DecreaseWeak` returns, decrements `weak` by one, logs nothing, and returns true under
the same condition. -/
theorem C4_decrease_strong_and_weak (s : State) (a : Nat) (b : ControllBlock)
    (hb : s.block a = .ok b) (hs : b.strong < SIZE_MOD) (hw : b.weak < SIZE_MOD) :
    (∀ t r, ControllBlock.DecreaseStrong s a = .ok (t, r) →
      ∃ (b' : ControllBlock) (mid : List Event), t.block a = .ok b' ∧
        (b'.strong + 1) % SIZE_MOD = b.strong ∧
        (r = true ↔ b'.strong = 0 ∧ b'.weak = 0) ∧
        t.log = s.log ++ mid ∧
        mid.filter Event.isDestroyerCall = ControllBlock.teardownTrace a b ∧
        (mid.filter Event.isDestroyerCall ≠ [] ↔ b.strong = 1 ∧ b.ptr ≠ none)) ∧
    ((∀ x, b.ptr = some x → (∀ o, x.ptr ≠ some (.esft o)) ∧
        (b.created_from_make_shared = true → x.ptr ≠ none)) →
      ∃ t r, ControllBlock.DecreaseStrong s a = .ok (t, r)) ∧
    (∃ (t : State) (b' : ControllBlock),
      ControllBlock.DecreaseWeak s a = .ok (t, b'.strong == 0 && b'.weak == 0) ∧
        t.block a = .ok b' ∧ (b'.weak + 1) % SIZE_MOD = b.weak ∧ b'.strong = b.strong ∧
        t.log = s.log) := by
  rw [State.block_ok] at hb
  have hl := lt_of_getElem?_some hb
  refine ⟨fun t r h => ?_, fun hp => ControllBlock.DecreaseStrong_total hb hp, ?_⟩
  · obtain ⟨w, mid, e1, e2, e3, e4, _⟩ := ControllBlock.DecreaseStrong_trace hb h
    refine ⟨_, mid, State.block_ok.2 e1, ?_, ?_, e3, e4, ?_⟩
    · simp only; unfold SIZE_MOD at *; omega
    · rw [e2]; simp
    · rw [e4]
      unfold ControllBlock.teardownTrace
      by_cases c : b.strong = 1
      · cases hx : b.ptr with
        | none => simp [c]
        | some x =>
          by_cases f : b.created_from_make_shared = true
          · have := ControllBlock.DecreaseStrong_nonnull hb h c hx f
            cases hq : x.ptr with
            | none => exact absurd hq this
            | some p => simp [c, f, hq]
          · simp [c, f]
      · simp [c]
  · refine ⟨s.setBlock a { b with weak := (b.weak + (SIZE_MOD - 1)) % SIZE_MOD },
      { b with weak := (b.weak + (SIZE_MOD - 1)) % SIZE_MOD }, ?_, ?_, ?_, rfl, ?_⟩
    · unfold ControllBlock.DecreaseWeak
      rw [State.block_ok.2 hb]
    · rw [State.block_ok]; simp [State.setBlock, List.getElem?_set, hl]
    · simp only; unfold SIZE_MOD at *; omega
    · rfl

/-- C4 on the block of the last handle of an adopted object. -/
theorem C4_decrease_strong_and_weak_witness :
    (∀ t r, ControllBlock.DecreaseStrong
        { blocks := [some (ControllBlock.ofPointer (some (.plain 7)))], objs := [],
          shared := [some { ptr_ := some (.plain 7), controll_ := some 0 }], weak := [],
          log := [] } 0 = .ok (t, r) →
      ∃ (b' : ControllBlock) (mid : List Event), t.block 0 = .ok b' ∧
        (b'.strong + 1) % SIZE_MOD = (ControllBlock.ofPointer (some (.plain 7))).strong ∧
        (r = true ↔ b'.strong = 0 ∧ b'.weak = 0) ∧
        t.log = [] ++ mid ∧
        mid.filter Event.isDestroyerCall
          = ControllBlock.teardownTrace 0 (ControllBlock.ofPointer (some (.plain 7))) ∧
        (mid.filter Event.isDestroyerCall ≠ [] ↔
          (ControllBlock.ofPointer (some (.plain 7))).strong = 1 ∧
          (ControllBlock.ofPointer (some (.plain 7))).ptr ≠ none)) ∧
    ControllBlock.teardownTrace 0 (ControllBlock.ofPointer (some (.plain 7)))
      = [.Delete 0 (some (.plain 7)), .FreeAnyPtr 0] :=
  ⟨(C4_decrease_strong_and_weak
      { blocks := [some (ControllBlock.ofPointer (some (.plain 7)))], objs := [],
        shared := [some { ptr_ := some (.plain 7), controll_ := some 0 }], weak := [],
        log := [] } 0 (ControllBlock.ofPointer (some (.plain 7))) rfl (by decide) (by decide)).1,
    rfl⟩

theorem live_of_strongAt {B : List (Option ControllBlock)} {a : Nat} (h : strongAt B a ≠ 0) :
    ∃ b, B[a]? = some (some b) := by
  unfold strongAt at h
  split at h
  · rename_i b hb; exact ⟨b, hb⟩
  · exact absurd rfl h

theorem live_of_weakAt {B : List (Option ControllBlock)} {a : Nat} (h : weakAt B a ≠ 0) :
    ∃ b, B[a]? = some (some b) := by
  unfold weakAt at h
  split at h
  · rename_i b hb; exact ⟨b, hb⟩
  · exact absurd rfl h

/-- The block of a live shared handle is live. -/
theorem Counted.live_of_shared {B S W} (hC : Counted B S W) {i : Nat} {h : SharedPtr} {a : Nat}
    (hi : S[i]? = some (some h)) (hc : h.controll_ = some a) :
    ∃ b, B[a]? = some (some b) ∧ b.strong = sharedRefs S a ∧ b.weak = weakRefs W a ∧
      1 ≤ b.strong := by
  have h1 := hC.1 a
  have h2 := sharedRefs_pos S i h a hi hc
  obtain ⟨b, hb⟩ := live_of_strongAt (B := B) (a := a) (by omega)
  rw [strongAt_of_get hb, weakAt_of_get hb] at h1
  exact ⟨b, hb, h1.1, h1.2, by omega⟩

/-- The block of a live weak handle is live. -/
theorem Counted.live_of_weak {B S W} (hC : Counted B S W) {i : Nat} {h : WeakPtr} {a : Nat}
    (hi : W[i]? = some (some h)) (hc : h.controll_ = some a) :
    ∃ b, B[a]? = some (some b) ∧ b.strong = sharedRefs S a ∧ b.weak = weakRefs W a ∧
      1 ≤ b.weak := by
  have h1 := hC.1 a
  have h2 := weakRefs_pos W i h a hi hc
  obtain ⟨b, hb⟩ := live_of_weakAt (B := B) (a := a) (by omega)
  rw [strongAt_of_get hb, weakAt_of_get hb] at h1
  exact ⟨b, hb, h1.1, h1.2, by omega⟩

/-- C5: in every reachable state, for a live weak handle `w` with block `a`, the block is live,
`UseCount` is its `strong`, `Expired` is true iff `strong` is 0, and `strong` is the number of
live shared handles on the block: `Expired` is false while one is live and true as soon as the
last one is destroyed, however many weak handles remain. -/
theorem C5_expired_iff_no_shared_handle (prog : List Op) (s : State) (i : Nat) (w : WeakPtr)
    (a : Nat) (hrun : run State.empty prog = .ok s) (hB : s.Bounded)
    (hw : s.getWeak i = .ok w) (hc : w.controll_ = some a) :
    ∃ b : ControllBlock, s.block a = .ok b ∧ WeakPtr.UseCount s w = .ok b.strong ∧
      WeakPtr.Expired s w = .ok (b.strong == 0) ∧ b.strong = sharedRefs s.shared a := by
  have hC : s.Counted := (run_pres hrun).2.2 State.empty_counted hB
  rw [State.getWeak_ok] at hw
  obtain ⟨b, hb, h1, _, _⟩ := Counted.live_of_weak hC hw hc
  have hb' := State.block_ok.2 hb
  have hu : WeakPtr.UseCount s w = .ok b.strong := by
    unfold WeakPtr.UseCount
    rw [hc]
    simp only
    rw [hb']
  refine ⟨b, hb', hu, ?_, h1⟩
  unfold WeakPtr.Expired
  rw [hu]

/-- C5 after the only shared handle of an adopted object is destroyed: the weak handle that
remains is expired. -/
theorem C5_expired_iff_no_shared_handle_witness :
    run State.empty [.sharedAdopt (some (.plain 7)), .weakFromShared 0, .sharedDestroy 0]
      = .ok
        ({ blocks := [some { ControllBlock.ofPointer (some (.plain 7)) with strong := 0, weak := 1 }],
           objs := [], shared := [none],
           weak := [some { ptr_ := some (.plain 7), controll_ := some 0 }],
           log := [.Delete 0 (some (.plain 7)), .FreeAnyPtr 0] } : State) ∧
    ∃ b : ControllBlock,
      State.block
        ({ blocks := [some { ControllBlock.ofPointer (some (.plain 7)) with strong := 0, weak := 1 }],
           objs := [], shared := [none],
           weak := [some { ptr_ := some (.plain 7), controll_ := some 0 }],
           log := [.Delete 0 (some (.plain 7)), .FreeAnyPtr 0] } : State) 0 = .ok b ∧
      WeakPtr.UseCount
        ({ blocks := [some { ControllBlock.ofPointer (some (.plain 7)) with strong := 0, weak := 1 }],
           objs := [], shared := [none],
           weak := [some { ptr_ := some (.plain 7), controll_ := some 0 }],
           log := [.Delete 0 (some (.plain 7)), .FreeAnyPtr 0] } : State)
        { ptr_ := some (.plain 7), controll_ := some 0 } = .ok b.strong ∧
      WeakPtr.Expired
        ({ blocks := [some { ControllBlock.ofPointer (some (.plain 7)) with strong := 0, weak := 1 }],
           objs := [], shared := [none],
           weak := [some { ptr_ := some (.plain 7), controll_ := some 0 }],
           log := [.Delete 0 (some (.plain 7)), .FreeAnyPtr 0] } : State)
        { ptr_ := some (.plain 7), controll_ := some 0 } = .ok (b.strong == 0) ∧
      b.strong = sharedRefs [none] 0 :=
  ⟨rfl, C5_expired_iff_no_shared_handle
    [.sharedAdopt (some (.plain 7)), .weakFromShared 0, .sharedDestroy 0] _ 0
    { ptr_ := some (.plain 7), controll_ := some 0 } 0 rfl ⟨by decide, by decide⟩ rfl rfl⟩

/-- C6 as stated fails: a weak handle taken from a default constructed shared handle is not
expired (`UseCount` 1), and the handle `Lock` returns shares its block, but with a null object
pointer its `UseCount` is 0, not 2. -/
theorem C6_lock_use_count_counterexample :
    ∃ (s t : State) (w : WeakPtr) (h : SharedPtr),
      run State.empty [.sharedDefault, .weakFromShared 0] = .ok s ∧
      s.getWeak 0 = .ok w ∧ WeakPtr.Expired s w = .ok false ∧ WeakPtr.UseCount s w = .ok 1 ∧
      WeakPtr.Lock s 0 = .ok t ∧ t.getShared 1 = .ok h ∧ h.controll_ = w.controll_ ∧
      SharedPtr.UseCount t h = .ok 0 :=
  ⟨_, _, _, _, rfl, rfl, rfl, rfl, rfl, rfl, rfl, rfl⟩

/-- C6, amended: `Lock` on an expired weak handle returns, without raising, a default
constructed shared handle (null object pointer, `UseCount` 0). `Lock` on a weak handle whose
block `a` has `strong` not 0 returns a shared handle with the weak handle's object pointer and
block, whose `strong` is one greater than before; the `UseCount` of the new handle is the weak
handle's `UseCount` plus one when the object pointer is not null, and 0 when it is null. The
call returns when the object pointer is not to an object deriving from
`EnableSharedFromThis`. -/
theorem C6_lock_amended (s : State) (i : Nat) (w : WeakPtr) (hw : s.getWeak i = .ok w) :
    (WeakPtr.Expired s w = .ok true →
      WeakPtr.Lock s i = .ok (SharedPtr.ctorDefault s) ∧
      (SharedPtr.ctorDefault s).log = s.log ∧
      (SharedPtr.ctorDefault s).getShared s.shared.length
        = .ok { ptr_ := none, controll_ := some s.blocks.length } ∧
      SharedPtr.UseCount (SharedPtr.ctorDefault s)
        { ptr_ := none, controll_ := some s.blocks.length } = .ok 0) ∧
    (∀ (a : Nat) (b : ControllBlock), w.controll_ = some a → s.block a = .ok b →
      b.strong ≠ 0 → b.strong + 1 < SIZE_MOD →
      WeakPtr.Expired s w = .ok false ∧ WeakPtr.UseCount s w = .ok b.strong ∧
      ((∀ o, w.ptr_ ≠ some (.esft o)) → ∃ t, WeakPtr.Lock s i = .ok t) ∧
      ∀ t, WeakPtr.Lock s i = .ok t →
        t.getShared s.shared.length = .ok { ptr_ := w.ptr_, controll_ := some a } ∧
        (∃ b' : ControllBlock, t.block a = .ok b' ∧ b'.strong = b.strong + 1) ∧
        SharedPtr.UseCount t { ptr_ := w.ptr_, controll_ := some a }
          = .ok (if w.ptr_ = none then 0 else b.strong + 1)) := by
  constructor
  · intro he
    refine ⟨?_, rfl, ?_, rfl⟩
    · simp [WeakPtr.Lock, bind_ok, hw, he, pure, Except.pure]
    · simp [SharedPtr.ctorDefault, State.getShared, State.pushShared, State.newBlock]
  · intro a b hc hb hz hlt
    have hu : WeakPtr.UseCount s w = .ok b.strong := by
      unfold WeakPtr.UseCount; rw [hc]; simp only; rw [hb]
    have he : WeakPtr.Expired s w = .ok false := by
      unfold WeakPtr.Expired; rw [hu]; simp [hz]
    have hb' := State.block_ok.1 hb
    have hl := lt_of_getElem?_some hb'
    have hinc : ControllBlock.IncreaseStrong s a
        = .ok (s.setBlock a { b with strong := (b.strong + 1) % SIZE_MOD }) := by
      unfold ControllBlock.IncreaseStrong; rw [hb]
    have hmod : (b.strong + 1) % SIZE_MOD = b.strong + 1 := Nat.mod_eq_of_lt hlt
    have hlock : WeakPtr.Lock s i = SharedPtr.linkIfEnabled
        ((s.setBlock a { b with strong := (b.strong + 1) % SIZE_MOD }).pushShared
          { ptr_ := w.ptr_, controll_ := some a }) s.shared.length w.ptr_ := by
      simp [WeakPtr.Lock, hw, he, bind, Except.bind, SharedPtr.ctorPrivate, hc, deref, hinc]
    refine ⟨he, hu, fun hp => ?_, fun t ht => ?_⟩
    · rw [hlock]
      unfold SharedPtr.linkIfEnabled
      split
      · rename_i o ho; exact absurd ho (hp o)
      · exact ⟨_, rfl⟩
    · rw [hlock] at ht
      obtain ⟨e1, _, e3, _⟩ := SharedPtr.linkIfEnabled_side ht
      have hblk : ((s.setBlock a { b with strong := (b.strong + 1) % SIZE_MOD }).pushShared
          { ptr_ := w.ptr_, controll_ := some a }).blocks[a]?
          = some (some { b with strong := (b.strong + 1) % SIZE_MOD }) := by
        simp [State.setBlock, State.pushShared, List.getElem?_set, hl]
      obtain ⟨b', hb2, x1, _, _⟩ := e3 a _ hblk (by simp only; omega)
      have hb3 : t.block a = .ok b' := State.block_ok.2 hb2
      have hs' : b'.strong = b.strong + 1 := by rw [x1]; exact hmod
      refine ⟨?_, ⟨b', hb3, hs'⟩, ?_⟩
      · rw [State.getShared_ok, e1]
        simp [State.setBlock, State.pushShared]
      · unfold SharedPtr.UseCount
        cases hp : w.ptr_ with
        | none => simp
        | some p => simp [deref, hb3, hs']

/-- C6, amended, on a live weak handle of an adopted object. -/
theorem C6_lock_amended_witness :
    run State.empty [.sharedAdopt (some (.plain 7)), .weakFromShared 0]
      = .ok exampleOwnedAndObserved ∧
    ∀ t, WeakPtr.Lock exampleOwnedAndObserved 0 = .ok t →
      t.getShared 1 = .ok { ptr_ := some (.plain 7), controll_ := some 0 } ∧
      (∃ b' : ControllBlock, t.block 0 = .ok b' ∧ b'.strong = 1 + 1) ∧
      SharedPtr.UseCount t { ptr_ := some (.plain 7), controll_ := some 0 } = .ok (1 + 1) :=
  ⟨rfl,
    ((C6_lock_amended exampleOwnedAndObserved 0
      { ptr_ := some (.plain 7), controll_ := some 0 } rfl).2 0
      { strong := 1, weak := 1, ptr := some { ptr := some (.plain 7) },
        created_from_make_shared := false } rfl rfl (by decide) (by decide)).2.2.2⟩

/-- C7 fails on `SharedPtr<T> s; WeakPtr<T> w(s); SharedPtr<T> p(w);`: the weak handle `w` has a
live block with `strong` 1, nothing is thrown, yet the promoted handle `p` (slot 1) ends up
with a null `controll_` and the block's `strong` is still 1. -/
theorem C7_promotion_leaves_null_block :
    ∃ (s t : State) (w : WeakPtr) (p : SharedPtr) (b b' : ControllBlock),
      run State.empty [.sharedDefault, .weakFromShared 0] = .ok s ∧
      s.getWeak 0 = .ok w ∧ w.controll_ = some 0 ∧ s.block 0 = .ok b ∧ b.strong = 1 ∧
      SharedPtr.ctorWeak s 0 = .ok t ∧ t.log = [] ∧
      t.getShared 1 = .ok p ∧ p.controll_ = none ∧
      t.block 0 = .ok b' ∧ b'.strong = 1 :=
  ⟨_, _, _, _, _, _, rfl, rfl, rfl, rfl, rfl, rfl, rfl, rfl, rfl, rfl, rfl⟩

/-- C8 fails on `SharedPtr<T> a; SharedPtr<T> b(new T); a = std::move(b);`: the destination
(slot 0) takes over pointer and block with `strong` still 1, but the source (slot 1) is left
with a null `controll_`; the move constructor on the same source leaves it a new block with
`strong` 1 and `weak` 0. -/
theorem C8_move_assignment_nulls_source_block :
    (∃ (t : State) (b : ControllBlock),
      run State.empty [.sharedDefault, .sharedAdopt (some (.plain 7)), .sharedMoveAssign 0 1]
        = .ok t ∧
      t.getShared 0 = .ok { ptr_ := some (.plain 7), controll_ := some 1 } ∧
      t.block 1 = .ok b ∧ b.strong = 1 ∧
      t.getShared 1 = .ok { ptr_ := none, controll_ := none }) ∧
    (∃ (t : State) (b : ControllBlock),
      run State.empty [.sharedAdopt (some (.plain 7)), .sharedMove 0] = .ok t ∧
      t.getShared 1 = .ok { ptr_ := some (.plain 7), controll_ := some 0 } ∧
      t.getShared 0 = .ok { ptr_ := none, controll_ := some 1 } ∧
      t.block 1 = .ok b ∧ b.strong = 1 ∧ b.weak = 0) :=
  ⟨⟨_, _, rfl, rfl, rfl, rfl, rfl⟩, ⟨_, _, rfl, rfl, rfl, rfl, rfl, rfl⟩⟩

/-- C9 fails on `SharedPtr<T> a; SharedPtr<T> b(new T); a = std::move(b);` followed by
`b.Reset()`, by a copy construction from `b`, or by a `WeakPtr` construction from `b`: the live
handle `b` has a null `controll_` and each of the three dereferences it. A default constructed
handle does have a null object pointer and a block of its own with `strong` 1 and `weak` 0. -/
theorem C9_moved_from_handle_has_null_block :
    (∃ t : State,
      run State.empty [.sharedDefault, .sharedAdopt (some (.plain 7)), .sharedMoveAssign 0 1]
        = .ok t ∧
      t.getShared 1 = .ok { ptr_ := none, controll_ := none } ∧
      SharedPtr.Reset t 1 = .error .nullDeref ∧
      SharedPtr.ctorCopy t 1 = .error .nullDeref ∧
      WeakPtr.ctorShared t 1 = .error .nullDeref) ∧
    (SharedPtr.ctorDefault State.empty).getShared 0 = .ok { ptr_ := none, controll_ := some 0 } ∧
    (SharedPtr.ctorDefault State.empty).block 0 = .ok (ControllBlock.ofCounts 1 0) :=
  ⟨⟨_, rfl, rfl, rfl, rfl, rfl⟩, rfl, rfl⟩

/-! ## What unlinking a shared handle does -/

/-- The blocks other than `a` that have a non-zero `strong` survive `DecreaseStrong` on `a`. -/
theorem ControllBlock.DecreaseStrong_others {s t : State} {a : Nat} {r : Bool}
    (h : ControllBlock.DecreaseStrong s a = .ok (t, r)) (c : Nat) (bc : ControllBlock)
    (hca : c ≠ a) (hbc : s.blocks[c]? = some (some bc)) (hz : bc.strong ≠ 0) :
    ∃ bc' : ControllBlock, t.blocks[c]? = some (some bc') ∧ bc'.strong = bc.strong ∧
      bc'.ptr = bc.ptr ∧ bc'.created_from_make_shared = bc.created_from_make_shared := by
  unfold ControllBlock.DecreaseStrong at h
  split at h
  · cases h
  · rename_i b0 hb0
    split at h
    · cases h
    · rename_i s1 ht
      split at h
      · cases h
      · rename_i b1 hb1
        simp only [Except.ok.injEq, Prod.mk.injEq] at h
        obtain ⟨rfl, _⟩ := h
        have hs1 : ∃ bc' : ControllBlock, s1.blocks[c]? = some (some bc') ∧
            bc'.strong = bc.strong ∧ bc'.ptr = bc.ptr ∧
            bc'.created_from_make_shared = bc.created_from_make_shared := by
          by_cases e : b0.strong = 1
          · rw [if_pos e] at ht
            exact (ControllBlock.teardown_trace ht).2.1 c bc hbc hz
          · rw [if_neg e] at ht; cases ht; exact ⟨bc, hbc, rfl, rfl, rfl⟩
        obtain ⟨bc', h1, h2⟩ := hs1
        refine ⟨bc', ?_, h2⟩
        simp only [State.setBlock]
        rw [List.getElem?_set_ne (fun x => hca x.symm)]
        exact h1

/-- The private method `SharedPtr::UnlinkWithControllBlock` on a handle whose block `ba` at
`a` is live: `w` is the `weak` of the block after the payload teardown, if any. -/
theorem SharedPtr.shared_unlink_trace {s t : State} {h : SharedPtr} {a : Nat}
    {ba : ControllBlock} (hc : h.controll_ = some a) (hb : s.blocks[a]? = some (some ba))
    (hu : SharedPtr.UnlinkWithControllBlock s h = .ok t) :
    ∃ (w : Nat) (mid : List Event), t.log = s.log ++ mid ∧
      mid.filter Event.isDestroyerCall = ControllBlock.teardownTrace a ba ∧
      t.shared = s.shared ∧
      (((ba.strong + (SIZE_MOD - 1)) % SIZE_MOD = 0 ∧ w = 0) →
        t.blocks[a]? = some none) ∧
      (¬ ((ba.strong + (SIZE_MOD - 1)) % SIZE_MOD = 0 ∧ w = 0) →
        t.blocks[a]? = some (some { ba with
          strong := (ba.strong + (SIZE_MOD - 1)) % SIZE_MOD, weak := w })) ∧
      (∀ (c : Nat) (bc : ControllBlock), c ≠ a → s.blocks[c]? = some (some bc) →
        bc.strong ≠ 0 →
        ∃ bc' : ControllBlock, t.blocks[c]? = some (some bc') ∧ bc'.strong = bc.strong ∧
          bc'.ptr = bc.ptr ∧ bc'.created_from_make_shared = bc.created_from_make_shared) := by
  unfold SharedPtr.UnlinkWithControllBlock at hu
  rw [hc] at hu
  simp only at hu
  split at hu
  · cases hu
  · rename_i s2 r hd
    obtain ⟨w, mid, e1, e2, e3, e4, e5⟩ := ControllBlock.DecreaseStrong_trace hb hd
    have ho := ControllBlock.DecreaseStrong_others hd
    by_cases hr' : r = true
    · rw [if_pos hr'] at hu
      obtain ⟨b2, hb2, x1, x2, x3, x4, x5⟩ := releaseBlock_ok hu
      rw [hr'] at e2
      simp only [Bool.true_eq, Bool.and_eq_true, beq_iff_eq] at e2
      refine ⟨w, mid ++ [if b2.created_from_make_shared then .FreeBuffer a else .FreeBlock a],
        by rw [x5, e3]; simp, ?_, by rw [x2, e5], fun _ => ?_, fun hn => absurd e2 hn,
        fun c bc hca hbc hz => ?_⟩
      · rw [List.filter_append, e4]
        split <;> simp [Event.isDestroyerCall]
      · rw [x1]; simp [List.getElem?_set, lt_of_getElem?_some hb2]
      · obtain ⟨bc', h1, h2⟩ := ho c bc hca hbc hz
        refine ⟨bc', ?_, h2⟩
        rw [x1, List.getElem?_set_ne (fun x => hca x.symm)]
        exact h1
    · rw [if_neg hr'] at hu
      cases hu
      refine ⟨w, mid, e3, e4, e5, fun hz => ?_, fun _ => e1, ho⟩
      exfalso
      apply hr'
      rw [e2]
      simp [hz.1, hz.2]

/-- Two live shared handles in different slots on the same block count for two. -/
theorem sharedRefs_two (S : List (Option SharedPtr)) (i j : Nat) (x y : SharedPtr) (a : Nat)
    (hi : S[i]? = some (some x)) (hj : S[j]? = some (some y)) (hij : i ≠ j)
    (hx : x.controll_ = some a) (hy : y.controll_ = some a) : 2 ≤ sharedRefs S a := by
  have h1 := sharedRefs_set S i none (some x) a hi
  have hj' : (S.set i none)[j]? = some (some y) := by
    rw [List.getElem?_set_ne hij]; exact hj
  have h2 := sharedRefs_pos (S.set i none) j y a hj' hy
  simp [hx] at h1
  omega

/-- The private method `SharedPtr::UnlinkWithControllBlock` returns when the block of the
handle, if any, is live and its payload destructor runs no handle code. -/
theorem SharedPtr.shared_unlink_total {s : State} {h : SharedPtr}
    (hp : ∀ (a : Nat), h.controll_ = some a → ∃ ba : ControllBlock,
      s.blocks[a]? = some (some ba) ∧ ∀ x, ba.ptr = some x → (∀ o, x.ptr ≠ some (.esft o)) ∧
        (ba.created_from_make_shared = true → x.ptr ≠ none)) :
    ∃ t, SharedPtr.UnlinkWithControllBlock s h = .ok t := by
  unfold SharedPtr.UnlinkWithControllBlock
  cases hc : h.controll_ with
  | none => exact ⟨s, rfl⟩
  | some a =>
    obtain ⟨ba, hb, hx⟩ := hp a hc
    obtain ⟨t1, r, hd⟩ := ControllBlock.DecreaseStrong_total hb hx
    obtain ⟨w, mid, e1, _⟩ := ControllBlock.DecreaseStrong_trace hb hd
    simp only [hd]
    by_cases hr : r = true
    · rw [if_pos hr]
      unfold releaseBlock
      rw [State.block_ok.2 e1]
      exact ⟨_, rfl⟩
    · rw [if_neg hr]; exact ⟨_, rfl⟩

end SmartPointers
namespace SmartPointers

/-- C10 as stated fails when the two handles already share their block (an aliasing handle):
after `a = b` the block's `strong` is 2 as before, not 3. -/
theorem C10_copy_assignment_counterexample :
    ∃ (s t : State) (a b : SharedPtr) (c c' : ControllBlock),
      run State.empty [.sharedAdopt (some (.plain 7)), .sharedAlias 0 (some (.plain 8))]
        = .ok s ∧
      s.getShared 0 = .ok a ∧ s.getShared 1 = .ok b ∧ a.Get ≠ b.Get ∧
      b.controll_ = some 0 ∧ s.block 0 = .ok c ∧ c.strong = 2 ∧
      SharedPtr.assignCopy s 0 1 = .ok t ∧ t.block 0 = .ok c' ∧ c'.strong = 2 :=
  ⟨_, _, _, _, _, _, rfl, rfl, rfl, by decide, rfl, rfl, rfl, rfl, rfl, rfl⟩

/-- C10, amended: in a reachable state, for handles `d` (in slot `dst`) and `o` (in slot `src`):
if their object pointers are equal, `dst = src` changes nothing. Otherwise, when `o` has a
block `c`, the assignment returns if the payload destructor of `d`'s block runs no handle
code, and after it `dst` holds `o`'s pointer and block; the `strong` of `c` is one greater than
before if `d` was on another block (or none) and unchanged if `d` was on `c` already; and a
previous block `a` of `d` other than `c` had its destroyer called iff its `strong` was 1 and it
has a destroyer, and is freed iff `strong` was 1 and its `weak` is 0 after that, and else has
`strong` one less. -/
theorem C10_copy_assignment_amended (prog : List Op) (s : State) (dst src : Nat)
    (d o : SharedPtr) (hrun : run State.empty prog = .ok s) (hB : s.Bounded)
    (hd : s.getShared dst = .ok d) (ho : s.getShared src = .ok o) :
    (d.Get = o.Get → SharedPtr.assignCopy s dst src = .ok s) ∧
    (d.Get ≠ o.Get → ∀ c, o.controll_ = some c →
      ((∀ (a : Nat) (ba : ControllBlock) (x : AnyPtr), d.controll_ = some a →
          s.block a = .ok ba → ba.ptr = some x →
          (∀ e, x.ptr ≠ some (.esft e)) ∧ (ba.created_from_make_shared = true → x.ptr ≠ none)) →
        ∃ t, SharedPtr.assignCopy s dst src = .ok t) ∧
      ∀ t, SharedPtr.assignCopy s dst src = .ok t →
        t.getShared dst = .ok { ptr_ := o.ptr_, controll_ := some c } ∧
        (∃ bc bc' : ControllBlock, s.block c = .ok bc ∧ t.block c = .ok bc' ∧
          bc'.strong = if d.controll_ = some c then bc.strong else bc.strong + 1) ∧
        (∀ (a : Nat) (ba : ControllBlock), d.controll_ = some a → a ≠ c →
          s.block a = .ok ba →
          ∃ (w : Nat) (mid : List Event), t.log = s.log ++ mid ∧
            mid.filter Event.isDestroyerCall = ControllBlock.teardownTrace a ba ∧
            ((ba.strong = 1 ∧ w = 0) → t.blocks[a]? = some none) ∧
            (¬ (ba.strong = 1 ∧ w = 0) →
              ∃ ba' : ControllBlock, t.block a = .ok ba' ∧ ba'.strong + 1 = ba.strong ∧
                ba'.weak = w))) := by
  have hC : s.Counted := (run_pres hrun).2.2 State.empty_counted hB
  have hd' := State.getShared_ok.1 hd
  have ho' := State.getShared_ok.1 ho
  constructor
  · intro he
    simp [SharedPtr.assignCopy, hd, ho, he, bind, Except.bind, pure, Except.pure]
  · intro hne c hoc
    have hds : dst ≠ src := by
      intro e; subst e; rw [hd] at ho; cases ho; exact hne rfl
    obtain ⟨bc, hbc, hbc1, _, hbc3⟩ := Counted.live_of_shared hC ho' hoc
    have hlen := sharedRefs_le s.shared c
    have hSlt := hB.1
    -- the state after unlinking `d`
    have key : ∀ s1, SharedPtr.UnlinkWithControllBlock s d = .ok s1 →
        ∃ b1 : ControllBlock, s1.blocks[c]? = some (some b1) ∧
          (b1.strong + 1) % SIZE_MOD
            = (if d.controll_ = some c then bc.strong else bc.strong + 1) ∧
          ∀ (a : Nat) (ba : ControllBlock), d.controll_ = some a → a ≠ c →
            s.block a = .ok ba →
            ∃ (w : Nat) (mid : List Event), s1.log = s.log ++ mid ∧
              mid.filter Event.isDestroyerCall = ControllBlock.teardownTrace a ba ∧
              ((ba.strong = 1 ∧ w = 0) → s1.blocks[a]? = some none) ∧
              (¬ (ba.strong = 1 ∧ w = 0) →
                ∃ ba' : ControllBlock, s1.blocks[a]? = some (some ba') ∧
                  ba'.strong + 1 = ba.strong ∧ ba'.weak = w) := by
      intro s1 hu
      cases hdc : d.controll_ with
      | none =>
        unfold SharedPtr.UnlinkWithControllBlock at hu
        rw [hdc] at hu
        cases hu
        refine ⟨bc, hbc, ?_, fun a ba h => by cases h⟩
        have h1 := sharedRefs_set_lt s.shared dst (some d) (some d) c hd' (by simp [hdc])
        have h2 := sharedRefs_set s.shared dst (some d) (some d) c hd'
        simp only [if_neg (by simp : ¬ (none : Option Nat) = some c)]
        unfold SIZE_MOD at *
        omega
      | some a =>
        obtain ⟨ba, hba, hba1, _, hba3⟩ := Counted.live_of_shared hC hd' hdc
        have hlena := sharedRefs_le s.shared a
        obtain ⟨w, mid, e1, e2, e3, e4, e5, e6⟩ := SharedPtr.shared_unlink_trace hdc hba hu
        by_cases hac : a = c
        · subst hac
          rw [hba] at hbc
          simp only [Option.some.injEq] at hbc
          subst hbc
          have h2 := sharedRefs_two s.shared dst src d o a hd' ho' hds hdc hoc
          have hnz : ¬ ((ba.strong + (SIZE_MOD - 1)) % SIZE_MOD = 0 ∧ w = 0) := by
            unfold SIZE_MOD at *; omega
          refine ⟨_, e5 hnz, ?_, fun a' ba' h hne' => ?_⟩
          · simp only [if_true]
            unfold SIZE_MOD at *; omega
          · simp only [Option.some.injEq] at h
            exact absurd h.symm hne'
        · obtain ⟨bc', hbc', x1, _, _⟩ := e6 c bc (fun x => hac x.symm) hbc (by omega)
          refine ⟨bc', hbc', ?_, fun a' ba' h hne' hba' => ?_⟩
          · have h1 := sharedRefs_set_lt s.shared dst none (some d) c hd' rfl
            have h2 := sharedRefs_set s.shared dst none (some d) c hd'
            simp [hdc, unit_ne hac] at h2
            have : ¬ (some a = some c) := by simp [hac]
            simp only [if_neg this]
            rw [x1]
            unfold SIZE_MOD at *; omega
          · simp only [Option.some.injEq] at h
            subst h
            rw [State.block_ok, hba] at hba'
            simp only [Option.some.injEq] at hba'
            subst hba'
            have hiff : ((ba.strong + (SIZE_MOD - 1)) % SIZE_MOD = 0 ∧ w = 0)
                ↔ (ba.strong = 1 ∧ w = 0) := by
              unfold SIZE_MOD at *; omega
            refine ⟨w, mid, e1, e2, fun hz => e4 (hiff.2 hz), fun hz => ?_⟩
            refine ⟨_, e5 (fun h => hz (hiff.1 h)), ?_, rfl⟩
            simp only
            unfold SIZE_MOD at *; omega
    constructor
    · intro hp
      obtain ⟨s1, hu⟩ := SharedPtr.shared_unlink_total (s := s) (h := d) (by
        intro a hda
        obtain ⟨ba, hba, _⟩ := Counted.live_of_shared hC hd' hda
        exact ⟨ba, hba, fun x hx => hp a ba x hda (State.block_ok.2 hba) hx⟩)
      obtain ⟨b1, hb1, _⟩ := key s1 hu
      refine ⟨(s1.setBlock c { b1 with strong := (b1.strong + 1) % SIZE_MOD }).setShared dst
        (some { ptr_ := o.ptr_, controll_ := o.controll_ }), ?_⟩
      simp only [SharedPtr.assignCopy, hd, ho, bind, Except.bind, SharedPtr.Get] at hne ⊢
      rw [if_neg hne]
      simp only [hu, hoc, deref, ControllBlock.IncreaseStrong, State.block_ok.2 hb1, pure,
        Except.pure]
    · intro t ht
      simp only [SharedPtr.assignCopy, bind_ok, hd, ho, Except.ok.injEq, exists_eq_left'] at ht
      rw [if_neg hne] at ht
      simp only [bind_ok, pure, Except.pure, Except.ok.injEq] at ht
      obtain ⟨s1, hu, a, ha, s2, hs2, rfl⟩ := ht
      rw [deref_ok, hoc] at ha
      simp only [Option.some.injEq] at ha
      subst ha
      obtain ⟨b1, hb1, rfl⟩ := ControllBlock.IncreaseStrong_ok hs2
      obtain ⟨b1', hb1', h2, h3⟩ := key s1 hu
      rw [hb1] at hb1'
      simp only [Option.some.injEq] at hb1'
      subst hb1'
      obtain ⟨f1, _⟩ := SharedPtr.shared_unlink_frame hu
      have hl1 := lt_of_getElem?_some hb1
      refine ⟨?_, ⟨bc, { b1 with strong := (b1.strong + 1) % SIZE_MOD },
        State.block_ok.2 hbc, ?_, h2⟩, fun a ba hda hac hba => ?_⟩
      · rw [State.getShared_ok]
        simp [State.setShared, State.setBlock, f1, List.getElem?_set, lt_of_getElem?_some hd',
          hoc]
      · rw [State.block_ok]
        simp [State.setShared, State.setBlock, List.getElem?_set, hl1]
      · obtain ⟨w, mid, y1, y2, y3, y4⟩ := h3 a ba hda hac hba
        refine ⟨w, mid, y1, y2, fun hz => ?_, fun hz => ?_⟩
        · have := y3 hz
          simp only [State.setShared, State.setBlock]
          rw [List.getElem?_set_ne (fun x => hac x.symm)]
          exact this
        · obtain ⟨ba', z1, z2, z3⟩ := y4 hz
          refine ⟨ba', ?_, z2, z3⟩
          rw [State.block_ok]
          simp only [State.setShared, State.setBlock]
          rw [List.getElem?_set_ne (fun x => hac x.symm)]
          exact z1

end SmartPointers
namespace SmartPointers

/-- C10, amended, on `a = b` for two handles owning different objects: `a`'s object is torn
down and its block freed, `b`'s block gets `strong` 2. -/
theorem C10_copy_assignment_amended_witness :
    run State.empty [.sharedAdopt (some (.plain 7)), .sharedAdopt (some (.plain 8))]
      = .ok exampleTwoOwners ∧
    ∀ t, SharedPtr.assignCopy exampleTwoOwners 0 1 = .ok t →
      t.getShared 0 = .ok { ptr_ := some (.plain 8), controll_ := some 1 } ∧
      (∃ bc bc' : ControllBlock, exampleTwoOwners.block 1 = .ok bc ∧ t.block 1 = .ok bc' ∧
        bc'.strong = if (some 0 : Option Nat) = some 1 then bc.strong else bc.strong + 1) ∧
      (∀ (a : Nat) (ba : ControllBlock), (some 0 : Option Nat) = some a → a ≠ 1 →
        exampleTwoOwners.block a = .ok ba →
        ∃ (w : Nat) (mid : List Event), t.log = [] ++ mid ∧
          mid.filter Event.isDestroyerCall = ControllBlock.teardownTrace a ba ∧
          ((ba.strong = 1 ∧ w = 0) → t.blocks[a]? = some none) ∧
          (¬ (ba.strong = 1 ∧ w = 0) →
            ∃ ba' : ControllBlock, t.block a = .ok ba' ∧ ba'.strong + 1 = ba.strong ∧
              ba'.weak = w)) :=
  ⟨rfl, (((C10_copy_assignment_amended
    [.sharedAdopt (some (.plain 7)), .sharedAdopt (some (.plain 8))] exampleTwoOwners 0 1
    { ptr_ := some (.plain 7), controll_ := some 0 }
    { ptr_ := some (.plain 8), controll_ := some 1 } rfl ⟨by decide, by decide⟩ rfl rfl).2
    (by decide)) 1 rfl).2⟩

/-! ## One adopted object: copies and destructions of its handles -/

theorem SharedPtr.unlink_weak_eq {s t : State} {h : SharedPtr} {a : Nat} {ba : ControllBlock}
    (hc : h.controll_ = some a) (hb : s.blocks[a]? = some (some ba)) (h1 : ba.strong ≠ 1)
    (hu : SharedPtr.UnlinkWithControllBlock s h = .ok t) : t.weak = s.weak := by
  unfold SharedPtr.UnlinkWithControllBlock at hu
  rw [hc] at hu
  simp only at hu
  unfold ControllBlock.DecreaseStrong at hu
  rw [State.block_ok.2 hb] at hu
  simp only [if_neg h1] at hu
  rw [State.block_ok.2 hb] at hu
  simp only at hu
  split at hu
  · unfold releaseBlock at hu
    split at hu
    · cases hu
    · cases hu; rfl
  · cases hu; rfl

theorem OwnedBy.copy {s0 s t : State} {a0 : Nat} {p : Option Pointer} {i : Nat}
    (hO : OwnedBy s0 s a0 p) (h : SharedPtr.ctorCopy s i = .ok t) (hB : t.Bounded) :
    OwnedBy s0 t a0 p := by
  obtain ⟨hC, hJ, hP⟩ := hO
  have hCt : t.Counted := (SharedPtr.shared_ctorCopy_pres h).2.2 hC hB
  simp only [SharedPtr.ctorCopy, bind_ok, pure, Except.pure, Except.ok.injEq] at h
  obtain ⟨o, ho, a, ha, s1, hs1, rfl⟩ := h
  obtain ⟨b, hb, rfl⟩ := ControllBlock.IncreaseStrong_ok hs1
  rw [State.getShared_ok] at ho
  rw [deref_ok] at ha
  have ha0 := hJ i o ho
  rw [ha] at ha0
  simp only [Option.some.injEq] at ha0
  subst ha0
  refine ⟨hCt, fun j h hj => ?_, ?_⟩
  · simp only [State.pushShared, State.setBlock] at hj
    rw [List.getElem?_append] at hj
    by_cases l : j < s.shared.length
    · rw [if_pos l] at hj; exact hJ j h hj
    · rw [if_neg l] at hj
      by_cases e : j - s.shared.length = 0
      · rw [e] at hj; simp at hj; subst hj; exact ha
      · obtain ⟨n, hn⟩ : ∃ n, j - s.shared.length = n + 1 := ⟨j - s.shared.length - 1, by omega⟩
        rw [hn] at hj; simp at hj
  · rcases hP with ⟨_, ⟨b', hb', hp, hf⟩, hl, hw, hob⟩ | ⟨hn, _⟩
    · left
      rw [hb] at hb'
      simp only [Option.some.injEq] at hb'
      subst hb'
      refine ⟨⟨i, o, ?_⟩, ⟨{ b with strong := (b.strong + 1) % SIZE_MOD }, ?_, hp, hf⟩, hl, hw,
        hob⟩
      · simp only [State.pushShared, State.setBlock]
        rw [List.getElem?_append_left (lt_of_getElem?_some ho)]; exact ho
      · simp [State.pushShared, State.setBlock, List.getElem?_set, lt_of_getElem?_some hb]
    · exact absurd ho (hn i o)

theorem OwnedBy.destroy {s0 s t : State} {a0 : Nat} {p : Option Pointer} {i : Nat}
    (hO : OwnedBy s0 s a0 p) (h : SharedPtr.dtor s i = .ok t) (hB : t.Bounded) :
    OwnedBy s0 t a0 p := by
  obtain ⟨hC, hJ, hP⟩ := hO
  have hCt : t.Counted := (SharedPtr.shared_dtor_pres h).2.2 hC hB
  obtain ⟨x, s1, hi, hu, rfl⟩ := SharedPtr.shared_dtor_ok h
  have hxa := hJ i x hi
  obtain ⟨f1, f2, f3, f4⟩ := SharedPtr.shared_unlink_frame hu
  have hJt : ∀ (j : Nat) (h : SharedPtr),
      (s1.setShared i none).shared[j]? = some (some h) → h.controll_ = some a0 := by
    intro j h hj
    simp only [State.setShared, f1, List.getElem?_set] at hj
    by_cases e : i = j
    · rw [if_pos e] at hj
      split at hj <;> simp at hj
    · rw [if_neg e] at hj; exact hJ j h hj
  refine ⟨hCt, hJt, ?_⟩
  rcases hP with ⟨_, ⟨b, hb, hp, hf⟩, hl, hw, hob⟩ | ⟨hn, _⟩
  · obtain ⟨w, mid, e1, e2, e3, e4, e5, _⟩ := SharedPtr.shared_unlink_trace hxa hb hu
    have hk := (hC.1 a0).1
    rw [strongAt_of_get hb] at hk
    have hpos := sharedRefs_pos s.shared i x a0 hi hxa
    have hle := sharedRefs_le s.shared a0
    have hSl : s.shared.length < SIZE_MOD := by
      have := hB.1; simpa [State.setShared, f1] using this
    by_cases k1 : b.strong = 1
    · right
      constructor
      · intro j h hj
        simp only [State.setShared, f1, List.getElem?_set] at hj
        by_cases e : i = j
        · rw [if_pos e] at hj
          split at hj <;> simp at hj
        · rw [if_neg e] at hj
          have := sharedRefs_two s.shared i j x h a0 hi hj e hxa (hJ j h hj)
          omega
      · show List.filter Event.isDestroyerCall s1.log = _
        rw [e1, List.filter_append, hl, e2]
        simp [ControllBlock.teardownTrace, k1, hp, hf]
    · left
      have hnz : ¬ ((b.strong + (SIZE_MOD - 1)) % SIZE_MOD = 0 ∧ w = 0) := by
        unfold SIZE_MOD at *; omega
      have hr := sharedRefs_set s.shared i none (some x) a0 hi
      simp [hxa] at hr
      have hex : 0 < sharedRefs (s.shared.set i none) a0 := by omega
      unfold sharedRefs at hex
      rw [List.countP_pos_iff] at hex
      obtain ⟨y, hy, hty⟩ := hex
      obtain ⟨j, hj⟩ := List.mem_iff_getElem?.1 hy
      cases y with
      | none => simp at hty
      | some y' =>
        refine ⟨⟨j, y', by simp only [State.setShared, f1]; exact hj⟩, ⟨_, e5 hnz, hp, hf⟩, ?_,
          ?_, by rw [← hob]; exact f3⟩
        · show List.filter Event.isDestroyerCall s1.log = _
          rw [e1, List.filter_append, hl, e2]
          simp [ControllBlock.teardownTrace, k1]
        · show s1.weak = s0.weak
          rw [← hw]
          exact SharedPtr.unlink_weak_eq hxa hb k1 hu
  · exact absurd hi (hn i x)

theorem OwnedBy.run {s0 : State} {a0 : Nat} {p : Option Pointer} (prog : List Op) :
    ∀ {s t : State}, OwnedBy s0 s a0 p → (∀ op ∈ prog, op.isCopyOrDestroy = true) →
      run s prog = .ok t → t.Bounded → OwnedBy s0 t a0 p := by
  induction prog with
  | nil =>
    intro s t hO _ hr _
    simp only [SmartPointers.run, Except.ok.injEq] at hr
    subst hr; exact hO
  | cons op rest ih =>
    intro s t hO hops hr hB
    simp only [SmartPointers.run] at hr
    split at hr
    · cases hr
    · rename_i s1 h1
      have hp1 := run_pres hr
      have hB1 : s1.Bounded := hB.of_le hp1.1 hp1.2.1
      have hop := hops op (List.mem_cons_self _ _)
      have hO1 : OwnedBy s0 s1 a0 p := by
        cases op <;> simp [Op.isCopyOrDestroy] at hop
        · exact hO.copy h1 hB1
        · exact hO.destroy h1 hB1
      exact ih hO1 (fun o ho => hops o (List.mem_cons_of_mem _ ho)) hr hB

end SmartPointers
namespace SmartPointers

/-- The destructor of a live weak handle returns in a state that satisfies the invariant. -/
theorem WeakPtr.weak_dtor_total {s : State} {k : Nat} {w : WeakPtr} (hC : s.Counted)
    (hk : s.weak[k]? = some (some w)) : ∃ t, WeakPtr.dtor s k = .ok t := by
  unfold WeakPtr.dtor
  rw [State.getWeak_ok.2 hk]
  simp only
  unfold WeakPtr.UnlinkWithControllBlock
  cases hc : w.controll_ with
  | none => exact ⟨_, rfl⟩
  | some a =>
    obtain ⟨b, hb, _⟩ := Counted.live_of_weak hC hk hc
    have hl := lt_of_getElem?_some hb
    have hnew : (s.setBlock a { b with weak := (b.weak + (SIZE_MOD - 1)) % SIZE_MOD }).block a
        = .ok { b with weak := (b.weak + (SIZE_MOD - 1)) % SIZE_MOD } := by
      rw [State.block_ok]; simp [State.setBlock, List.getElem?_set, hl]
    simp only [ControllBlock.DecreaseWeak, State.block_ok.2 hb]
    cases hcond : (b.strong == 0 && (b.weak + (SIZE_MOD - 1)) % SIZE_MOD == 0) with
    | true => simp [releaseBlock, hnew]
    | false => simp

/-- The method `DecreaseStrong` returns on a live block, in a state that satisfies the
invariant, when `Destruct` is not called through a null pointer and a payload deriving from
`EnableSharedFromThis` still has its member `outer_shared_pointer_`. -/
theorem ControllBlock.DecreaseStrong_total_counted {s : State} {a : Nat} {b : ControllBlock}
    (hC : s.Counted) (hb : s.blocks[a]? = some (some b))
    (hp : ∀ x, b.ptr = some x → (b.created_from_make_shared = true → x.ptr ≠ none) ∧
      ∀ o, x.ptr = some (.esft o) →
        ∃ (k : Nat) (w : WeakPtr), s.objs[o]? = some k ∧ s.weak[k]? = some (some w)) :
    ∃ t r, ControllBlock.DecreaseStrong s a = .ok (t, r) := by
  have hpay : ∀ (e : Event) (q : Option Pointer),
      (∀ o, q = some (.esft o) →
        ∃ (k : Nat) (w : WeakPtr), s.objs[o]? = some k ∧ s.weak[k]? = some (some w)) →
      ∃ u, destroyPayload (s.emit e) q = .ok u := by
    intro e q hq
    unfold destroyPayload
    split
    · rename_i o
      obtain ⟨k, w, h1, h2⟩ := hq o rfl
      have : (s.emit e).objs[o]? = some k := h1
      simp only [this]
      exact WeakPtr.weak_dtor_total (s := s.emit e) hC h2
    · exact ⟨_, rfl⟩
  have ht : ∃ s1, (if b.strong = 1 then ControllBlock.teardown s a b else .ok s) = .ok s1 := by
    by_cases c : b.strong = 1
    · rw [if_pos c]
      unfold ControllBlock.teardown
      cases hx : b.ptr with
      | none => exact ⟨s, rfl⟩
      | some x =>
        obtain ⟨h1, h2⟩ := hp x hx
        by_cases f : b.created_from_make_shared = true
        · simp only [f, if_true]
          unfold AnyPtr.Destruct
          cases hq : x.ptr with
          | none => exact absurd hq (h1 f)
          | some q =>
            obtain ⟨u, hu⟩ := hpay (.Destruct a q) (some q) (by rw [← hq]; exact h2)
            simp only
            rw [hu]
            exact ⟨_, rfl⟩
        · simp only [f]
          unfold AnyPtr.Delete
          obtain ⟨u, hu⟩ := hpay (.Delete a x.ptr) x.ptr h2
          rw [hu]
          exact ⟨_, rfl⟩
    · rw [if_neg c]; exact ⟨s, rfl⟩
  obtain ⟨s1, h1⟩ := ht
  have hb1 : ∃ b1, s1.block a = .ok b1 := by
    by_cases c : b.strong = 1
    · rw [if_pos c] at h1
      obtain ⟨b1, hb1, _⟩ := (ControllBlock.teardown_trace h1).2.1 a b hb (by omega)
      exact ⟨b1, State.block_ok.2 hb1⟩
    · rw [if_neg c] at h1; cases h1; exact ⟨b, State.block_ok.2 hb⟩
  obtain ⟨b1, hb1⟩ := hb1
  unfold ControllBlock.DecreaseStrong
  rw [State.block_ok.2 hb]
  simp only
  rw [h1]
  simp only
  rw [hb1]
  exact ⟨_, _, rfl⟩

/-- The destructor of a live shared handle returns, under the same conditions. -/
theorem SharedPtr.shared_dtor_total {s : State} {i : Nat} {h : SharedPtr} (hC : s.Counted)
    (hi : s.shared[i]? = some (some h))
    (hp : ∀ (a : Nat) (b : ControllBlock) (x : AnyPtr), h.controll_ = some a →
      s.blocks[a]? = some (some b) → b.ptr = some x →
      (b.created_from_make_shared = true → x.ptr ≠ none) ∧
      ∀ o, x.ptr = some (.esft o) →
        ∃ (k : Nat) (w : WeakPtr), s.objs[o]? = some k ∧ s.weak[k]? = some (some w)) :
    ∃ t, SharedPtr.dtor s i = .ok t := by
  unfold SharedPtr.dtor
  rw [State.getShared_ok.2 hi]
  simp only
  unfold SharedPtr.UnlinkWithControllBlock
  cases hc : h.controll_ with
  | none => exact ⟨_, rfl⟩
  | some a =>
    obtain ⟨b, hb, _⟩ := Counted.live_of_shared hC hi hc
    obtain ⟨t1, r, hd⟩ := ControllBlock.DecreaseStrong_total_counted hC hb
      (fun x hx => hp a b x hc hb hx)
    obtain ⟨w, mid, e1, _⟩ := ControllBlock.DecreaseStrong_trace hb hd
    simp only [hd]
    by_cases hr : r = true
    · rw [if_pos hr]
      simp only [releaseBlock, State.block_ok.2 e1]
      exact ⟨_, rfl⟩
    · rw [if_neg hr]; exact ⟨_, rfl⟩

/-- After `SetLinkToOuterSharedPtr` for object `o`, the object has its member
`outer_shared_pointer_`, and it is a live weak handle. -/
theorem SharedPtr.SetLinkToOuterSharedPtr_member {s t : State} {i o : Nat}
    (h : SharedPtr.SetLinkToOuterSharedPtr s i o = .ok t)
    (hv : ∀ (e k : Nat), s.objs[e]? = some k → k < s.weak.length) :
    ∃ (k : Nat) (w : WeakPtr), t.objs[o]? = some k ∧ t.weak[k]? = some (some w) := by
  unfold SharedPtr.SetLinkToOuterSharedPtr at h
  split at h
  · cases h
  · rename_i k hk
    have hkl := hv o k hk
    simp only [bind_ok] at h
    obtain ⟨s1, h1, s2, h2, h3⟩ := h
    have hne : k ≠ s.weak.length := by omega
    -- the temporary
    simp only [WeakPtr.ctorShared, bind_ok, pure, Except.pure, Except.ok.injEq] at h1
    obtain ⟨x, _, a, _, s1', hs1', rfl⟩ := h1
    obtain ⟨b, _, rfl⟩ := ControllBlock.IncreaseWeak_ok hs1'
    -- the move assignment
    have hs2 : s2.objs = s.objs ∧ ∃ w, s2.weak[k]? = some (some w) := by
      simp only [WeakPtr.assignMove, bind_ok] at h2
      obtain ⟨d, hd, y, hy, h2⟩ := h2
      split at h2
      · cases h2
        exact ⟨rfl, d, State.getWeak_ok.1 hd⟩
      · simp only [bind_ok, pure, Except.pure, Except.ok.injEq] at h2
        obtain ⟨u, hu, rfl⟩ := h2
        obtain ⟨g1, g2, g3, g4⟩ := WeakPtr.weak_unlink_frame hu
        refine ⟨g3, { ptr_ := y.ptr_, controll_ := y.controll_ }, ?_⟩
        simp only [State.setWeak, g2, State.pushWeak, State.setBlock]
        rw [List.getElem?_set_ne (fun e => hne e.symm)]
        simp [List.getElem?_set, List.getElem?_append, hkl]
    obtain ⟨ho2, w, hw2⟩ := hs2
    obtain ⟨y, s3, _, hu3, rfl⟩ := WeakPtr.weak_dtor_ok h3
    obtain ⟨g1, g2, g3, g4⟩ := WeakPtr.weak_unlink_frame hu3
    refine ⟨k, w, ?_, ?_⟩
    · simp only [State.setWeak, g3, ho2]; exact hk
    · simp only [State.setWeak, g2]
      rw [List.getElem?_set_ne (fun e => hne e.symm)]
      exact hw2

end SmartPointers
namespace SmartPointers

/-- Right after `SharedPtr(X* ptr)` in a state without live shared handles, the new handle and
its block are in the state `OwnedBy` describes. -/
theorem OwnedBy.start {pre s0 : State} {p : Option Pointer} (hC : pre.Counted)
    (hS : ∀ (i : Nat) (h : SharedPtr), pre.shared[i]? ≠ some (some h))
    (hL : pre.log.filter Event.isDestroyerCall = [])
    (hV : ∀ (e k : Nat), pre.objs[e]? = some k → k < pre.weak.length)
    (h : SharedPtr.ctorAdopt pre p = .ok s0) (hB : s0.Bounded) :
    OwnedBy s0 s0 pre.blocks.length p ∧
    (∀ o, p = some (.esft o) →
      ∃ (k : Nat) (w : WeakPtr), s0.objs[o]? = some k ∧ s0.weak[k]? = some (some w)) := by
  have hC0 : s0.Counted := (SharedPtr.ctorAdopt_pres h).2.2 hC hB
  unfold SharedPtr.ctorAdopt at h
  obtain ⟨e1, e2, e3, mid, e4, e5⟩ := SharedPtr.linkIfEnabled_side h
  have hnew : ((pre.newBlock (ControllBlock.ofPointer p)).pushShared
      { ptr_ := p, controll_ := some pre.blocks.length }).blocks[pre.blocks.length]?
      = some (some (ControllBlock.ofPointer p)) := by
    simp [State.newBlock, State.pushShared]
  obtain ⟨b, hb, x1, x2, x3⟩ := e3 _ _ hnew (by simp [ControllBlock.ofPointer])
  refine ⟨⟨hC0, fun i h hi => ?_, Or.inl ⟨⟨pre.shared.length,
    { ptr_ := p, controll_ := some pre.blocks.length }, ?_⟩, ⟨b, hb, ?_, ?_⟩, ?_, rfl,
    rfl⟩⟩, fun o ho => ?_⟩
  · rw [e1] at hi
    simp only [State.newBlock, State.pushShared] at hi
    rw [List.getElem?_append] at hi
    by_cases l : i < pre.shared.length
    · rw [if_pos l] at hi; exact absurd hi (hS i h)
    · rw [if_neg l] at hi
      by_cases e : i - pre.shared.length = 0
      · rw [e] at hi; simp at hi; subst hi; rfl
      · obtain ⟨n, hn⟩ : ∃ n, i - pre.shared.length = n + 1 :=
          ⟨i - pre.shared.length - 1, by omega⟩
        rw [hn] at hi; simp at hi
  · rw [e1]; simp [State.newBlock, State.pushShared]
  · rw [x2]; rfl
  · rw [x3]; rfl
  · rw [e4, List.filter_append, filter_destroyer_of_free mid e5]
    simpa [State.newBlock, State.pushShared] using hL
  · subst ho
    exact SharedPtr.SetLinkToOuterSharedPtr_member h hV

/-- C1: an object `p` is adopted by `SharedPtr(X*)` in a state `pre` without live shared
handles (the empty state, or one where unowned objects were constructed), then shared handles
are copy constructed and destroyed in any order. As long as a handle is live, no destroyer call
is logged, and destroying or copying any live handle returns; once all handles are destroyed,
the log holds exactly one `Delete` of `p` (followed by the release of its wrapper). -/
theorem C1_teardown_exactly_once_after_last_handle (pre s0 s : State) (p : Option Pointer)
    (prog : List Op) (hC : pre.Counted)
    (hS : ∀ (i : Nat) (h : SharedPtr), pre.shared[i]? ≠ some (some h))
    (hL : pre.log.filter Event.isDestroyerCall = [])
    (hV : ∀ (e k : Nat), pre.objs[e]? = some k → k < pre.weak.length)
    (hadopt : SharedPtr.ctorAdopt pre p = .ok s0)
    (hops : ∀ op ∈ prog, op.isCopyOrDestroy = true)
    (hrun : run s0 prog = .ok s) (hB : s.Bounded) :
    ((∃ (i : Nat) (h : SharedPtr), s.getShared i = .ok h) →
      s.log.filter Event.isDestroyerCall = [] ∧
      ∀ (i : Nat) (h : SharedPtr), s.getShared i = .ok h →
        (∃ t, step s (.sharedDestroy i) = .ok t) ∧ (∃ t, step s (.sharedCopy i) = .ok t)) ∧
    ((∀ (i : Nat) (h : SharedPtr), s.getShared i ≠ .ok h) →
      s.log.filter Event.isDestroyerCall
        = [.Delete pre.blocks.length p, .FreeAnyPtr pre.blocks.length]) := by
  have hp0 := run_pres hrun
  have hB0 : s0.Bounded := hB.of_le hp0.1 hp0.2.1
  obtain ⟨hO0, hE⟩ := OwnedBy.start hC hS hL hV hadopt hB0
  obtain ⟨hCs, hJ, hP⟩ := OwnedBy.run prog hO0 hops hrun hB
  constructor
  · rintro ⟨i, h, hi⟩
    rw [State.getShared_ok] at hi
    rcases hP with ⟨_, ⟨b, hb, hp, hf⟩, hl, hw, hob⟩ | ⟨hn, _⟩
    · refine ⟨hl, fun j x hj => ?_⟩
      rw [State.getShared_ok] at hj
      have hxa := hJ j x hj
      constructor
      · refine SharedPtr.shared_dtor_total hCs hj (fun a b' y hya hb' hy => ?_)
        rw [hxa] at hya
        simp only [Option.some.injEq] at hya
        subst hya
        rw [hb] at hb'
        simp only [Option.some.injEq] at hb'
        subst hb'
        rw [hp] at hy
        simp only [Option.some.injEq] at hy
        subst hy
        refine ⟨fun hf' => (by rw [hf] at hf'; cases hf'), fun o ho => ?_⟩
        rw [hw, hob]
        exact hE o ho
      · simp [step, SharedPtr.ctorCopy, State.getShared_ok.2 hj, hxa, deref,
          ControllBlock.IncreaseStrong, State.block_ok.2 hb, bind, Except.bind, pure,
          Except.pure]
    · exact absurd hi (hn i h)
  · intro hnone
    rcases hP with ⟨⟨i, h, hi⟩, _⟩ | ⟨_, hl⟩
    · exact absurd (State.getShared_ok.2 hi) (hnone i h)
    · exact hl

/-- C1 on `SharedPtr<T> a(new T); SharedPtr<T> b(a);` followed by the destruction of `a` and
of `b`: one `Delete`, logged when the last handle goes. -/
theorem C1_teardown_exactly_once_after_last_handle_witness :
    run
        ({ blocks := [some (ControllBlock.ofPointer (some (.plain 7)))], objs := [],
           shared := [some { ptr_ := some (.plain 7), controll_ := some 0 }], weak := [],
           log := [] } : State)
        [.sharedCopy 0, .sharedDestroy 0, .sharedDestroy 1]
      = .ok
        ({ blocks := [none], objs := [], shared := [none, none], weak := [],
           log := [.Delete 0 (some (.plain 7)), .FreeAnyPtr 0, .FreeBlock 0] } : State) ∧
    ((∀ (i : Nat) (h : SharedPtr),
        State.getShared
          ({ blocks := [none], objs := [], shared := [none, none], weak := [],
             log := [.Delete 0 (some (.plain 7)), .FreeAnyPtr 0, .FreeBlock 0] } : State) i
          ≠ .ok h) →
      List.filter Event.isDestroyerCall
          [.Delete 0 (some (.plain 7)), .FreeAnyPtr 0, .FreeBlock 0]
        = [.Delete 0 (some (.plain 7)), .FreeAnyPtr 0]) :=
  ⟨rfl,
    (C1_teardown_exactly_once_after_last_handle State.empty
      { blocks := [some (ControllBlock.ofPointer (some (.plain 7)))], objs := [],
        shared := [some { ptr_ := some (.plain 7), controll_ := some 0 }], weak := [],
        log := [] }
      { blocks := [none], objs := [], shared := [none, none], weak := [],
        log := [.Delete 0 (some (.plain 7)), .FreeAnyPtr 0, .FreeBlock 0] }
      (some (.plain 7)) [.sharedCopy 0, .sharedDestroy 0, .sharedDestroy 1]
      State.empty_counted (by simp [State.empty]) rfl (by simp [State.empty]) rfl
      (by decide) rfl ⟨by decide, by decide⟩).2⟩

/-! ## No access to a freed block -/

theorem Safe.ok {α : Type} (x : α) : Safe (.ok x : Except Fault α) := by
  intro h; cases h

theorem Safe.error_iff {α : Type} (e : Fault) :
    Safe (.error e : Except Fault α) ↔ e ≠ .useAfterFree := by
  unfold Safe
  constructor
  · intro h c; exact h (by rw [c])
  · intro h c; cases c; exact h rfl

theorem Safe.bind {α β : Type} {x : Except Fault α} {f : α → Except Fault β}
    (hx : Safe x) (hf : ∀ v, x = .ok v → Safe (f v)) : Safe (x >>= f) := by
  cases x with
  | error e =>
    rw [Safe.error_iff] at hx
    show Safe (.error e)
    rw [Safe.error_iff]; exact hx
  | ok v => exact hf v rfl

theorem Safe.getShared (s : State) (i : Nat) : Safe (s.getShared i) := by
  unfold State.getShared; split <;> intro h <;> cases h

theorem Safe.getWeak (s : State) (i : Nat) : Safe (s.getWeak i) := by
  unfold State.getWeak; split <;> intro h <;> cases h

theorem Safe.deref (c : Option Nat) : Safe (deref c) := by
  cases c <;> intro h <;> cases h

theorem ControllBlock.IncreaseStrong_live {s : State} {a : Nat} {b : ControllBlock}
    (hb : s.blocks[a]? = some (some b)) :
    ControllBlock.IncreaseStrong s a
      = .ok (s.setBlock a { b with strong := (b.strong + 1) % SIZE_MOD }) := by
  unfold ControllBlock.IncreaseStrong; rw [State.block_ok.2 hb]

theorem ControllBlock.IncreaseWeak_live {s : State} {a : Nat} {b : ControllBlock}
    (hb : s.blocks[a]? = some (some b)) :
    ControllBlock.IncreaseWeak s a
      = .ok (s.setBlock a { b with weak := (b.weak + 1) % SIZE_MOD }) := by
  unfold ControllBlock.IncreaseWeak; rw [State.block_ok.2 hb]

/-- `WeakPtr::UnlinkWithControllBlock` returns for a live handle. -/
theorem WeakPtr.weak_unlink_total {s : State} {k : Nat} {w : WeakPtr} (hC : s.Counted)
    (hk : s.weak[k]? = some (some w)) : ∃ t, WeakPtr.UnlinkWithControllBlock s w = .ok t := by
  unfold WeakPtr.UnlinkWithControllBlock
  cases hc : w.controll_ with
  | none => exact ⟨_, rfl⟩
  | some a =>
    obtain ⟨b, hb, _⟩ := Counted.live_of_weak hC hk hc
    have hl := lt_of_getElem?_some hb
    have hnew : (s.setBlock a { b with weak := (b.weak + (SIZE_MOD - 1)) % SIZE_MOD }).block a
        = .ok { b with weak := (b.weak + (SIZE_MOD - 1)) % SIZE_MOD } := by
      rw [State.block_ok]; simp [State.setBlock, List.getElem?_set, hl]
    simp only [ControllBlock.DecreaseWeak, State.block_ok.2 hb]
    cases hcond : (b.strong == 0 && (b.weak + (SIZE_MOD - 1)) % SIZE_MOD == 0) with
    | true => simp [releaseBlock, hnew]
    | false => simp

theorem WeakPtr.weak_dtor_safe {s : State} (k : Nat) (hC : s.Counted) :
    Safe (WeakPtr.dtor s k) := by
  cases hk : s.getWeak k with
  | error e =>
    have := Safe.getWeak s k
    rw [hk, Safe.error_iff] at this
    unfold WeakPtr.dtor; rw [hk]
    simp only
    rw [Safe.error_iff]; exact this
  | ok w =>
    obtain ⟨t, ht⟩ := WeakPtr.weak_dtor_total hC (State.getWeak_ok.1 hk)
    rw [ht]; exact Safe.ok t

theorem destroyPayload_safe {s : State} (p : Option Pointer) (hC : s.Counted) :
    Safe (destroyPayload s p) := by
  unfold destroyPayload
  split
  · split
    · intro h; cases h
    · exact WeakPtr.weak_dtor_safe _ hC
  · exact Safe.ok s

theorem ControllBlock.teardown_safe {s : State} (a : Nat) (b : ControllBlock)
    (hC : s.Counted) : Safe (ControllBlock.teardown s a b) := by
  unfold ControllBlock.teardown
  split
  · exact Safe.ok s
  · rename_i x hx
    split
    · unfold AnyPtr.Destruct
      cases hq : x.ptr with
      | none => intro h; cases h
      | some q =>
        simp only
        have := destroyPayload_safe (s := s.emit (.Destruct a q)) (some q) hC
        cases hd : destroyPayload (s.emit (.Destruct a q)) (some q) with
        | error e =>
          rw [hd, Safe.error_iff] at this
          simp only; rw [Safe.error_iff]; exact this
        | ok u => exact Safe.ok _
    · unfold AnyPtr.Delete
      have := destroyPayload_safe (s := s.emit (.Delete a x.ptr)) x.ptr hC
      cases hd : destroyPayload (s.emit (.Delete a x.ptr)) x.ptr with
      | error e =>
        rw [hd, Safe.error_iff] at this
        simp only; rw [Safe.error_iff]; exact this
      | ok u => exact Safe.ok _

theorem ControllBlock.DecreaseStrong_safe {s : State} {a : Nat} {b : ControllBlock}
    (hC : s.Counted) (hb : s.blocks[a]? = some (some b)) :
    Safe (ControllBlock.DecreaseStrong s a) := by
  unfold ControllBlock.DecreaseStrong
  rw [State.block_ok.2 hb]
  simp only
  by_cases c : b.strong = 1
  · rw [if_pos c]
    have hs := ControllBlock.teardown_safe a b hC
    cases ht : ControllBlock.teardown s a b with
    | error e =>
      rw [ht, Safe.error_iff] at hs
      simp only; rw [Safe.error_iff]; exact hs
    | ok s1 =>
      obtain ⟨b1, hb1, _⟩ := (ControllBlock.teardown_trace ht).2.1 a b hb (by omega)
      simp only [State.block_ok.2 hb1]
      exact Safe.ok _
  · rw [if_neg c]
    simp only [State.block_ok.2 hb]
    exact Safe.ok _

theorem SharedPtr.shared_unlink_safe {s : State} {i : Nat} {h : SharedPtr} (hC : s.Counted)
    (hi : s.shared[i]? = some (some h)) : Safe (SharedPtr.UnlinkWithControllBlock s h) := by
  unfold SharedPtr.UnlinkWithControllBlock
  cases hc : h.controll_ with
  | none => exact Safe.ok s
  | some a =>
    obtain ⟨b, hb, _⟩ := Counted.live_of_shared hC hi hc
    have hs := ControllBlock.DecreaseStrong_safe hC hb
    cases hd : ControllBlock.DecreaseStrong s a with
    | error e =>
      rw [hd, Safe.error_iff] at hs
      simp only [hd]; rw [Safe.error_iff]; exact hs
    | ok v =>
      obtain ⟨t1, r⟩ := v
      obtain ⟨w, mid, e1, _⟩ := ControllBlock.DecreaseStrong_trace hb hd
      simp only [hd]
      by_cases hr : r = true
      · rw [if_pos hr]
        simp only [releaseBlock, State.block_ok.2 e1]
        exact Safe.ok _
      · rw [if_neg hr]; exact Safe.ok _

theorem SharedPtr.shared_dtor_safe {s : State} (i : Nat) (hC : s.Counted) :
    Safe (SharedPtr.dtor s i) := by
  unfold SharedPtr.dtor
  cases hi : s.getShared i with
  | error e =>
    have := Safe.getShared s i
    rw [hi, Safe.error_iff] at this
    simp only; rw [Safe.error_iff]; exact this
  | ok h =>
    have hs := SharedPtr.shared_unlink_safe hC (State.getShared_ok.1 hi)
    simp only
    cases hu : SharedPtr.UnlinkWithControllBlock s h with
    | error e =>
      rw [hu, Safe.error_iff] at hs
      simp only; rw [Safe.error_iff]; exact hs
    | ok t => exact Safe.ok _

/-! ## How many slots an operation adds -/

theorem WeakPtr.ctorShared_len {s t : State} {i : Nat} (h : WeakPtr.ctorShared s i = .ok t) :
    t.shared = s.shared ∧ t.weak.length = s.weak.length + 1 := by
  simp only [WeakPtr.ctorShared, bind_ok, pure, Except.pure, Except.ok.injEq] at h
  obtain ⟨o, _, a, _, s1, hs1, rfl⟩ := h
  obtain ⟨b, _, rfl⟩ := ControllBlock.IncreaseWeak_ok hs1
  simp [State.pushWeak, State.setBlock]

theorem WeakPtr.weak_assignMove_len {s t : State} {d r : Nat}
    (h : WeakPtr.assignMove s d r = .ok t) :
    t.shared = s.shared ∧ t.weak.length = s.weak.length := by
  simp only [WeakPtr.assignMove, bind_ok] at h
  obtain ⟨x, _, y, _, h⟩ := h
  split at h
  · cases h; exact ⟨rfl, rfl⟩
  · simp only [bind_ok, pure, Except.pure, Except.ok.injEq] at h
    obtain ⟨u, hu, rfl⟩ := h
    obtain ⟨g1, g2, _, _⟩ := WeakPtr.weak_unlink_frame hu
    simp [State.setWeak, g1, g2]

theorem SharedPtr.shared_assignMove_len {s t : State} {d r : Nat}
    (h : SharedPtr.assignMove s d r = .ok t) :
    t.shared.length = s.shared.length ∧ t.weak.length = s.weak.length := by
  simp only [SharedPtr.assignMove, bind_ok] at h
  obtain ⟨x, _, y, _, h⟩ := h
  split at h
  · cases h; exact ⟨rfl, rfl⟩
  · simp only [bind_ok, pure, Except.pure, Except.ok.injEq] at h
    obtain ⟨u, hu, rfl⟩ := h
    obtain ⟨g1, g2, _, _⟩ := SharedPtr.shared_unlink_frame hu
    simp [State.setShared, g1, g2]

theorem SharedPtr.linkIfEnabled_len {s t : State} {i : Nat} {p : Option Pointer}
    (h : SharedPtr.linkIfEnabled s i p = .ok t) :
    t.shared = s.shared ∧ t.weak.length ≤ s.weak.length + 1 := by
  unfold SharedPtr.linkIfEnabled at h
  split at h
  · unfold SharedPtr.SetLinkToOuterSharedPtr at h
    split at h
    · cases h
    · simp only [bind_ok] at h
      obtain ⟨s1, h1, s2, h2, h3⟩ := h
      obtain ⟨a1, a2⟩ := WeakPtr.ctorShared_len h1
      obtain ⟨b1, b2⟩ := WeakPtr.weak_assignMove_len h2
      obtain ⟨c1, c2, _, _⟩ := WeakPtr.weak_dtor_frame h3
      exact ⟨by rw [c1, b1, a1], by rw [c2, b2, a2]⟩
  · cases h; exact ⟨rfl, Nat.le_succ _⟩

theorem WeakPtr.Lock_len {s t : State} {w : Nat} (h : WeakPtr.Lock s w = .ok t) :
    t.shared.length = s.shared.length + 1 ∧ t.weak.length ≤ s.weak.length + 1 := by
  simp only [WeakPtr.Lock, bind_ok] at h
  obtain ⟨x, _, e, _, h⟩ := h
  split at h
  · simp only [pure, Except.pure, Except.ok.injEq] at h
    subst h
    simp [SharedPtr.ctorDefault, State.pushShared, State.newBlock]
  · simp only [SharedPtr.ctorPrivate, bind_ok] at h
    obtain ⟨a, _, s1, hs1, h⟩ := h
    obtain ⟨b, _, rfl⟩ := ControllBlock.IncreaseStrong_ok hs1
    obtain ⟨g1, g2⟩ := SharedPtr.linkIfEnabled_len h
    constructor
    · rw [g1]; simp [State.pushShared, State.setBlock]
    · simpa [State.pushShared, State.setBlock] using g2

/-! ## No operation accesses a freed block -/

theorem WeakPtr.weak_ctorCopy_safe {s : State} (src : Nat) (hC : s.Counted) :
    Safe (WeakPtr.ctorCopy s src) := by
  unfold WeakPtr.ctorCopy
  refine Safe.bind (Safe.getWeak _ _) (fun o ho => Safe.bind (Safe.deref _) (fun a ha => ?_))
  rw [deref_ok] at ha
  obtain ⟨b, hb, _⟩ := Counted.live_of_weak hC (State.getWeak_ok.1 ho) ha
  rw [ControllBlock.IncreaseWeak_live hb]
  exact Safe.ok _

theorem WeakPtr.ctorShared_safe {s : State} (src : Nat) (hC : s.Counted) :
    Safe (WeakPtr.ctorShared s src) := by
  unfold WeakPtr.ctorShared
  refine Safe.bind (Safe.getShared _ _) (fun o ho => Safe.bind (Safe.deref _) (fun a ha => ?_))
  rw [deref_ok] at ha
  obtain ⟨b, hb, _⟩ := Counted.live_of_shared hC (State.getShared_ok.1 ho) ha
  rw [ControllBlock.IncreaseWeak_live hb]
  exact Safe.ok _

theorem WeakPtr.weak_ctorMove_safe (s : State) (src : Nat) : Safe (WeakPtr.ctorMove s src) := by
  unfold WeakPtr.ctorMove
  exact Safe.bind (Safe.getWeak _ _) (fun o _ => Safe.ok _)

theorem WeakPtr.weak_assignCopy_safe {s : State} (dst src : Nat) (hC : s.Counted)
    (hB : s.Bounded) : Safe (WeakPtr.assignCopy s dst src) := by
  unfold WeakPtr.assignCopy
  refine Safe.bind (Safe.getWeak _ _) (fun d hd => Safe.bind (Safe.getWeak _ _) (fun o ho => ?_))
  rw [State.getWeak_ok] at hd ho
  split
  · exact Safe.ok _
  · rename_i hne
    have hds : dst ≠ src := by
      intro e; subst e; rw [hd] at ho; cases ho; exact hne rfl
    obtain ⟨s1, hu⟩ := WeakPtr.weak_unlink_total hC hd
    rw [hu]
    refine Safe.bind (Safe.ok _) (fun s1' hs1 => ?_)
    cases hs1
    refine Safe.bind (Safe.deref _) (fun a ha => ?_)
    rw [deref_ok] at ha
    have hC1 := WeakPtr.weak_unlink_counted hC hB hd hu
      (some { ptr_ := none, controll_ := none }) rfl
    have hj : (s.weak.set dst (some ({ ptr_ := none, controll_ := none } : WeakPtr)))[src]?
        = some (some o) := by
      rw [List.getElem?_set_ne hds]; exact ho
    obtain ⟨b, hb, _⟩ := Counted.live_of_weak hC1 hj ha
    rw [ControllBlock.IncreaseWeak_live hb]
    exact Safe.ok _

theorem WeakPtr.weak_assignMove_safe {s : State} (dst src : Nat) (hC : s.Counted) :
    Safe (WeakPtr.assignMove s dst src) := by
  unfold WeakPtr.assignMove
  refine Safe.bind (Safe.getWeak _ _) (fun d hd => Safe.bind (Safe.getWeak _ _) (fun o ho => ?_))
  rw [State.getWeak_ok] at hd
  split
  · exact Safe.ok _
  · obtain ⟨s1, hu⟩ := WeakPtr.weak_unlink_total hC hd
    rw [hu]
    exact Safe.bind (Safe.ok _) (fun _ _ => Safe.ok _)

theorem WeakPtr.weak_Reset_safe {s : State} (i : Nat) (hC : s.Counted) :
    Safe (WeakPtr.Reset s i) := by
  unfold WeakPtr.Reset
  refine Safe.bind (Safe.getWeak _ _) (fun d hd => ?_)
  rw [State.getWeak_ok] at hd
  obtain ⟨s1, hu⟩ := WeakPtr.weak_unlink_total hC hd
  rw [hu]
  exact Safe.bind (Safe.ok _) (fun _ _ => Safe.ok _)

theorem WeakPtr.weak_Swap_safe (s : State) (i j : Nat) : Safe (WeakPtr.Swap s i j) := by
  unfold WeakPtr.Swap
  exact Safe.bind (Safe.getWeak _ _) (fun _ _ => Safe.bind (Safe.getWeak _ _)
    (fun _ _ => Safe.ok _))

theorem SharedPtr.SetLinkToOuterSharedPtr_safe {s : State} (i o : Nat) (hC : s.Counted)
    (hS : s.shared.length < SIZE_MOD) (hW : s.weak.length + 1 < SIZE_MOD) :
    Safe (SharedPtr.SetLinkToOuterSharedPtr s i o) := by
  unfold SharedPtr.SetLinkToOuterSharedPtr
  split
  · intro h; cases h
  · refine Safe.bind (WeakPtr.ctorShared_safe _ hC) (fun s1 h1 => ?_)
    obtain ⟨a1, a2⟩ := WeakPtr.ctorShared_len h1
    have hB1 : s1.Bounded := ⟨by rw [a1]; exact hS, by rw [a2]; exact hW⟩
    have hC1 : s1.Counted := (WeakPtr.ctorShared_pres h1).2.2 hC hB1
    refine Safe.bind (WeakPtr.weak_assignMove_safe _ _ hC1) (fun s2 h2 => ?_)
    obtain ⟨b1, b2⟩ := WeakPtr.weak_assignMove_len h2
    have hB2 : s2.Bounded := ⟨by rw [b1, a1]; exact hS, by rw [b2, a2]; exact hW⟩
    have hC2 : s2.Counted := (WeakPtr.weak_assignMove_pres h2).2.2 hC1 hB2
    exact WeakPtr.weak_dtor_safe _ hC2

theorem SharedPtr.linkIfEnabled_safe {s : State} (i : Nat) (p : Option Pointer)
    (hC : s.Counted) (hS : s.shared.length < SIZE_MOD) (hW : s.weak.length + 1 < SIZE_MOD) :
    Safe (SharedPtr.linkIfEnabled s i p) := by
  unfold SharedPtr.linkIfEnabled
  split
  · exact SharedPtr.SetLinkToOuterSharedPtr_safe _ _ hC hS hW
  · exact Safe.ok _

theorem SharedPtr.ctorAdopt_safe {s : State} (p : Option Pointer) (hC : s.Counted)
    (hR : s.Room 1) : Safe (SharedPtr.ctorAdopt s p) := by
  unfold SharedPtr.ctorAdopt
  refine SharedPtr.linkIfEnabled_safe _ _ ?_ ?_ ?_
  · exact Counted.alloc_shared_push hC _ p rfl rfl
  · simpa [State.pushShared, State.newBlock] using hR.1
  · simpa [State.pushShared, State.newBlock] using hR.2

theorem SharedPtr.ctorAlias_safe {s : State} (src : Nat) (p : Option Pointer) (hC : s.Counted) :
    Safe (SharedPtr.ctorAlias s src p) := by
  unfold SharedPtr.ctorAlias
  refine Safe.bind (Safe.getShared _ _) (fun o ho => Safe.bind (Safe.deref _) (fun a ha => ?_))
  rw [deref_ok] at ha
  obtain ⟨b, hb, _⟩ := Counted.live_of_shared hC (State.getShared_ok.1 ho) ha
  rw [ControllBlock.IncreaseStrong_live hb]
  exact Safe.ok _

theorem SharedPtr.shared_ctorCopy_safe {s : State} (src : Nat) (hC : s.Counted) :
    Safe (SharedPtr.ctorCopy s src) := by
  unfold SharedPtr.ctorCopy
  refine Safe.bind (Safe.getShared _ _) (fun o ho => Safe.bind (Safe.deref _) (fun a ha => ?_))
  rw [deref_ok] at ha
  obtain ⟨b, hb, _⟩ := Counted.live_of_shared hC (State.getShared_ok.1 ho) ha
  rw [ControllBlock.IncreaseStrong_live hb]
  exact Safe.ok _

theorem SharedPtr.shared_ctorMove_safe (s : State) (src : Nat) :
    Safe (SharedPtr.ctorMove s src) := by
  unfold SharedPtr.ctorMove
  exact Safe.bind (Safe.getShared _ _) (fun o _ => Safe.ok _)

/-- The private constructor on a live block `b` at `a`, in a state where the invariant holds
once the new handle is counted. -/
theorem SharedPtr.ctorPrivate_safe {s : State} (p : Option Pointer) (a : Nat)
    (b : ControllBlock) (hb : s.blocks[a]? = some (some b))
    (hC : Counted (s.blocks.set a (some { b with strong := (b.strong + 1) % SIZE_MOD }))
      (s.shared ++ [some { ptr_ := p, controll_ := some a }]) s.weak)
    (hR : s.Room 1) : Safe (SharedPtr.ctorPrivate s p (some a)) := by
  unfold SharedPtr.ctorPrivate
  refine Safe.bind (Safe.deref _) (fun a' ha => ?_)
  rw [deref_ok] at ha
  simp only [Option.some.injEq] at ha
  subst ha
  rw [ControllBlock.IncreaseStrong_live hb]
  refine Safe.bind (Safe.ok _) (fun s1 hs1 => ?_)
  cases hs1
  refine SharedPtr.linkIfEnabled_safe _ _ hC ?_ ?_
  · simpa [State.pushShared, State.setBlock] using hR.1
  · simpa [State.pushShared, State.setBlock] using hR.2

theorem WeakPtr.Expired_safe {s : State} {i : Nat} {w : WeakPtr} (hC : s.Counted)
    (hw : s.weak[i]? = some (some w)) : ∃ e, WeakPtr.Expired s w = .ok e := by
  unfold WeakPtr.Expired WeakPtr.UseCount
  cases hc : w.controll_ with
  | none => exact ⟨_, rfl⟩
  | some a =>
    obtain ⟨b, hb, _⟩ := Counted.live_of_weak hC hw hc
    simp only [State.block_ok.2 hb]
    exact ⟨_, rfl⟩

theorem WeakPtr.Lock_safe {s : State} (w : Nat) (hC : s.Counted) (hR : s.Room 1) :
    Safe (WeakPtr.Lock s w) := by
  unfold WeakPtr.Lock
  refine Safe.bind (Safe.getWeak _ _) (fun x hx => ?_)
  rw [State.getWeak_ok] at hx
  obtain ⟨e, he⟩ := WeakPtr.Expired_safe hC hx
  rw [he]
  refine Safe.bind (Safe.ok _) (fun e' he' => ?_)
  cases he'
  split
  · exact Safe.ok _
  · cases hc : x.controll_ with
    | none =>
      unfold SharedPtr.ctorPrivate
      exact Safe.bind (Safe.deref _) (fun a ha => by cases ha)
    | some a =>
      obtain ⟨b, hb, _⟩ := Counted.live_of_weak hC hx hc
      exact SharedPtr.ctorPrivate_safe _ a b hb
        (Counted.attach_shared_push hC a b x.ptr_ hb hR.1) hR

theorem SharedPtr.shared_assignCopy_safe {s : State} (dst src : Nat) (hC : s.Counted)
    (hB : s.Bounded) : Safe (SharedPtr.assignCopy s dst src) := by
  unfold SharedPtr.assignCopy
  refine Safe.bind (Safe.getShared _ _) (fun d hd =>
    Safe.bind (Safe.getShared _ _) (fun o ho => ?_))
  rw [State.getShared_ok] at hd ho
  split
  · exact Safe.ok _
  · rename_i hne
    have hds : dst ≠ src := by
      intro e; subst e; rw [hd] at ho; cases ho; exact hne rfl
    refine Safe.bind (SharedPtr.shared_unlink_safe hC hd) (fun s1 hu => ?_)
    refine Safe.bind (Safe.deref _) (fun a ha => ?_)
    rw [deref_ok] at ha
    have hC1 := SharedPtr.shared_unlink_counted hC hB hd hu
      (some { ptr_ := none, controll_ := none }) rfl
    have hj : (s.shared.set dst (some ({ ptr_ := none, controll_ := none } : SharedPtr)))[src]?
        = some (some o) := by
      rw [List.getElem?_set_ne hds]; exact ho
    obtain ⟨b, hb, _⟩ := Counted.live_of_shared hC1 hj ha
    rw [ControllBlock.IncreaseStrong_live hb]
    exact Safe.ok _

theorem SharedPtr.shared_assignMove_safe {s : State} (dst src : Nat) (hC : s.Counted) :
    Safe (SharedPtr.assignMove s dst src) := by
  unfold SharedPtr.assignMove
  refine Safe.bind (Safe.getShared _ _) (fun d hd =>
    Safe.bind (Safe.getShared _ _) (fun o ho => ?_))
  rw [State.getShared_ok] at hd
  split
  · exact Safe.ok _
  · exact Safe.bind (SharedPtr.shared_unlink_safe hC hd) (fun _ _ => Safe.ok _)

theorem SharedPtr.shared_Reset_safe {s : State} (i : Nat) (hC : s.Counted) :
    Safe (SharedPtr.Reset s i) := by
  unfold SharedPtr.Reset
  refine Safe.bind (Safe.getShared _ _) (fun d hd => Safe.bind (Safe.deref _) (fun a ha => ?_))
  rw [State.getShared_ok] at hd
  rw [deref_ok] at ha
  obtain ⟨b, hb, _⟩ := Counted.live_of_shared hC hd ha
  exact Safe.bind (ControllBlock.DecreaseStrong_safe hC hb) (fun _ _ => Safe.ok _)

theorem SharedPtr.ResetPtr_safe {s : State} (i : Nat) (p : Option Pointer) (hC : s.Counted) :
    Safe (SharedPtr.ResetPtr s i p) := by
  unfold SharedPtr.ResetPtr
  refine Safe.bind (Safe.getShared _ _) (fun d hd => ?_)
  rw [State.getShared_ok] at hd
  exact Safe.bind (SharedPtr.shared_unlink_safe hC hd) (fun _ _ => Safe.ok _)

theorem SharedPtr.shared_Swap_safe (s : State) (i j : Nat) : Safe (SharedPtr.Swap s i j) := by
  unfold SharedPtr.Swap
  exact Safe.bind (Safe.getShared _ _) (fun _ _ => Safe.bind (Safe.getShared _ _)
    (fun _ _ => Safe.ok _))

theorem SharedPtr.ctorWeak_safe {s : State} (w : Nat) (hC : s.Counted) (hR : s.Room 2) :
    Safe (SharedPtr.ctorWeak s w) := by
  unfold SharedPtr.ctorWeak
  refine Safe.bind (Safe.getWeak _ _) (fun x hx => ?_)
  rw [State.getWeak_ok] at hx
  obtain ⟨e, he⟩ := WeakPtr.Expired_safe hC hx
  rw [he]
  refine Safe.bind (Safe.ok _) (fun e' he' => ?_)
  cases he'
  split
  · exact Safe.ok _
  · have hC1 : (s.pushShared { ptr_ := none, controll_ := none }).Counted :=
      Counted.push_shared_null hC none
    have hR1 : (s.pushShared { ptr_ := none, controll_ := none }).Room 1 := by
      unfold State.Room at *
      simp only [State.pushShared, List.length_append, List.length_singleton]
      omega
    refine Safe.bind (WeakPtr.Lock_safe w hC1 hR1) (fun s2 h2 => ?_)
    obtain ⟨l1, l2⟩ := WeakPtr.Lock_len h2
    simp only [State.pushShared, List.length_append, List.length_singleton] at l1 l2
    have hB2 : s2.Bounded := by
      unfold State.Room at hR; unfold State.Bounded; omega
    have hC2 : s2.Counted := (WeakPtr.Lock_pres h2).2.2 hC1 hB2
    refine Safe.bind (SharedPtr.shared_assignMove_safe _ _ hC2) (fun s3 h3 => ?_)
    obtain ⟨m1, m2⟩ := SharedPtr.shared_assignMove_len h3
    have hB3 : s3.Bounded := by
      unfold State.Bounded at *; omega
    have hC3 : s3.Counted := (SharedPtr.shared_assignMove_pres h3).2.2 hC2 hB3
    exact SharedPtr.shared_dtor_safe _ hC3

theorem MakeShared.finish_safe {s : State} (p : Pointer) (hC : s.Counted) (hR : s.Room 1) :
    Safe (MakeShared.finish s p) := by
  unfold MakeShared.finish
  have hb : (s.newBlock (ControllBlock.ofAnyPtr { ptr := some p })).blocks[s.blocks.length]?
      = some (some (ControllBlock.ofAnyPtr { ptr := some p })) := by
    simp [State.newBlock]
  refine SharedPtr.ctorPrivate_safe _ _ _ hb ?_ ?_
  · exact Counted.make_shared_push hC _ (some p) rfl rfl
  · exact hR

theorem MakeShared.enabled_safe {s : State} (hC : s.Counted) (hR : s.Room 2) :
    Safe (MakeShared.enabled s) := by
  unfold MakeShared.enabled
  have hB : (EnableSharedFromThis.ctor s).Bounded := by
    unfold State.Room at hR
    unfold State.Bounded
    simp only [EnableSharedFromThis.ctor, WeakPtr.ctorDefault, State.pushWeak, State.newBlock,
      List.length_append, List.length_singleton]
    omega
  refine MakeShared.finish_safe _ ((EnableSharedFromThis.ctor_pres s).2.2 hC hB) ?_
  unfold State.Room at *
  simp only [EnableSharedFromThis.ctor, WeakPtr.ctorDefault, State.pushWeak, State.newBlock,
    List.length_append, List.length_singleton]
  omega

/-- In a state that satisfies the counting invariant, with room for two more handle objects, no
public operation accesses a freed control block. -/
theorem step_safe {s : State} (op : Op) (hC : s.Counted) (hR : s.Room 2) :
    Safe (step s op) := by
  have hR1 : s.Room 1 := by unfold State.Room at *; omega
  have hB : s.Bounded := by unfold State.Room at hR; unfold State.Bounded; omega
  cases op <;> simp only [step]
  case sharedDefault => exact Safe.ok _
  case sharedAdopt p => exact SharedPtr.ctorAdopt_safe p hC hR1
  case sharedCopy src => exact SharedPtr.shared_ctorCopy_safe src hC
  case sharedMove src => exact SharedPtr.shared_ctorMove_safe s src
  case sharedAlias src p => exact SharedPtr.ctorAlias_safe src p hC
  case sharedFromWeak w => exact SharedPtr.ctorWeak_safe w hC hR
  case sharedAssign dst src => exact SharedPtr.shared_assignCopy_safe dst src hC hB
  case sharedMoveAssign dst src => exact SharedPtr.shared_assignMove_safe dst src hC
  case sharedDestroy i => exact SharedPtr.shared_dtor_safe i hC
  case sharedReset i => exact SharedPtr.shared_Reset_safe i hC
  case sharedResetPtr i p => exact SharedPtr.ResetPtr_safe i p hC
  case sharedSwap i j => exact SharedPtr.shared_Swap_safe s i j
  case weakDefault => exact Safe.ok _
  case weakCopy src => exact WeakPtr.weak_ctorCopy_safe src hC
  case weakMove src => exact WeakPtr.weak_ctorMove_safe s src
  case weakFromShared src => exact WeakPtr.ctorShared_safe src hC
  case weakAssign dst src => exact WeakPtr.weak_assignCopy_safe dst src hC hB
  case weakMoveAssign dst src => exact WeakPtr.weak_assignMove_safe dst src hC
  case weakDestroy i => exact WeakPtr.weak_dtor_safe i hC
  case weakReset i => exact WeakPtr.weak_Reset_safe i hC
  case weakSwap i j => exact WeakPtr.weak_Swap_safe s i j
  case weakLock w => exact WeakPtr.Lock_safe w hC hR1
  case makeShared addr => exact MakeShared.finish_safe _ hC hR1
  case makeSharedEnabled => exact MakeShared.enabled_safe hC hR
  case newEnabled => exact Safe.ok _
  case sharedFromThis o =>
    unfold EnableSharedFromThis.SharedFromThis
    split
    · intro h; cases h
    · exact SharedPtr.ctorWeak_safe _ hC hR
  case weakFromThis o =>
    unfold EnableSharedFromThis.WeakFromThis
    split
    · intro h; cases h
    · exact WeakPtr.weak_ctorCopy_safe _ hC

/-! ## Every release of block storage is logged once -/

theorem LogStep.log_refl (s : State) : LogStep s s := fun h => h

theorem LogStep.log_trans {s t u : State} (h1 : LogStep s t) (h2 : LogStep t u) : LogStep s u :=
  fun h => h2 (h1 h)

/-- A step that frees nothing and logs no release. -/
theorem LogStep.log_of_quiet {s t : State}
    (hb : ∀ a : Nat, t.blocks[a]? = some none ↔ s.blocks[a]? = some none)
    (hl : ∀ a : Nat, freesOf t.log a = freesOf s.log a) : LogStep s t := by
  intro h a
  rw [hl a, h a]
  simp only [hb a]

theorem LogStep.log_of_eq {s t : State} (hb : t.blocks = s.blocks) (hl : t.log = s.log) :
    LogStep s t :=
  LogStep.log_of_quiet (fun a => by rw [hb]) (fun a => by rw [hl])

theorem LogStep.log_setBlock {s : State} {a : Nat} {b : ControllBlock}
    (hb : s.blocks[a]? = some (some b)) (b' : ControllBlock) : LogStep s (s.setBlock a b') := by
  refine LogStep.log_of_quiet (fun c => ?_) (fun c => rfl)
  simp only [State.setBlock]
  by_cases e : a = c
  · subst e
    rw [List.getElem?_set_self (lt_of_getElem?_some hb), hb]
    simp
  · rw [List.getElem?_set_ne e]

theorem LogStep.log_newBlock (s : State) (b : ControllBlock) : LogStep s (s.newBlock b) := by
  refine LogStep.log_of_quiet (fun c => ?_) (fun c => rfl)
  simp only [State.newBlock]
  rcases Nat.lt_trichotomy c s.blocks.length with h | h | h
  · rw [List.getElem?_append_left h]
  · subst h
    simp
  · rw [List.getElem?_eq_none (by simp; omega), List.getElem?_eq_none (by omega)]

theorem LogStep.log_emit (s : State) (e : Event) (he : e.isFree = false) : LogStep s (s.emit e) := by
  refine LogStep.log_of_quiet (fun c => Iff.rfl) (fun c => ?_)
  simp only [State.emit, freesOf, List.countP_append, List.countP_cons, List.countP_nil]
  cases e <;> simp [Event.isFree, Event.isFreeOf] at he ⊢

theorem LogStep.log_free {s : State} {a : Nat} {b : ControllBlock} {e : Event}
    (hb : s.blocks[a]? = some (some b)) (he : e = .FreeBlock a ∨ e = .FreeBuffer a) :
    LogStep s (s.free a e) := by
  intro h c
  have hc := h c
  simp only [State.free, freesOf, List.countP_append, List.countP_cons, List.countP_nil] at hc ⊢
  rw [hc]
  by_cases e' : a = c
  · subst e'
    have h1 : (s.blocks.set a none)[a]? = some none :=
      List.getElem?_set_self (lt_of_getElem?_some hb)
    rcases he with he | he <;> subst he <;> simp [Event.isFreeOf, h1, hb]
  · have h1 : (s.blocks.set a none)[c]? = s.blocks[c]? := List.getElem?_set_ne e'
    rcases he with he | he <;> subst he <;> simp [Event.isFreeOf, e', h1]

theorem ControllBlock.IncreaseStrong_log {s t : State} {a : Nat}
    (h : ControllBlock.IncreaseStrong s a = .ok t) : LogStep s t := by
  obtain ⟨b, hb, e⟩ := ControllBlock.IncreaseStrong_ok h
  subst e
  exact LogStep.log_setBlock hb _

theorem ControllBlock.IncreaseWeak_log {s t : State} {a : Nat}
    (h : ControllBlock.IncreaseWeak s a = .ok t) : LogStep s t := by
  obtain ⟨b, hb, e⟩ := ControllBlock.IncreaseWeak_ok h
  subst e
  exact LogStep.log_setBlock hb _

theorem ControllBlock.DecreaseWeak_log {s t : State} {a : Nat} {r : Bool}
    (h : ControllBlock.DecreaseWeak s a = .ok (t, r)) : LogStep s t := by
  obtain ⟨b, hb, e, _⟩ := ControllBlock.DecreaseWeak_ok h
  subst e
  exact LogStep.log_setBlock hb _

theorem releaseBlock_log {s t : State} {a : Nat} (h : releaseBlock s a = .ok t) :
    LogStep s t := by
  unfold releaseBlock at h
  split at h
  · cases h
  · rename_i b hb
    cases h
    refine LogStep.log_free (State.block_ok.1 hb) ?_
    cases b.created_from_make_shared <;> simp

theorem WeakPtr.weak_unlink_log {s t : State} {w : WeakPtr}
    (hu : WeakPtr.UnlinkWithControllBlock s w = .ok t) : LogStep s t := by
  unfold WeakPtr.UnlinkWithControllBlock at hu
  split at hu
  · cases hu; exact LogStep.log_refl _
  · rename_i a hc
    split at hu
    · cases hu
    · rename_i s1 r hd
      have h1 := ControllBlock.DecreaseWeak_log hd
      by_cases hr' : r = true
      · rw [if_pos hr'] at hu
        exact h1.log_trans (releaseBlock_log hu)
      · rw [if_neg hr'] at hu
        cases hu
        exact h1

theorem WeakPtr.weak_dtor_log {s t : State} {i : Nat} (h : WeakPtr.dtor s i = .ok t) :
    LogStep s t := by
  obtain ⟨w, s1, hi, hu, e⟩ := WeakPtr.weak_dtor_ok h
  subst e
  exact (WeakPtr.weak_unlink_log hu).log_trans (LogStep.log_of_eq rfl rfl)

theorem destroyPayload_log {s t : State} {p : Option Pointer}
    (h : destroyPayload s p = .ok t) : LogStep s t := by
  unfold destroyPayload at h
  split at h
  · split at h
    · cases h
    · exact WeakPtr.weak_dtor_log h
  · cases h; exact LogStep.log_refl _

theorem ControllBlock.teardown_log {s t : State} {a : Nat} {b : ControllBlock}
    (h : ControllBlock.teardown s a b = .ok t) : LogStep s t := by
  unfold ControllBlock.teardown at h
  split at h
  · cases h; exact LogStep.log_refl _
  · rename_i x hx
    split at h
    · split at h
      · cases h
      · rename_i t1 ht
        cases h
        unfold AnyPtr.Destruct at ht
        split at ht
        · cases ht
        · exact ((LogStep.log_emit s _ (by rfl)).log_trans (destroyPayload_log ht)).log_trans
            (LogStep.log_emit _ _ (by rfl))
    · split at h
      · cases h
      · rename_i t1 ht
        cases h
        unfold AnyPtr.Delete at ht
        exact ((LogStep.log_emit s _ (by rfl)).log_trans (destroyPayload_log ht)).log_trans
            (LogStep.log_emit _ _ (by rfl))

/-- The method `DecreaseStrong` frees nothing itself, and leaves its block live. -/
theorem ControllBlock.DecreaseStrong_log {s t : State} {a : Nat} {r : Bool}
    (h : ControllBlock.DecreaseStrong s a = .ok (t, r)) :
    LogStep s t ∧ ∃ b, t.blocks[a]? = some (some b) := by
  unfold ControllBlock.DecreaseStrong at h
  split at h
  · cases h
  · rename_i b hb
    split at h
    · cases h
    · rename_i s1 h1
      split at h
      · cases h
      · rename_i b1 hb1
        simp only [Except.ok.injEq, Prod.mk.injEq] at h
        obtain ⟨e, _⟩ := h
        subst e
        rw [State.block_ok] at hb1
        have hs1 : LogStep s s1 := by
          split at h1
          · exact ControllBlock.teardown_log h1
          · cases h1; exact LogStep.log_refl _
        refine ⟨hs1.log_trans (LogStep.log_setBlock hb1 _),
          { b1 with strong := (b1.strong + (SIZE_MOD - 1)) % SIZE_MOD }, ?_⟩
        simp only [State.setBlock]
        rw [List.getElem?_set_self (lt_of_getElem?_some hb1)]

theorem SharedPtr.shared_unlink_log {s t : State} {h : SharedPtr}
    (hu : SharedPtr.UnlinkWithControllBlock s h = .ok t) : LogStep s t := by
  unfold SharedPtr.UnlinkWithControllBlock at hu
  split at hu
  · cases hu; exact LogStep.log_refl _
  · rename_i a hc
    split at hu
    · cases hu
    · rename_i s1 r hd
      have h1 := (ControllBlock.DecreaseStrong_log hd).1
      by_cases hr' : r = true
      · rw [if_pos hr'] at hu
        exact h1.log_trans (releaseBlock_log hu)
      · rw [if_neg hr'] at hu
        cases hu
        exact h1

theorem SharedPtr.shared_dtor_log {s t : State} {i : Nat} (h : SharedPtr.dtor s i = .ok t) :
    LogStep s t := by
  obtain ⟨x, s1, hi, hu, e⟩ := SharedPtr.shared_dtor_ok h
  subst e
  exact (SharedPtr.shared_unlink_log hu).log_trans (LogStep.log_of_eq rfl rfl)

theorem WeakPtr.weak_ctorCopy_log {s t : State} {src : Nat}
    (h : WeakPtr.ctorCopy s src = .ok t) : LogStep s t := by
  simp only [WeakPtr.ctorCopy, bind_ok, pure, Except.pure, Except.ok.injEq] at h
  obtain ⟨o, _, a, _, s1, h1, e⟩ := h
  subst e
  exact (ControllBlock.IncreaseWeak_log h1).log_trans (LogStep.log_of_eq rfl rfl)

theorem WeakPtr.ctorShared_log {s t : State} {src : Nat}
    (h : WeakPtr.ctorShared s src = .ok t) : LogStep s t := by
  simp only [WeakPtr.ctorShared, bind_ok, pure, Except.pure, Except.ok.injEq] at h
  obtain ⟨o, _, a, _, s1, h1, e⟩ := h
  subst e
  exact (ControllBlock.IncreaseWeak_log h1).log_trans (LogStep.log_of_eq rfl rfl)

theorem WeakPtr.weak_ctorMove_log {s t : State} {src : Nat}
    (h : WeakPtr.ctorMove s src = .ok t) : LogStep s t := by
  simp only [WeakPtr.ctorMove, bind_ok, pure, Except.pure, Except.ok.injEq] at h
  obtain ⟨o, _, e⟩ := h
  subst e
  exact LogStep.log_of_eq rfl rfl

theorem WeakPtr.weak_assignCopy_log {s t : State} {dst src : Nat}
    (h : WeakPtr.assignCopy s dst src = .ok t) : LogStep s t := by
  simp only [WeakPtr.assignCopy, bind_ok, pure, Except.pure] at h
  obtain ⟨d, _, o, _, h⟩ := h
  split at h
  · cases h; exact LogStep.log_refl _
  · simp only [bind_ok, Except.ok.injEq] at h
    obtain ⟨s1, h1, a, _, s2, h2, e⟩ := h
    subst e
    exact ((WeakPtr.weak_unlink_log h1).log_trans (ControllBlock.IncreaseWeak_log h2)).log_trans
      (LogStep.log_of_eq rfl rfl)

theorem WeakPtr.weak_assignMove_log {s t : State} {dst src : Nat}
    (h : WeakPtr.assignMove s dst src = .ok t) : LogStep s t := by
  simp only [WeakPtr.assignMove, bind_ok, pure, Except.pure] at h
  obtain ⟨d, _, o, _, h⟩ := h
  split at h
  · cases h; exact LogStep.log_refl _
  · simp only [bind_ok, Except.ok.injEq] at h
    obtain ⟨s1, h1, e⟩ := h
    subst e
    exact (WeakPtr.weak_unlink_log h1).log_trans (LogStep.log_of_eq rfl rfl)

theorem WeakPtr.weak_Reset_log {s t : State} {i : Nat}
    (h : WeakPtr.Reset s i = .ok t) : LogStep s t := by
  simp only [WeakPtr.Reset, bind_ok, pure, Except.pure, Except.ok.injEq] at h
  obtain ⟨w, _, s1, h1, e⟩ := h
  subst e
  exact ((WeakPtr.weak_unlink_log h1).log_trans (LogStep.log_newBlock _ _)).log_trans (LogStep.log_of_eq rfl rfl)

theorem WeakPtr.weak_Swap_log {s t : State} {i j : Nat}
    (h : WeakPtr.Swap s i j = .ok t) : LogStep s t := by
  simp only [WeakPtr.Swap, bind_ok, pure, Except.pure, Except.ok.injEq] at h
  obtain ⟨x, _, y, _, e⟩ := h
  subst e
  exact LogStep.log_of_eq rfl rfl

theorem SharedPtr.SetLinkToOuterSharedPtr_log {s t : State} {i o : Nat}
    (h : SharedPtr.SetLinkToOuterSharedPtr s i o = .ok t) : LogStep s t := by
  unfold SharedPtr.SetLinkToOuterSharedPtr at h
  split at h
  · cases h
  · simp only [bind_ok] at h
    obtain ⟨s1, h1, s2, h2, h3⟩ := h
    exact ((WeakPtr.ctorShared_log h1).log_trans (WeakPtr.weak_assignMove_log h2)).log_trans
      (WeakPtr.weak_dtor_log h3)

theorem SharedPtr.linkIfEnabled_log {s t : State} {i : Nat} {p : Option Pointer}
    (h : SharedPtr.linkIfEnabled s i p = .ok t) : LogStep s t := by
  unfold SharedPtr.linkIfEnabled at h
  split at h
  · exact SharedPtr.SetLinkToOuterSharedPtr_log h
  · cases h; exact LogStep.log_refl _

theorem SharedPtr.shared_ctorDefault_log (s : State) : LogStep s (SharedPtr.ctorDefault s) :=
  (LogStep.log_newBlock s _).log_trans (LogStep.log_of_eq rfl rfl)

theorem WeakPtr.weak_ctorDefault_log (s : State) : LogStep s (WeakPtr.ctorDefault s) :=
  (LogStep.log_newBlock s _).log_trans (LogStep.log_of_eq rfl rfl)

theorem EnableSharedFromThis.ctor_log (s : State) : LogStep s (EnableSharedFromThis.ctor s) :=
  (WeakPtr.weak_ctorDefault_log s).log_trans (LogStep.log_of_eq rfl rfl)

theorem SharedPtr.ctorAdopt_log {s t : State} {p : Option Pointer}
    (h : SharedPtr.ctorAdopt s p = .ok t) : LogStep s t := by
  unfold SharedPtr.ctorAdopt at h
  refine LogStep.log_trans ?_ (SharedPtr.linkIfEnabled_log h)
  exact (LogStep.log_newBlock s _).log_trans (LogStep.log_of_eq rfl rfl)

theorem SharedPtr.ctorAlias_log {s t : State} {src : Nat} {p : Option Pointer}
    (h : SharedPtr.ctorAlias s src p = .ok t) : LogStep s t := by
  simp only [SharedPtr.ctorAlias, bind_ok, pure, Except.pure, Except.ok.injEq] at h
  obtain ⟨o, _, a, _, s1, h1, e⟩ := h
  subst e
  exact (ControllBlock.IncreaseStrong_log h1).log_trans (LogStep.log_of_eq rfl rfl)

theorem SharedPtr.shared_ctorCopy_log {s t : State} {src : Nat}
    (h : SharedPtr.ctorCopy s src = .ok t) : LogStep s t := by
  simp only [SharedPtr.ctorCopy, bind_ok, pure, Except.pure, Except.ok.injEq] at h
  obtain ⟨o, _, a, _, s1, h1, e⟩ := h
  subst e
  exact (ControllBlock.IncreaseStrong_log h1).log_trans (LogStep.log_of_eq rfl rfl)

theorem SharedPtr.shared_ctorMove_log {s t : State} {src : Nat}
    (h : SharedPtr.ctorMove s src = .ok t) : LogStep s t := by
  simp only [SharedPtr.ctorMove, bind_ok, pure, Except.pure, Except.ok.injEq] at h
  obtain ⟨o, _, e⟩ := h
  subst e
  exact ((LogStep.log_of_eq rfl rfl).log_trans (LogStep.log_newBlock (s.pushShared _) _)).log_trans
    (LogStep.log_of_eq rfl rfl)

theorem SharedPtr.ctorPrivate_log {s t : State} {p : Option Pointer} {c : Option Nat}
    (h : SharedPtr.ctorPrivate s p c = .ok t) : LogStep s t := by
  simp only [SharedPtr.ctorPrivate, bind_ok] at h
  obtain ⟨a, _, s1, h1, h2⟩ := h
  refine LogStep.log_trans ?_ (SharedPtr.linkIfEnabled_log h2)
  exact (ControllBlock.IncreaseStrong_log h1).log_trans (LogStep.log_of_eq rfl rfl)

theorem SharedPtr.shared_assignCopy_log {s t : State} {dst src : Nat}
    (h : SharedPtr.assignCopy s dst src = .ok t) : LogStep s t := by
  simp only [SharedPtr.assignCopy, bind_ok, pure, Except.pure] at h
  obtain ⟨d, _, o, _, h⟩ := h
  split at h
  · cases h; exact LogStep.log_refl _
  · simp only [bind_ok, Except.ok.injEq] at h
    obtain ⟨s1, h1, a, _, s2, h2, e⟩ := h
    subst e
    exact ((SharedPtr.shared_unlink_log h1).log_trans (ControllBlock.IncreaseStrong_log h2)).log_trans
      (LogStep.log_of_eq rfl rfl)

theorem SharedPtr.shared_assignMove_log {s t : State} {dst src : Nat}
    (h : SharedPtr.assignMove s dst src = .ok t) : LogStep s t := by
  simp only [SharedPtr.assignMove, bind_ok, pure, Except.pure] at h
  obtain ⟨d, _, o, _, h⟩ := h
  split at h
  · cases h; exact LogStep.log_refl _
  · simp only [bind_ok, Except.ok.injEq] at h
    obtain ⟨s1, h1, e⟩ := h
    subst e
    exact (SharedPtr.shared_unlink_log h1).log_trans (LogStep.log_of_eq rfl rfl)

theorem SharedPtr.shared_Reset_log {s t : State} {i : Nat}
    (h : SharedPtr.Reset s i = .ok t) : LogStep s t := by
  simp only [SharedPtr.Reset, bind_ok, pure, Except.pure, Except.ok.injEq] at h
  obtain ⟨x, _, a, _, ⟨s1, r⟩, h1, e⟩ := h
  subst e
  obtain ⟨l1, b, hb⟩ := ControllBlock.DecreaseStrong_log h1
  refine (l1.log_trans ?_).log_trans ((LogStep.log_newBlock _ _).log_trans (LogStep.log_of_eq rfl rfl))
  cases r
  · exact LogStep.log_refl _
  · exact LogStep.log_free hb (Or.inl rfl)

theorem SharedPtr.ResetPtr_log {s t : State} {i : Nat} {p : Option Pointer}
    (h : SharedPtr.ResetPtr s i p = .ok t) : LogStep s t := by
  simp only [SharedPtr.ResetPtr, bind_ok, pure, Except.pure, Except.ok.injEq] at h
  obtain ⟨x, _, s1, h1, e⟩ := h
  subst e
  exact ((SharedPtr.shared_unlink_log h1).log_trans (LogStep.log_newBlock _ _)).log_trans
    (LogStep.log_of_eq rfl rfl)

theorem SharedPtr.shared_Swap_log {s t : State} {i j : Nat}
    (h : SharedPtr.Swap s i j = .ok t) : LogStep s t := by
  simp only [SharedPtr.Swap, bind_ok, pure, Except.pure, Except.ok.injEq] at h
  obtain ⟨x, _, y, _, e⟩ := h
  subst e
  exact LogStep.log_of_eq rfl rfl

theorem WeakPtr.Lock_log {s t : State} {w : Nat} (h : WeakPtr.Lock s w = .ok t) :
    LogStep s t := by
  simp only [WeakPtr.Lock, bind_ok, pure, Except.pure] at h
  obtain ⟨x, _, e, _, h⟩ := h
  split at h
  · cases h; exact SharedPtr.shared_ctorDefault_log s
  · exact SharedPtr.ctorPrivate_log h

theorem SharedPtr.ctorWeak_log {s t : State} {w : Nat} (h : SharedPtr.ctorWeak s w = .ok t) :
    LogStep s t := by
  simp only [SharedPtr.ctorWeak, bind_ok, pure, Except.pure] at h
  obtain ⟨x, _, e, _, h⟩ := h
  split at h
  · cases h; exact LogStep.log_emit s _ rfl
  · simp only [bind_ok] at h
    obtain ⟨s2, h2, s3, h3, h4⟩ := h
    exact (((LogStep.log_of_eq rfl rfl).log_trans (WeakPtr.Lock_log h2)).log_trans
      (SharedPtr.shared_assignMove_log h3)).log_trans (SharedPtr.shared_dtor_log h4)

theorem MakeShared.finish_log {s t : State} {p : Pointer}
    (h : MakeShared.finish s p = .ok t) : LogStep s t := by
  unfold MakeShared.finish at h
  exact (LogStep.log_newBlock s _).log_trans (SharedPtr.ctorPrivate_log h)

theorem MakeShared.enabled_log {s t : State} (h : MakeShared.enabled s = .ok t) :
    LogStep s t := by
  unfold MakeShared.enabled at h
  exact (EnableSharedFromThis.ctor_log s).log_trans (MakeShared.finish_log h)

/-- Every public operation logs one release for each block it frees, and frees only live
blocks. -/
theorem step_log {s t : State} {op : Op} (h : step s op = .ok t) : LogStep s t := by
  cases op <;> simp only [step] at h
  case sharedDefault => cases h; exact SharedPtr.shared_ctorDefault_log s
  case sharedAdopt p => exact SharedPtr.ctorAdopt_log h
  case sharedCopy src => exact SharedPtr.shared_ctorCopy_log h
  case sharedMove src => exact SharedPtr.shared_ctorMove_log h
  case sharedAlias src p => exact SharedPtr.ctorAlias_log h
  case sharedFromWeak w => exact SharedPtr.ctorWeak_log h
  case sharedAssign dst src => exact SharedPtr.shared_assignCopy_log h
  case sharedMoveAssign dst src => exact SharedPtr.shared_assignMove_log h
  case sharedDestroy i => exact SharedPtr.shared_dtor_log h
  case sharedReset i => exact SharedPtr.shared_Reset_log h
  case sharedResetPtr i p => exact SharedPtr.ResetPtr_log h
  case sharedSwap i j => exact SharedPtr.shared_Swap_log h
  case weakDefault => cases h; exact WeakPtr.weak_ctorDefault_log s
  case weakCopy src => exact WeakPtr.weak_ctorCopy_log h
  case weakMove src => exact WeakPtr.weak_ctorMove_log h
  case weakFromShared src => exact WeakPtr.ctorShared_log h
  case weakAssign dst src => exact WeakPtr.weak_assignCopy_log h
  case weakMoveAssign dst src => exact WeakPtr.weak_assignMove_log h
  case weakDestroy i => exact WeakPtr.weak_dtor_log h
  case weakReset i => exact WeakPtr.weak_Reset_log h
  case weakSwap i j => exact WeakPtr.weak_Swap_log h
  case weakLock w => exact WeakPtr.Lock_log h
  case makeShared addr => exact MakeShared.finish_log h
  case makeSharedEnabled => exact MakeShared.enabled_log h
  case newEnabled => cases h; exact EnableSharedFromThis.ctor_log s
  case sharedFromThis o =>
    unfold EnableSharedFromThis.SharedFromThis at h
    split at h
    · cases h
    · exact SharedPtr.ctorWeak_log h
  case weakFromThis o =>
    unfold EnableSharedFromThis.WeakFromThis at h
    split at h
    · cases h
    · exact WeakPtr.weak_ctorCopy_log h

theorem run_log {prog : List Op} {s t : State} (h : run s prog = .ok t) : LogStep s t := by
  induction prog generalizing s with
  | nil => simp only [run] at h; cases h; exact LogStep.log_refl _
  | cons op rest ih =>
    simp only [run] at h
    split at h
    · cases h
    · rename_i s1 h1
      exact (step_log h1).log_trans (ih h)

theorem State.empty_logged : State.empty.Logged := by
  intro a
  simp [State.empty, freesOf]

/-! ## Claim C3 -/

/-- C3: in every state reached by a sequence of public operations of `SharedPtr`, `WeakPtr`,
`MakeShared` and `EnableSharedFromThis` (with room left for two more handle objects before
`std::size_t` could wrap): no block that is still allocated has `strong == 0` and `weak == 0`;
an allocated address is freed exactly when no live handle holds it, that is when the decrements
have taken both counters to zero; the log holds exactly one release for each freed block and
none for any other address, so no block is freed twice; and neither the next operation, whatever
it is, nor the observers `UseCount` and `Expired` of a live handle access a freed block. -/
theorem C3_block_freed_once_when_both_counts_zero (prog : List Op) (s : State)
    (hrun : run State.empty prog = .ok s) (hR : s.Room 2) :
    (∀ (a : Nat) (b : ControllBlock), s.block a = .ok b → b.strong ≠ 0 ∨ b.weak ≠ 0) ∧
    (∀ a : Nat, a < s.blocks.length →
      (s.blocks[a]? = some none ↔ sharedRefs s.shared a = 0 ∧ weakRefs s.weak a = 0)) ∧
    (∀ a : Nat, freesOf s.log a = if s.blocks[a]? = some none then 1 else 0) ∧
    (∀ op : Op, step s op ≠ .error .useAfterFree) ∧
    (∀ (i : Nat) (h : SharedPtr), s.getShared i = .ok h →
      SharedPtr.UseCount s h ≠ .error .useAfterFree) ∧
    (∀ (i : Nat) (w : WeakPtr), s.getWeak i = .ok w →
      WeakPtr.Expired s w ≠ .error .useAfterFree) := by
  have hB : s.Bounded := by
    unfold State.Room at hR
    unfold State.Bounded
    omega
  have hC : s.Counted := (run_pres hrun).2.2 State.empty_counted hB
  have hL : s.Logged := run_log hrun State.empty_logged
  refine ⟨fun a b hb => ?_, fun a ha => ⟨fun hf => ?_, fun hz => ?_⟩, hL,
    fun op => step_safe op hC hR, fun i h hi => ?_, fun i w hi => ?_⟩
  · have := hC.2 a b (State.block_ok.1 hb)
    omega
  · have h1 := hC.1 a
    simp only [strongAt, weakAt, hf] at h1
    exact ⟨h1.1.symm, h1.2.symm⟩
  · have h1 := hC.1 a
    cases hx : s.blocks[a]? with
    | none =>
      rw [List.getElem?_eq_none_iff] at hx
      omega
    | some x =>
      cases x with
      | none => rfl
      | some b =>
        rw [strongAt_of_get hx, weakAt_of_get hx] at h1
        have := hC.2 a b hx
        omega
  · rw [State.getShared_ok] at hi
    unfold SharedPtr.UseCount
    cases h.ptr_ with
    | none => intro c; cases c
    | some p =>
      cases hc : h.controll_ with
      | none => intro c; cases c
      | some a =>
        obtain ⟨b, hb, _⟩ := Counted.live_of_shared hC hi hc
        simp only [deref, State.block_ok.2 hb]
        intro c; cases c
  · rw [State.getWeak_ok] at hi
    obtain ⟨e, he⟩ := WeakPtr.Expired_safe hC hi
    rw [he]
    intro c; cases c

/-- C3 on `SharedPtr<T> s(new T); WeakPtr<T> w(s);` followed by the destruction of `s` and of
`w`: the block at address 0 is freed by the last decrement, and its release is logged once. -/
theorem C3_block_freed_once_when_both_counts_zero_witness :
    run State.empty
        [.sharedAdopt (some (.plain 7)), .weakFromShared 0, .sharedDestroy 0, .weakDestroy 0]
      = .ok exampleReleased ∧
    exampleReleased.Room 2 ∧
    (exampleReleased.blocks[0]? = some none ↔
      sharedRefs exampleReleased.shared 0 = 0 ∧ weakRefs exampleReleased.weak 0 = 0) ∧
    freesOf exampleReleased.log 0 = (if exampleReleased.blocks[0]? = some none then 1 else 0) ∧
    step exampleReleased (.sharedCopy 0) ≠ .error .useAfterFree :=
  ⟨rfl, ⟨by decide, by decide⟩,
    (C3_block_freed_once_when_both_counts_zero
      [.sharedAdopt (some (.plain 7)), .weakFromShared 0, .sharedDestroy 0, .weakDestroy 0]
      exampleReleased rfl ⟨by decide, by decide⟩).2.1 0 (by decide),
    (C3_block_freed_once_when_both_counts_zero
      [.sharedAdopt (some (.plain 7)), .weakFromShared 0, .sharedDestroy 0, .weakDestroy 0]
      exampleReleased rfl ⟨by decide, by decide⟩).2.2.1 0,
    (C3_block_freed_once_when_both_counts_zero
      [.sharedAdopt (some (.plain 7)), .weakFromShared 0, .sharedDestroy 0, .weakDestroy 0]
      exampleReleased rfl ⟨by decide, by decide⟩).2.2.2.1 (.sharedCopy 0)⟩

/-! ## Teardown events, block by block -/

theorem tornOf_append (l1 l2 : List Event) (a : Nat) :
    tornOf (l1 ++ l2) a = tornOf l1 a ++ tornOf l2 a := by
  simp [tornOf]

theorem tornOf_of_destroyer (mid : List Event) (a : Nat) :
    tornOf mid a = tornOf (mid.filter Event.isDestroyerCall) a := by
  unfold tornOf
  rw [List.filter_filter]
  congr 1
  funext e
  cases e <;> simp [Event.isDestroyerOf, Event.isDestroyerCall]

theorem tornOf_teardownTrace (c a : Nat) (b : ControllBlock) :
    tornOf (ControllBlock.teardownTrace c b) a
      = if c = a then ControllBlock.teardownTrace c b else [] := by
  unfold ControllBlock.teardownTrace tornOf
  by_cases e : c = a
  · subst e
    simp only [if_true]
    split
    · split
      · rfl
      · split
        · split <;> simp [Event.isDestroyerOf]
        · simp [Event.isDestroyerOf]
    · rfl
  · simp only [if_neg e]
    split
    · split
      · rfl
      · split
        · split <;> simp [Event.isDestroyerOf, e]
        · simp [Event.isDestroyerOf, e]
    · rfl

/-- What the destruction of a shared handle logs for the payload of the block at `a`: the
teardown of that block if the handle is on it, nothing otherwise. -/
theorem SharedPtr.shared_dtor_torn {s t : State} {j : Nat} {x : SharedPtr} (a : Nat)
    (hC : s.Counted) (hj : s.shared[j]? = some (some x)) (h : SharedPtr.dtor s j = .ok t) :
    (x.controll_ ≠ some a → tornOf t.log a = tornOf s.log a) ∧
    (∀ ba : ControllBlock, x.controll_ = some a → s.blocks[a]? = some (some ba) →
      tornOf t.log a = tornOf s.log a ++ ControllBlock.teardownTrace a ba) := by
  obtain ⟨x', s1, hj', hu, rfl⟩ := SharedPtr.shared_dtor_ok h
  rw [hj] at hj'
  simp only [Option.some.injEq] at hj'
  subst hj'
  simp only [State.setShared]
  cases hc : x.controll_ with
  | none =>
    simp only [SharedPtr.UnlinkWithControllBlock, hc, Except.ok.injEq] at hu
    subst hu
    exact ⟨fun _ => rfl, fun ba h' => by cases h'⟩
  | some c =>
    obtain ⟨bc, hbc, _⟩ := Counted.live_of_shared hC hj hc
    obtain ⟨w, mid, hl, hm, _⟩ := SharedPtr.shared_unlink_trace hc hbc hu
    have hmid : tornOf mid a = if c = a then ControllBlock.teardownTrace c bc else [] := by
      rw [tornOf_of_destroyer, hm, tornOf_teardownTrace]
    constructor
    · intro hne
      have e : c ≠ a := fun e => hne (by rw [e])
      rw [hl, tornOf_append, hmid, if_neg e, List.append_nil]
    · intro ba hca hba
      simp only [Option.some.injEq] at hca
      subst hca
      rw [hbc] at hba
      simp only [Option.some.injEq] at hba
      subst hba
      rw [hl, tornOf_append, hmid, if_pos rfl]

theorem ControllBlock.teardownTrace_ne_one (a : Nat) (b : ControllBlock) (h : b.strong ≠ 1) :
    ControllBlock.teardownTrace a b = [] := by
  simp [ControllBlock.teardownTrace, h]

theorem ControllBlock.teardownTrace_congr (a : Nat) (b c : ControllBlock)
    (h1 : b.strong = c.strong) (h2 : b.ptr = c.ptr)
    (h3 : b.created_from_make_shared = c.created_from_make_shared) :
    ControllBlock.teardownTrace a b = ControllBlock.teardownTrace a c := by
  simp [ControllBlock.teardownTrace, h1, h2, h3]

/-- Destroying another handle keeps the handle in slot `k`, its block and the payload. -/
theorem HeldBy.destroy_other {log0 : List Event} {s t : State} {k a j : Nat} {x : SharedPtr}
    {b : ControllBlock} (hH : HeldBy log0 s k a x b) (hjk : j ≠ k)
    (h : SharedPtr.dtor s j = .ok t) (hB : t.Bounded) : HeldBy log0 t k a x b := by
  obtain ⟨hC, hk, hxa, ⟨bu, hbu, hp, hf⟩, hl⟩ := hH
  have hCt : t.Counted := (SharedPtr.shared_dtor_pres h).2.2 hC hB
  obtain ⟨y, s1, hj, hu, ht⟩ := SharedPtr.shared_dtor_ok h
  obtain ⟨f1, f2, f3, f4⟩ := SharedPtr.shared_unlink_frame hu
  obtain ⟨bk, hbk, hs, _, h1⟩ := Counted.live_of_shared hC hk hxa
  rw [hbu] at hbk
  simp only [Option.some.injEq] at hbk
  subst hbk
  have htorn := SharedPtr.shared_dtor_torn a hC hj h
  have hkt : t.shared[k]? = some (some x) := by
    subst ht
    simp only [State.setShared, f1]
    rw [List.getElem?_set_ne hjk]
    exact hk
  have hlen : s.shared.length < SIZE_MOD := by
    have := hB.1
    subst ht
    simpa [State.setShared, f1] using this
  refine ⟨hCt, hkt, hxa, ?_, ?_⟩
  · subst ht
    simp only [State.setShared]
    cases hc : y.controll_ with
    | none =>
      simp only [SharedPtr.UnlinkWithControllBlock, hc, Except.ok.injEq] at hu
      subst hu
      exact ⟨bu, hbu, hp, hf⟩
    | some c =>
      by_cases e : c = a
      · subst e
        obtain ⟨w, mid, _, _, _, _, hkeep, _⟩ := SharedPtr.shared_unlink_trace hc hbu hu
        have h2 := sharedRefs_two s.shared j k y x c hj hk hjk hc hxa
        have h3 := sharedRefs_le s.shared c
        have hnz : ¬ ((bu.strong + (SIZE_MOD - 1)) % SIZE_MOD = 0 ∧ w = 0) := by
          intro hz
          have := hz.1
          unfold SIZE_MOD at *
          omega
        exact ⟨_, hkeep hnz, hp, hf⟩
      · obtain ⟨bc, hbc, _⟩ := Counted.live_of_shared hC hj hc
        obtain ⟨w, mid, _, _, _, _, _, hoth⟩ := SharedPtr.shared_unlink_trace hc hbc hu
        obtain ⟨bu', hbu', _, hp', hf'⟩ := hoth a bu (fun e' => e e'.symm) hbu (by omega)
        exact ⟨bu', hbu', by rw [hp', hp], by rw [hf', hf]⟩
  · by_cases e : y.controll_ = some a
    · have h2 := sharedRefs_two s.shared j k y x a hj hk hjk e hxa
      rw [htorn.2 bu e hbu, ControllBlock.teardownTrace_ne_one a bu (by omega),
        List.append_nil, hl]
    · rw [htorn.1 e, hl]

theorem HeldBy.run_others {log0 : List Event} {k a : Nat} {x : SharedPtr} {b : ControllBlock}
    (prog : List Op) :
    ∀ {s t : State}, HeldBy log0 s k a x b → (∀ op ∈ prog, op.isDestroyOther k = true) →
      run s prog = .ok t → t.Bounded → HeldBy log0 t k a x b := by
  induction prog with
  | nil =>
    intro s t hH _ hr _
    simp only [SmartPointers.run, Except.ok.injEq] at hr
    subst hr; exact hH
  | cons op rest ih =>
    intro s t hH hops hr hB
    simp only [SmartPointers.run] at hr
    split at hr
    · cases hr
    · rename_i s1 h1
      have hp := run_pres hr
      have hB1 : s1.Bounded := hB.of_le hp.1 hp.2.1
      have hop := hops op (List.mem_cons_self _ _)
      cases op <;> simp only [Op.isDestroyOther] at hop <;> try cases hop
      rename_i j
      simp only [step] at h1
      have hjk : j ≠ k := by simpa using hop
      exact ih (hH.destroy_other hjk h1 hB1) (fun o ho => hops o (List.mem_cons_of_mem _ ho))
        hr hB

/-! ## Claim C11 -/

/-- C11: in a state reached by public operations, let `h` be a live shared handle (slot `i`) on
the block `b` at `a`, and `p` any pointer. The aliasing constructor `SharedPtr(h, p)` returns: the
new handle has `Get() == p` and the block of `h`, whose `strong` is one greater. After the
destruction, in any order, of any handles other than the alias, the alias is still live, the
block is live with its destroyer, and no destroyer call was logged for its payload; and once the
alias is the last handle on the block, its destruction logs the teardown of the payload (and
returns, when the payload is not an object whose self reference was already destroyed). -/
theorem C11_aliasing_shares_block_and_defers_teardown (pre prog : List Op) (s u : State)
    (i a : Nat) (h : SharedPtr) (b : ControllBlock) (p : Option Pointer)
    (hreach : run State.empty pre = .ok s)
    (hi : s.getShared i = .ok h) (hc : h.controll_ = some a) (hb : s.block a = .ok b)
    (hops : ∀ op ∈ prog, op.isDestroyOther s.shared.length = true)
    (hrun : run ((s.setBlock a { b with strong := b.strong + 1 }).pushShared
      { ptr_ := p, controll_ := some a }) prog = .ok u)
    (hB : u.Bounded) :
    SharedPtr.ctorAlias s i p
      = .ok ((s.setBlock a { b with strong := b.strong + 1 }).pushShared
          { ptr_ := p, controll_ := some a }) ∧
    (∃ al : SharedPtr, u.getShared s.shared.length = .ok al ∧ al.Get = p ∧
      al.controll_ = some a) ∧
    (∃ bu : ControllBlock, u.block a = .ok bu ∧ bu.ptr = b.ptr ∧
      bu.created_from_make_shared = b.created_from_make_shared ∧ 1 ≤ bu.strong) ∧
    tornOf u.log a = tornOf s.log a ∧
    (sharedRefs u.shared a = 1 →
      (∀ v, SharedPtr.dtor u s.shared.length = .ok v →
        tornOf v.log a
          = tornOf u.log a ++ ControllBlock.teardownTrace a { b with strong := 1 }) ∧
      ((∀ x, b.ptr = some x → (b.created_from_make_shared = true → x.ptr ≠ none) ∧
          ∀ o, x.ptr = some (.esft o) →
            ∃ (k : Nat) (w : WeakPtr), u.objs[o]? = some k ∧ u.weak[k]? = some (some w)) →
        ∃ v, SharedPtr.dtor u s.shared.length = .ok v)) := by
  have hp := run_pres hrun
  have hBt : ((s.setBlock a { b with strong := b.strong + 1 }).pushShared
      { ptr_ := p, controll_ := some a }).Bounded := hB.of_le hp.1 hp.2.1
  have hlen : s.shared.length + 1 < SIZE_MOD := by
    have := hBt.1
    simpa [State.pushShared, State.setBlock] using this
  have hBs : s.Bounded := by
    have := hBt.2
    simp only [State.pushShared, State.setBlock] at this
    exact ⟨by omega, this⟩
  have hC : s.Counted := (run_pres hreach).2.2 State.empty_counted hBs
  rw [State.getShared_ok] at hi
  rw [State.block_ok] at hb
  obtain ⟨b', hb', hs, _, h1⟩ := Counted.live_of_shared hC hi hc
  rw [hb] at hb'
  simp only [Option.some.injEq] at hb'
  subst hb'
  have hle := sharedRefs_le s.shared a
  have hmod : (b.strong + 1) % SIZE_MOD = b.strong + 1 := Nat.mod_eq_of_lt (by omega)
  have halias : SharedPtr.ctorAlias s i p
      = .ok ((s.setBlock a { b with strong := b.strong + 1 }).pushShared
          { ptr_ := p, controll_ := some a }) := by
    simp [SharedPtr.ctorAlias, State.getShared_ok.2 hi, hc, deref,
      ControllBlock.IncreaseStrong, State.block_ok.2 hb, hmod, bind, Except.bind, pure,
      Except.pure]
  have hCt := (SharedPtr.ctorAlias_pres halias).2.2 hC hBt
  have hH0 : HeldBy s.log ((s.setBlock a { b with strong := b.strong + 1 }).pushShared
      { ptr_ := p, controll_ := some a }) s.shared.length a
      { ptr_ := p, controll_ := some a } b := by
    refine ⟨hCt, by simp [State.pushShared, State.setBlock], rfl,
      ⟨{ b with strong := b.strong + 1 }, ?_, rfl, rfl⟩, rfl⟩
    simp only [State.pushShared, State.setBlock]
    rw [List.getElem?_set_self (lt_of_getElem?_some hb)]
  obtain ⟨hCu, hk, _, ⟨bu, hbu, hpu, hfu⟩, hl⟩ := HeldBy.run_others prog hH0 hops hrun hB
  obtain ⟨bk, hbk, hsk, _, h1k⟩ := Counted.live_of_shared hCu hk rfl
  rw [hbu] at hbk
  simp only [Option.some.injEq] at hbk
  subst hbk
  refine ⟨halias, ⟨_, State.getShared_ok.2 hk, rfl, rfl⟩,
    ⟨bu, State.block_ok.2 hbu, hpu, hfu, h1k⟩, hl, fun hlast => ⟨fun v hv => ?_, fun hpay => ?_⟩⟩
  · rw [(SharedPtr.shared_dtor_torn a hCu hk hv).2 bu rfl hbu]
    congr 1
    exact ControllBlock.teardownTrace_congr a _ _ (by simp; omega) hpu hfu
  · refine SharedPtr.shared_dtor_total hCu hk (fun a' b' x ha' hb' hx => ?_)
    simp only [Option.some.injEq] at ha'
    subst ha'
    rw [hbu] at hb'
    simp only [Option.some.injEq] at hb'
    subst hb'
    have := hpay x (by rw [← hpu]; exact hx)
    rw [hfu]
    exact this

/-- C11 on `SharedPtr<T> s(new T); SharedPtr<U> al(s, q);` followed by the destruction of `s`
and then of `al`: the payload at address 7 is deleted when the alias goes. -/
theorem C11_aliasing_shares_block_and_defers_teardown_witness :
    run State.empty [.sharedAdopt (some (.plain 7))] = .ok exampleAdopted ∧
    run ((exampleAdopted.setBlock 0
        { ControllBlock.ofPointer (some (.plain 7)) with strong := 1 + 1 }).pushShared
        { ptr_ := some (.plain 9), controll_ := some 0 }) [.sharedDestroy 0]
      = .ok exampleAliasLast ∧
    SharedPtr.ctorAlias exampleAdopted 0 (some (.plain 9))
      = .ok ((exampleAdopted.setBlock 0
          { ControllBlock.ofPointer (some (.plain 7)) with strong := 1 + 1 }).pushShared
          { ptr_ := some (.plain 9), controll_ := some 0 }) ∧
    tornOf exampleAliasLast.log 0 = tornOf exampleAdopted.log 0 ∧
    SharedPtr.dtor exampleAliasLast 1 = .ok exampleAliasGone ∧
    tornOf exampleAliasGone.log 0
      = tornOf exampleAliasLast.log 0 ++
        ControllBlock.teardownTrace 0
          { ControllBlock.ofPointer (some (.plain 7)) with strong := 1 } :=
  ⟨rfl, rfl,
    (C11_aliasing_shares_block_and_defers_teardown [.sharedAdopt (some (.plain 7))]
      [.sharedDestroy 0] exampleAdopted exampleAliasLast 0 0
      { ptr_ := some (.plain 7), controll_ := some 0 }
      (ControllBlock.ofPointer (some (.plain 7))) (some (.plain 9)) rfl rfl rfl rfl
      (by decide) rfl ⟨by decide, by decide⟩).1,
    (C11_aliasing_shares_block_and_defers_teardown [.sharedAdopt (some (.plain 7))]
      [.sharedDestroy 0] exampleAdopted exampleAliasLast 0 0
      { ptr_ := some (.plain 7), controll_ := some 0 }
      (ControllBlock.ofPointer (some (.plain 7))) (some (.plain 9)) rfl rfl rfl rfl
      (by decide) rfl ⟨by decide, by decide⟩).2.2.2.1,
    rfl,
    ((C11_aliasing_shares_block_and_defers_teardown [.sharedAdopt (some (.plain 7))]
      [.sharedDestroy 0] exampleAdopted exampleAliasLast 0 0
      { ptr_ := some (.plain 7), controll_ := some 0 }
      (ControllBlock.ofPointer (some (.plain 7))) (some (.plain 9)) rfl rfl rfl rfl
      (by decide) rfl ⟨by decide, by decide⟩).2.2.2.2 (by decide)).1 exampleAliasGone rfl⟩

/-! ## Wiring the self reference, step by step -/

/-- `WeakPtr::UnlinkWithControllBlock` touches no block but the handle's own, and logs nothing
but the release of that block. -/
theorem WeakPtr.weak_unlink_others {s t : State} {w : WeakPtr}
    (hu : WeakPtr.UnlinkWithControllBlock s w = .ok t) :
    (∀ a : Nat, w.controll_ ≠ some a → t.blocks[a]? = s.blocks[a]?) ∧
    (∃ mid : List Event, t.log = s.log ++ mid ∧ ∀ e ∈ mid, e.isFree = true) := by
  unfold WeakPtr.UnlinkWithControllBlock at hu
  split at hu
  · cases hu
    exact ⟨fun _ _ => rfl, [], by simp, by simp⟩
  · rename_i c hc
    split at hu
    · cases hu
    · rename_i s1 r hd
      obtain ⟨b, hb, hs1, hr⟩ := ControllBlock.DecreaseWeak_ok hd
      subst hs1
      by_cases hr' : r = true
      · rw [if_pos hr'] at hu
        obtain ⟨b2, hb2, e1, _, _, _, e5⟩ := releaseBlock_ok hu
        simp only [State.setBlock] at e1 e5
        refine ⟨fun a ha => ?_, _, e5, ?_⟩
        · have e : c ≠ a := fun e => ha (by rw [hc, e])
          rw [e1, List.getElem?_set_ne e, List.getElem?_set_ne e]
        · intro e he
          simp only [List.mem_singleton] at he
          subst he
          cases b2.created_from_make_shared <;> rfl
      · rw [if_neg hr'] at hu
        cases hu
        refine ⟨fun a ha => ?_, [], by simp [State.setBlock], by simp⟩
        have e : c ≠ a := fun e => ha (by rw [hc, e])
        simp only [State.setBlock]
        rw [List.getElem?_set_ne e]

/-- The link of an object whose member `outer_shared_pointer_` (weak slot `k`) does not hold the
pointer of the handle yet, and is on another block: the member takes the pointer and the block of
the handle, whose `weak` is one greater; the temporary weak handle is gone. -/
theorem SharedPtr.SetLinkToOuterSharedPtr_fresh {s t : State} {i o k a : Nat} {h : SharedPtr}
    {w : WeakPtr} {b : ControllBlock}
    (hi : s.shared[i]? = some (some h)) (hc : h.controll_ = some a)
    (hb : s.blocks[a]? = some (some b)) (ho : s.objs[o]? = some k)
    (hk : s.weak[k]? = some (some w)) (hne : w.ptr_ ≠ h.ptr_) (hwa : w.controll_ ≠ some a)
    (hl : SharedPtr.SetLinkToOuterSharedPtr s i o = .ok t) :
    t.shared = s.shared ∧ t.objs = s.objs ∧
    t.weak = s.weak.set k (some { ptr_ := h.ptr_, controll_ := some a }) ++ [none] ∧
    t.blocks[a]? = some (some { b with weak := (b.weak + 1) % SIZE_MOD }) ∧
    (∃ mid : List Event, t.log = s.log ++ mid ∧ ∀ e ∈ mid, e.isFree = true) := by
  have hklt : k < s.weak.length := lt_of_getElem?_some hk
  simp only [SharedPtr.SetLinkToOuterSharedPtr, ho, bind_ok] at hl
  obtain ⟨s1, h1, s2, h2, h3⟩ := hl
  simp only [WeakPtr.ctorShared, State.getShared_ok.2 hi, hc, deref, bind_ok, pure, Except.pure,
    Except.ok.injEq, exists_eq_left'] at h1
  obtain ⟨s1', hinc, rfl⟩ := h1
  obtain ⟨b', hb', rfl⟩ := ControllBlock.IncreaseWeak_ok hinc
  rw [hb] at hb'
  simp only [Option.some.injEq] at hb'
  subst hb'
  have hk1 : ((s.setBlock a { b with weak := (b.weak + 1) % SIZE_MOD }).pushWeak
      { ptr_ := h.ptr_, controll_ := some a }).weak[k]? = some (some w) := by
    simp only [State.pushWeak, State.setBlock]
    rw [List.getElem?_append_left hklt]
    exact hk
  have hn1 : ((s.setBlock a { b with weak := (b.weak + 1) % SIZE_MOD }).pushWeak
      { ptr_ := h.ptr_, controll_ := some a }).weak[s.weak.length]?
      = some (some { ptr_ := h.ptr_, controll_ := some a }) := by
    simp [State.pushWeak, State.setBlock]
  simp only [WeakPtr.assignMove, State.getWeak_ok.2 hk1, State.getWeak_ok.2 hn1, bind_ok, pure,
    Except.pure, Except.ok.injEq, exists_eq_left', if_neg hne] at h2
  obtain ⟨s1', hu, rfl⟩ := h2
  obtain ⟨f1, f2, f3, f4⟩ := WeakPtr.weak_unlink_frame hu
  obtain ⟨hoth, mid, hlog, hfree⟩ := WeakPtr.weak_unlink_others hu
  have hlen : s1'.weak.length = s.weak.length + 1 := by
    rw [f2]; simp [State.pushWeak, State.setBlock]
  have hn2 : ((s1'.setWeak k (some { ptr_ := h.ptr_, controll_ := some a })).setWeak
      s.weak.length (some { ptr_ := none, controll_ := none })).weak[s.weak.length]?
      = some (some { ptr_ := none, controll_ := none }) := by
    simp only [State.setWeak]
    rw [List.getElem?_set_self (by simp; omega)]
  simp only [WeakPtr.dtor, State.getWeak_ok.2 hn2, WeakPtr.UnlinkWithControllBlock,
    Except.ok.injEq] at h3
  subst h3
  refine ⟨?_, ?_, ?_, ?_, mid, ?_, hfree⟩
  · simp [State.setWeak, f1, State.pushWeak, State.setBlock]
  · simp [State.setWeak, f3, State.pushWeak, State.setBlock]
  · simp only [State.setWeak, f2, State.pushWeak, State.setBlock]
    apply List.ext_getElem?
    intro n
    rcases Nat.lt_trichotomy n s.weak.length with hn | hn | hn
    · rw [List.getElem?_set_ne (by omega), List.getElem?_set_ne (by omega),
        List.getElem?_append_left (by simpa using hn)]
      by_cases e : k = n
      · subst e
        rw [List.getElem?_set_self (by simp; omega), List.getElem?_set_self hklt]
      · rw [List.getElem?_set_ne e, List.getElem?_set_ne e, List.getElem?_append_left hn]
    · subst hn
      rw [List.getElem?_set_self (by simp),
        List.getElem?_append_right (by simp)]
      simp
    · rw [List.getElem?_eq_none (by simp; omega), List.getElem?_eq_none (by simp; omega)]
  · simp only [State.setWeak]
    rw [hoth a hwa]
    simp only [State.pushWeak, State.setBlock]
    rw [List.getElem?_set_self (lt_of_getElem?_some hb)]
  · simp only [State.setWeak]
    rw [hlog]
    simp [State.pushWeak, State.setBlock]

theorem set_same_block (B : List (Option ControllBlock)) (a : Nat) (b : ControllBlock)
    (hb : B[a]? = some (some b)) : B.set a (some b) = B := by
  apply List.ext_getElem?
  intro n
  by_cases e : a = n
  · subst e
    rw [List.getElem?_set_self (lt_of_getElem?_some hb), hb]
  · rw [List.getElem?_set_ne e]

/-- The link of an object whose member `outer_shared_pointer_` already holds the pointer of the
handle: the move assignment returns early, and the temporary weak handle comes and goes. -/
theorem SharedPtr.SetLinkToOuterSharedPtr_same {s t : State} {i o k a : Nat} {h : SharedPtr}
    {w : WeakPtr} {b : ControllBlock}
    (hi : s.shared[i]? = some (some h)) (hc : h.controll_ = some a)
    (hb : s.blocks[a]? = some (some b)) (ho : s.objs[o]? = some k)
    (hk : s.weak[k]? = some (some w)) (heq : w.ptr_ = h.ptr_) (hs : b.strong ≠ 0)
    (hw : b.weak + 1 < SIZE_MOD)
    (hl : SharedPtr.SetLinkToOuterSharedPtr s i o = .ok t) :
    t = { s with weak := s.weak ++ [none] } := by
  have hklt : k < s.weak.length := lt_of_getElem?_some hk
  have hmod : (b.weak + 1) % SIZE_MOD = b.weak + 1 := Nat.mod_eq_of_lt hw
  simp only [SharedPtr.SetLinkToOuterSharedPtr, ho, bind_ok] at hl
  obtain ⟨s1, h1, s2, h2, h3⟩ := hl
  simp only [WeakPtr.ctorShared, State.getShared_ok.2 hi, hc, deref, bind_ok, pure, Except.pure,
    Except.ok.injEq, exists_eq_left'] at h1
  obtain ⟨s1', hinc, rfl⟩ := h1
  obtain ⟨b', hb', rfl⟩ := ControllBlock.IncreaseWeak_ok hinc
  rw [hb] at hb'
  simp only [Option.some.injEq] at hb'
  subst hb'
  rw [hmod] at h2
  have hk1 : ((s.setBlock a { b with weak := b.weak + 1 }).pushWeak
      { ptr_ := h.ptr_, controll_ := some a }).weak[k]? = some (some w) := by
    simp only [State.pushWeak, State.setBlock]
    rw [List.getElem?_append_left hklt]
    exact hk
  have hn1 : ((s.setBlock a { b with weak := b.weak + 1 }).pushWeak
      { ptr_ := h.ptr_, controll_ := some a }).weak[s.weak.length]?
      = some (some { ptr_ := h.ptr_, controll_ := some a }) := by
    simp [State.pushWeak, State.setBlock]
  simp only [WeakPtr.assignMove, State.getWeak_ok.2 hk1, State.getWeak_ok.2 hn1, bind_ok, pure,
    Except.pure, Except.ok.injEq, exists_eq_left', if_pos heq] at h2
  subst h2
  have hba : ((s.setBlock a { b with weak := b.weak + 1 }).pushWeak
      { ptr_ := h.ptr_, controll_ := some a }).blocks[a]?
      = some (some { b with weak := b.weak + 1 }) := by
    simp only [State.pushWeak, State.setBlock]
    rw [List.getElem?_set_self (lt_of_getElem?_some hb)]
  have hdec : (b.weak + 1 + (SIZE_MOD - 1)) % SIZE_MOD = b.weak := by
    unfold SIZE_MOD at *
    omega
  have hsz : (b.strong == 0) = false := by simpa using hs
  simp only [WeakPtr.dtor, State.getWeak_ok.2 hn1, WeakPtr.UnlinkWithControllBlock,
    ControllBlock.DecreaseWeak, State.block_ok.2 hba, hdec, hsz, Bool.false_and,
    Bool.false_eq_true, if_false, Except.ok.injEq] at h3
  subst h3
  simp only [State.setWeak, State.setBlock, State.pushWeak, List.set_set]
  have e1 : s.blocks.set a (some { b with weak := b.weak }) = s.blocks :=
    set_same_block s.blocks a b hb
  have e2 : (s.weak ++ [some ({ ptr_ := h.ptr_, controll_ := some a } : WeakPtr)]).set
      s.weak.length none = s.weak ++ [none] := by
    rw [List.set_append_right _ _ (Nat.le_refl _)]
    simp
  rw [e2]
  cases s
  simp only [State.mk.injEq, and_true, true_and]
  exact e1

/-! ## One object of `MakeShared`: what the decrements do -/

/-- `DecreaseStrong` on a block of `MakeShared` with payload `p`, when every live weak handle is
on that block: if `strong` was 1 the payload is destructed in place and nothing else is logged
(the weak member of a payload with a self reference goes without freeing the block). -/
theorem ControllBlock.DecreaseStrong_made {s t : State} {a : Nat} {r : Bool}
    {b : ControllBlock} {p : Pointer} (hb : s.blocks[a]? = some (some b))
    (hp : b.ptr = some { ptr := some p }) (hf : b.created_from_make_shared = true)
    (hW : ∀ (j : Nat) (w : WeakPtr), s.weak[j]? = some (some w) → w.controll_ = some a)
    (h : ControllBlock.DecreaseStrong s a = .ok (t, r)) :
    ∃ w' : Nat,
      t.blocks = s.blocks.set a
        (some { b with strong := (b.strong + (SIZE_MOD - 1)) % SIZE_MOD, weak := w' }) ∧
      r = ((b.strong + (SIZE_MOD - 1)) % SIZE_MOD == 0 && w' == 0) ∧
      t.log = s.log ++ (if b.strong = 1 then [.Destruct a p, .DestroyAnyPtr a] else []) ∧
      t.shared = s.shared ∧
      (∀ (j : Nat) (w : WeakPtr), t.weak[j]? = some (some w) → w.controll_ = some a) := by
  unfold ControllBlock.DecreaseStrong at h
  rw [State.block_ok.2 hb] at h
  simp only at h
  by_cases h1 : b.strong = 1
  · rw [if_pos h1] at h
    simp only [ControllBlock.teardown, hp, hf, if_true, AnyPtr.Destruct] at h
    cases p with
    | plain addr =>
      simp only [destroyPayload, State.emit] at h
      have hb' : State.block { s with log := s.log ++ [.Destruct a (.plain addr)] ++
          [.DestroyAnyPtr a] } a = .ok b := State.block_ok.2 hb
      rw [hb'] at h
      simp only [Except.ok.injEq, Prod.mk.injEq] at h
      obtain ⟨rfl, rfl⟩ := h
      exact ⟨b.weak, rfl, rfl, by simp [State.setBlock, h1], rfl, hW⟩
    | esft o =>
      simp only [destroyPayload] at h
      have hobj : (s.emit (.Destruct a (.esft o))).objs[o]? = s.objs[o]? := rfl
      rw [hobj] at h
      cases ho : s.objs[o]? with
      | none => simp only [ho] at h; cases h
      | some k =>
        simp only [ho] at h
        cases hd : WeakPtr.dtor (s.emit (.Destruct a (.esft o))) k with
        | error e => simp only [hd] at h; cases h
        | ok t0 =>
          simp only [hd] at h
          obtain ⟨w, s1, hw, hu, rfl⟩ := WeakPtr.weak_dtor_ok hd
          have hwa : w.controll_ = some a := hW k w hw
          have hbe : (s.emit (.Destruct a (.esft o))).blocks[a]? = some (some b) := hb
          simp only [WeakPtr.UnlinkWithControllBlock, hwa, ControllBlock.DecreaseWeak,
            State.block_ok.2 hbe, h1] at hu
          have : ((1 : Nat) == 0) = false := rfl
          simp only [this, Bool.false_and, Bool.false_eq_true, if_false,
            Except.ok.injEq] at hu
          subst hu
          have hba : (State.emit (State.setWeak (State.setBlock (s.emit (.Destruct a (.esft o)))
              a { b with strong := 1, weak := (b.weak + (SIZE_MOD - 1)) % SIZE_MOD }) k none)
              (.DestroyAnyPtr a)).block a
              = .ok { b with strong := 1, weak := (b.weak + (SIZE_MOD - 1)) % SIZE_MOD } := by
            rw [State.block_ok]
            simp only [State.emit, State.setWeak, State.setBlock]
            rw [List.getElem?_set_self (lt_of_getElem?_some hb)]
          rw [hba] at h
          simp only [Except.ok.injEq, Prod.mk.injEq] at h
          obtain ⟨rfl, rfl⟩ := h
          refine ⟨(b.weak + (SIZE_MOD - 1)) % SIZE_MOD, ?_, by rw [h1], ?_, rfl, ?_⟩
          · simp [State.setBlock, State.emit, State.setWeak, List.set_set, h1]
          · simp [State.setBlock, State.emit, State.setWeak, h1]
          · intro j w' hj
            simp only [State.setBlock, State.emit, State.setWeak] at hj
            by_cases e : k = j
            · subst e
              have hw' : s.weak[k]? = some (some w) := hw
              rw [List.getElem?_set_self (lt_of_getElem?_some hw')] at hj
              cases hj
            · rw [List.getElem?_set_ne e] at hj
              exact hW j w' hj
  · rw [if_neg h1] at h
    simp only [State.block_ok.2 hb, Except.ok.injEq, Prod.mk.injEq] at h
    obtain ⟨rfl, rfl⟩ := h
    exact ⟨b.weak, rfl, rfl, by simp [State.setBlock, h1], rfl, hW⟩

/-! ## One object of `MakeShared`: the three phases -/

theorem MadeBy.phase_owned {log0 : List Event} {t : State} {a0 : Nat} {p : Pointer}
    {b : ControllBlock} (hC : t.Counted)
    (hS : ∀ (i : Nat) (h : SharedPtr), t.shared[i]? = some (some h) → h.controll_ = some a0)
    (hW : ∀ (i : Nat) (w : WeakPtr), t.weak[i]? = some (some w) → w.controll_ = some a0)
    (hb : t.blocks[a0]? = some (some b)) (hs : b.strong ≠ 0)
    (hp : b.ptr = some { ptr := some p }) (hf : b.created_from_make_shared = true)
    (hl : t.log = log0) : MadeBy log0 t a0 p := by
  refine ⟨hC, hS, hW, Or.inl ⟨?_, ⟨b, hb, hp, hf⟩, hl⟩⟩
  have := (hC.1 a0).1
  rw [strongAt_of_get hb] at this
  omega

theorem MadeBy.phase_observed {log0 : List Event} {t : State} {a0 : Nat} {p : Pointer}
    {b : ControllBlock} (hC : t.Counted)
    (hS : ∀ (i : Nat) (h : SharedPtr), t.shared[i]? = some (some h) → h.controll_ = some a0)
    (hW : ∀ (i : Nat) (w : WeakPtr), t.weak[i]? = some (some w) → w.controll_ = some a0)
    (hb : t.blocks[a0]? = some (some b)) (hs : b.strong = 0)
    (hf : b.created_from_make_shared = true)
    (hl : t.log = log0 ++ [.Destruct a0 p, .DestroyAnyPtr a0]) : MadeBy log0 t a0 p := by
  refine ⟨hC, hS, hW, Or.inr (Or.inl ⟨?_, ?_, ⟨b, hb, hf⟩, hl⟩)⟩
  · have := (hC.1 a0).1
    rw [strongAt_of_get hb] at this
    omega
  · have := (hC.1 a0).2
    rw [weakAt_of_get hb] at this
    have h2 := hC.2 a0 b hb
    omega

theorem MadeBy.phase_released {log0 : List Event} {t : State} {a0 : Nat} {p : Pointer}
    (hC : t.Counted)
    (hS : ∀ (i : Nat) (h : SharedPtr), t.shared[i]? = some (some h) → h.controll_ = some a0)
    (hW : ∀ (i : Nat) (w : WeakPtr), t.weak[i]? = some (some w) → w.controll_ = some a0)
    (hb : t.blocks[a0]? = some none)
    (hl : t.log = log0 ++ [.Destruct a0 p, .DestroyAnyPtr a0, .FreeBuffer a0]) :
    MadeBy log0 t a0 p := by
  refine ⟨hC, hS, hW, Or.inr (Or.inr ⟨?_, ?_, hb, hl⟩)⟩
  · have := (hC.1 a0).1
    simp only [strongAt, hb] at this
    exact this.symm
  · have := (hC.1 a0).2
    simp only [weakAt, hb] at this
    exact this.symm

/-- With a live shared handle, the block is intact and nothing was logged. -/
theorem MadeBy.of_shared {log0 : List Event} {s : State} {a0 : Nat} {p : Pointer} {i : Nat}
    {h : SharedPtr} (hM : MadeBy log0 s a0 p) (hi : s.shared[i]? = some (some h)) :
    h.controll_ = some a0 ∧ ∃ b : ControllBlock, s.blocks[a0]? = some (some b) ∧
      b.ptr = some { ptr := some p } ∧ b.created_from_make_shared = true ∧
      b.strong = sharedRefs s.shared a0 ∧ 1 ≤ b.strong ∧ s.log = log0 := by
  obtain ⟨hC, hS, _, hP⟩ := hM
  have hc := hS i h hi
  have hpos := sharedRefs_pos s.shared i h a0 hi hc
  obtain ⟨b, hb, h1, _, h2⟩ := Counted.live_of_shared hC hi hc
  rcases hP with ⟨_, ⟨b', hb', hp, hf⟩, hl⟩ | ⟨hz, _⟩ | ⟨hz, _⟩
  · rw [hb] at hb'
    simp only [Option.some.injEq] at hb'
    subst hb'
    exact ⟨hc, b, hb, hp, hf, h1, h2, hl⟩
  · omega
  · omega

/-- With a live weak handle, the block is still allocated: intact while a shared handle is
live, and with the payload destructed afterwards. -/
theorem MadeBy.of_weak {log0 : List Event} {s : State} {a0 : Nat} {p : Pointer} {j : Nat}
    {w : WeakPtr} (hM : MadeBy log0 s a0 p) (hj : s.weak[j]? = some (some w)) :
    w.controll_ = some a0 ∧ ∃ b : ControllBlock, s.blocks[a0]? = some (some b) ∧
      b.created_from_make_shared = true ∧ 1 ≤ b.weak ∧
      ((b.strong ≠ 0 ∧ b.ptr = some { ptr := some p } ∧ s.log = log0) ∨
        (b.strong = 0 ∧ s.log = log0 ++ [.Destruct a0 p, .DestroyAnyPtr a0])) := by
  obtain ⟨hC, _, hW, hP⟩ := hM
  have hc := hW j w hj
  have hpos := weakRefs_pos s.weak j w a0 hj hc
  obtain ⟨b, hb, h1, _, h2⟩ := Counted.live_of_weak hC hj hc
  rcases hP with ⟨hnz, ⟨b', hb', hp, hf⟩, hl⟩ | ⟨hz, _, ⟨b', hb', hf⟩, hl⟩ | ⟨_, hz, _⟩
  · rw [hb] at hb'
    simp only [Option.some.injEq] at hb'
    subst hb'
    exact ⟨hc, b, hb, hf, h2, Or.inl ⟨by omega, hp, hl⟩⟩
  · rw [hb] at hb'
    simp only [Option.some.injEq] at hb'
    subst hb'
    exact ⟨hc, b, hb, hf, h2, Or.inr ⟨by omega, hl⟩⟩
  · omega

theorem handles_push {α : Type} {P : α → Prop} {L : List (Option α)} {x : α}
    (hL : ∀ (i : Nat) (h : α), L[i]? = some (some h) → P h) (hx : P x) :
    ∀ (i : Nat) (h : α), (L ++ [some x])[i]? = some (some h) → P h := by
  intro i h hi
  rcases Nat.lt_trichotomy i L.length with c | c | c
  · rw [List.getElem?_append_left c] at hi
    exact hL i h hi
  · subst c
    simp only [List.getElem?_concat_length, Option.some.injEq] at hi
    subst hi
    exact hx
  · rw [List.getElem?_eq_none (by simp; omega)] at hi
    cases hi

theorem handles_set_none {α : Type} {P : α → Prop} {L : List (Option α)} (k : Nat)
    (hL : ∀ (i : Nat) (h : α), L[i]? = some (some h) → P h) :
    ∀ (i : Nat) (h : α), (L.set k none)[i]? = some (some h) → P h := by
  intro i h hi
  by_cases e : k = i
  · subst e
    rw [List.getElem?_set] at hi
    split at hi
    · split at hi <;> cases hi
    · exact hL k h hi
  · rw [List.getElem?_set_ne e] at hi
    exact hL i h hi

/-! ## One object of `MakeShared`: copies -/

theorem MadeBy.sharedCopy {log0 : List Event} {s t : State} {a0 : Nat} {p : Pointer} {i : Nat}
    (hM : MadeBy log0 s a0 p) (h : SharedPtr.ctorCopy s i = .ok t) (hB : t.Bounded) :
    MadeBy log0 t a0 p := by
  have hCt : t.Counted := (SharedPtr.shared_ctorCopy_pres h).2.2 hM.1 hB
  simp only [SharedPtr.ctorCopy, bind_ok, pure, Except.pure, Except.ok.injEq] at h
  obtain ⟨o, ho, a, ha, s1, hs1, rfl⟩ := h
  obtain ⟨b, hb, rfl⟩ := ControllBlock.IncreaseStrong_ok hs1
  rw [State.getShared_ok] at ho
  rw [deref_ok] at ha
  obtain ⟨hoa, b', hb', hp, hf, _, _, hl⟩ := hM.of_shared ho
  rw [hoa] at ha
  simp only [Option.some.injEq] at ha
  subst ha
  rw [hb] at hb'
  simp only [Option.some.injEq] at hb'
  subst hb'
  have hnew : ((s.setBlock a0 { b with strong := (b.strong + 1) % SIZE_MOD }).pushShared
      { ptr_ := o.ptr_, controll_ := o.controll_ }).shared[s.shared.length]?
      = some (some { ptr_ := o.ptr_, controll_ := o.controll_ }) := by
    simp [State.pushShared, State.setBlock]
  have hbt : ((s.setBlock a0 { b with strong := (b.strong + 1) % SIZE_MOD }).pushShared
      { ptr_ := o.ptr_, controll_ := o.controll_ }).blocks[a0]?
      = some (some { b with strong := (b.strong + 1) % SIZE_MOD }) := by
    simp only [State.pushShared, State.setBlock]
    rw [List.getElem?_set_self (lt_of_getElem?_some hb)]
  obtain ⟨bt, hbt', _, _, h1⟩ := Counted.live_of_shared hCt hnew hoa
  rw [hbt] at hbt'
  simp only [Option.some.injEq] at hbt'
  subst hbt'
  exact MadeBy.phase_owned hCt (handles_push hM.2.1 hoa) hM.2.2.1 hbt (by omega) hp hf hl

theorem MadeBy.weakFromShared {log0 : List Event} {s t : State} {a0 : Nat} {p : Pointer}
    {i : Nat} (hM : MadeBy log0 s a0 p) (h : WeakPtr.ctorShared s i = .ok t) (hB : t.Bounded) :
    MadeBy log0 t a0 p := by
  have hCt : t.Counted := (WeakPtr.ctorShared_pres h).2.2 hM.1 hB
  simp only [WeakPtr.ctorShared, bind_ok, pure, Except.pure, Except.ok.injEq] at h
  obtain ⟨o, ho, a, ha, s1, hs1, rfl⟩ := h
  obtain ⟨b, hb, rfl⟩ := ControllBlock.IncreaseWeak_ok hs1
  rw [State.getShared_ok] at ho
  rw [deref_ok] at ha
  obtain ⟨hoa, b', hb', hp, hf, _, h1, hl⟩ := hM.of_shared ho
  rw [hoa] at ha
  simp only [Option.some.injEq] at ha
  subst ha
  rw [hb] at hb'
  simp only [Option.some.injEq] at hb'
  subst hb'
  have hbt : ((s.setBlock a0 { b with weak := (b.weak + 1) % SIZE_MOD }).pushWeak
      { ptr_ := o.ptr_, controll_ := o.controll_ }).blocks[a0]?
      = some (some { b with weak := (b.weak + 1) % SIZE_MOD }) := by
    simp only [State.pushWeak, State.setBlock]
    rw [List.getElem?_set_self (lt_of_getElem?_some hb)]
  exact MadeBy.phase_owned hCt hM.2.1 (handles_push hM.2.2.1 hoa) hbt
    (by simp only; omega) hp hf hl

theorem MadeBy.weakCopy {log0 : List Event} {s t : State} {a0 : Nat} {p : Pointer} {j : Nat}
    (hM : MadeBy log0 s a0 p) (h : WeakPtr.ctorCopy s j = .ok t) (hB : t.Bounded) :
    MadeBy log0 t a0 p := by
  have hCt : t.Counted := (WeakPtr.weak_ctorCopy_pres h).2.2 hM.1 hB
  simp only [WeakPtr.ctorCopy, bind_ok, pure, Except.pure, Except.ok.injEq] at h
  obtain ⟨o, ho, a, ha, s1, hs1, rfl⟩ := h
  obtain ⟨b, hb, rfl⟩ := ControllBlock.IncreaseWeak_ok hs1
  rw [State.getWeak_ok] at ho
  rw [deref_ok] at ha
  obtain ⟨hoa, b', hb', hf, _, hP⟩ := hM.of_weak ho
  rw [hoa] at ha
  simp only [Option.some.injEq] at ha
  subst ha
  rw [hb] at hb'
  simp only [Option.some.injEq] at hb'
  subst hb'
  have hbt : ((s.setBlock a0 { b with weak := (b.weak + 1) % SIZE_MOD }).pushWeak
      { ptr_ := o.ptr_, controll_ := o.controll_ }).blocks[a0]?
      = some (some { b with weak := (b.weak + 1) % SIZE_MOD }) := by
    simp only [State.pushWeak, State.setBlock]
    rw [List.getElem?_set_self (lt_of_getElem?_some hb)]
  rcases hP with ⟨hs, hp, hl⟩ | ⟨hs, hl⟩
  · exact MadeBy.phase_owned hCt hM.2.1 (handles_push hM.2.2.1 hoa) hbt hs hp hf hl
  · exact MadeBy.phase_observed hCt hM.2.1 (handles_push hM.2.2.1 hoa) hbt hs hf hl

/-! ## One object of `MakeShared`: destructions -/

theorem MadeBy.weakDestroy {log0 : List Event} {s t : State} {a0 : Nat} {p : Pointer} {j : Nat}
    (hM : MadeBy log0 s a0 p) (h : WeakPtr.dtor s j = .ok t) (hB : t.Bounded) :
    MadeBy log0 t a0 p := by
  have hCt : t.Counted := (WeakPtr.weak_dtor_pres h).2.2 hM.1 hB
  obtain ⟨w, s1, hj, hu, rfl⟩ := WeakPtr.weak_dtor_ok h
  obtain ⟨hwa, b, hb, hf, _, hP⟩ := hM.of_weak hj
  obtain ⟨f1, f2, _, _⟩ := WeakPtr.weak_unlink_frame hu
  have hS : ∀ (i : Nat) (h : SharedPtr), (s1.setWeak j none).shared[i]? = some (some h) →
      h.controll_ = some a0 := by
    simp only [State.setWeak, f1]
    exact hM.2.1
  have hW : ∀ (i : Nat) (w : WeakPtr), (s1.setWeak j none).weak[i]? = some (some w) →
      w.controll_ = some a0 := by
    simp only [State.setWeak, f2]
    exact handles_set_none j hM.2.2.1
  simp only [WeakPtr.UnlinkWithControllBlock, hwa, ControllBlock.DecreaseWeak,
    State.block_ok.2 hb] at hu
  have hbs : (s.setBlock a0 { b with weak := (b.weak + (SIZE_MOD - 1)) % SIZE_MOD }).blocks[a0]?
      = some (some { b with weak := (b.weak + (SIZE_MOD - 1)) % SIZE_MOD }) := by
    simp only [State.setBlock]
    rw [List.getElem?_set_self (lt_of_getElem?_some hb)]
  split at hu
  · rename_i hr
    simp only [Bool.and_eq_true, beq_iff_eq] at hr
    simp only [releaseBlock, State.block_ok.2 hbs] at hu
    simp only [hf, if_true, Except.ok.injEq] at hu
    subst hu
    rcases hP with ⟨hs, _, _⟩ | ⟨_, hl⟩
    · exact absurd hr.1 hs
    · refine MadeBy.phase_released hCt hS hW ?_ ?_
      · simp only [State.setWeak, State.free, State.setBlock]
        rw [List.getElem?_set_self (by simp; exact lt_of_getElem?_some hb)]
      · simp [State.setWeak, State.free, State.setBlock, hl]
  · rename_i hr
    simp only [Except.ok.injEq] at hu
    subst hu
    rcases hP with ⟨hs, hp, hl⟩ | ⟨hs, hl⟩
    · exact MadeBy.phase_owned hCt hS hW hbs hs hp hf hl
    · exact MadeBy.phase_observed hCt hS hW hbs hs hf hl

theorem MadeBy.sharedDestroy {log0 : List Event} {s t : State} {a0 : Nat} {p : Pointer}
    {i : Nat} (hM : MadeBy log0 s a0 p) (h : SharedPtr.dtor s i = .ok t) (hB : t.Bounded) :
    MadeBy log0 t a0 p := by
  have hCt : t.Counted := (SharedPtr.shared_dtor_pres h).2.2 hM.1 hB
  obtain ⟨x, s1, hi, hu, rfl⟩ := SharedPtr.shared_dtor_ok h
  obtain ⟨hxa, b, hb, hp, hf, hcnt, h1, hl⟩ := hM.of_shared hi
  obtain ⟨f1, f2, _, _⟩ := SharedPtr.shared_unlink_frame hu
  have hlen : s.shared.length < SIZE_MOD := by
    have := hB.1
    simpa [State.setShared, f1] using this
  have hlt : b.strong < SIZE_MOD := by
    have := sharedRefs_le s.shared a0
    omega
  have hS : ∀ (i' : Nat) (h : SharedPtr), (s1.setShared i none).shared[i']? = some (some h) →
      h.controll_ = some a0 := by
    simp only [State.setShared, f1]
    exact handles_set_none i hM.2.1
  simp only [SharedPtr.UnlinkWithControllBlock, hxa] at hu
  split at hu
  · cases hu
  · rename_i s1' r hd
    obtain ⟨w', hblocks, hr, hlog, hsh, hW'⟩ :=
      ControllBlock.DecreaseStrong_made hb hp hf hM.2.2.1 hd
    have hbs : s1'.blocks[a0]? = some (some { b with
        strong := (b.strong + (SIZE_MOD - 1)) % SIZE_MOD, weak := w' }) := by
      rw [hblocks, List.getElem?_set_self (lt_of_getElem?_some hb)]
    by_cases hr' : r = true
    · rw [if_pos hr'] at hu
      simp only [releaseBlock, State.block_ok.2 hbs] at hu
      simp only [hf, if_true, Except.ok.injEq] at hu
      subst hu
      rw [hr'] at hr
      simp only [Bool.true_eq, Bool.and_eq_true, beq_iff_eq] at hr
      have hone : b.strong = 1 := by
        have := hr.1
        unfold SIZE_MOD at *
        omega
      refine MadeBy.phase_released hCt hS ?_ ?_ ?_
      · simp only [State.setShared, State.free]
        exact hW'
      · simp only [State.setShared, State.free]
        rw [hblocks, List.getElem?_set_self (by simp; exact lt_of_getElem?_some hb)]
      · simp [State.setShared, State.free, hlog, hl, hone]
    · rw [if_neg hr'] at hu
      simp only [Except.ok.injEq] at hu
      subst hu
      by_cases hone : b.strong = 1
      · refine MadeBy.phase_observed hCt hS hW' hbs ?_ hf ?_
        · simp only [hone]
          unfold SIZE_MOD
          rfl
        · simp [State.setShared, hlog, hl, hone]
      · refine MadeBy.phase_owned hCt hS hW' hbs ?_ hp hf ?_
        · simp only
          unfold SIZE_MOD at *
          omega
        · simp [State.setShared, hlog, hl, hone]

theorem MadeBy.run_copies {log0 : List Event} {a0 : Nat} {p : Pointer} (prog : List Op) :
    ∀ {s t : State}, MadeBy log0 s a0 p → (∀ op ∈ prog, op.isHandleCopyOrDestroy = true) →
      run s prog = .ok t → t.Bounded → MadeBy log0 t a0 p := by
  induction prog with
  | nil =>
    intro s t hM _ hr _
    simp only [SmartPointers.run, Except.ok.injEq] at hr
    subst hr; exact hM
  | cons op rest ih =>
    intro s t hM hops hr hB
    simp only [SmartPointers.run] at hr
    split at hr
    · cases hr
    · rename_i s1 h1
      have hp := run_pres hr
      have hB1 : s1.Bounded := hB.of_le hp.1 hp.2.1
      have hop := hops op (List.mem_cons_self _ _)
      have hrest : ∀ o ∈ rest, o.isHandleCopyOrDestroy = true :=
        fun o ho => hops o (List.mem_cons_of_mem _ ho)
      cases op <;> simp only [Op.isHandleCopyOrDestroy] at hop <;> try cases hop
      all_goals simp only [step] at h1
      · exact ih (hM.sharedCopy h1 hB1) hrest hr hB
      · exact ih (hM.sharedDestroy h1 hB1) hrest hr hB
      · exact ih (hM.weakCopy h1 hB1) hrest hr hB
      · exact ih (hM.weakFromShared h1 hB1) hrest hr hB
      · exact ih (hM.weakDestroy h1 hB1) hrest hr hB

/-! ## One object of `MakeShared`: the start -/

/-- `MakeShared<T>` for a `T` without a self reference, computed. -/
theorem MakeShared_eq (pre : State) (addr : Nat) :
    MakeShared pre addr = .ok
      { pre with
        blocks := pre.blocks ++ [some { ControllBlock.ofAnyPtr { ptr := some (.plain addr) } with strong := 1 }],
        shared := pre.shared ++
          [some { ptr_ := some (.plain addr), controll_ := some pre.blocks.length }] } := by
  have h1 : (1 : Nat) % SIZE_MOD = 1 := by unfold SIZE_MOD; rfl
  simp [MakeShared, MakeShared.finish, SharedPtr.ctorPrivate, deref, ControllBlock.IncreaseStrong,
    State.block, State.newBlock, ControllBlock.ofAnyPtr, State.setBlock, State.pushShared,
    SharedPtr.linkIfEnabled, bind, Except.bind, h1]

theorem MadeBy.start_plain {pre s0 : State} {addr : Nat} (hC : pre.Counted)
    (hS : ∀ (i : Nat) (h : SharedPtr), pre.shared[i]? ≠ some (some h))
    (hW : ∀ (i : Nat) (w : WeakPtr), pre.weak[i]? ≠ some (some w))
    (h : MakeShared pre addr = .ok s0) (hB : s0.Bounded) :
    MadeBy s0.log s0 pre.blocks.length (.plain addr) ∧
    s0.shared[pre.shared.length]?
      = some (some { ptr_ := some (.plain addr), controll_ := some pre.blocks.length }) ∧
    s0.blocks[pre.blocks.length]? = some (some { ControllBlock.ofAnyPtr { ptr := some (.plain addr) } with strong := 1 }) := by
  have hC0 : s0.Counted := (MakeShared_pres h).2.2 hC hB
  rw [MakeShared_eq] at h
  simp only [Except.ok.injEq] at h
  subst h
  have hb : (pre.blocks ++ [some ({ ControllBlock.ofAnyPtr { ptr := some (.plain addr) } with
      strong := 1 } : ControllBlock)])[pre.blocks.length]?
      = some (some { ControllBlock.ofAnyPtr { ptr := some (.plain addr) } with strong := 1 }) := by simp
  refine ⟨MadeBy.phase_owned hC0 ?_ ?_ hb (by simp) rfl rfl rfl, by simp, hb⟩
  · exact handles_push (fun i h hi => absurd hi (hS i h)) rfl
  · exact fun i w hi => absurd hi (hW i w)

theorem MadeBy.start_enabled {pre s0 : State} (hC : pre.Counted)
    (hS : ∀ (i : Nat) (h : SharedPtr), pre.shared[i]? ≠ some (some h))
    (hW : ∀ (i : Nat) (w : WeakPtr), pre.weak[i]? ≠ some (some w))
    (h : MakeShared.enabled pre = .ok s0) (hB : s0.Bounded) :
    MadeBy s0.log s0 (pre.blocks.length + 1) (.esft pre.objs.length) ∧
    s0.shared[pre.shared.length]?
      = some (some { ptr_ := some (.esft pre.objs.length),
                     controll_ := some (pre.blocks.length + 1) }) ∧
    s0.blocks[pre.blocks.length + 1]? = some (some { ControllBlock.ofAnyPtr { ptr := some (.esft pre.objs.length) } with
      strong := 1, weak := 1 }) ∧
    s0.objs[pre.objs.length]? = some pre.weak.length ∧
    s0.weak[pre.weak.length]?
      = some (some { ptr_ := some (.esft pre.objs.length),
                     controll_ := some (pre.blocks.length + 1) }) := by
  have hC0 : s0.Counted := (MakeShared.enabled_pres h).2.2 hC hB
  have h1 : (1 : Nat) % SIZE_MOD = 1 := by unfold SIZE_MOD; rfl
  simp only [MakeShared.enabled, MakeShared.finish, SharedPtr.ctorPrivate, deref, bind_ok,
    Except.ok.injEq, exists_eq_left', SharedPtr.linkIfEnabled] at h
  obtain ⟨s3, hinc, hl⟩ := h
  obtain ⟨b, hb, rfl⟩ := ControllBlock.IncreaseStrong_ok hinc
  have hlen : (EnableSharedFromThis.ctor pre).blocks.length = pre.blocks.length + 1 := by
    simp [EnableSharedFromThis.ctor, WeakPtr.ctorDefault, State.newBlock, State.pushWeak]
  rw [hlen] at hb hl hinc
  have hb0 : b = ControllBlock.ofAnyPtr { ptr := some (.esft pre.objs.length) } := by
    simp only [State.newBlock] at hb
    rw [← hlen, List.getElem?_concat_length] at hb
    simp only [Option.some.injEq] at hb
    exact hb.symm
  subst hb0
  simp only [ControllBlock.ofAnyPtr, Nat.zero_add, h1] at hl
  obtain ⟨e1, e2, e3, e4, mid, e5, _⟩ :=
    SharedPtr.SetLinkToOuterSharedPtr_fresh
      (i := pre.shared.length) (o := pre.objs.length) (k := pre.weak.length)
      (a := pre.blocks.length + 1)
      (h := { ptr_ := some (.esft pre.objs.length), controll_ := some (pre.blocks.length + 1) })
      (w := { ptr_ := none, controll_ := some pre.blocks.length })
      (b := { strong := 1, weak := 0, ptr := some { ptr := some (.esft pre.objs.length) },
              created_from_make_shared := true })
      (by simp [State.pushShared, State.setBlock, State.newBlock, EnableSharedFromThis.ctor,
            WeakPtr.ctorDefault, State.pushWeak])
      rfl
      (by
        simp only [State.pushShared, State.setBlock, State.newBlock, EnableSharedFromThis.ctor,
          WeakPtr.ctorDefault, State.pushWeak, ControllBlock.ofAnyPtr]
        rw [List.getElem?_set_self (by simp)])
      (by simp [State.pushShared, State.setBlock, State.newBlock, EnableSharedFromThis.ctor,
            WeakPtr.ctorDefault, State.pushWeak])
      (by simp [State.pushShared, State.setBlock, State.newBlock, EnableSharedFromThis.ctor,
            WeakPtr.ctorDefault, State.pushWeak])
      (by simp) (by simp) hl
  simp only [State.pushShared, State.setBlock, State.newBlock, EnableSharedFromThis.ctor,
    WeakPtr.ctorDefault, State.pushWeak, Nat.zero_add, h1] at e1 e2 e3 e4
  have hk : s0.weak[pre.weak.length]?
      = some (some { ptr_ := some (.esft pre.objs.length),
                     controll_ := some (pre.blocks.length + 1) }) := by
    rw [e3, List.getElem?_append_left (by simp), List.getElem?_set_self (by simp)]
  have hsh : s0.shared[pre.shared.length]?
      = some (some { ptr_ := some (.esft pre.objs.length),
                     controll_ := some (pre.blocks.length + 1) }) := by
    rw [e1]; simp
  refine ⟨MadeBy.phase_owned hC0 ?_ ?_ e4 (by simp) rfl rfl rfl, hsh, e4, by rw [e2]; simp, hk⟩
  · rw [e1]
    exact handles_push (fun i h hi => absurd hi (hS i h)) rfl
  · intro j w hj
    rw [e3] at hj
    rcases Nat.lt_trichotomy j pre.weak.length with c | c | c
    · rw [List.getElem?_append_left (by simp; omega), List.getElem?_set_ne (by omega),
        List.getElem?_append_left c] at hj
      exact absurd hj (hW j w)
    · subst c
      rw [List.getElem?_append_left (by simp), List.getElem?_set_self (by simp)] at hj
      simp only [Option.some.injEq] at hj
      subst hj
      rfl
    · rcases Nat.lt_or_ge j (pre.weak.length + 1) with c' | c'
      · omega
      · rcases Nat.eq_or_lt_of_le c' with c'' | c''
        · subst c''
          rw [List.getElem?_append_right (by simp)] at hj
          simp at hj
        · rw [List.getElem?_eq_none (by simp; omega)] at hj
          cases hj

/-! ## Claim C12 -/

/-- C12: `MakeShared` is called in a state `pre` without live handles, for a payload `p` built in
the block at `a0` (a `T` without a self reference, or a `T` deriving from
`EnableSharedFromThis`); then handles are copied (shared from shared, weak from shared, weak
from weak) and destroyed in any order. The handle returned has `UseCount() == 1`, on a block
with `created_from_make_shared`. Afterwards: while a shared handle is live nothing is logged;
when only weak handles are live the payload was destructed in place, once, with no deallocation,
and the block is still allocated; when no handle is left the one buffer was released, once,
after the destruct. Destroying a live handle returns (for a payload with a self reference, as
long as the member `outer_shared_pointer_` was not destroyed from outside). -/
theorem C12_make_shared_one_buffer (pre s0 s : State) (mk : Op) (addr a0 : Nat) (p : Pointer)
    (prog : List Op) (hC : pre.Counted)
    (hS : ∀ (i : Nat) (h : SharedPtr), pre.shared[i]? ≠ some (some h))
    (hW : ∀ (i : Nat) (w : WeakPtr), pre.weak[i]? ≠ some (some w))
    (hmk : (mk = .makeShared addr ∧ a0 = pre.blocks.length ∧ p = .plain addr) ∨
      (mk = .makeSharedEnabled ∧ a0 = pre.blocks.length + 1 ∧ p = .esft pre.objs.length))
    (hmake : step pre mk = .ok s0)
    (hops : ∀ op ∈ prog, op.isHandleCopyOrDestroy = true)
    (hrun : run s0 prog = .ok s) (hB : s.Bounded) :
    s0.getShared pre.shared.length = .ok { ptr_ := some p, controll_ := some a0 } ∧
    SharedPtr.UseCount s0 { ptr_ := some p, controll_ := some a0 } = .ok 1 ∧
    (∃ b : ControllBlock, s0.block a0 = .ok b ∧ b.created_from_make_shared = true ∧
      b.ptr = some { ptr := some p }) ∧
    (sharedRefs s.shared a0 ≠ 0 →
      s.log = s0.log ∧ ∃ b : ControllBlock, s.block a0 = .ok b) ∧
    (sharedRefs s.shared a0 = 0 → weakRefs s.weak a0 ≠ 0 →
      s.log = s0.log ++ [.Destruct a0 p, .DestroyAnyPtr a0] ∧
      ∃ b : ControllBlock, s.block a0 = .ok b) ∧
    (sharedRefs s.shared a0 = 0 → weakRefs s.weak a0 = 0 →
      s.log = s0.log ++ [.Destruct a0 p, .DestroyAnyPtr a0, .FreeBuffer a0] ∧
      s.blocks[a0]? = some none) ∧
    (∀ (i : Nat) (h : SharedPtr), s.getShared i = .ok h → h.controll_ = some a0) ∧
    (∀ (i : Nat) (w : WeakPtr), s.getWeak i = .ok w → w.controll_ = some a0) ∧
    (∀ (i : Nat) (w : WeakPtr), s.getWeak i = .ok w →
      ∃ t, step s (.weakDestroy i) = .ok t) ∧
    (∀ (i : Nat) (h : SharedPtr), s.getShared i = .ok h →
      (∀ o, p = .esft o →
        ∃ (k : Nat) (w : WeakPtr), s.objs[o]? = some k ∧ s.weak[k]? = some (some w)) →
      ∃ t, step s (.sharedDestroy i) = .ok t) := by
  have hp0 := run_pres hrun
  have hB0 : s0.Bounded := hB.of_le hp0.1 hp0.2.1
  have hstart : MadeBy s0.log s0 a0 p ∧
      s0.shared[pre.shared.length]? = some (some { ptr_ := some p, controll_ := some a0 }) ∧
      ∃ b : ControllBlock, s0.blocks[a0]? = some (some b) ∧ b.strong = 1 ∧
        b.created_from_make_shared = true ∧ b.ptr = some { ptr := some p } := by
    rcases hmk with ⟨rfl, rfl, rfl⟩ | ⟨rfl, rfl, rfl⟩
    · obtain ⟨h1, h2, h3⟩ := MadeBy.start_plain hC hS hW hmake hB0
      exact ⟨h1, h2, _, h3, rfl, rfl, rfl⟩
    · obtain ⟨h1, h2, h3, _⟩ := MadeBy.start_enabled hC hS hW hmake hB0
      exact ⟨h1, h2, _, h3, rfl, rfl, rfl⟩
  obtain ⟨hM0, hsh, b0, hb0, hs0, hf0, hp0'⟩ := hstart
  have hM := MadeBy.run_copies prog hM0 hops hrun hB
  obtain ⟨hCs, hJ, hK, hP⟩ := hM
  refine ⟨State.getShared_ok.2 hsh, ?_, ⟨b0, State.block_ok.2 hb0, hf0, hp0'⟩, ?_, ?_, ?_,
    fun i h hi => hJ i h (State.getShared_ok.1 hi),
    fun i w hi => hK i w (State.getWeak_ok.1 hi), fun i w hi => ?_, fun i h hi hm => ?_⟩
  · simp [SharedPtr.UseCount, deref, State.block_ok.2 hb0, hs0]
  · intro hnz
    rcases hP with ⟨_, ⟨b, hb, _, _⟩, hl⟩ | ⟨hz, _⟩ | ⟨hz, _⟩
    · exact ⟨hl, b, State.block_ok.2 hb⟩
    · exact absurd hz hnz
    · exact absurd hz hnz
  · intro hz hnw
    rcases hP with ⟨hnz, _⟩ | ⟨_, _, ⟨b, hb, _⟩, hl⟩ | ⟨_, hw, _⟩
    · exact absurd hz hnz
    · exact ⟨hl, b, State.block_ok.2 hb⟩
    · exact absurd hw hnw
  · intro hz hw
    rcases hP with ⟨hnz, _⟩ | ⟨_, hnw, _⟩ | ⟨_, _, hb, hl⟩
    · exact absurd hz hnz
    · exact absurd hw hnw
    · exact ⟨hl, hb⟩
  · exact WeakPtr.weak_dtor_total hCs (State.getWeak_ok.1 hi)
  · rw [State.getShared_ok] at hi
    obtain ⟨hxa, b, hb, hp, hf, _⟩ := MadeBy.of_shared ⟨hCs, hJ, hK, hP⟩ hi
    refine SharedPtr.shared_dtor_total hCs hi (fun a b' x ha hb' hx => ?_)
    rw [hxa] at ha
    simp only [Option.some.injEq] at ha
    subst ha
    rw [hb] at hb'
    simp only [Option.some.injEq] at hb'
    subst hb'
    rw [hp] at hx
    simp only [Option.some.injEq] at hx
    subst hx
    refine ⟨fun _ => by simp, fun o ho => ?_⟩
    simp only [Option.some.injEq] at ho
    exact hm o ho

/-- C12 on `auto s = MakeShared<T>(); WeakPtr<T> w(s);` followed by the destruction of `s` and
then of `w`: one in-place destruct when `s` goes, one release of the buffer when `w` goes. -/
theorem C12_make_shared_one_buffer_witness :
    step State.empty (.makeShared 7) = .ok exampleMade ∧
    run exampleMade [.weakFromShared 0, .sharedDestroy 0, .weakDestroy 0]
      = .ok exampleMadeReleased ∧
    SharedPtr.UseCount exampleMade { ptr_ := some (.plain 7), controll_ := some 0 } = .ok 1 ∧
    exampleMadeReleased.log
      = exampleMade.log ++ [.Destruct 0 (.plain 7), .DestroyAnyPtr 0, .FreeBuffer 0] ∧
    exampleMadeReleased.blocks[0]? = some none :=
  ⟨rfl, rfl,
    (C12_make_shared_one_buffer State.empty exampleMade exampleMadeReleased (.makeShared 7) 7 0
      (.plain 7) [.weakFromShared 0, .sharedDestroy 0, .weakDestroy 0] State.empty_counted
      (by simp [State.empty]) (by simp [State.empty]) (Or.inl ⟨rfl, rfl, rfl⟩) rfl (by decide) rfl
      ⟨by decide, by decide⟩).2.1,
    (C12_make_shared_one_buffer State.empty exampleMade exampleMadeReleased (.makeShared 7) 7 0
      (.plain 7) [.weakFromShared 0, .sharedDestroy 0, .weakDestroy 0] State.empty_counted
      (by simp [State.empty]) (by simp [State.empty]) (Or.inl ⟨rfl, rfl, rfl⟩) rfl (by decide) rfl
      ⟨by decide, by decide⟩).2.2.2.2.2.1 (by decide) (by decide)⟩

/-! ## Claim C13 -/

/-- C13 fails on `auto s = MakeShared<T>(); s.Reset();`: the block at address 0 has
`created_from_make_shared`, `DecreaseStrong` returns true, and `Reset()` releases it by
`delete controll_` (`FreeBlock`), not as the one buffer it was allocated in. The destructor on the
same state takes the flag into account (`FreeBuffer`), and so does the destructor of the last weak
handle. -/
theorem C13_reset_releases_buffer_as_block :
    step State.empty (.makeShared 7) = .ok exampleMade ∧
    exampleMade.block 0
      = .ok { ControllBlock.ofAnyPtr { ptr := some (.plain 7) } with strong := 1 } ∧
    step exampleMade (.sharedReset 0)
      = .ok { blocks := [none, some (ControllBlock.ofCounts 1 0)],
              objs := [],
              shared := [some { ptr_ := none, controll_ := some 1 }],
              weak := [],
              log := [.Destruct 0 (.plain 7), .DestroyAnyPtr 0, .FreeBlock 0] } ∧
    step exampleMade (.sharedDestroy 0)
      = .ok { blocks := [none],
              objs := [],
              shared := [none],
              weak := [],
              log := [.Destruct 0 (.plain 7), .DestroyAnyPtr 0, .FreeBuffer 0] } ∧
    run exampleMade [.weakFromShared 0, .sharedDestroy 0, .weakDestroy 0]
      = .ok exampleMadeReleased :=
  ⟨rfl, rfl, rfl, rfl, rfl⟩

/-! ## Claim C16 -/

/-- C16: move assigning a live shared handle, or a live weak handle, onto itself returns the
state unchanged: same object pointer and block in the handle, same counts in every block, and
nothing logged (no payload teardown, no release of a block). -/
theorem C16_self_move_assignment_is_noop (s : State) (i j : Nat) (h : SharedPtr) (w : WeakPtr)
    (hi : s.getShared i = .ok h) (hj : s.getWeak j = .ok w) :
    SharedPtr.assignMove s i i = .ok s ∧ WeakPtr.assignMove s j j = .ok s ∧
    step s (.sharedMoveAssign i i) = .ok s ∧ step s (.weakMoveAssign j j) = .ok s := by
  have h1 : SharedPtr.assignMove s i i = .ok s := by
    simp [SharedPtr.assignMove, hi, bind, Except.bind, pure, Except.pure]
  have h2 : WeakPtr.assignMove s j j = .ok s := by
    simp [WeakPtr.assignMove, hj, bind, Except.bind, pure, Except.pure]
  exact ⟨h1, h2, h1, h2⟩

/-- C16 on `SharedPtr<T> s(new T); WeakPtr<T> w(s); s = std::move(s); w = std::move(w);`. -/
theorem C16_self_move_assignment_is_noop_witness :
    SharedPtr.assignMove exampleOwnedAndObserved 0 0 = .ok exampleOwnedAndObserved ∧
    WeakPtr.assignMove exampleOwnedAndObserved 0 0 = .ok exampleOwnedAndObserved ∧
    step exampleOwnedAndObserved (.sharedMoveAssign 0 0) = .ok exampleOwnedAndObserved ∧
    step exampleOwnedAndObserved (.weakMoveAssign 0 0) = .ok exampleOwnedAndObserved :=
  C16_self_move_assignment_is_noop exampleOwnedAndObserved 0 0
    { ptr_ := some (.plain 7), controll_ := some 0 }
    { ptr_ := some (.plain 7), controll_ := some 0 } rfl rfl

/-! ## `SharedFromThis`, computed -/

theorem getElem?_append_two {α : Type} (L : List α) (x y : α) :
    (L ++ [x] ++ [y])[L.length + 1]? = some y := by
  rw [List.getElem?_append_right (by simp)]
  simp

theorem getElem?_append_two_fst {α : Type} (L : List α) (x y : α) :
    (L ++ [x] ++ [y])[L.length]? = some x := by
  rw [List.getElem?_append_left (by simp)]
  simp

theorem set_append_two {α : Type} (L : List α) (x y z : α) :
    (L ++ [x] ++ [y]).set (L.length + 1) z = L ++ [x] ++ [z] := by
  rw [List.set_append_right _ _ (by simp)]
  simp

theorem set_append_two_fst {α : Type} (L : List α) (x y z : α) :
    (L ++ [x] ++ [y]).set L.length z = L ++ [z] ++ [y] := by
  rw [List.set_append_left _ _ (by simp)]
  congr 1
  rw [List.set_append_right _ _ (Nat.le_refl _)]
  simp

theorem set_append_one {α : Type} (L : List α) (x z : α) :
    (L ++ [x]).set L.length z = L ++ [z] := by
  rw [List.set_append_right _ _ (Nat.le_refl _)]
  simp

/-- The link of an object whose member already holds the pointer of the handle, as an
equation: only the slot of the temporary weak handle remains, dead. -/
theorem SharedPtr.SetLinkToOuterSharedPtr_same_eq {s : State} {i o k a : Nat} {h : SharedPtr}
    {w : WeakPtr} {b : ControllBlock}
    (hi : s.shared[i]? = some (some h)) (hc : h.controll_ = some a)
    (hb : s.blocks[a]? = some (some b)) (ho : s.objs[o]? = some k)
    (hk : s.weak[k]? = some (some w)) (heq : w.ptr_ = h.ptr_) (hs : b.strong ≠ 0)
    (hw : b.weak + 1 < SIZE_MOD) :
    SharedPtr.SetLinkToOuterSharedPtr s i o = .ok { s with weak := s.weak ++ [none] } := by
  have hklt : k < s.weak.length := lt_of_getElem?_some hk
  have hmod : (b.weak + 1) % SIZE_MOD = b.weak + 1 := Nat.mod_eq_of_lt hw
  have h1 : WeakPtr.ctorShared s i = .ok ((s.setBlock a { b with weak := b.weak + 1 }).pushWeak
      { ptr_ := h.ptr_, controll_ := some a }) := by
    simp [WeakPtr.ctorShared, State.getShared_ok.2 hi, hc, deref, ControllBlock.IncreaseWeak,
      State.block_ok.2 hb, hmod, bind, Except.bind, pure, Except.pure]
  have hk1 : ((s.setBlock a { b with weak := b.weak + 1 }).pushWeak
      { ptr_ := h.ptr_, controll_ := some a }).weak[k]? = some (some w) := by
    simp only [State.pushWeak, State.setBlock]
    rw [List.getElem?_append_left hklt]
    exact hk
  have hn1 : ((s.setBlock a { b with weak := b.weak + 1 }).pushWeak
      { ptr_ := h.ptr_, controll_ := some a }).weak[s.weak.length]?
      = some (some { ptr_ := h.ptr_, controll_ := some a }) := by
    simp [State.pushWeak, State.setBlock]
  have h2 : WeakPtr.assignMove ((s.setBlock a { b with weak := b.weak + 1 }).pushWeak
      { ptr_ := h.ptr_, controll_ := some a }) k s.weak.length
      = .ok ((s.setBlock a { b with weak := b.weak + 1 }).pushWeak
          { ptr_ := h.ptr_, controll_ := some a }) := by
    simp [WeakPtr.assignMove, State.getWeak_ok.2 hk1, State.getWeak_ok.2 hn1, heq, bind,
      Except.bind, pure, Except.pure]
  have hba : ((s.setBlock a { b with weak := b.weak + 1 }).pushWeak
      { ptr_ := h.ptr_, controll_ := some a }).blocks[a]?
      = some (some { b with weak := b.weak + 1 }) := by
    simp only [State.pushWeak, State.setBlock]
    rw [List.getElem?_set_self (lt_of_getElem?_some hb)]
  have hdec : (b.weak + 1 + (SIZE_MOD - 1)) % SIZE_MOD = b.weak := by
    unfold SIZE_MOD at *
    omega
  have hsz : (b.strong == 0) = false := by simpa using hs
  have h3 : WeakPtr.dtor ((s.setBlock a { b with weak := b.weak + 1 }).pushWeak
      { ptr_ := h.ptr_, controll_ := some a }) s.weak.length
      = .ok { s with weak := s.weak ++ [none] } := by
    simp only [WeakPtr.dtor, State.getWeak_ok.2 hn1, WeakPtr.UnlinkWithControllBlock,
      ControllBlock.DecreaseWeak, State.block_ok.2 hba, hdec, hsz, Bool.false_and,
      Bool.false_eq_true, if_false, Except.ok.injEq]
    simp only [State.setWeak, State.setBlock, State.pushWeak, List.set_set, set_append_one]
    have e1 : s.blocks.set a (some { b with weak := b.weak }) = s.blocks :=
      set_same_block s.blocks a b hb
    cases s
    simp only [State.mk.injEq, and_true, true_and]
    exact e1
  simp [SharedPtr.SetLinkToOuterSharedPtr, ho, h1, h2, h3, bind, Except.bind]

theorem getElem?_append_pair_snd {α : Type} (L : List α) (x y : α) :
    (L ++ [x, y])[L.length + 1]? = some y := by
  rw [List.getElem?_append_right (by simp)]
  simp

theorem getElem?_append_pair_fst {α : Type} (L : List α) (x y : α) :
    (L ++ [x, y])[L.length]? = some x := by
  rw [List.getElem?_append_right (by simp)]
  simp

theorem set_append_pair_snd {α : Type} (L : List α) (x y z : α) :
    (L ++ [x, y]).set (L.length + 1) z = L ++ [x, z] := by
  rw [List.set_append_right _ _ (by simp)]
  simp

theorem set_append_pair_fst {α : Type} (L : List α) (x y z : α) :
    (L ++ [x, y]).set L.length z = L ++ [z, y] := by
  rw [List.set_append_right _ _ (Nat.le_refl _)]
  simp

/-- `SharedFromThis` on an object whose member `outer_shared_pointer_` holds the pointer of the
object and the block at `a`, with `strong` not 0: the new handle (slot `s.shared.length`) has the
pointer of the object and the block at `a`, whose `strong` is one greater; the temporary of
`Lock()` and the temporary weak handle of the link are gone. -/
theorem EnableSharedFromThis.SharedFromThis_linked {s : State} {o k a : Nat} {b : ControllBlock}
    (ho : s.objs[o]? = some k)
    (hk : s.weak[k]? = some (some { ptr_ := some (.esft o), controll_ := some a }))
    (hb : s.blocks[a]? = some (some b)) (hs : b.strong ≠ 0)
    (hs1 : b.strong + 1 < SIZE_MOD) (hw : b.weak + 1 < SIZE_MOD) :
    EnableSharedFromThis.SharedFromThis s o = .ok
      { s with
        blocks := s.blocks.set a (some { b with strong := b.strong + 1 }),
        shared := s.shared ++ [some { ptr_ := some (.esft o), controll_ := some a }] ++ [none],
        weak := s.weak ++ [none] } := by
  have hmod : (b.strong + 1) % SIZE_MOD = b.strong + 1 := Nat.mod_eq_of_lt hs1
  have hsz : (b.strong == 0) = false := by simpa using hs
  have halt : a < s.blocks.length := lt_of_getElem?_some hb
  have hexp : ∀ x : SharedPtr, WeakPtr.Expired (s.pushShared x)
      { ptr_ := some (.esft o), controll_ := some a } = .ok false := by
    intro x
    have : (s.pushShared x).block a = .ok b := State.block_ok.2 hb
    simp [WeakPtr.Expired, WeakPtr.UseCount, this, hs]
  have hexp0 : WeakPtr.Expired s { ptr_ := some (.esft o), controll_ := some a } = .ok false := by
    simp [WeakPtr.Expired, WeakPtr.UseCount, State.block_ok.2 hb, hs]
  have hlink : SharedPtr.SetLinkToOuterSharedPtr
      (((s.pushShared { ptr_ := none, controll_ := none }).setBlock a
        { b with strong := b.strong + 1 }).pushShared
          { ptr_ := some (.esft o), controll_ := some a })
      (s.pushShared { ptr_ := none, controll_ := none }).shared.length o
      = .ok { (((s.pushShared { ptr_ := none, controll_ := none }).setBlock a
          { b with strong := b.strong + 1 }).pushShared
            { ptr_ := some (.esft o), controll_ := some a }) with weak := s.weak ++ [none] } := by
    refine SharedPtr.SetLinkToOuterSharedPtr_same_eq
      (h := { ptr_ := some (.esft o), controll_ := some a })
      (w := { ptr_ := some (.esft o), controll_ := some a })
      (b := { b with strong := b.strong + 1 }) (k := k) (a := a) ?_ rfl ?_ ho hk rfl
      (by simp) hw
    · simp only [State.pushShared, State.setBlock]
      exact List.getElem?_concat_length _ _
    · simp only [State.pushShared, State.setBlock]
      rw [List.getElem?_set_self halt]
  have hpriv : SharedPtr.ctorPrivate (s.pushShared { ptr_ := none, controll_ := none })
      (some (.esft o)) (some a)
      = .ok { (((s.pushShared { ptr_ := none, controll_ := none }).setBlock a
          { b with strong := b.strong + 1 }).pushShared
            { ptr_ := some (.esft o), controll_ := some a }) with weak := s.weak ++ [none] } := by
    have hbl : (s.pushShared { ptr_ := none, controll_ := none }).block a = .ok b :=
      State.block_ok.2 hb
    simp only [SharedPtr.ctorPrivate, deref, ControllBlock.IncreaseStrong, hbl, hmod, bind,
      Except.bind, SharedPtr.linkIfEnabled]
    exact hlink
  have hlock : WeakPtr.Lock (s.pushShared { ptr_ := none, controll_ := none }) k
      = .ok { (((s.pushShared { ptr_ := none, controll_ := none }).setBlock a
          { b with strong := b.strong + 1 }).pushShared
            { ptr_ := some (.esft o), controll_ := some a }) with weak := s.weak ++ [none] } := by
    have hg : (s.pushShared { ptr_ := none, controll_ := none }).getWeak k
        = .ok { ptr_ := some (.esft o), controll_ := some a } := State.getWeak_ok.2 hk
    simp only [WeakPtr.Lock, hg, hexp, bind, Except.bind, Bool.false_eq_true, if_false]
    exact hpriv
  have hmove : SharedPtr.assignMove
      { (((s.pushShared { ptr_ := none, controll_ := none }).setBlock a
          { b with strong := b.strong + 1 }).pushShared
            { ptr_ := some (.esft o), controll_ := some a }) with weak := s.weak ++ [none] }
      s.shared.length (s.shared.length + 1)
      = .ok { s with
          blocks := s.blocks.set a (some { b with strong := b.strong + 1 }),
          shared := s.shared ++ [some { ptr_ := some (.esft o), controll_ := some a }] ++
            [some { ptr_ := none, controll_ := none }],
          weak := s.weak ++ [none] } := by
    simp only [SharedPtr.assignMove, State.getShared, State.pushShared, State.setBlock,
      List.append_assoc, List.singleton_append, getElem?_append_pair_snd,
      getElem?_append_pair_fst, SharedPtr.Get, reduceCtorEq, if_false,
      SharedPtr.UnlinkWithControllBlock, bind, Except.bind, pure, Except.pure, State.setShared,
      set_append_pair_snd, set_append_pair_fst]
  have hdtor : SharedPtr.dtor
      { s with
          blocks := s.blocks.set a (some { b with strong := b.strong + 1 }),
          shared := s.shared ++ [some { ptr_ := some (.esft o), controll_ := some a }] ++
            [some { ptr_ := none, controll_ := none }],
          weak := s.weak ++ [none] } (s.shared.length + 1)
      = .ok { s with
          blocks := s.blocks.set a (some { b with strong := b.strong + 1 }),
          shared := s.shared ++ [some { ptr_ := some (.esft o), controll_ := some a }] ++ [none],
          weak := s.weak ++ [none] } := by
    simp only [SharedPtr.dtor, State.getShared, List.append_assoc, List.singleton_append,
      getElem?_append_pair_snd, SharedPtr.UnlinkWithControllBlock, State.setShared,
      set_append_pair_snd]
  simp only [EnableSharedFromThis.SharedFromThis, ho, SharedPtr.ctorWeak, State.getWeak_ok.2 hk,
    hexp0, bind, Except.bind, Bool.false_eq_true, if_false, hlock, hmove, hdtor]

/-- `MakeShared<T>` for a `T` deriving from `EnableSharedFromThis`, computed: the default block
of the member `outer_shared_pointer_` is released when the member is linked, and the new block
has `strong` 1 and `weak` 1. -/
theorem MakeShared.enabled_eq (pre : State) :
    MakeShared.enabled pre = .ok
      { blocks := pre.blocks ++ [none,
          some { ControllBlock.ofAnyPtr { ptr := some (.esft pre.objs.length) } with
                 strong := 1, weak := 1 }],
        objs := pre.objs ++ [pre.weak.length],
        shared := pre.shared ++
          [some { ptr_ := some (.esft pre.objs.length),
                  controll_ := some (pre.blocks.length + 1) }],
        weak := pre.weak ++
          [some { ptr_ := some (.esft pre.objs.length),
                  controll_ := some (pre.blocks.length + 1) }, none],
        log := pre.log ++ [.FreeBlock pre.blocks.length] } := by
  have h1 : (1 : Nat) % SIZE_MOD = 1 := by unfold SIZE_MOD; rfl
  have h2 : (1 + (SIZE_MOD - 1)) % SIZE_MOD = 0 := by unfold SIZE_MOD; rfl
  simp only [MakeShared.enabled, MakeShared.finish, SharedPtr.ctorPrivate, deref,
    EnableSharedFromThis.ctor, WeakPtr.ctorDefault, State.newBlock, State.pushWeak,
    ControllBlock.IncreaseStrong, State.block, bind, Except.bind, List.length_append,
    List.length_singleton, List.append_assoc, List.singleton_append,
    getElem?_append_pair_snd, ControllBlock.ofAnyPtr, State.setBlock,
    set_append_pair_snd, Nat.zero_add, h1, State.pushShared, SharedPtr.linkIfEnabled,
    SharedPtr.SetLinkToOuterSharedPtr, List.getElem?_concat_length, WeakPtr.ctorShared,
    State.getShared, ControllBlock.IncreaseWeak, pure, Except.pure, WeakPtr.assignMove,
    State.getWeak, getElem?_append_pair_fst, reduceCtorEq, if_false,
    WeakPtr.UnlinkWithControllBlock, ControllBlock.DecreaseWeak, ControllBlock.ofCounts, h2,
    beq_self_eq_true, Bool.and_self, if_true, releaseBlock, set_append_pair_fst, State.free,
    State.setWeak, WeakPtr.dtor]

/-! ## The adopting constructor and the self reference -/

/-- Linking the self reference returns, in a state that satisfies the counting invariant. -/
theorem SharedPtr.SetLinkToOuterSharedPtr_total {s : State} {i o k a : Nat} {h : SharedPtr}
    {w : WeakPtr} (hC : s.Counted) (hR : s.Room 1)
    (hi : s.shared[i]? = some (some h)) (hc : h.controll_ = some a)
    (ho : s.objs[o]? = some k) (hk : s.weak[k]? = some (some w)) :
    ∃ t, SharedPtr.SetLinkToOuterSharedPtr s i o = .ok t := by
  have hklt : k < s.weak.length := lt_of_getElem?_some hk
  obtain ⟨b, hb, _⟩ := Counted.live_of_shared hC hi hc
  have h1 : WeakPtr.ctorShared s i
      = .ok ((s.setBlock a { b with weak := (b.weak + 1) % SIZE_MOD }).pushWeak
          { ptr_ := h.ptr_, controll_ := some a }) := by
    simp [WeakPtr.ctorShared, State.getShared_ok.2 hi, hc, deref, ControllBlock.IncreaseWeak,
      State.block_ok.2 hb, bind, Except.bind, pure, Except.pure]
  have hB1 : ((s.setBlock a { b with weak := (b.weak + 1) % SIZE_MOD }).pushWeak
      { ptr_ := h.ptr_, controll_ := some a }).Bounded := by
    unfold State.Room at hR
    unfold State.Bounded
    simp only [State.pushWeak, State.setBlock, List.length_append, List.length_singleton]
    omega
  have hC1 := (WeakPtr.ctorShared_pres h1).2.2 hC hB1
  have hk1 : ((s.setBlock a { b with weak := (b.weak + 1) % SIZE_MOD }).pushWeak
      { ptr_ := h.ptr_, controll_ := some a }).weak[k]? = some (some w) := by
    simp only [State.pushWeak, State.setBlock]
    rw [List.getElem?_append_left hklt]
    exact hk
  have hn1 : ((s.setBlock a { b with weak := (b.weak + 1) % SIZE_MOD }).pushWeak
      { ptr_ := h.ptr_, controll_ := some a }).weak[s.weak.length]?
      = some (some { ptr_ := h.ptr_, controll_ := some a }) := by
    simp [State.pushWeak, State.setBlock]
  simp only [SharedPtr.SetLinkToOuterSharedPtr, ho, h1, bind, Except.bind]
  by_cases heq : w.ptr_ = h.ptr_
  · have h2 : WeakPtr.assignMove ((s.setBlock a { b with weak := (b.weak + 1) % SIZE_MOD }).pushWeak
        { ptr_ := h.ptr_, controll_ := some a }) k s.weak.length
        = .ok ((s.setBlock a { b with weak := (b.weak + 1) % SIZE_MOD }).pushWeak
            { ptr_ := h.ptr_, controll_ := some a }) := by
      simp [WeakPtr.assignMove, State.getWeak_ok.2 hk1, State.getWeak_ok.2 hn1, heq, bind,
        Except.bind, pure, Except.pure]
    simp only [h2]
    exact WeakPtr.weak_dtor_total hC1 hn1
  · obtain ⟨s1', hu⟩ := WeakPtr.weak_unlink_total hC1 hk1
    obtain ⟨_, f2, _, _⟩ := WeakPtr.weak_unlink_frame hu
    have h2 : WeakPtr.assignMove ((s.setBlock a { b with weak := (b.weak + 1) % SIZE_MOD }).pushWeak
        { ptr_ := h.ptr_, controll_ := some a }) k s.weak.length
        = .ok ((s1'.setWeak k (some { ptr_ := h.ptr_, controll_ := some a })).setWeak
            s.weak.length (some { ptr_ := none, controll_ := none })) := by
      simp [WeakPtr.assignMove, State.getWeak_ok.2 hk1, State.getWeak_ok.2 hn1, heq, hu, bind,
        Except.bind, pure, Except.pure]
    simp only [h2]
    have hn2 : ((s1'.setWeak k (some { ptr_ := h.ptr_, controll_ := some a })).setWeak
        s.weak.length (some { ptr_ := none, controll_ := none })).weak[s.weak.length]?
        = some (some { ptr_ := none, controll_ := none }) := by
      simp only [State.setWeak]
      rw [List.getElem?_set_self (by simp [f2, State.pushWeak, State.setBlock])]
    simp [WeakPtr.dtor, State.getWeak_ok.2 hn2, WeakPtr.UnlinkWithControllBlock]

/-- The adopting constructor on an object whose member `outer_shared_pointer_` (weak slot `k`)
does not hold the pointer of the object yet: the new block has `strong` 1 and `weak` 1, and the
member is the one weak handle on it. -/
theorem SharedPtr.ctorAdopt_fresh {s t : State} {o k : Nat} {w : WeakPtr} (hC : s.Counted)
    (ho : s.objs[o]? = some k) (hk : s.weak[k]? = some (some w))
    (hne : w.ptr_ ≠ some (.esft o))
    (h : SharedPtr.ctorAdopt s (some (.esft o)) = .ok t) :
    t.shared = s.shared ++ [some { ptr_ := some (.esft o), controll_ := some s.blocks.length }] ∧
    t.objs = s.objs ∧
    t.weak = s.weak.set k (some { ptr_ := some (.esft o), controll_ := some s.blocks.length })
      ++ [none] ∧
    t.blocks[s.blocks.length]?
      = some (some { ControllBlock.ofPointer (some (.esft o)) with weak := 1 }) := by
  have h1 : (1 : Nat) % SIZE_MOD = 1 := by unfold SIZE_MOD; rfl
  have hwa : w.controll_ ≠ some s.blocks.length := by
    intro hc
    obtain ⟨b, hb, _⟩ := Counted.live_of_weak hC hk hc
    have := lt_of_getElem?_some hb
    omega
  simp only [SharedPtr.ctorAdopt, SharedPtr.linkIfEnabled] at h
  obtain ⟨e1, e2, e3, e4, _⟩ :=
    SharedPtr.SetLinkToOuterSharedPtr_fresh
      (s := (s.newBlock (ControllBlock.ofPointer (some (.esft o)))).pushShared
        { ptr_ := some (.esft o), controll_ := some s.blocks.length })
      (i := s.shared.length) (o := o) (k := k) (a := s.blocks.length)
      (h := { ptr_ := some (.esft o), controll_ := some s.blocks.length }) (w := w)
      (b := ControllBlock.ofPointer (some (.esft o)))
      (by simp [State.pushShared, State.newBlock]) rfl
      (by simp [State.pushShared, State.newBlock]) ho hk hne hwa h
  refine ⟨e1, e2, e3, ?_⟩
  rw [e4]
  simp [ControllBlock.ofPointer, h1]

theorem SharedPtr.ctorAdopt_total {s : State} {o k : Nat} {w : WeakPtr} (hC : s.Counted)
    (hR : s.Room 2) (ho : s.objs[o]? = some k) (hk : s.weak[k]? = some (some w)) :
    ∃ t, SharedPtr.ctorAdopt s (some (.esft o)) = .ok t := by
  simp only [SharedPtr.ctorAdopt, SharedPtr.linkIfEnabled]
  refine SharedPtr.SetLinkToOuterSharedPtr_total
    (s := (s.newBlock (ControllBlock.ofPointer (some (.esft o)))).pushShared
      { ptr_ := some (.esft o), controll_ := some s.blocks.length })
    (h := { ptr_ := some (.esft o), controll_ := some s.blocks.length }) (w := w)
    (Counted.alloc_shared_push hC _ (some (.esft o)) rfl rfl) ?_
    (by simp [State.pushShared, State.newBlock]) rfl ho hk
  unfold State.Room at *
  simp only [State.pushShared, State.newBlock, List.length_append, List.length_singleton]
  omega

/-! ## Claim C14 -/

theorem EnableSharedFromThis.SharedFromThis_unowned {s : State} {o k : Nat} {w : WeakPtr}
    (ho : s.objs[o]? = some k) (hk : s.getWeak k = .ok w)
    (hu : WeakPtr.UseCount s w = .ok 0) :
    EnableSharedFromThis.SharedFromThis s o = .ok (s.emit .ThrowBadWeakPtr) := by
  simp [EnableSharedFromThis.SharedFromThis, ho, SharedPtr.ctorWeak, hk, WeakPtr.Expired, hu, bind,
    Except.bind, pure, Except.pure]

theorem EnableSharedFromThis.SharedFromThis_new (s : State) :
    EnableSharedFromThis.SharedFromThis (EnableSharedFromThis.ctor s) s.objs.length
      = .ok ((EnableSharedFromThis.ctor s).emit .ThrowBadWeakPtr) := by
  refine EnableSharedFromThis.SharedFromThis_unowned (k := s.weak.length)
    (w := { ptr_ := none, controll_ := some s.blocks.length }) ?_ ?_ ?_
  · simp [EnableSharedFromThis.ctor]
  · simp [EnableSharedFromThis.ctor, WeakPtr.ctorDefault, State.getWeak, State.pushWeak,
      State.newBlock]
  · simp [EnableSharedFromThis.ctor, WeakPtr.ctorDefault, WeakPtr.UseCount, State.block,
      State.pushWeak, State.newBlock, ControllBlock.ofCounts]

/-- C14: in a state reached by public operations (with room for two more handle objects), let
`o` be an object deriving from `EnableSharedFromThis`, with its member `outer_shared_pointer_`
in weak slot `k`. The adopting constructor, on an object not linked yet, returns and leaves the
member holding the object and the new block; `MakeShared` returns and does the same for the
object it builds. When the member holds the object and the block at `a`, and a shared handle on
that block is live, `SharedFromThis()` returns a new shared handle with the pointer of the
object, on the same block, whose `UseCount()` is one greater than the `UseCount()` of the live
handles on the block just before. When the member sees no owner (`UseCount` 0: never adopted),
`SharedFromThis()` raises `BadWeakPtr`; a newly constructed object is in that case. -/
theorem C14_shared_from_this (prog : List Op) (s : State) (o k : Nat) (w : WeakPtr)
    (hrun : run State.empty prog = .ok s) (hR : s.Room 2)
    (ho : s.objs[o]? = some k) (hk : s.getWeak k = .ok w) :
    (w.ptr_ ≠ some (.esft o) →
      (∃ t, SharedPtr.ctorAdopt s (some (.esft o)) = .ok t) ∧
      ∀ t, SharedPtr.ctorAdopt s (some (.esft o)) = .ok t →
        t.objs[o]? = some k ∧
        t.getWeak k = .ok { ptr_ := some (.esft o), controll_ := some s.blocks.length } ∧
        t.getShared s.shared.length
          = .ok { ptr_ := some (.esft o), controll_ := some s.blocks.length }) ∧
    (∃ t, MakeShared.enabled s = .ok t ∧ t.objs[s.objs.length]? = some s.weak.length ∧
      t.getWeak s.weak.length
        = .ok { ptr_ := some (.esft s.objs.length), controll_ := some (s.blocks.length + 1) } ∧
      t.getShared s.shared.length
        = .ok { ptr_ := some (.esft s.objs.length), controll_ := some (s.blocks.length + 1) }) ∧
    (∀ a : Nat, w = { ptr_ := some (.esft o), controll_ := some a } →
      (∃ (i : Nat) (h : SharedPtr), s.getShared i = .ok h ∧ h.controll_ = some a) →
      ∃ b : ControllBlock, s.block a = .ok b ∧
        EnableSharedFromThis.SharedFromThis s o = .ok
          { s with
            blocks := s.blocks.set a (some { b with strong := b.strong + 1 }),
            shared := s.shared ++ [some { ptr_ := some (.esft o), controll_ := some a }] ++ [none],
            weak := s.weak ++ [none] } ∧
        SharedPtr.UseCount
          { s with
            blocks := s.blocks.set a (some { b with strong := b.strong + 1 }),
            shared := s.shared ++ [some { ptr_ := some (.esft o), controll_ := some a }] ++ [none],
            weak := s.weak ++ [none] }
          { ptr_ := some (.esft o), controll_ := some a } = .ok (b.strong + 1) ∧
        ∀ (j : Nat) (x : SharedPtr), s.getShared j = .ok x → x.controll_ = some a →
          x.ptr_ ≠ none → SharedPtr.UseCount s x = .ok b.strong) ∧
    (WeakPtr.UseCount s w = .ok 0 →
      EnableSharedFromThis.SharedFromThis s o = .ok (s.emit .ThrowBadWeakPtr)) ∧
    EnableSharedFromThis.SharedFromThis (EnableSharedFromThis.ctor s) s.objs.length
      = .ok ((EnableSharedFromThis.ctor s).emit .ThrowBadWeakPtr) := by
  have hB : s.Bounded := by
    unfold State.Room at hR; unfold State.Bounded; omega
  have hC : s.Counted := (run_pres hrun).2.2 State.empty_counted hB
  have hk' := State.getWeak_ok.1 hk
  refine ⟨fun hne => ⟨SharedPtr.ctorAdopt_total hC hR ho hk', fun t ht => ?_⟩, ?_,
    fun a hw hown => ?_, fun hu => EnableSharedFromThis.SharedFromThis_unowned ho hk hu,
    EnableSharedFromThis.SharedFromThis_new s⟩
  · obtain ⟨e1, e2, e3, _⟩ := SharedPtr.ctorAdopt_fresh hC ho hk' hne ht
    refine ⟨by rw [e2]; exact ho, ?_, ?_⟩
    · rw [State.getWeak_ok, e3, List.getElem?_append_left (by simp; exact lt_of_getElem?_some hk'),
        List.getElem?_set_self (lt_of_getElem?_some hk')]
    · rw [State.getShared_ok, e1]
      simp
  · refine ⟨_, MakeShared.enabled_eq s, ?_, ?_, ?_⟩
    · simp
    · rw [State.getWeak_ok]
      exact getElem?_append_pair_fst _ _ _
    · rw [State.getShared_ok]
      simp
  · obtain ⟨i, h, hi, hc⟩ := hown
    obtain ⟨b, hb, hs, hwk, h1⟩ := Counted.live_of_shared hC (State.getShared_ok.1 hi) hc
    have hle := sharedRefs_le s.shared a
    have hle2 := weakRefs_le s.weak a
    have hs1 : b.strong + 1 < SIZE_MOD := by unfold State.Room at hR; omega
    have hw1 : b.weak + 1 < SIZE_MOD := by unfold State.Room at hR; omega
    subst hw
    refine ⟨b, State.block_ok.2 hb,
      EnableSharedFromThis.SharedFromThis_linked ho hk' hb (by omega) hs1 hw1, ?_, ?_⟩
    · have : (s.blocks.set a (some { b with strong := b.strong + 1 }))[a]?
          = some (some { b with strong := b.strong + 1 }) :=
        List.getElem?_set_self (lt_of_getElem?_some hb)
      simp [SharedPtr.UseCount, deref, State.block, this]
    · intro j x _ hxa hxp
      cases hp : x.ptr_ with
      | none => exact absurd hp hxp
      | some q => simp [SharedPtr.UseCount, hp, hxa, deref, State.block_ok.2 hb]

/-- C14 on `T* p = new T; SharedPtr<T> s(p); auto q = p->SharedFromThis();`: the use count goes
from 1 to 2. -/
theorem C14_shared_from_this_witness :
    run State.empty [.newEnabled, .sharedAdopt (some (.esft 0))] = .ok exampleSelfOwned ∧
    ∃ b : ControllBlock, exampleSelfOwned.block 1 = .ok b ∧
      EnableSharedFromThis.SharedFromThis exampleSelfOwned 0 = .ok
        { exampleSelfOwned with
          blocks := exampleSelfOwned.blocks.set 1 (some { b with strong := b.strong + 1 }),
          shared := exampleSelfOwned.shared ++
            [some { ptr_ := some (.esft 0), controll_ := some 1 }] ++ [none],
          weak := exampleSelfOwned.weak ++ [none] } ∧
      SharedPtr.UseCount
        { exampleSelfOwned with
          blocks := exampleSelfOwned.blocks.set 1 (some { b with strong := b.strong + 1 }),
          shared := exampleSelfOwned.shared ++
            [some { ptr_ := some (.esft 0), controll_ := some 1 }] ++ [none],
          weak := exampleSelfOwned.weak ++ [none] }
        { ptr_ := some (.esft 0), controll_ := some 1 } = .ok (b.strong + 1) ∧
      ∀ (j : Nat) (x : SharedPtr), exampleSelfOwned.getShared j = .ok x →
        x.controll_ = some 1 → x.ptr_ ≠ none → SharedPtr.UseCount exampleSelfOwned x = .ok b.strong :=
  ⟨rfl,
    (C14_shared_from_this [.newEnabled, .sharedAdopt (some (.esft 0))] exampleSelfOwned 0 0
      { ptr_ := some (.esft 0), controll_ := some 1 } rfl ⟨by decide, by decide⟩ rfl
      rfl).2.2.1 1 rfl ⟨0, _, rfl, rfl⟩⟩

/-! ## Claim C15 -/

/-- C15: in a state reached by public operations (with room for two more handle objects), let
`o` be an object deriving from `EnableSharedFromThis`, with its member `outer_shared_pointer_`
in weak slot `k`. Right after the adopting constructor returns for `o` (not linked before), the
new block has `strong == 1` and `weak == 1`, one shared handle and one weak handle are on it, and
the member is a weak handle on it. Right after `MakeShared` returns for the object it builds, the
same holds. `WeakFromThis()` returns a new weak handle on the block of the member, whose `weak`
is one greater while `strong` and everything else in the block stay as they were. -/
theorem C15_self_reference_is_weak (prog : List Op) (s : State) (o k : Nat) (w : WeakPtr)
    (hrun : run State.empty prog = .ok s) (hR : s.Room 2)
    (ho : s.objs[o]? = some k) (hk : s.getWeak k = .ok w) :
    (w.ptr_ ≠ some (.esft o) →
      (∃ t, SharedPtr.ctorAdopt s (some (.esft o)) = .ok t) ∧
      ∀ t, SharedPtr.ctorAdopt s (some (.esft o)) = .ok t →
        t.block s.blocks.length
          = .ok { ControllBlock.ofPointer (some (.esft o)) with strong := 1, weak := 1 } ∧
        t.getWeak k = .ok { ptr_ := some (.esft o), controll_ := some s.blocks.length } ∧
        sharedRefs t.shared s.blocks.length = 1 ∧ weakRefs t.weak s.blocks.length = 1) ∧
    (∃ t, MakeShared.enabled s = .ok t ∧
      t.block (s.blocks.length + 1)
        = .ok { ControllBlock.ofAnyPtr { ptr := some (.esft s.objs.length) } with
                strong := 1, weak := 1 } ∧
      t.objs[s.objs.length]? = some s.weak.length ∧
      t.getWeak s.weak.length
        = .ok { ptr_ := some (.esft s.objs.length), controll_ := some (s.blocks.length + 1) } ∧
      sharedRefs t.shared (s.blocks.length + 1) = 1 ∧
      weakRefs t.weak (s.blocks.length + 1) = 1) ∧
    (∀ a : Nat, w.controll_ = some a →
      ∃ b : ControllBlock, s.block a = .ok b ∧
        EnableSharedFromThis.WeakFromThis s o
          = .ok ((s.setBlock a { b with weak := b.weak + 1 }).pushWeak
              { ptr_ := w.ptr_, controll_ := some a })) := by
  have hB : s.Bounded := by
    unfold State.Room at hR; unfold State.Bounded; omega
  have hC : s.Counted := (run_pres hrun).2.2 State.empty_counted hB
  have hk' := State.getWeak_ok.1 hk
  refine ⟨fun hne => ⟨SharedPtr.ctorAdopt_total hC hR ho hk', fun t ht => ?_⟩, ?_,
    fun a hwa => ?_⟩
  · obtain ⟨e1, e2, e3, e4⟩ := SharedPtr.ctorAdopt_fresh hC ho hk' hne ht
    have hBt : t.Bounded := by
      unfold State.Room at hR
      unfold State.Bounded
      rw [e1, e3]
      simp only [List.length_append, List.length_singleton, List.length_set]
      omega
    have hCt : t.Counted := (SharedPtr.ctorAdopt_pres ht).2.2 hC hBt
    have hT := hCt.1 s.blocks.length
    rw [strongAt_of_get e4, weakAt_of_get e4] at hT
    refine ⟨State.block_ok.2 e4, ?_, hT.1.symm, hT.2.symm⟩
    rw [State.getWeak_ok, e3, List.getElem?_append_left (by simp; exact lt_of_getElem?_some hk'),
      List.getElem?_set_self (lt_of_getElem?_some hk')]
  · have ht := MakeShared.enabled_eq s
    have hBt : State.Bounded
        { blocks := s.blocks ++ [none,
            some { ControllBlock.ofAnyPtr { ptr := some (.esft s.objs.length) } with
                   strong := 1, weak := 1 }],
          objs := s.objs ++ [s.weak.length],
          shared := s.shared ++
            [some { ptr_ := some (.esft s.objs.length),
                    controll_ := some (s.blocks.length + 1) }],
          weak := s.weak ++
            [some { ptr_ := some (.esft s.objs.length),
                    controll_ := some (s.blocks.length + 1) }, none],
          log := s.log ++ [.FreeBlock s.blocks.length] } := by
      unfold State.Room at hR
      unfold State.Bounded
      simp only [List.length_append, List.length_singleton, List.length_cons, List.length_nil]
      omega
    have hCt := (MakeShared.enabled_pres ht).2.2 hC hBt
    have hb : (s.blocks ++ [none,
        some ({ ControllBlock.ofAnyPtr { ptr := some (.esft s.objs.length) } with
                strong := 1, weak := 1 } : ControllBlock)])[s.blocks.length + 1]?
        = some (some { ControllBlock.ofAnyPtr { ptr := some (.esft s.objs.length) } with
                       strong := 1, weak := 1 }) := getElem?_append_pair_snd _ _ _
    have hT := hCt.1 (s.blocks.length + 1)
    rw [strongAt_of_get hb, weakAt_of_get hb] at hT
    refine ⟨_, ht, State.block_ok.2 hb, by simp, ?_, hT.1.symm, hT.2.symm⟩
    rw [State.getWeak_ok]
    exact getElem?_append_pair_fst _ _ _
  · obtain ⟨b, hb, _, hwk, _⟩ := Counted.live_of_weak hC hk' hwa
    have hle := weakRefs_le s.weak a
    have hmod : (b.weak + 1) % SIZE_MOD = b.weak + 1 :=
      Nat.mod_eq_of_lt (by unfold State.Room at hR; omega)
    refine ⟨b, State.block_ok.2 hb, ?_⟩
    simp [EnableSharedFromThis.WeakFromThis, ho, WeakPtr.ctorCopy, hk, hwa, deref,
      ControllBlock.IncreaseWeak, State.block_ok.2 hb, hmod, bind, Except.bind, pure, Except.pure]

/-- C15 on `T* p = new T; SharedPtr<T> s(p); auto w = p->WeakFromThis();`: `strong` 1 and
`weak` 1 after the constructor, `weak` 2 after `WeakFromThis()`. -/
theorem C15_self_reference_is_weak_witness :
    run State.empty [.newEnabled, .sharedAdopt (some (.esft 0))] = .ok exampleSelfOwned ∧
    ∃ b : ControllBlock, exampleSelfOwned.block 1 = .ok b ∧
      EnableSharedFromThis.WeakFromThis exampleSelfOwned 0
        = .ok ((exampleSelfOwned.setBlock 1 { b with weak := b.weak + 1 }).pushWeak
            { ptr_ := some (.esft 0), controll_ := some 1 }) :=
  ⟨rfl,
    (C15_self_reference_is_weak [.newEnabled, .sharedAdopt (some (.esft 0))] exampleSelfOwned 0 0
      { ptr_ := some (.esft 0), controll_ := some 1 } rfl ⟨by decide, by decide⟩ rfl
      rfl).2.2 1 rfl⟩

/-! ## The exclusive handle -/

theorem UState.get_ok {s : UState} {i : Nat} {u : UniquePtr} :
    s.get i = .ok u ↔ s.handles[i]? = some (some u) := by
  unfold UState.get
  split
  · rename_i u' e; simp [e]
  · rename_i e
    constructor
    · intro c; cases c
    · intro c; exact absurd c (e u)

/-- The member functions of the array specialization are those of the primary template. -/
theorem UniquePtrArray.eq_primary :
    UniquePtrArray.ctor = UniquePtr.ctor ∧ UniquePtrArray.ctorDeleter = UniquePtr.ctorDeleter ∧
    UniquePtrArray.ctorMove = UniquePtr.ctorMove ∧
    UniquePtrArray.assignMove = UniquePtr.assignMove ∧
    UniquePtrArray.assignNull = UniquePtr.assignNull ∧ UniquePtrArray.dtor = UniquePtr.dtor ∧
    UniquePtrArray.Release = UniquePtr.Release ∧ UniquePtrArray.Reset = UniquePtr.Reset ∧
    UniquePtrArray.Swap = UniquePtr.Swap :=
  ⟨rfl, rfl, rfl, rfl, rfl, rfl, rfl, rfl, rfl⟩

/-! ## Claim C17 -/

/-- C17: for a live exclusive handle (slot `i`) holding the pointer `u.Get` with deleter
`u.GetDeleter`, `Release()` returns that pointer, leaves the handle holding null with its
deleter, and calls no deleter; the destructor of the handle then makes exactly one deleter call,
on the null pointer. So no deleter call is made on the released pointer when there is one. The
same holds for the array specialization. -/
theorem C17_release_returns_pointer_without_call (s : UState) (i : Nat) (u : UniquePtr)
    (hi : s.get i = .ok u) :
    UniquePtr.Release s i
      = .ok (s.set i (some { gut_ := { first := none, second := u.GetDeleter } }), u.Get) ∧
    (s.set i (some { gut_ := { first := none, second := u.GetDeleter } })).calls = s.calls ∧
    UniquePtr.dtor (s.set i (some { gut_ := { first := none, second := u.GetDeleter } })) i
      = .ok { handles := s.handles.set i none,
              calls := s.calls ++ [{ deleter := u.GetDeleter, ptr := none }] } ∧
    (∀ a : Nat, callsOn (s.calls ++ [{ deleter := u.GetDeleter, ptr := none }]) a
      = callsOn s.calls a) ∧
    UniquePtrArray.Release s i = UniquePtr.Release s i ∧
    UniquePtrArray.dtor (s.set i (some { gut_ := { first := none, second := u.GetDeleter } })) i
      = UniquePtr.dtor (s.set i (some { gut_ := { first := none, second := u.GetDeleter } })) i := by
  have hlt : i < s.handles.length := lt_of_getElem?_some (UState.get_ok.1 hi)
  have hg : (s.set i (some { gut_ := { first := none, second := u.GetDeleter } })).get i
      = .ok { gut_ := { first := none, second := u.GetDeleter } } := by
    rw [UState.get_ok]
    simp only [UState.set]
    rw [List.getElem?_set_self hlt]
  refine ⟨?_, rfl, ?_, fun a => ?_, rfl, rfl⟩
  · simp [UniquePtr.Release, hi, bind, Except.bind, pure, Except.pure, UniquePtr.GetDeleter,
      UniquePtr.Get]
  · simp only [UniquePtr.dtor, hg, bind, Except.bind, pure, Except.pure]
    simp [UState.call, UState.set, CompressedPair.GetFirst, CompressedPair.GetSecond,
      List.set_set]
  · simp [callsOn, List.countP_append]

/-- C17 on a handle holding the address 7 with deleter 1: `Release()` returns 7, and the
destructor calls the deleter on null only. -/
theorem C17_release_returns_pointer_without_call_witness :
    UniquePtr.Release exampleUnique 0
      = .ok (exampleUnique.set 0 (some { gut_ := { first := none, second := 1 } }), some 7) ∧
    UniquePtr.dtor (exampleUnique.set 0 (some { gut_ := { first := none, second := 1 } })) 0
      = .ok { handles := exampleUnique.handles.set 0 none,
              calls := exampleUnique.calls ++ [{ deleter := 1, ptr := none }] } :=
  ⟨(C17_release_returns_pointer_without_call exampleUnique 0
      { gut_ := { first := some 7, second := 1 } } rfl).1,
    (C17_release_returns_pointer_without_call exampleUnique 0
      { gut_ := { first := some 7, second := 1 } } rfl).2.2.1⟩

/-! ## Claim C18 -/

/-- C18: for a live exclusive handle (slot `i`) holding `u.Get`, `Reset(p)` with `p == u.Get`
returns the state unchanged (no deleter call); with any other `p` the handle holds `p`, keeps its
deleter, and exactly one deleter call is added, by that deleter on the pointer held before. The
array specialization does the same. -/
theorem C18_reset_replaces_and_deletes_old (s : UState) (i : Nat) (u : UniquePtr)
    (p : Option Nat) (hi : s.get i = .ok u) :
    (p = u.Get → UniquePtr.Reset s i p = .ok s ∧ UniquePtrArray.Reset s i p = .ok s) ∧
    (p ≠ u.Get →
      UniquePtr.Reset s i p
        = .ok { handles := s.handles.set i (some { gut_ := { first := p, second := u.GetDeleter } }),
                calls := s.calls ++ [{ deleter := u.GetDeleter, ptr := u.Get }] } ∧
      UniquePtrArray.Reset s i p
        = .ok { handles := s.handles.set i (some { gut_ := { first := p, second := u.GetDeleter } }),
                calls := s.calls ++ [{ deleter := u.GetDeleter, ptr := u.Get }] }) := by
  constructor
  · intro hp
    have h1 : UniquePtr.Reset s i p = .ok s := by
      simp [UniquePtr.Reset, hi, bind, Except.bind, pure, Except.pure, hp, UniquePtr.Get]
    exact ⟨h1, h1⟩
  · intro hp
    have hp' : ¬ p = u.gut_.GetFirst := hp
    have h1 : UniquePtr.Reset s i p
        = .ok { handles := s.handles.set i
                  (some { gut_ := { first := p, second := u.GetDeleter } }),
                calls := s.calls ++ [{ deleter := u.GetDeleter, ptr := u.Get }] } := by
      simp [UniquePtr.Reset, hi, bind, Except.bind, pure, Except.pure, hp', UniquePtr.Get,
        UniquePtr.GetDeleter, UState.call, UState.set]
    exact ⟨h1, h1⟩

/-- C18 on a handle holding the address 7 with deleter 1: `Reset(7)` changes nothing, `Reset(9)`
calls deleter 1 on 7 and leaves the handle holding 9. -/
theorem C18_reset_replaces_and_deletes_old_witness :
    (UniquePtr.Reset exampleUnique 0 (some 7) = .ok exampleUnique ∧
      UniquePtrArray.Reset exampleUnique 0 (some 7) = .ok exampleUnique) ∧
    UniquePtr.Reset exampleUnique 0 (some 9)
      = .ok { handles := exampleUnique.handles.set 0
                (some { gut_ := { first := some 9, second := 1 } }),
              calls := exampleUnique.calls ++ [{ deleter := 1, ptr := some 7 }] } :=
  ⟨(C18_reset_replaces_and_deletes_old exampleUnique 0
      { gut_ := { first := some 7, second := 1 } } (some 7) rfl).1 rfl,
    ((C18_reset_replaces_and_deletes_old exampleUnique 0
      { gut_ := { first := some 7, second := 1 } } (some 9) rfl).2 (by decide)).1⟩

/-! ## Claim C19 -/

/-- C19: with live exclusive handles `d` (slot `dst`) and `o` (slot `src`): the move constructor
from `o` makes a new handle (slot `s.handles.length`) with the pointer and the deleter value of
`o`, leaves `o` holding null, and calls no deleter; the move assignment `d = std::move(o)`, for
distinct handles, calls the deleter `d` had on the pointer `d` held, once, then `d` has the
pointer and the deleter value of `o` and `o` holds null; the move assignment of a handle onto
itself returns the state unchanged. The array specialization does the same. -/
theorem C19_move_transfers_pointer_and_deleter (s : UState) (dst src : Nat) (d o : UniquePtr)
    (hd : s.get dst = .ok d) (ho : s.get src = .ok o) :
    UniquePtr.ctorMove s src
      = .ok { handles := (s.handles ++
                [some ({ gut_ := { first := o.Get, second := o.GetDeleter } } : UniquePtr)]).set src
                  (some { gut_ := { first := none, second := o.GetDeleter } }),
              calls := s.calls } ∧
    ((s.handles ++ [some ({ gut_ := { first := o.Get, second := o.GetDeleter } } : UniquePtr)]).set src
        (some { gut_ := { first := none, second := o.GetDeleter } }))[s.handles.length]?
      = some (some { gut_ := { first := o.Get, second := o.GetDeleter } }) ∧
    ((s.handles ++ [some ({ gut_ := { first := o.Get, second := o.GetDeleter } } : UniquePtr)]).set src
        (some { gut_ := { first := none, second := o.GetDeleter } }))[src]?
      = some (some { gut_ := { first := none, second := o.GetDeleter } }) ∧
    (dst ≠ src →
      UniquePtr.assignMove s dst src
        = .ok { handles := (s.handles.set dst
                  (some { gut_ := { first := o.Get, second := o.GetDeleter } })).set src
                    (some { gut_ := { first := none, second := o.GetDeleter } }),
                calls := s.calls ++ [{ deleter := d.GetDeleter, ptr := d.Get }] } ∧
      ((s.handles.set dst (some { gut_ := { first := o.Get, second := o.GetDeleter } })).set src
          (some { gut_ := { first := none, second := o.GetDeleter } }))[dst]?
        = some (some { gut_ := { first := o.Get, second := o.GetDeleter } }) ∧
      ((s.handles.set dst (some { gut_ := { first := o.Get, second := o.GetDeleter } })).set src
          (some { gut_ := { first := none, second := o.GetDeleter } }))[src]?
        = some (some { gut_ := { first := none, second := o.GetDeleter } })) ∧
    UniquePtr.assignMove s dst dst = .ok s ∧
    UniquePtrArray.ctorMove s src = UniquePtr.ctorMove s src ∧
    UniquePtrArray.assignMove s dst src = UniquePtr.assignMove s dst src ∧
    UniquePtrArray.assignMove s dst dst = UniquePtr.assignMove s dst dst := by
  have hdl : dst < s.handles.length := lt_of_getElem?_some (UState.get_ok.1 hd)
  have hsl : src < s.handles.length := lt_of_getElem?_some (UState.get_ok.1 ho)
  refine ⟨?_, ?_, ?_, fun hne => ⟨?_, ?_, ?_⟩, ?_, rfl, rfl, rfl⟩
  · simp [UniquePtr.ctorMove, ho, bind, Except.bind, pure, Except.pure, UState.set,
      UniquePtr.Get, UniquePtr.GetDeleter]
  · rw [List.getElem?_set_ne (by omega)]
    simp
  · rw [List.getElem?_set_self (by simp; omega)]
  · simp [UniquePtr.assignMove, hd, ho, bind, Except.bind, pure, Except.pure, UState.set,
      UState.call, UniquePtr.Get, UniquePtr.GetDeleter, hne]
  · rw [List.getElem?_set_ne (fun e => hne e.symm), List.getElem?_set_self hdl]
  · rw [List.getElem?_set_self (by simp; omega)]
  · simp [UniquePtr.assignMove, hd, bind, Except.bind, pure, Except.pure]

/-- C19 on two handles, holding 7 with deleter 1 and 8 with deleter 2: after the move assignment
of the second to the first, deleter 1 was called on 7, the first handle holds 8 with deleter 2,
and the second holds null. -/
theorem C19_move_transfers_pointer_and_deleter_witness :
    UniquePtr.assignMove exampleUnique 0 1
      = .ok { handles := (exampleUnique.handles.set 0
                (some { gut_ := { first := some 8, second := 2 } })).set 1
                  (some { gut_ := { first := none, second := 2 } }),
              calls := exampleUnique.calls ++ [{ deleter := 1, ptr := some 7 }] } ∧
    UniquePtr.assignMove exampleUnique 0 0 = .ok exampleUnique :=
  ⟨((C19_move_transfers_pointer_and_deleter exampleUnique 0 1
      { gut_ := { first := some 7, second := 1 } }
      { gut_ := { first := some 8, second := 2 } } rfl rfl).2.2.2.1 (by decide)).1,
    (C19_move_transfers_pointer_and_deleter exampleUnique 0 1
      { gut_ := { first := some 7, second := 1 } }
      { gut_ := { first := some 8, second := 2 } } rfl rfl).2.2.2.2.1⟩

/-! ## Holders and deleter calls, counted -/

theorem holders_push (H : List (Option UniquePtr)) (x : Option UniquePtr) (a : Nat) :
    holders (H ++ [x]) a = holders H a + (if UniquePtr.holds a x then 1 else 0) := by
  simp [holders, List.countP_append, List.countP_cons]

theorem holders_set (H : List (Option UniquePtr)) (i : Nat) (x y : Option UniquePtr) (a : Nat)
    (h : H[i]? = some y) :
    holders (H.set i x) a + (if UniquePtr.holds a y then 1 else 0)
      = holders H a + (if UniquePtr.holds a x then 1 else 0) :=
  countP_set_add _ H i x y h

theorem callsOn_push (C : List DeleterCall) (d : Nat) (p : Option Nat) (a : Nat) :
    callsOn (C ++ [{ deleter := d, ptr := p }]) a
      = callsOn C a + (if p = some a then 1 else 0) := by
  simp [callsOn, List.countP_append, List.countP_cons]

theorem UniquePtr.holds_iff (a : Nat) (u : UniquePtr) :
    UniquePtr.holds a (some u) = true ↔ u.gut_.first = some a := by
  simp [UniquePtr.holds]

theorem UniquePtr.holds_none (a : Nat) : UniquePtr.holds a none = false := rfl

theorem UniquePtr.ctorMove_count {s t : UState} {src : Nat} (h : UniquePtr.ctorMove s src = .ok t)
    (a : Nat) : holders t.handles a + callsOn t.calls a = holders s.handles a + callsOn s.calls a := by
  simp only [UniquePtr.ctorMove, bind_ok, pure, Except.pure, Except.ok.injEq] at h
  obtain ⟨o, ho, rfl⟩ := h
  rw [UState.get_ok] at ho
  have hl := lt_of_getElem?_some ho
  have h1 := holders_set
    (s.handles ++ [some { gut_ := { first := o.gut_.GetFirst, second := o.gut_.GetSecond } }])
    src (some { gut_ := { first := none, second := o.gut_.GetSecond } }) (some o) a
    (by rw [List.getElem?_append_left hl]; exact ho)
  rw [holders_push] at h1
  simp only [UState.set, UniquePtr.holds_iff, UniquePtr.holds_none, CompressedPair.GetFirst,
    reduceCtorEq, Bool.false_eq_true, if_false] at h1 ⊢
  omega

theorem UniquePtr.assignMove_count {s t : UState} {dst src : Nat}
    (h : UniquePtr.assignMove s dst src = .ok t) (a : Nat) :
    holders t.handles a + callsOn t.calls a = holders s.handles a + callsOn s.calls a := by
  simp only [UniquePtr.assignMove, bind_ok, pure, Except.pure] at h
  obtain ⟨d, hd, o, ho, h⟩ := h
  split at h
  · cases h; rfl
  · rename_i hne
    cases h
    rw [UState.get_ok] at hd ho
    have h1 := holders_set s.handles dst
      (some { gut_ := { first := o.gut_.GetFirst, second := o.gut_.GetSecond } }) (some d) a hd
    have h2 := holders_set (s.handles.set dst
      (some { gut_ := { first := o.gut_.GetFirst, second := o.gut_.GetSecond } })) src
      (some { gut_ := { first := none, second := o.gut_.GetSecond } }) (some o) a
      (by rw [List.getElem?_set_ne hne]; exact ho)
    simp only [UState.set, UState.call, callsOn_push, UniquePtr.holds_iff, UniquePtr.holds_none,
      CompressedPair.GetFirst, reduceCtorEq, Bool.false_eq_true, if_false] at h1 h2 ⊢
    omega

theorem UniquePtr.assignNull_count {s t : UState} {i : Nat}
    (h : UniquePtr.assignNull s i = .ok t) (a : Nat) :
    holders t.handles a + callsOn t.calls a = holders s.handles a + callsOn s.calls a := by
  simp only [UniquePtr.assignNull, bind_ok, pure, Except.pure, Except.ok.injEq] at h
  obtain ⟨u, hu, rfl⟩ := h
  rw [UState.get_ok] at hu
  have h1 := holders_set s.handles i
    (some { gut_ := { first := none, second := u.gut_.GetSecond } }) (some u) a hu
  simp only [UState.set, UState.call, callsOn_push, UniquePtr.holds_iff, UniquePtr.holds_none,
    CompressedPair.GetFirst, reduceCtorEq, Bool.false_eq_true, if_false] at h1 ⊢
  omega

theorem UniquePtr.dtor_count {s t : UState} {i : Nat} (h : UniquePtr.dtor s i = .ok t)
    (a : Nat) :
    holders t.handles a + callsOn t.calls a = holders s.handles a + callsOn s.calls a := by
  simp only [UniquePtr.dtor, bind_ok, pure, Except.pure, Except.ok.injEq] at h
  obtain ⟨u, hu, rfl⟩ := h
  rw [UState.get_ok] at hu
  have h1 := holders_set s.handles i none (some u) a hu
  simp only [UState.set, UState.call, callsOn_push, UniquePtr.holds_iff, UniquePtr.holds_none,
    CompressedPair.GetFirst, Bool.false_eq_true, if_false] at h1 ⊢
  omega

theorem UniquePtr.Release_count {s t : UState} {i : Nat} {r : Option Nat}
    (h : UniquePtr.Release s i = .ok (t, r)) (a : Nat) :
    holders t.handles a + callsOn t.calls a ≤ holders s.handles a + callsOn s.calls a := by
  simp only [UniquePtr.Release, bind_ok, pure, Except.pure, Except.ok.injEq, Prod.mk.injEq] at h
  obtain ⟨u, hu, rfl, _⟩ := h
  rw [UState.get_ok] at hu
  have h1 := holders_set s.handles i
    (some { gut_ := { first := none, second := u.gut_.GetSecond } }) (some u) a hu
  simp only [UState.set, UniquePtr.holds_iff, UniquePtr.holds_none, reduceCtorEq,
    Bool.false_eq_true, if_false] at h1 ⊢
  omega

theorem UniquePtr.Reset_count {s t : UState} {i : Nat} {p : Option Nat}
    (h : UniquePtr.Reset s i p = .ok t) (a : Nat) :
    holders t.handles a + callsOn t.calls a
      ≤ holders s.handles a + callsOn s.calls a + (if p = some a then 1 else 0) := by
  simp only [UniquePtr.Reset, bind_ok, pure, Except.pure] at h
  obtain ⟨u, hu, h⟩ := h
  split at h
  · cases h; omega
  · cases h
    rw [UState.get_ok] at hu
    have h1 := holders_set s.handles i
      (some { gut_ := { first := p, second := u.gut_.GetSecond } }) (some u) a hu
    simp only [UState.set, UState.call, callsOn_push, UniquePtr.holds_iff, UniquePtr.holds_none,
      CompressedPair.GetFirst] at h1 ⊢
    omega

theorem UniquePtr.Swap_count {s t : UState} {i j : Nat} (h : UniquePtr.Swap s i j = .ok t)
    (a : Nat) :
    holders t.handles a + callsOn t.calls a = holders s.handles a + callsOn s.calls a := by
  simp only [UniquePtr.Swap, bind_ok, pure, Except.pure, Except.ok.injEq] at h
  obtain ⟨o, ho, x, hx, x1, hx1, rfl⟩ := h
  rw [UState.get_ok] at ho hx hx1
  have h1 := holders_set s.handles j
    (some { gut_ := { first := x.gut_.GetFirst, second := o.gut_.GetSecond } }) (some o) a ho
  have h2 := holders_set (s.handles.set j
    (some { gut_ := { first := x.gut_.GetFirst, second := o.gut_.GetSecond } })) i
    (some { gut_ := { first := o.gut_.GetFirst, second := x1.gut_.GetSecond } }) (some x1) a hx1
  have hfirst : x1.gut_.first = x.gut_.first := by
    simp only [UState.set] at hx1
    by_cases e : j = i
    · subst e
      rw [List.getElem?_set_self (lt_of_getElem?_some ho)] at hx1
      simp only [Option.some.injEq] at hx1
      subst hx1
      rfl
    · rw [List.getElem?_set_ne e, hx] at hx1
      simp only [Option.some.injEq] at hx1
      subst hx1
      rfl
  simp only [UState.set, UniquePtr.holds_iff, UniquePtr.holds_none, CompressedPair.GetFirst,
    hfirst] at h1 h2 ⊢
  omega

/-! ## Claim C20 -/

/-- One operation adds at most the pointer it is handed to what is held or was deleted. -/
theorem ustep_count {s t : UState} {op : UOp} (h : ustep s op = .ok t) (a : Nat) :
    holders t.handles a + callsOn t.calls a
      ≤ holders s.handles a + callsOn s.calls a + (if op.handed = some a then 1 else 0) := by
  cases op with
  | ctor arr p =>
    have h' : UniquePtr.ctor s p = t := by
      cases arr <;> simpa [ustep] using h
    subst h'
    simp only [UniquePtr.ctor, holders_push, UniquePtr.holds_iff, UOp.handed]
    omega
  | ctorDeleter arr p d =>
    have h' : UniquePtr.ctorDeleter s p d = t := by
      cases arr <;> simpa [ustep] using h
    subst h'
    simp only [UniquePtr.ctorDeleter, holders_push, UniquePtr.holds_iff, UOp.handed]
    omega
  | move arr src =>
    have h' : UniquePtr.ctorMove s src = .ok t := by cases arr <;> exact h
    have := UniquePtr.ctorMove_count h' a
    omega
  | moveAssign arr dst src =>
    have h' : UniquePtr.assignMove s dst src = .ok t := by cases arr <;> exact h
    have := UniquePtr.assignMove_count h' a
    omega
  | nullAssign arr i =>
    have h' : UniquePtr.assignNull s i = .ok t := by cases arr <;> exact h
    have := UniquePtr.assignNull_count h' a
    omega
  | release arr i =>
    have h' : (UniquePtr.Release s i).map Prod.fst = .ok t := by cases arr <;> exact h
    cases hr : UniquePtr.Release s i with
    | error e => rw [hr] at h'; cases h'
    | ok v =>
      rw [hr] at h'
      obtain ⟨t', r⟩ := v
      simp only [Except.map, Except.ok.injEq] at h'
      subst h'
      have := UniquePtr.Release_count hr a
      omega
  | reset arr i p =>
    have h' : UniquePtr.Reset s i p = .ok t := by cases arr <;> exact h
    exact UniquePtr.Reset_count h' a
  | swap arr i j =>
    have h' : UniquePtr.Swap s i j = .ok t := by cases arr <;> exact h
    have := UniquePtr.Swap_count h' a
    omega
  | destroy arr i =>
    have h' : UniquePtr.dtor s i = .ok t := by cases arr <;> exact h
    have := UniquePtr.dtor_count h' a
    omega

theorem urun_count {prog : List UOp} {s t : UState} (h : urun s prog = .ok t) (a : Nat) :
    holders t.handles a + callsOn t.calls a
      ≤ holders s.handles a + callsOn s.calls a + (prog.filterMap UOp.handed).count a := by
  induction prog generalizing s with
  | nil =>
    simp only [urun, Except.ok.injEq] at h
    subst h
    simp
  | cons op rest ih =>
    simp only [urun] at h
    split at h
    · cases h
    · rename_i s1 h1
      have e1 := ustep_count h1 a
      have e2 := ih h
      have e3 : (List.filterMap UOp.handed (op :: rest)).count a
          = (if op.handed = some a then 1 else 0) + (rest.filterMap UOp.handed).count a := by
        cases ho : op.handed with
        | none => simp [List.filterMap_cons, ho]
        | some b =>
          simp only [List.filterMap_cons, ho, List.count_cons, Option.some.injEq, beq_iff_eq]
          omega
      omega

/-- The operations at which no deleter is called leave the log of calls alone. -/
theorem ustep_calls {s t : UState} {op : UOp} (hop : op.mayCall = false)
    (h : ustep s op = .ok t) : t.calls = s.calls := by
  cases op with
  | ctor arr p =>
    have h' : UniquePtr.ctor s p = t := by
      cases arr <;> simpa [ustep] using h
    subst h'; rfl
  | ctorDeleter arr p d =>
    have h' : UniquePtr.ctorDeleter s p d = t := by
      cases arr <;> simpa [ustep] using h
    subst h'; rfl
  | move arr src =>
    have h' : UniquePtr.ctorMove s src = .ok t := by cases arr <;> exact h
    simp only [UniquePtr.ctorMove, bind_ok, pure, Except.pure, Except.ok.injEq] at h'
    obtain ⟨o, _, rfl⟩ := h'
    rfl
  | release arr i =>
    have h' : (UniquePtr.Release s i).map Prod.fst = .ok t := by cases arr <;> exact h
    cases hr : UniquePtr.Release s i with
    | error e => rw [hr] at h'; cases h'
    | ok v =>
      rw [hr] at h'
      obtain ⟨t', r⟩ := v
      simp only [Except.map, Except.ok.injEq] at h'
      subst h'
      simp only [UniquePtr.Release, bind_ok, pure, Except.pure, Except.ok.injEq,
        Prod.mk.injEq] at hr
      obtain ⟨u, _, rfl, _⟩ := hr
      rfl
  | swap arr i j =>
    have h' : UniquePtr.Swap s i j = .ok t := by cases arr <;> exact h
    simp only [UniquePtr.Swap, bind_ok, pure, Except.pure, Except.ok.injEq] at h'
    obtain ⟨o, _, x, _, x1, _, rfl⟩ := h'
    rfl
  | moveAssign arr dst src => cases hop
  | nullAssign arr i => cases hop
  | reset arr i p => cases hop
  | destroy arr i => cases hop

/-- C20: for every program of exclusive handle operations (constructions, move constructions,
move and null assignments, `Release`, `Reset`, `Swap`, destructions; primary template and array
specialization) run from the start, in which no non-null pointer is handed to a constructor or
to `Reset` twice: in the state reached, no address had more than one deleter call, no address is
held by more than one live handle, and no address that had a deleter call is held by a live
handle; and the next operation, if it is a construction, a move construction, a `Release` or a
`Swap`, calls no deleter. -/
theorem C20_deleter_called_at_most_once (prog : List UOp) (s : UState)
    (hrun : urun UState.empty prog = .ok s)
    (hnd : (prog.filterMap UOp.handed).Nodup) :
    (∀ a : Nat, callsOn s.calls a ≤ 1) ∧
    (∀ a : Nat, holders s.handles a ≤ 1) ∧
    (∀ a : Nat, 0 < callsOn s.calls a → holders s.handles a = 0) ∧
    (∀ (op : UOp) (t : UState), op.mayCall = false → ustep s op = .ok t →
      t.calls = s.calls) := by
  have key : ∀ a : Nat, holders s.handles a + callsOn s.calls a ≤ 1 := by
    intro a
    have h1 := urun_count hrun a
    have h2 := List.nodup_iff_count_le_one.1 hnd a
    simp only [UState.empty, holders, callsOn, List.countP_nil] at h1
    simp only [holders, callsOn]
    omega
  refine ⟨fun a => ?_, fun a => ?_, fun a h => ?_, fun op t hop h => ustep_calls hop h⟩
  · have := key a; omega
  · have := key a; omega
  · have := key a; omega

/-- C20 on `UniquePtr<T> a(p7); UniquePtr<T, D> b(p8, d2); a = std::move(b);` followed by the
destruction of `a` and of `b`. -/
theorem C20_deleter_called_at_most_once_witness :
    urun UState.empty
        [.ctor false (some 7), .ctorDeleter false (some 8) 2, .moveAssign false 0 1,
         .destroy false 0, .destroy false 1]
      = .ok exampleUniqueDone ∧
    callsOn exampleUniqueDone.calls 7 ≤ 1 ∧ callsOn exampleUniqueDone.calls 8 ≤ 1 ∧
    holders exampleUniqueDone.handles 7 ≤ 1 ∧
    (0 < callsOn exampleUniqueDone.calls 8 → holders exampleUniqueDone.handles 8 = 0) :=
  ⟨rfl,
    (C20_deleter_called_at_most_once
      [.ctor false (some 7), .ctorDeleter false (some 8) 2, .moveAssign false 0 1,
       .destroy false 0, .destroy false 1] exampleUniqueDone rfl (by decide)).1 7,
    (C20_deleter_called_at_most_once
      [.ctor false (some 7), .ctorDeleter false (some 8) 2, .moveAssign false 0 1,
       .destroy false 0, .destroy false 1] exampleUniqueDone rfl (by decide)).1 8,
    (C20_deleter_called_at_most_once
      [.ctor false (some 7), .ctorDeleter false (some 8) 2, .moveAssign false 0 1,
       .destroy false 0, .destroy false 1] exampleUniqueDone rfl (by decide)).2.1 7,
    (C20_deleter_called_at_most_once
      [.ctor false (some 7), .ctorDeleter false (some 8) 2, .moveAssign false 0 1,
       .destroy false 0, .destroy false 1] exampleUniqueDone rfl (by decide)).2.2.1 8⟩

/-! ## Claim C22 -/

theorem set_same_slot {α : Type} (L : List α) (i : Nat) (x : α) (h : L[i]? = some x) :
    L.set i x = L := by
  apply List.ext_getElem?
  intro n
  by_cases e : i = n
  · subst e
    rw [List.getElem?_set_self (lt_of_getElem?_some h), h]
  · rw [List.getElem?_set_ne e]

/-- C22: for two distinct live exclusive handles `x` (slot `i`) and `y` (slot `j`), `Swap`
returns the state in which slot `i` holds the pointer of `y` with the deleter of `x`, and slot
`j` holds the pointer of `x` with the deleter of `y`; no deleter is called. The destructor of the
handle in slot `i` then calls the deleter of `x` on the pointer `y` held, and the destructor of
the handle in slot `j` calls the deleter of `y` on the pointer `x` held. Swapping a handle with
itself returns the state unchanged. The array specialization does the same. -/
theorem C22_swap_exchanges_pointers_only (s : UState) (i j : Nat) (x y : UniquePtr)
    (hi : s.get i = .ok x) (hj : s.get j = .ok y) (hij : i ≠ j) :
    UniquePtr.Swap s i j
      = .ok { handles := (s.handles.set j
                (some { gut_ := { first := x.Get, second := y.GetDeleter } })).set i
                  (some { gut_ := { first := y.Get, second := x.GetDeleter } }),
              calls := s.calls } ∧
    UniquePtr.dtor
        { handles := (s.handles.set j
            (some { gut_ := { first := x.Get, second := y.GetDeleter } })).set i
              (some { gut_ := { first := y.Get, second := x.GetDeleter } }),
          calls := s.calls } i
      = .ok { handles := ((s.handles.set j
                (some { gut_ := { first := x.Get, second := y.GetDeleter } })).set i
                  (some { gut_ := { first := y.Get, second := x.GetDeleter } })).set i none,
              calls := s.calls ++ [{ deleter := x.GetDeleter, ptr := y.Get }] } ∧
    UniquePtr.dtor
        { handles := (s.handles.set j
            (some { gut_ := { first := x.Get, second := y.GetDeleter } })).set i
              (some { gut_ := { first := y.Get, second := x.GetDeleter } }),
          calls := s.calls } j
      = .ok { handles := ((s.handles.set j
                (some { gut_ := { first := x.Get, second := y.GetDeleter } })).set i
                  (some { gut_ := { first := y.Get, second := x.GetDeleter } })).set j none,
              calls := s.calls ++ [{ deleter := y.GetDeleter, ptr := x.Get }] } ∧
    UniquePtr.Swap s i i = .ok s ∧
    UniquePtrArray.Swap s i j = UniquePtr.Swap s i j ∧
    UniquePtrArray.dtor = UniquePtr.dtor := by
  have hi' := UState.get_ok.1 hi
  have hj' := UState.get_ok.1 hj
  have hil : i < s.handles.length := lt_of_getElem?_some hi'
  have hjl : j < s.handles.length := lt_of_getElem?_some hj'
  have h1 : (s.set j
      (some { gut_ := { first := x.gut_.GetFirst, second := y.gut_.GetSecond } })).get i
      = .ok x := by
    rw [UState.get_ok]
    simp only [UState.set]
    rw [List.getElem?_set_ne (fun e => hij e.symm)]
    exact hi'
  have hgi : UState.get
      { handles := (s.handles.set j
          (some { gut_ := { first := x.Get, second := y.GetDeleter } })).set i
            (some { gut_ := { first := y.Get, second := x.GetDeleter } }),
        calls := s.calls } i
      = .ok { gut_ := { first := y.Get, second := x.GetDeleter } } := by
    rw [UState.get_ok]
    simp only
    rw [List.getElem?_set_self (by simp; exact hil)]
  have hgj : UState.get
      { handles := (s.handles.set j
          (some { gut_ := { first := x.Get, second := y.GetDeleter } })).set i
            (some { gut_ := { first := y.Get, second := x.GetDeleter } }),
        calls := s.calls } j
      = .ok { gut_ := { first := x.Get, second := y.GetDeleter } } := by
    rw [UState.get_ok]
    simp only
    rw [List.getElem?_set_ne hij, List.getElem?_set_self hjl]
  refine ⟨?_, ?_, ?_, ?_, rfl, rfl⟩
  · simp only [UniquePtr.Swap, hj, hi, h1, bind, Except.bind, pure, Except.pure]
    rfl
  · simp only [UniquePtr.dtor, hgi, bind, Except.bind, pure, Except.pure]
    rfl
  · simp only [UniquePtr.dtor, hgj, bind, Except.bind, pure, Except.pure]
    rfl
  · have hs : s.set i
        (some { gut_ := { first := x.gut_.GetFirst, second := x.gut_.GetSecond } }) = s := by
      cases s
      simp only [UState.set, UState.mk.injEq, and_true]
      exact set_same_slot _ _ _ hi'
    simp only [UniquePtr.Swap, hi, hs, bind, Except.bind, pure, Except.pure]

/-- C22 on two handles, holding 7 with deleter 1 and 8 with deleter 2: after `Swap`, the
destructor of the first calls deleter 1 on 8, and the destructor of the second calls deleter 2
on 7. -/
theorem C22_swap_exchanges_pointers_only_witness :
    UniquePtr.Swap exampleUnique 0 1
      = .ok { handles := [some { gut_ := { first := some 8, second := 1 } },
                          some { gut_ := { first := some 7, second := 2 } }],
              calls := [] } ∧
    UniquePtr.dtor
        { handles := [some { gut_ := { first := some 8, second := 1 } },
                      some { gut_ := { first := some 7, second := 2 } }],
          calls := [] } 0
      = .ok { handles := [none, some { gut_ := { first := some 7, second := 2 } }],
              calls := [{ deleter := 1, ptr := some 8 }] } ∧
    UniquePtr.dtor
        { handles := [some { gut_ := { first := some 8, second := 1 } },
                      some { gut_ := { first := some 7, second := 2 } }],
          calls := [] } 1
      = .ok { handles := [some { gut_ := { first := some 8, second := 1 } }, none],
              calls := [{ deleter := 2, ptr := some 7 }] } :=
  ⟨(C22_swap_exchanges_pointers_only exampleUnique 0 1
      { gut_ := { first := some 7, second := 1 } }
      { gut_ := { first := some 8, second := 2 } } rfl rfl (by decide)).1,
    (C22_swap_exchanges_pointers_only exampleUnique 0 1
      { gut_ := { first := some 7, second := 1 } }
      { gut_ := { first := some 8, second := 2 } } rfl rfl (by decide)).2.1,
    (C22_swap_exchanges_pointers_only exampleUnique 0 1
      { gut_ := { first := some 7, second := 1 } }
      { gut_ := { first := some 8, second := 2 } } rfl rfl (by decide)).2.2.1⟩

/-! ## The teardown of an adopted object with a self reference -/

/-- What the payload destructor of an adopted object with a self reference does when `strong`
is 1 and the member `outer_shared_pointer_` (weak slot `k`) is on the block: the nested
`DecreaseWeak` returns false, and `DecreaseStrong` returns with the member gone, `weak` one
less, `strong` 0, and the two destroyer calls logged. -/
theorem ControllBlock.DecreaseStrong_self {s : State} {a o k : Nat} {b : ControllBlock}
    {w : WeakPtr} (hb : s.blocks[a]? = some (some b)) (h1 : b.strong = 1)
    (hp : b.ptr = some { ptr := some (.esft o) }) (hf : b.created_from_make_shared = false)
    (ho : s.objs[o]? = some k) (hk : s.weak[k]? = some (some w)) (hw : w.controll_ = some a)
    (hw1 : 1 ≤ b.weak) (hlt : b.weak < SIZE_MOD) :
    ControllBlock.DecreaseWeak (s.emit (.Delete a (some (.esft o)))) a
      = .ok ((s.emit (.Delete a (some (.esft o)))).setBlock a { b with weak := b.weak - 1 },
          false) ∧
    ControllBlock.DecreaseStrong s a
      = .ok ({ s with
                blocks := s.blocks.set a (some { b with strong := 0, weak := b.weak - 1 }),
                weak := s.weak.set k none,
                log := s.log ++ [.Delete a (some (.esft o)), .FreeAnyPtr a] },
          b.weak - 1 == 0) := by
  have hdec : (b.weak + (SIZE_MOD - 1)) % SIZE_MOD = b.weak - 1 := by
    unfold SIZE_MOD at *
    omega
  have hz : (1 + (SIZE_MOD - 1)) % SIZE_MOD = 0 := by unfold SIZE_MOD; rfl
  have hbe : (s.emit (.Delete a (some (.esft o)))).block a = .ok b := State.block_ok.2 hb
  have hdw : ControllBlock.DecreaseWeak (s.emit (.Delete a (some (.esft o)))) a
      = .ok ((s.emit (.Delete a (some (.esft o)))).setBlock a { b with weak := b.weak - 1 },
          false) := by
    simp [ControllBlock.DecreaseWeak, hbe, hdec, h1]
  have hge : (s.emit (.Delete a (some (.esft o)))).getWeak k = .ok w := State.getWeak_ok.2 hk
  have hwd : WeakPtr.dtor (s.emit (.Delete a (some (.esft o)))) k
      = .ok (((s.emit (.Delete a (some (.esft o)))).setBlock a
          { b with weak := b.weak - 1 }).setWeak k none) := by
    simp [WeakPtr.dtor, hge, WeakPtr.UnlinkWithControllBlock, hw, hdw]
  have hoe : (s.emit (.Delete a (some (.esft o)))).objs[o]? = some k := ho
  have htd : ControllBlock.teardown s a b
      = .ok ((((s.emit (.Delete a (some (.esft o)))).setBlock a
          { b with weak := b.weak - 1 }).setWeak k none).emit (.FreeAnyPtr a)) := by
    simp [ControllBlock.teardown, hp, hf, AnyPtr.Delete, destroyPayload, hoe, hwd]
  have hb2 : ((((s.emit (.Delete a (some (.esft o)))).setBlock a
      { b with weak := b.weak - 1 }).setWeak k none).emit (.FreeAnyPtr a)).block a
      = .ok { b with weak := b.weak - 1 } := by
    rw [State.block_ok]
    simp only [State.emit, State.setWeak, State.setBlock]
    rw [List.getElem?_set_self (lt_of_getElem?_some hb)]
  refine ⟨hdw, ?_⟩
  unfold ControllBlock.DecreaseStrong
  rw [State.block_ok.2 hb]
  simp only
  rw [if_pos h1, htd]
  simp only
  rw [hb2]
  simp [State.emit, State.setWeak, State.setBlock, List.set_set, h1, hz]

/-! ## Claim C21 -/

/-- With the block at `a` allocated, `releaseBlock` frees it and logs the release that its
flag selects. -/
theorem releaseBlock_free {s : State} {a : Nat} {b : ControllBlock} (h : s.block a = .ok b) :
    releaseBlock s a
      = .ok (s.free a (if b.created_from_make_shared then .FreeBuffer a else .FreeBlock a)) := by
  unfold releaseBlock
  rw [h]

/-- C21: in a state reached by public operations, let `h` (slot `i`) be the last shared handle
on the block `b` at `a` of an adopted object `o` deriving from `EnableSharedFromThis`, whose
member `outer_shared_pointer_` (weak slot `k`) is on that block. Then `strong` is 1; the
`DecreaseWeak` that the payload destructor runs returns false; `DecreaseStrong` returns with the
block still allocated (`strong` 0, `weak` one less) and no release logged, and returns true
exactly when the member was the only weak handle. In that case the destructor of `h` releases the
block, once; otherwise it leaves the block allocated, and the destructor of a weak handle that
finds `strong == 0` and `weak == 1` releases it. Whatever the program does after the destruction
of `h`, the block is released at most once. -/
theorem C21_nested_decrease_weak_returns_false (prog : List Op) (s : State) (i a o k : Nat)
    (h : SharedPtr) (w : WeakPtr) (b : ControllBlock)
    (hrun : run State.empty prog = .ok s) (hB : s.Bounded)
    (hi : s.getShared i = .ok h) (hc : h.controll_ = some a) (hb : s.block a = .ok b)
    (hlast : sharedRefs s.shared a = 1)
    (hp : b.ptr = some { ptr := some (.esft o) }) (hf : b.created_from_make_shared = false)
    (ho : s.objs[o]? = some k) (hk : s.getWeak k = .ok w) (hw : w.controll_ = some a) :
    b.strong = 1 ∧
    ControllBlock.DecreaseWeak (s.emit (.Delete a (some (.esft o)))) a
      = .ok ((s.emit (.Delete a (some (.esft o)))).setBlock a { b with weak := b.weak - 1 },
          false) ∧
    ControllBlock.DecreaseStrong s a
      = .ok ({ s with
                blocks := s.blocks.set a (some { b with strong := 0, weak := b.weak - 1 }),
                weak := s.weak.set k none,
                log := s.log ++ [.Delete a (some (.esft o)), .FreeAnyPtr a] },
          b.weak - 1 == 0) ∧
    freesOf (s.log ++ [.Delete a (some (.esft o)), .FreeAnyPtr a]) a = 0 ∧
    (b.weak = 1 →
      SharedPtr.dtor s i
        = .ok { s with
                blocks := s.blocks.set a none,
                shared := s.shared.set i none,
                weak := s.weak.set k none,
                log := s.log ++ [.Delete a (some (.esft o)), .FreeAnyPtr a, .FreeBlock a] } ∧
      freesOf (s.log ++ [.Delete a (some (.esft o)), .FreeAnyPtr a, .FreeBlock a]) a = 1) ∧
    (b.weak ≠ 1 →
      SharedPtr.dtor s i
        = .ok { s with
                blocks := s.blocks.set a (some { b with strong := 0, weak := b.weak - 1 }),
                shared := s.shared.set i none,
                weak := s.weak.set k none,
                log := s.log ++ [.Delete a (some (.esft o)), .FreeAnyPtr a] }) ∧
    (∀ (u : State) (j : Nat) (x : WeakPtr) (c : ControllBlock), u.getWeak j = .ok x →
      x.controll_ = some a → u.block a = .ok c → c.strong = 0 → c.weak = 1 →
      c.created_from_make_shared = false →
      WeakPtr.dtor u j
        = .ok { u with
                blocks := u.blocks.set a none,
                weak := u.weak.set j none,
                log := u.log ++ [.FreeBlock a] }) ∧
    (∀ (rest : List Op) (v : State), run s (.sharedDestroy i :: rest) = .ok v →
      freesOf v.log a ≤ 1 ∧ (freesOf v.log a = 1 ↔ v.blocks[a]? = some none)) := by
  have hC : s.Counted := (run_pres hrun).2.2 State.empty_counted hB
  have hL : s.Logged := run_log hrun State.empty_logged
  rw [State.getShared_ok] at hi
  rw [State.block_ok] at hb
  rw [State.getWeak_ok] at hk
  obtain ⟨b', hb', hs, _, _⟩ := Counted.live_of_shared hC hi hc
  rw [hb] at hb'
  simp only [Option.some.injEq] at hb'
  subst hb'
  obtain ⟨b', hb', _, hwk, hw1⟩ := Counted.live_of_weak hC hk hw
  rw [hb] at hb'
  simp only [Option.some.injEq] at hb'
  subst hb'
  have h1 : b.strong = 1 := by omega
  have hlt : b.weak < SIZE_MOD := by
    have := weakRefs_le s.weak a
    have := hB.2
    omega
  obtain ⟨hdw, hds⟩ := ControllBlock.DecreaseStrong_self hb h1 hp hf ho hk hw hw1 hlt
  have hfs : freesOf s.log a = 0 := by
    rw [hL a, hb]
    simp
  have hf0 : freesOf (s.log ++ [.Delete a (some (.esft o)), .FreeAnyPtr a]) a = 0 := by
    simp only [freesOf, List.countP_append] at hfs ⊢
    rw [hfs]
    simp [Event.isFreeOf]
  have hb1 : State.block
      { s with
        blocks := s.blocks.set a (some { b with strong := 0, weak := b.weak - 1 }),
        weak := s.weak.set k none,
        log := s.log ++ [.Delete a (some (.esft o)), .FreeAnyPtr a] } a
      = .ok { b with strong := 0, weak := b.weak - 1 } := by
    rw [State.block_ok]
    simp only
    rw [List.getElem?_set_self (lt_of_getElem?_some hb)]
  refine ⟨h1, hdw, hds, hf0, fun hw1' => ⟨?_, ?_⟩, fun hw1' => ?_, ?_, ?_⟩
  · have hr : (b.weak - 1 == 0) = true := by simp [hw1']
    simp only [SharedPtr.dtor, State.getShared_ok.2 hi, SharedPtr.UnlinkWithControllBlock, hc, hds,
      hr, if_true]
    rw [releaseBlock_free hb1]
    simp [State.free, State.setShared, List.set_set, hf]
  · simp only [freesOf, List.countP_append] at hfs ⊢
    rw [hfs]
    simp [Event.isFreeOf]
  · have hr : (b.weak - 1 == 0) = false := by
      simp only [beq_eq_false_iff_ne, ne_eq]
      omega
    simp only [SharedPtr.dtor, State.getShared_ok.2 hi, SharedPtr.UnlinkWithControllBlock, hc, hds,
      hr, Bool.false_eq_true, if_false]
    simp [State.setShared]
  · intro u j x c hj hxa hc' hcs hcw hcf
    have hz : (1 + (SIZE_MOD - 1)) % SIZE_MOD = 0 := by unfold SIZE_MOD; rfl
    have hbu : (u.setBlock a { c with strong := 0, weak := 0 }).block a
        = .ok { c with strong := 0, weak := 0 } := by
      rw [State.block_ok]
      simp only [State.setBlock]
      rw [List.getElem?_set_self (lt_of_getElem?_some (State.block_ok.1 hc'))]
    simp only [WeakPtr.dtor, hj, WeakPtr.UnlinkWithControllBlock, hxa, ControllBlock.DecreaseWeak,
      hc', hcw, hz, hcs, beq_self_eq_true, Bool.and_self, if_true]
    rw [releaseBlock_free hbu]
    simp [State.free, State.setWeak, State.setBlock, List.set_set, hcf]
  · intro rest v hv
    have hLv : v.Logged := run_log hv hL
    have := hLv a
    constructor
    · rw [this]; split <;> omega
    · rw [this]
      constructor
      · intro e
        split at e
        · assumption
        · omega
      · intro e
        rw [if_pos e]

/-- C21 on `T* p = new T; { SharedPtr<T> s(p); }`: the destructor of `s` runs the payload
destructor and the release of the payload slot, then releases the block at address 1, once. -/
theorem C21_nested_decrease_weak_returns_false_witness :
    run State.empty [.newEnabled, .sharedAdopt (some (.esft 0))] = .ok exampleSelfOwned ∧
    ControllBlock.DecreaseStrong exampleSelfOwned 1
      = .ok ({ exampleSelfOwned with
                blocks :=
                  [none, some { ControllBlock.ofPointer (some (.esft 0)) with strong := 0, weak := 0 }],
                weak := [none, none],
                log := [.FreeBlock 0, .Delete 1 (some (.esft 0)), .FreeAnyPtr 1] },
          true) ∧
    SharedPtr.dtor exampleSelfOwned 0
      = .ok { exampleSelfOwned with
              blocks := [none, none],
              shared := [none],
              weak := [none, none],
              log := [.FreeBlock 0, .Delete 1 (some (.esft 0)), .FreeAnyPtr 1, .FreeBlock 1] } ∧
    freesOf [.FreeBlock 0, .Delete 1 (some (.esft 0)), .FreeAnyPtr 1, .FreeBlock 1] 1 = 1 :=
  have h := C21_nested_decrease_weak_returns_false [.newEnabled, .sharedAdopt (some (.esft 0))]
    exampleSelfOwned 0 1 0 0 { ptr_ := some (.esft 0), controll_ := some 1 }
    { ptr_ := some (.esft 0), controll_ := some 1 }
    { ControllBlock.ofPointer (some (.esft 0)) with weak := 1 } rfl ⟨by decide, by decide⟩ rfl rfl
    rfl rfl rfl rfl rfl rfl rfl
  ⟨rfl, h.2.2.1, (h.2.2.2.2.1 rfl).1, (h.2.2.2.2.1 rfl).2⟩

end SmartPointers
